import Mathlib

/-!
Static world of the bgfx renderer: `code/renderer_bgfx/World.cpp`

A shallow embedding of the world model (geometry buffers, BSP tree, fog table,
visibility cache and surface batching, the checks of the BSP loader, the light
grid, decal projection and the matching of portal surfaces) together with
theorems about it.

Conventions of the embedding

* `float` values are exact rationals (`ℚ`): comparisons and sums are those of
  exact arithmetic.
* Unsigned machine integers are natural numbers; every place where the source
  narrows or may wrap (`uint16_t`, `uint32_t`, `uint8_t` stores) carries an
  explicit `% 2 ^ w`. `int` values are integers; `int` arithmetic is exact.
* A C array of fixed size (`vertices_[maxWorldGeometryBuffers_]`, ...) is a
  function from the slot number; a `std::vector` is a `List`.
* Pointers into `nodes_` and `surfaces_` are positions in those vectors;
  a `Material *` is an address (`MaterialPtr`), dereferenced through
  `Externals.materialAt`.
* `interface::Error` does not return: functions that may call it return `Except`.
* A walk over the BSP nodes takes a bound on its depth and returns `Option`:
  `none` when the bound is used up.
-/

namespace renderer

/-! ## Math types -/

/-- Two floats `u`, `v`. -/
structure vec2 where
  u : ℚ
  v : ℚ
  deriving DecidableEq, Inhabited

/-- Three floats. -/
structure vec3 where
  x : ℚ
  y : ℚ
  z : ℚ
  deriving DecidableEq, Inhabited

/-- Four floats. -/
structure vec4 where
  x : ℚ
  y : ℚ
  z : ℚ
  w : ℚ
  deriving DecidableEq, Inhabited

/-- Component access `v[j]` of a `vec3`. -/
def vec3.get (v : vec3) (j : Nat) : ℚ :=
  if j = 0 then v.x else if j = 1 then v.y else v.z

/-- The static `vec3::dotProduct`. -/
def vec3.dotProduct (a b : vec3) : ℚ :=
  a.x * b.x + a.y * b.y + a.z * b.z

/-- The static `vec3::crossProduct`. -/
def vec3.crossProduct (a b : vec3) : vec3 :=
  { x := a.y * b.z - a.z * b.y, y := a.z * b.x - a.x * b.z, z := a.x * b.y - a.y * b.x }

/-- Sum of two vectors, `a + b`. -/
def vec3.add (a b : vec3) : vec3 := { x := a.x + b.x, y := a.y + b.y, z := a.z + b.z }

/-- Difference of two vectors, `a - b`. -/
def vec3.sub (a b : vec3) : vec3 := { x := a.x - b.x, y := a.y - b.y, z := a.z - b.z }

/-- Product of a vector and a float, `a * s`. -/
def vec3.scale (a : vec3) (s : ℚ) : vec3 := { x := a.x * s, y := a.y * s, z := a.z * s }

/-- The negated vector, `-a` (also the result of `invert()`). -/
def vec3.neg (a : vec3) : vec3 := { x := -a.x, y := -a.y, z := -a.z }

/-- The constant `vec3::empty` and the value of a default-constructed `vec3` (the
loops `vec3 transformed; transformed += ...` of `MirroredPoint` start from it):
the zero vector. -/
def vec3.empty : vec3 := { x := 0, y := 0, z := 0 }

/-- Three `int`s (`vec3i`). -/
structure vec3i where
  x : Int
  y : Int
  z : Int
  deriving DecidableEq, Inhabited

/-- Component access `v[j]` of a `vec3i`. -/
def vec3i.get (v : vec3i) (j : Nat) : Int :=
  if j = 0 then v.x else if j = 1 then v.y else v.z

/-- Three rows of three floats (`mat3`); `rotation[i]` is row `i`. -/
structure mat3 where
  row0 : vec3
  row1 : vec3
  row2 : vec3
  deriving DecidableEq, Inhabited

/-- Row access `m[i]` of a `mat3`. -/
def mat3.get (m : mat3) (i : Nat) : vec3 :=
  if i = 0 then m.row0 else if i = 1 then m.row1 else m.row2

/-- The struct `Transform`: a position and a rotation. -/
structure Transform where
  position : vec3
  rotation : mat3
  deriving DecidableEq, Inhabited

/-- Axis-aligned box: `min` and `max` corners. -/
structure Bounds where
  min : vec3
  max : vec3
  deriving DecidableEq, Inhabited

/-- Plane: normal and signed distance. -/
structure Plane where
  normal : vec3
  distance : ℚ
  deriving DecidableEq, Inhabited

/-- The vertex format: the fields `World.cpp` reads and writes. -/
structure Vertex where
  pos : vec3
  normal : vec3
  texCoord : vec2
  texCoord2 : vec2
  color : vec4
  deriving DecidableEq, Inhabited

/-! ## Materials -/

/-- Address of a `Material` object owned by the material cache. -/
abbrev MaterialPtr := Nat

/-- The enum `MaterialReflective`. -/
inductive MaterialReflective where
  | None
  | BackSide
  | FrontSide
  deriving DecidableEq, Inhabited

/-- The members of `Material` that the world reads through a `Material *`. -/
structure Material where
  index : Int
  surfaceFlags : Int
  isSky : Bool
  isPortal : Bool
  reflective : MaterialReflective
  /-- Result of the method `hasAutoSpriteDeform()`. -/
  hasAutoSpriteDeform : Bool
  contentFlags : Int := 0
  portalRange : ℚ := 0
  deriving DecidableEq, Inhabited

/-! ## World data -/

/-- The enum `World::SurfaceType`. -/
inductive SurfaceType where
  | Ignore
  | Face
  | Mesh
  | Patch
  | Flare
  deriving DecidableEq, Inhabited

/-- The struct `World::CullInfo`. -/
structure CullInfo where
  type : Int
  bounds : Bounds
  localOrigin : vec3
  radius : ℚ
  plane : Plane
  deriving DecidableEq, Inhabited

/-- The members of the tessellated `Patch` that the world reads: the grid is
`height` rows of `width` vertices, stored row by row in `verts`. -/
structure Patch where
  width : Int
  height : Int
  verts : List Vertex
  deriving DecidableEq, Inhabited

/-- The struct `World::Surface`; `indices` holds `uint16_t` values,
`firstVertex` and `nVertices` are `uint32_t`, `bufferIndex` is `size_t`;
`patch` is `none` for `nullptr`. -/
structure Surface where
  type : SurfaceType
  material : MaterialPtr
  fogIndex : Int
  flags : Int
  contentFlags : Int
  indices : List Nat
  bufferIndex : Nat
  duplicateId : Int
  decalDuplicateId : Int
  firstVertex : Nat
  nVertices : Nat
  cullinfo : CullInfo := default
  patch : Option Patch := none
  deriving DecidableEq, Inhabited

/-- The struct `World::Node`. `children` are positions in `nodes_`; the members
after `children` are meaningful for leaves only. -/
structure Node where
  leaf : Bool
  bounds : Bounds
  plane : Plane
  children0 : Nat
  children1 : Nat
  cluster : Int
  area : Int
  firstSurface : Int
  nSurfaces : Int
  deriving DecidableEq, Inhabited

/-- The members of `World::Fog` used by the fog queries. -/
structure Fog where
  originalBrushNumber : Int
  bounds : Bounds
  deriving DecidableEq, Inhabited

/-- The struct `World::ModelDef`. -/
structure ModelDef where
  firstSurface : Nat
  nSurfaces : Nat
  bounds : Bounds
  deriving DecidableEq, Inhabited

/-- The struct `World::BatchedSurface`. A member the code leaves unassigned
(`bufferIndex` for CPU deforms, `firstVertex` and `nVertices` otherwise) is
`none`. `firstIndex`, `nIndices`, `firstVertex`, `nVertices` are `uint32_t`. -/
structure BatchedSurface where
  material : MaterialPtr
  fogIndex : Int
  surfaceFlags : Int
  contentFlags : Int
  bufferIndex : Option Nat
  firstIndex : Nat
  nIndices : Nat
  firstVertex : Option Nat
  nVertices : Option Nat
  deriving DecidableEq, Inhabited

/-- The constant `World::maxWorldGeometryBuffers_`. -/
def maxWorldGeometryBuffers_ : Nat := 8

/-- The constant `VisCache::maxSkies`. -/
def VisCache.maxSkies : Nat := 4

/-- The struct `World::VisCache` (the members `updateVisCache` touches).
`lastCameraLeaf` is a position in `nodes_` (`none` is `nullptr`); `surfaces`,
`portalSurfaces` and `reflectiveSurfaces` hold positions in `surfaces_`;
`indexBuffers i` is `none` while the handle is invalid and otherwise the data
last uploaded to the dynamic index buffer. -/
structure VisCache where
  nSkies : Nat
  skyMaterials : Nat → Option MaterialPtr
  skyVertices : Nat → List Vertex
  lastCameraLeaf : Option Nat
  lastAreaMask : List Nat
  bounds : Bounds
  surfaces : List Nat
  batchedSurfaces : List BatchedSurface
  indexBuffers : Nat → Option (List Nat)
  indices : Nat → List Nat
  portalSurfaces : List Nat
  cpuDeformVertices : List Vertex
  cpuDeformIndices : List Nat
  reflectiveSurfaces : List Nat

/-- The data members of `World` used below. `lightmapAtlases_` holds texture
handles, `visData_` the bytes of the visibility bitset. -/
structure World where
  fogs_ : List Fog
  lightmapSize_ : Int
  lightmapAtlasSize_ : Int
  lightmapAtlases_ : List Nat
  nLightmapsPerAtlas_ : Int
  surfaces_ : List Surface
  vertices_ : Nat → List Vertex
  currentGeometryBuffer_ : Nat
  nodes_ : List Node
  leafSurfaces_ : List Int
  firstLeaf_ : Nat
  clusterBytes_ : Int
  visData_ : List Nat
  duplicateSurfaceId_ : Int
  decalDuplicateSurfaceId_ : Int := 0
  lightGridSize_ : vec3 := { x := 64, y := 64, z := 128 }
  lightGridInverseSize_ : vec3 := default
  lightGridData_ : List Nat := []
  lightGridOrigin_ : vec3 := default
  lightGridBounds_ : vec3i := default
  planes_ : List Plane := []
  modelDefs_ : List ModelDef := []

/-- A 4x4 matrix of floats (`mat4`), only handed on to external functions. -/
abbrev mat4 := List ℚ

/-- What `World.cpp` uses but does not define: the global `g_overbrightFactor`,
the constant `MAX_MAP_AREA_BYTES`, the `Bounds` methods and the material objects
behind `Material *`; the methods `vec3::normal` and `vec3::normalizeFast` (the
normalised vector), `vec3::invert`, `vec3::perpendicular` and
`vec3::rotatedAroundDirection`, the clock `main::GetFloatTime` and `sin`, `Plane::testBounds` (1 in front, 2 behind, otherwise
crossing), `math::Clamped`, the surface and content flag constants, the sine
table with its size and mask, the two geometry tests of `util` (the second also
gives the squared distance `shortest`), and `BSP_VERSION`. -/
structure Externals where
  g_overbrightFactor : Int
  MAX_MAP_AREA_BYTES : Nat
  setupForAddingPoints : Bounds → Bounds
  addPoints : Bounds → Bounds → Bounds
  intersect : Bounds → Bounds → Bool
  materialAt : MaterialPtr → Material
  addPoint : Bounds → vec3 → Bounds
  normal : vec3 → vec3
  normalizeFast : vec3 → vec3
  invert : vec3 → vec3
  perpendicular : vec3 → vec3
  rotatedAroundDirection : vec3 → vec3 → ℚ → vec3
  GetFloatTime : ℚ
  sin : ℚ → ℚ
  testBounds : Plane → Bounds → Int
  SURF_NOIMPACT : Int
  SURF_NOMARKS : Int
  CONTENTS_FOG : Int
  Clamped : Int → Int → Int → Int
  g_funcTableSize : Int
  g_funcTableMask : Int
  g_sinTable : Int → ℚ
  IsGeometryOffscreen : mat4 → List Nat → List Vertex → Bool
  IsGeometryBackfacing : vec3 → List Nat → List Vertex → Bool × ℚ
  BSP_VERSION : Int

/-! ## `World::overbrightenColor` -/

/-- The `int` locals `r`, `g`, `b` of `World::overbrightenColor` when the three
byte stores are reached; `in0 in1 in2` are the input bytes. -/
def overbrightenColorChannels (g_overbrightFactor : Int) (in0 in1 in2 : Nat) : Int × Int × Int :=
  let r : Int := (in0 : Int) * g_overbrightFactor
  let g : Int := (in1 : Int) * g_overbrightFactor
  let b : Int := (in2 : Int) * g_overbrightFactor
  if Int.lor (Int.lor r g) b > 255 then
    let max := if r > g then r else g
    let max := if max > b then max else b
    (Int.tdiv (r * 255) max, Int.tdiv (g * 255) max, Int.tdiv (b * 255) max)
  else
    (r, g, b)

/-- Conversion of an `int` to `uint8_t`. -/
def toUint8 (x : Int) : Nat := (x % 256).toNat

/-- The function `World::overbrightenColor`: the three bytes written to `out`. -/
def overbrightenColor (g_overbrightFactor : Int) (in0 in1 in2 : Nat) : Nat × Nat × Nat :=
  let c := overbrightenColorChannels g_overbrightFactor in0 in1 in2
  (toUint8 c.1, toUint8 c.2.1, toUint8 c.2.2)

/-! ## `World::setSurfaceGeometry` -/

/-- The constant `UINT16_MAX`. -/
def UINT16_MAX : Nat := 65535

/-- The static function `AtlasTexCoord`. -/
def AtlasTexCoord (uv : vec2) (index nTilesPerDimension : Int) : vec2 :=
  let tileX := Int.tmod index nTilesPerDimension
  let tileY := Int.tdiv index nTilesPerDimension
  { u := (tileX : ℚ) / (nTilesPerDimension : ℚ) + uv.u / (nTilesPerDimension : ℚ)
    v := (tileY : ℚ) / (nTilesPerDimension : ℚ) + uv.v / (nTilesPerDimension : ℚ) }

/-- The per-vertex loop body of `setSurfaceGeometry`: the lightmap coordinate is
moved into atlas space when the surface has a lightmap and atlases exist. -/
def atlasVertex (w : World) (lightmapIndex : Int) (v : Vertex) : Vertex :=
  if lightmapIndex ≥ 0 ∧ ¬ w.lightmapAtlases_.isEmpty then
    let index := Int.tmod lightmapIndex w.nLightmapsPerAtlas_
    let nTilesPerDimension := Int.tdiv w.lightmapAtlasSize_ w.lightmapSize_
    { v with texCoord2 := AtlasTexCoord v.texCoord2 index nTilesPerDimension }
  else v

/-- The function `World::setSurfaceGeometry`. `vertices` and `indices` are the
arrays of `nVertices` and `nIndices` elements the caller passes (so `nVertices` is
not negative; `indices` holds `uint16_t` values). Returns the world and the surface
after the call, or the fatal error. The vertices are appended at the old end of
the buffer, which is the position `startVertex` as long as the buffer has fewer
than `2 ^ 32` vertices. -/
def setSurfaceGeometry (w : World) (surface : Surface) (vertices : List Vertex)
    (indices : List Nat) (lightmapIndex : Int) : Except String (World × Surface) :=
  let nVertices := vertices.length
  -- Increment the current vertex buffer if the vertices won't fit.
  let spill : Bool := decide ((w.vertices_ w.currentGeometryBuffer_).length + nVertices ≥ UINT16_MAX)
  let current := if spill then w.currentGeometryBuffer_ + 1 else w.currentGeometryBuffer_
  if spill ∧ current = maxWorldGeometryBuffers_ then
    .error "Not enough world vertex buffers"
  else
    let bufferVertices := w.vertices_ current
    -- Append the vertices into the current vertex buffer.
    let startVertex := bufferVertices.length % 2 ^ 32
    let appended := bufferVertices ++ vertices.map (atlasVertex w lightmapIndex)
    let w1 : World :=
      { w with
        currentGeometryBuffer_ := current
        vertices_ := fun i => if i = current then appended else w.vertices_ i }
    let surface1 : Surface :=
      { surface with
        bufferIndex := current
        firstVertex := startVertex
        nVertices := nVertices % 2 ^ 32
        -- Relative indices are made absolute.
        indices := indices.map (fun index => (index + startVertex) % 2 ^ 32 % 2 ^ 16) }
    .ok (w1, surface1)

/-- A sequence of `setSurfaceGeometry` calls, as issued by the surface loop of
`loadFromBspFile`: each element is the surface with its vertex array, index array
and lightmap index. Returns the world and the surfaces after the calls. -/
def setSurfaceGeometryAll (w : World) :
    List (Surface × List Vertex × List Nat × Int) → Except String (World × List Surface)
  | [] => .ok (w, [])
  | (s, vs, is, lm) :: rest =>
    match setSurfaceGeometry w s vs is lm with
    | .error e => .error e
    | .ok (w1, s1) =>
      match setSurfaceGeometryAll w1 rest with
      | .error e => .error e
      | .ok (w2, ss) => .ok (w2, s1 :: ss)

/-- The vertex buffers after the current one have not been written: the state
the loader keeps, since it only ever appends to the current buffer. -/
def World.laterBuffersEmpty (w : World) : Prop :=
  ∀ i, w.currentGeometryBuffer_ < i → w.vertices_ i = []

/-- A world before any geometry is loaded: every vertex buffer empty and
`currentGeometryBuffer_ = 0`, as left by the member initialisers. -/
def emptyWorld : World :=
  { fogs_ := []
    lightmapSize_ := 128
    lightmapAtlasSize_ := 0
    lightmapAtlases_ := []
    nLightmapsPerAtlas_ := 0
    surfaces_ := []
    vertices_ := fun _ => []
    currentGeometryBuffer_ := 0
    nodes_ := []
    leafSurfaces_ := []
    firstLeaf_ := 0
    clusterBytes_ := 0
    visData_ := []
    duplicateSurfaceId_ := 0 }

/-- An array of `n` vertices (all equal), used as concrete input. -/
def blankVertices (n : Nat) : List Vertex := List.replicate n default

/-- A unit vector at a right angle to a vector that is parallel to a coordinate
axis. Used as `vec3::perpendicular` in examples, which only ask for axis-parallel
vectors. -/
def axisPerpendicular (v : vec3) : vec3 :=
  if v.y = 0 ∧ v.z = 0 then { x := 0, y := 1, z := 0 } else { x := 1, y := 0, z := 0 }

/-- Normalisation of a vector that is parallel to a coordinate axis; any other
vector is returned as it is. Used as `vec3::normal` in examples, which only
normalise axis-parallel vectors. -/
def axisNormalize (v : vec3) : vec3 :=
  if v.y = 0 ∧ v.z = 0 ∧ v.x ≠ 0 then { x := v.x / |v.x|, y := 0, z := 0 }
  else if v.x = 0 ∧ v.z = 0 ∧ v.y ≠ 0 then { x := 0, y := v.y / |v.y|, z := 0 }
  else if v.x = 0 ∧ v.y = 0 ∧ v.z ≠ 0 then { x := 0, y := 0, z := v.z / |v.z| }
  else v

/-- Side of a box relative to a plane, computed from the two corners of the box
that are extreme along the plane normal: 1 when the whole box is in front, 2 when
it is behind, 3 when the plane crosses it. Used as `Plane::testBounds` in examples. -/
def boxOnPlaneSide (plane : Plane) (bounds : Bounds) : Int :=
  let n := plane.normal
  let near : ℚ :=
    (if 0 ≤ n.x then bounds.min.x else bounds.max.x) * n.x +
    (if 0 ≤ n.y then bounds.min.y else bounds.max.y) * n.y +
    (if 0 ≤ n.z then bounds.min.z else bounds.max.z) * n.z
  let far : ℚ :=
    (if 0 ≤ n.x then bounds.max.x else bounds.min.x) * n.x +
    (if 0 ≤ n.y then bounds.max.y else bounds.min.y) * n.y +
    (if 0 ≤ n.z then bounds.max.z else bounds.min.z) * n.z
  if near - plane.distance ≥ 0 then 1 else if far - plane.distance < 0 then 2 else 3

/-- A concrete choice of the external parts, used as input in examples: overbright
factor 2, 32 area-mask bytes, boxes merged by componentwise minimum and maximum,
materials whose `index` is their address, normalisation of axis-parallel vectors,
the Quake III flag values, a sine table of 1024 entries that is exact at the
quarter turns (and 0 elsewhere), geometry that is never off screen or back
facing, and BSP version 46. -/
def exampleExternals : Externals :=
  { g_overbrightFactor := 2
    MAX_MAP_AREA_BYTES := 32
    setupForAddingPoints := fun _ =>
      { min := { x := 99999, y := 99999, z := 99999 }, max := { x := -99999, y := -99999, z := -99999 } }
    addPoints := fun a b =>
      { min := { x := min a.min.x b.min.x, y := min a.min.y b.min.y, z := min a.min.z b.min.z }
        max := { x := max a.max.x b.max.x, y := max a.max.y b.max.y, z := max a.max.z b.max.z } }
    intersect := fun a b =>
      decide (a.min.x ≤ b.max.x ∧ b.min.x ≤ a.max.x ∧ a.min.y ≤ b.max.y ∧ b.min.y ≤ a.max.y ∧
        a.min.z ≤ b.max.z ∧ b.min.z ≤ a.max.z)
    materialAt := fun p =>
      { index := p, surfaceFlags := 0, isSky := false, isPortal := false,
        reflective := MaterialReflective.None, hasAutoSpriteDeform := false }
    addPoint := fun a p =>
      { min := { x := min a.min.x p.x, y := min a.min.y p.y, z := min a.min.z p.z }
        max := { x := max a.max.x p.x, y := max a.max.y p.y, z := max a.max.z p.z } }
    normal := axisNormalize
    normalizeFast := axisNormalize
    invert := vec3.neg
    perpendicular := axisPerpendicular
    rotatedAroundDirection := fun v _ _ => v
    GetFloatTime := 0
    sin := fun _ => 0
    testBounds := boxOnPlaneSide
    SURF_NOIMPACT := 16
    SURF_NOMARKS := 32
    CONTENTS_FOG := 64
    Clamped := fun x lo hi => if x < lo then lo else if x > hi then hi else x
    g_funcTableSize := 1024
    g_funcTableMask := 1023
    g_sinTable := fun i => if i = 256 then 1 else if i = 768 then -1 else 0
    IsGeometryOffscreen := fun _ _ _ => false
    IsGeometryBackfacing := fun _ _ _ => (false, 0)
    BSP_VERSION := 46 }

/-! ## `World::leafFromPosition` -/

/-- The loop of `World::leafFromPosition` from the node at position `node`, run
for at most `fuel` iterations; `none` when the loop has not reached a leaf. -/
def leafFromPositionLoop (nodes : List Node) (pos : vec3) : Nat → Nat → Option Nat
  | 0, _ => none
  | fuel + 1, node =>
    match nodes.get? node with
    | none => none
    | some n =>
      if n.leaf then some node
      else
        let d := vec3.dotProduct pos n.plane.normal - n.plane.distance
        leafFromPositionLoop nodes pos fuel (if d > 0 then n.children0 else n.children1)

/-- The function `World::leafFromPosition`: the position in `nodes_` of the leaf
reached from the root `nodes_[0]`. A descent visits each node at most once in a
tree, so `nodes_.size()` iterations are enough. -/
def leafFromPosition (w : World) (pos : vec3) : Option Nat :=
  leafFromPositionLoop w.nodes_ pos w.nodes_.length 0

/-- A BSP tree with a single split: the root splits at the plane `x = 0`, its
front child is the leaf at position 1 and its back child the leaf at position 2. -/
def singleSplitWorld : World :=
  { emptyWorld with
    nodes_ :=
      [ { (default : Node) with
            leaf := false, plane := { normal := { x := 1, y := 0, z := 0 }, distance := 0 },
            children0 := 1, children1 := 2 },
        { (default : Node) with leaf := true, cluster := 0 },
        { (default : Node) with leaf := true, cluster := 1 } ]
    firstLeaf_ := 1 }

/-! ## `World::findFogIndex` -/

/-- The inner loop over `j` of `findFogIndex(position, radius)`: the value of `j`
when the loop is left, started at `j` with `n` axes to go. -/
def fogAxisLoop (position : vec3) (radius : ℚ) (fog : Fog) : Nat → Nat → Nat
  | 0, j => j
  | n + 1, j =>
    if position.get j - radius ≥ fog.bounds.max.get j ∨ position.get j + radius ≤ fog.bounds.min.get j then j
    else fogAxisLoop position radius fog n (j + 1)

/-- The outer loop of `findFogIndex(position, radius)` over the fogs from
position `i` on. -/
def findFogIndexSphereLoop (position : vec3) (radius : ℚ) : List Fog → Int → Int
  | [], _ => -1
  | fog :: rest, i =>
    if fogAxisLoop position radius fog 3 0 = 3 then i
    else findFogIndexSphereLoop position radius rest (i + 1)

/-- The function `World::findFogIndex(vec3 position, float radius)`. -/
def findFogIndexSphere (w : World) (position : vec3) (radius : ℚ) : Int :=
  findFogIndexSphereLoop position radius w.fogs_ 0

/-- The loop of `findFogIndex(const Bounds &)` over the fogs from position `i` on. -/
def findFogIndexBoundsLoop (env : Externals) (bounds : Bounds) : List Fog → Int → Int
  | [], _ => -1
  | fog :: rest, i =>
    if env.intersect bounds fog.bounds then i
    else findFogIndexBoundsLoop env bounds rest (i + 1)

/-- The function `World::findFogIndex(const Bounds &bounds)`. -/
def findFogIndexBounds (env : Externals) (w : World) (bounds : Bounds) : Int :=
  findFogIndexBoundsLoop env bounds w.fogs_ 0

/-! ## `World::updateVisCache` -/

/-- Dereference of a `Surface *` that points at `surfaces_[si]`. -/
def World.surfaceAt (w : World) (si : Nat) : Surface := w.surfaces_.getD si default

/-- Read of `bytes[i]` for an `int` index; a read outside the array, which the
language leaves undefined, gives 0. -/
def readByte (bytes : List Nat) (i : Int) : Nat :=
  if i < 0 then 0 else bytes.getD i.toNat 0

/-- Read of `leafSurfaces_[i]` for an `int` index; a read outside the vector,
which the language leaves undefined, gives 0. -/
def readLeafSurface (w : World) (i : Int) : Int :=
  if i < 0 then 0 else w.leafSurfaces_.getD i.toNat 0

/-- The static function `World::surfaceCompare`. -/
def surfaceCompare (env : Externals) (s1 s2 : Surface) : Bool :=
  if (env.materialAt s1.material).index < (env.materialAt s2.material).index then true
  else if (env.materialAt s1.material).index = (env.materialAt s2.material).index then
    if s1.fogIndex < s2.fogIndex then true
    else if s1.fogIndex = s2.fogIndex then
      if s1.bufferIndex < s2.bufferIndex then true else false
    else false
  else false

/-- The call `std::sort(surfaces.begin(), surfaces.end(), surfaceCompare)` on the
list of surface pointers: a sort by insertion, which gives a permutation ordered
by the comparator (`a` may stand before `b` when `surfaceCompare(b, a)` is false). -/
def sortSurfaces (env : Externals) (w : World) (surfaces : List Nat) : List Nat :=
  surfaces.insertionSort
    (fun a b => surfaceCompare env (w.surfaceAt b) (w.surfaceAt a) = false)

/-- The PVS test `pvs && !(pvs[leaf.cluster >> 3] & (1 << (leaf.cluster & 7)))`;
`pvs` is the offset of the camera cluster's row in `visData_`, `none` for `nullptr`. -/
def pvsCulled (w : World) (pvs : Option Int) (leaf : Node) : Bool :=
  match pvs with
  | none => false
  | some row =>
    decide (readByte w.visData_ (row + (leaf.cluster >>> 3)) &&& (1 <<< (Int.land leaf.cluster 7).toNat) = 0)

/-- The door test `pvs && (areaMask[leaf.area >> 3] & (1 << (leaf.area & 7)))`. -/
def areaCulled (pvs : Option Int) (areaMask : List Nat) (leaf : Node) : Bool :=
  match pvs with
  | none => false
  | some _ =>
    decide (readByte areaMask (leaf.area >>> 3) &&& (1 <<< (Int.land leaf.area 7).toNat) ≠ 0)

/-- The loop over `k` that looks for the sky slot of `material`: returns the value
of `k` when the loop is left (`VisCache::maxSkies` when no slot was found) and the
cache, in which a free slot may have been taken. -/
def skySlotLoop (material : MaterialPtr) : Nat → Nat → VisCache → Nat × VisCache
  | 0, k, vc => (k, vc)
  | n + 1, k, vc =>
    match vc.skyMaterials k with
    | none =>
      (k, { vc with
            skyVertices := fun i => if i = k then [] else vc.skyVertices i
            skyMaterials := fun i => if i = k then some material else vc.skyMaterials i
            nSkies := vc.nSkies + 1 })
    | some m => if m = material then (k, vc) else skySlotLoop material n (k + 1) vc

/-- The function `World::appendSkySurfaceGeometry`. -/
def appendSkySurfaceGeometry (w : World) (vc : VisCache) (skyIndex : Nat) (surface : Surface) : VisCache :=
  { vc with
    skyVertices := fun i =>
      if i = skyIndex then
        vc.skyVertices skyIndex ++
          surface.indices.map (fun index => (w.vertices_ surface.bufferIndex).getD index default)
      else vc.skyVertices i }

/-- The body of the loop over `j` in `updateVisCache` for the leaf-surface entry `si`. -/
def addLeafSurface (env : Externals) (st : World × VisCache) (si : Int) : World × VisCache :=
  let w := st.1
  let vc := st.2
  -- Ignore surfaces in models.
  if si < 0 ∨ si ≥ (w.surfaces_.length : Int) then st
  else
    let surface := w.surfaceAt si.toNat
    -- Don't add duplicates.
    if surface.duplicateId = w.duplicateSurfaceId_ then st
    -- Ignore flares.
    else if surface.type = SurfaceType.Ignore ∨ surface.type = SurfaceType.Flare then st
    else
      -- Add the surface.
      let w1 : World :=
        { w with surfaces_ := w.surfaces_.set si.toNat { surface with duplicateId := w.duplicateSurfaceId_ } }
      if (env.materialAt surface.material).isSky then
        let found := skySlotLoop surface.material VisCache.maxSkies 0 vc
        if found.1 = VisCache.maxSkies then (w1, found.2)
        else (w1, appendSkySurfaceGeometry w1 found.2 found.1 (w1.surfaceAt si.toNat))
      else
        let vc1 : VisCache :=
          if (env.materialAt surface.material).reflective = MaterialReflective.BackSide then
            { vc with reflectiveSurfaces := vc.reflectiveSurfaces ++ [si.toNat] }
          else vc
        let vc2 : VisCache :=
          if (env.materialAt surface.material).isPortal then
            { vc1 with portalSurfaces := vc1.portalSurfaces ++ [si.toNat] }
          else vc1
        (w1, { vc2 with surfaces := vc2.surfaces ++ [si.toNat] })

/-- The body of the loop over the leaves in `updateVisCache`. -/
def scanLeaf (env : Externals) (areaMask : List Nat) (pvs : Option Int)
    (st : World × VisCache) (leaf : Node) : World × VisCache :=
  -- Check PVS.
  if pvsCulled st.1 pvs leaf then st
  -- Check for door connection.
  else if areaCulled pvs areaMask leaf then st
  else
    -- Merge this leaf's bounds.
    let vc1 : VisCache := { st.2 with bounds := env.addPoints st.2.bounds leaf.bounds }
    (List.range leaf.nSurfaces.toNat).foldl
      (fun st1 j => addLeafSurface env st1 (readLeafSurface st1.1 (leaf.firstSurface + (j : Int))))
      (st.1, vc1)

/-- The first part of the rebuild in `updateVisCache`: clear what is recalculated
and collect the visible surfaces of every leaf from `firstLeaf_` on. -/
def collectVisibleSurfaces (env : Externals) (w : World) (vc : VisCache) (cameraLeaf : Node)
    (areaMask : List Nat) : World × VisCache :=
  let vc0 : VisCache :=
    { vc with
      surfaces := []
      nSkies := 0
      skyMaterials := fun i => if i < VisCache.maxSkies then none else vc.skyMaterials i
      portalSurfaces := []
      reflectiveSurfaces := []
      bounds := env.setupForAddingPoints vc.bounds }
  -- A cluster of -1 means the camera is outside the PVS - draw everything.
  let pvs : Option Int :=
    if cameraLeaf.cluster = -1 then none else some (cameraLeaf.cluster * w.clusterBytes_)
  (w.nodes_.drop w.firstLeaf_).foldl (scanLeaf env areaMask pvs) (w, vc0)

/-- The test of `updateVisCache` that closes a batch at position `i` of the sorted
list: there is no next surface, or the next surface differs in material, fog
index or buffer index. -/
def closesBatch (ss : List Surface) (i : Nat) : Bool :=
  let surface := ss.getD i default
  let isLast : Bool := decide (i = ss.length - 1)
  if isLast then true
  else
    let nextSurface := ss.getD (i + 1) default
    decide (nextSurface.material ≠ surface.material ∨ nextSurface.fogIndex ≠ surface.fogIndex ∨
      nextSurface.bufferIndex ≠ surface.bufferIndex)

/-- The surfaces `surfaces[firstSurface], ..., surfaces[i]` visited by the loops
`for (size_t j = firstSurface; j <= i; j++)`. -/
def batchWindow (ss : List Surface) (firstSurface i : Nat) : List Surface :=
  (List.range' firstSurface (i + 1 - firstSurface)).map (fun j => ss.getD j default)

/-- What the CPU-deform loop over `j` changes: the two scratch vectors of the
cache and the counters `bs.nVertices` and `bs.nIndices`. -/
structure DeformBatch where
  cpuDeformIndices : List Nat
  cpuDeformVertices : List Vertex
  nVertices : Nat
  nIndices : Nat

/-- The body of the CPU-deform loop over `j` for the surface `s`; `surface` is the
surface that closes the batch. The vertices are copied from
`vertices_[surface->bufferIndex]` starting at `s->firstVertex`; the indices are made
relative to the batch in `uint32_t` arithmetic and stored as `uint16_t`. -/
def appendDeformSurface (w : World) (surface : Surface) (acc : DeformBatch) (s : Surface) : DeformBatch :=
  { cpuDeformIndices := acc.cpuDeformIndices ++
      s.indices.map (fun index =>
        ((((index : Int) - (s.firstVertex : Int) + (acc.nVertices : Int)) % 2 ^ 32) % 2 ^ 16).toNat)
    cpuDeformVertices := acc.cpuDeformVertices ++
      (List.range s.nVertices).map (fun k =>
        (w.vertices_ surface.bufferIndex).getD (s.firstVertex + k) default)
    nVertices := (acc.nVertices + s.nVertices) % 2 ^ 32
    nIndices := (acc.nIndices + s.indices.length % 2 ^ 32) % 2 ^ 32 }

/-- What the plain loop over `j` changes: the index vector
`visCache->indices[bs.bufferIndex]` and the counter `bs.nIndices`. -/
structure IndexBatch where
  indices : List Nat
  nIndices : Nat

/-- The body of the plain loop over `j` for the surface `s`. -/
def appendSurfaceIndices (acc : IndexBatch) (s : Surface) : IndexBatch :=
  { indices := acc.indices ++ s.indices
    nIndices := (acc.nIndices + s.indices.length % 2 ^ 32) % 2 ^ 32 }

/-- The block of `updateVisCache` that builds one `BatchedSurface` from the
surfaces `firstSurface..i` of the sorted list and pushes it. -/
def pushBatch (env : Externals) (w : World) (ss : List Surface) (firstSurface i : Nat)
    (vc : VisCache) : VisCache :=
  let surface := ss.getD i default
  if (env.materialAt surface.material).hasAutoSpriteDeform then
    -- Grab the geometry for all surfaces in this batch.
    let acc := (batchWindow ss firstSurface i).foldl (appendDeformSurface w surface)
      { cpuDeformIndices := vc.cpuDeformIndices, cpuDeformVertices := vc.cpuDeformVertices,
        nVertices := 0, nIndices := 0 }
    let bs : BatchedSurface :=
      { material := surface.material
        fogIndex := surface.fogIndex
        surfaceFlags := surface.flags
        contentFlags := surface.contentFlags
        bufferIndex := none
        firstIndex := vc.cpuDeformIndices.length % 2 ^ 32
        nIndices := acc.nIndices
        firstVertex := some (vc.cpuDeformVertices.length % 2 ^ 32)
        nVertices := some acc.nVertices }
    { vc with
      cpuDeformIndices := acc.cpuDeformIndices
      cpuDeformVertices := acc.cpuDeformVertices
      batchedSurfaces := vc.batchedSurfaces ++ [bs] }
  else
    -- Grab the indices for all surfaces in this batch.
    let acc := (batchWindow ss firstSurface i).foldl appendSurfaceIndices
      { indices := vc.indices surface.bufferIndex, nIndices := 0 }
    let bs : BatchedSurface :=
      { material := surface.material
        fogIndex := surface.fogIndex
        surfaceFlags := surface.flags
        contentFlags := surface.contentFlags
        bufferIndex := some surface.bufferIndex
        firstIndex := (vc.indices surface.bufferIndex).length % 2 ^ 32
        nIndices := acc.nIndices
        firstVertex := none
        nVertices := none }
    { vc with
      indices := fun b => if b = surface.bufferIndex then acc.indices else vc.indices b
      batchedSurfaces := vc.batchedSurfaces ++ [bs] }

/-- The loop `for (size_t i = 0; i < surfaces.size(); i++)` that creates the
batched surfaces, for the remaining values of `i` and the current `firstSurface`. -/
def createBatchedSurfacesLoop (env : Externals) (w : World) (ss : List Surface) :
    List Nat → Nat → VisCache → VisCache
  | [], _, vc => vc
  | i :: rest, firstSurface, vc =>
    if closesBatch ss i then
      createBatchedSurfacesLoop env w ss rest (i + 1) (pushBatch env w ss firstSurface i vc)
    else
      createBatchedSurfacesLoop env w ss rest firstSurface vc

/-- The part "Create batched surfaces" of `updateVisCache`; `ss` is the sorted
list `visCache->surfaces` seen through its pointers. -/
def createBatchedSurfaces (env : Externals) (w : World) (ss : List Surface) (vc : VisCache) : VisCache :=
  createBatchedSurfacesLoop env w ss (List.range ss.length) 0 { vc with batchedSurfaces := [] }

/-- The values of `(firstSurface, i)` at each `batchedSurfaces.push_back(bs)` of the
loop above, in order: the window of the sorted list that each batch consumes. -/
def batchWindowsLoop (ss : List Surface) : List Nat → Nat → List (Nat × Nat)
  | [], _ => []
  | i :: rest, firstSurface =>
    if closesBatch ss i then (firstSurface, i) :: batchWindowsLoop ss rest (i + 1)
    else batchWindowsLoop ss rest firstSurface

/-- The windows of all batches of the sorted list `ss`. -/
def batchWindows (ss : List Surface) : List (Nat × Nat) :=
  batchWindowsLoop ss (List.range ss.length) 0

/-- The triple (material, fog index, geometry-buffer index) of a surface. -/
def Surface.batchKey (s : Surface) : MaterialPtr × Int × Nat :=
  (s.material, s.fogIndex, s.bufferIndex)

/-- The number of indices of the surfaces in the window `firstSurface..i`. -/
def windowIndexCount (ss : List Surface) (firstSurface i : Nat) : Nat :=
  ((batchWindow ss firstSurface i).map (fun s => s.indices.length)).sum

/-- The members of a batch that identify it: material, fog index, buffer index
(`none` when unassigned) and `nIndices`. -/
def BatchedSurface.header (b : BatchedSurface) : MaterialPtr × Int × Option Nat × Nat :=
  (b.material, b.fogIndex, b.bufferIndex, b.nIndices)

/-- The header of the batch built from the window `p = (firstSurface, i)`: material
and fog index of the closing surface `surfaces[i]`, its buffer index unless the
material has a CPU deform, and the window's index count as a `uint32_t`. -/
def batchHeader (env : Externals) (ss : List Surface) (p : Nat × Nat) :
    MaterialPtr × Int × Option Nat × Nat :=
  ((ss.getD p.2 default).material, (ss.getD p.2 default).fogIndex,
    (if (env.materialAt (ss.getD p.2 default).material).hasAutoSpriteDeform then none
      else some (ss.getD p.2 default).bufferIndex),
    windowIndexCount ss p.1 p.2 % 2 ^ 32)

/-- A list of windows that starts at position `first` of the list `ss`, in which
each window `(f, i)` starts where the previous one ended (`f` is the previous
`i + 1`), lies inside the list, ends at a position where a batch is closed, has no
such position before its end, and the last window ends at the end of the list. -/
def WindowsFrom (ss : List Surface) : Nat → List (Nat × Nat) → Prop
  | first, [] => first = ss.length
  | first, p :: rest =>
    p.1 = first ∧ p.1 ≤ p.2 ∧ p.2 < ss.length ∧ closesBatch ss p.2 = true ∧
      (∀ j, p.1 ≤ j → j < p.2 → closesBatch ss j = false) ∧ WindowsFrom ss (p.2 + 1) rest

/-- The sorted visible-surface list of a cache seen through its pointers. -/
def visibleSurfaces (w : World) (vc : VisCache) : List Surface :=
  vc.surfaces.map w.surfaceAt

/-- The parts "Sort visible surfaces", "Clear indices" and "Clear CPU deform
geometry" of `updateVisCache`, on the state after the leaf scan. -/
def sortAndClear (env : Externals) (collected : World × VisCache) : VisCache :=
  { collected.2 with
    surfaces := sortSurfaces env collected.1 collected.2.surfaces
    indices := fun i => if i < collected.1.currentGeometryBuffer_ + 1 then [] else collected.2.indices i
    cpuDeformIndices := []
    cpuDeformVertices := [] }

/-- The part "Update dynamic index buffers" of `updateVisCache`: every buffer up to
the current one whose index list is not empty is created or updated with the list. -/
def updateIndexBuffers (w : World) (vc : VisCache) : VisCache :=
  { vc with
    indexBuffers := fun i =>
      if i < w.currentGeometryBuffer_ + 1 ∧ vc.indices i ≠ [] then some (vc.indices i)
      else vc.indexBuffers i }

/-- The rebuild inside `updateVisCache`, run when the camera cluster or the area
mask has changed. -/
def rebuildVisCache (env : Externals) (w : World) (vc : VisCache) (cameraLeaf : Node)
    (areaMask : List Nat) : World × VisCache :=
  let collected := collectVisibleSurfaces env w vc cameraLeaf areaMask
  let vc1 := sortAndClear env collected
  -- Create batched surfaces.
  let vc2 := createBatchedSurfaces env collected.1 (visibleSurfaces collected.1 vc1) vc1
  (collected.1, updateIndexBuffers collected.1 vc2)

/-- The call `std::equal(areaMask, areaMask + MAX_MAP_AREA_BYTES, lastAreaMask)`. -/
def areaMaskEqual (env : Externals) (areaMask lastAreaMask : List Nat) : Bool :=
  (List.range env.MAX_MAP_AREA_BYTES).all (fun i => decide (areaMask.getD i 0 = lastAreaMask.getD i 0))

/-- The condition of `updateVisCache` under which the visible surfaces are rebuilt;
`cameraLeaf` is the position in `nodes_` of the camera leaf. -/
def needsRebuild (env : Externals) (w : World) (vc : VisCache) (cameraLeaf : Nat)
    (areaMask : List Nat) : Bool :=
  match vc.lastCameraLeaf with
  | none => true
  | some last =>
    decide ((w.nodes_.getD last default).cluster ≠ (w.nodes_.getD cameraLeaf default).cluster) ||
      !areaMaskEqual env areaMask vc.lastAreaMask

/-- The function `World::updateVisCache` on the cache `visCaches_[visCacheId]`;
`none` when `leafFromPosition` does not return. -/
def updateVisCache (env : Externals) (w : World) (vc : VisCache) (cameraPosition : vec3)
    (areaMask : List Nat) : Option (World × VisCache) :=
  match leafFromPosition w cameraPosition with
  | none => none
  | some cameraLeaf =>
    let st : World × VisCache :=
      if needsRebuild env w vc cameraLeaf areaMask then
        rebuildVisCache env w vc (w.nodes_.getD cameraLeaf default) areaMask
      else (w, vc)
    some ({ st.1 with duplicateSurfaceId_ := st.1.duplicateSurfaceId_ + 1 },
          { st.2 with
            lastCameraLeaf := some cameraLeaf
            lastAreaMask := (List.range env.MAX_MAP_AREA_BYTES).map (fun i => areaMask.getD i 0) })

/-- A cache as `createVisCache` makes it: nothing visible yet, no camera leaf. -/
def emptyVisCache : VisCache :=
  { nSkies := 0
    skyMaterials := fun _ => none
    skyVertices := fun _ => []
    lastCameraLeaf := none
    lastAreaMask := []
    bounds := default
    surfaces := []
    batchedSurfaces := []
    indexBuffers := fun _ => none
    indices := fun _ => []
    portalSurfaces := []
    cpuDeformVertices := []
    cpuDeformIndices := []
    reflectiveSurfaces := [] }

/-- A small world used as concrete input: a single leaf (cluster -1, so
everything is drawn) with three faces in geometry buffer 0, the first two with
material 1 and the third with material 2, each a triangle. -/
def exampleWorld : World :=
  { emptyWorld with
    nodes_ := [{ (default : Node) with leaf := true, cluster := -1, firstSurface := 0, nSurfaces := 3 }]
    firstLeaf_ := 0
    leafSurfaces_ := [0, 1, 2]
    vertices_ := fun i => if i = 0 then blankVertices 9 else []
    surfaces_ :=
      [ { (default : Surface) with
            type := SurfaceType.Face, material := 1, fogIndex := -1, indices := [0, 1, 2],
            bufferIndex := 0, duplicateId := -1, firstVertex := 0, nVertices := 3 },
        { (default : Surface) with
            type := SurfaceType.Face, material := 2, fogIndex := -1, indices := [6, 7, 8],
            bufferIndex := 0, duplicateId := -1, firstVertex := 6, nVertices := 3 },
        { (default : Surface) with
            type := SurfaceType.Face, material := 1, fogIndex := -1, indices := [3, 4, 5],
            bufferIndex := 0, duplicateId := -1, firstVertex := 3, nVertices := 3 } ] }

/-- The state of the sky slots that the rebuild keeps: the first `nSkies` slots
(at most `VisCache::maxSkies`) hold pairwise different materials and the other
slots are empty. -/
def VisCache.skySlotsOrdered (vc : VisCache) : Prop :=
  vc.nSkies ≤ VisCache.maxSkies ∧
  (∀ k, k < vc.nSkies → vc.skyMaterials k ≠ none) ∧
  (∀ k, vc.nSkies ≤ k → k < VisCache.maxSkies → vc.skyMaterials k = none) ∧
  (∀ j k, j < k → k < vc.nSkies → vc.skyMaterials j ≠ vc.skyMaterials k)

/-- The sky materials recorded in the slots `0 .. VisCache::maxSkies - 1`. -/
def VisCache.recordedSkyMaterials (vc : VisCache) : List MaterialPtr :=
  (List.range VisCache.maxSkies).filterMap vc.skyMaterials

/-- External parts as `exampleExternals`, but every material whose address is at
least 100 is a sky material. -/
def skyExternals : Externals :=
  { exampleExternals with
    materialAt := fun p =>
      { index := p, surfaceFlags := 0, isSky := decide (100 ≤ p), isPortal := false,
        reflective := MaterialReflective.None, hasAutoSpriteDeform := false } }

/-- A small world used as concrete input: a single leaf (cluster -1) with five sky
triangles of the five materials 100, ..., 104 followed by one face of material 1. -/
def skyWorld : World :=
  { emptyWorld with
    nodes_ := [{ (default : Node) with leaf := true, cluster := -1, firstSurface := 0, nSurfaces := 6 }]
    firstLeaf_ := 0
    leafSurfaces_ := [0, 1, 2, 3, 4, 5]
    vertices_ := fun i => if i = 0 then blankVertices 3 else []
    surfaces_ :=
      (([100, 101, 102, 103, 104, 1] : List Nat).map (fun m =>
        { (default : Surface) with
            type := SurfaceType.Face, material := m, fogIndex := -1, indices := [0, 1, 2],
            bufferIndex := 0, duplicateId := -1, firstVertex := 0, nVertices := 3 })) }

/-! ## `World::loadFromBspFile`: header, fogs and light grid -/

/-- The record sizes `sizeof(...)` of the file structures, which are declared
outside `World.cpp`; `int_` is `sizeof(int)`. -/
structure RecordSizes where
  dshader_t : Int
  dplane_t : Int
  dnode_t : Int
  dleaf_t : Int
  int_ : Int
  dmodel_t : Int
  dbrush_t : Int
  dbrushside_t : Int
  drawVert_t : Int
  dfog_t : Int
  dsurface_t : Int

/-- The record sizes of the Quake III file format, used as concrete input. -/
def quake3RecordSizes : RecordSizes :=
  { dshader_t := 72, dplane_t := 16, dnode_t := 36, dleaf_t := 48, int_ := 4, dmodel_t := 40,
    dbrush_t := 12, dbrushside_t := 8, drawVert_t := 44, dfog_t := 72, dsurface_t := 104 }

/-- The number of lump entries of the header, the length of the table `lumpSizes`. -/
def HEADER_LUMPS : Nat := 17

/-- Position of the entities lump in the header. -/
def LUMP_ENTITIES : Nat := 0

/-- Position of the leaf-brush index lump in the header. -/
def LUMP_LEAFBRUSHES : Nat := 6

/-- Position of the lightmaps lump in the header. -/
def LUMP_LIGHTMAPS : Nat := 14

/-- Position of the light-grid lump in the header. -/
def LUMP_LIGHTGRID : Nat := 15

/-- Position of the visibility lump in the header. -/
def LUMP_VISIBILITY : Nat := 16

/-- The table `lumpSizes` of `loadFromBspFile`, in the order of its comments:
entities, shaders, planes, nodes, leafs, leaf surfaces, leaf brushes, models,
brushes, brush sides, draw verts, draw indexes, fogs, surfaces, lightmaps, light
grid, visibility. -/
def lumpSizes (sz : RecordSizes) : List Int :=
  [0, sz.dshader_t, sz.dplane_t, sz.dnode_t, sz.dleaf_t, sz.int_, 0, sz.dmodel_t, sz.dbrush_t,
    sz.dbrushside_t, sz.drawVert_t, sz.int_, sz.dfog_t, sz.dsurface_t, 0, 0, 0]

/-- The size of one record of lump `i` in the file: the table entry, and
`sizeof(int)` for the leaf-brush index lump, whose table entry is 0. -/
def lumpRecordSize (sz : RecordSizes) (i : Nat) : Int :=
  if i = LUMP_LEAFBRUSHES then sz.int_ else (lumpSizes sz).getD i 0

/-- The struct `lump_t`: offset and length in bytes. -/
structure lump_t where
  fileofs : Int
  filelen : Int
  deriving DecidableEq, Inhabited

/-- The fatal errors `interface::Error` of the first part of `loadFromBspFile`. -/
inductive LoadError where
  | wrongVersion
  | lumpBadSize (i : Nat)
  | fogBrushNumber
  | fogBrushSide
  deriving DecidableEq

/-- The loop "Swap all the lumps and validate sizes" for the remaining lump
numbers: the first lump with a non-zero table entry that does not divide its
length is reported. -/
def validateLumpSizes (sz : RecordSizes) (lumps : Nat → lump_t) : List Nat → Except LoadError Unit
  | [] => .ok ()
  | i :: rest =>
    if (lumpSizes sz).getD i 0 ≠ 0 ∧ Int.tmod (lumps i).filelen ((lumpSizes sz).getD i 0) ≠ 0 then
      .error (LoadError.lumpBadSize i)
    else validateLumpSizes sz lumps rest

/-- The header part of `loadFromBspFile`: the version test and the lump sizes. -/
def checkHeader (env : Externals) (sz : RecordSizes) (version : Int) (lumps : Nat → lump_t) :
    Except LoadError Unit :=
  if version ≠ env.BSP_VERSION then .error LoadError.wrongVersion
  else validateLumpSizes sz lumps (List.range HEADER_LUMPS)

/-- The members of the file record `dfog_t` read by the world. -/
structure dfog_t where
  brushNum : Int
  visibleSide : Int
  deriving DecidableEq, Inhabited

/-- The members of the file record `dbrush_t` read by the world. -/
structure dbrush_t where
  firstSide : Int
  deriving DecidableEq, Inhabited

/-- The members of the file record `dbrushside_t` read by the world. -/
structure dbrushside_t where
  planeNum : Int
  deriving DecidableEq, Inhabited

/-- The conversion `(unsigned)x` of an `int`. -/
def toUnsigned (x : Int) : Nat := (x % 2 ^ 32).toNat

/-- The difference `a - b` of two `size_t` values (64 bits), which wraps around. -/
def sizeSub (a b : Nat) : Nat := (a + 2 ^ 64 - b % 2 ^ 64) % 2 ^ 64

/-- Read of `fileBrushSides[i]` for an `int` index; a read outside the table gives
a zero record. -/
def readBrushSide (fileBrushSides : List dbrushside_t) (i : Int) : dbrushside_t :=
  if i < 0 then default else fileBrushSides.getD i.toNat default

/-- Read of `planes_[i]` for an `int` index; a read outside the vector gives a
zero plane. -/
def readPlane (planes : List Plane) (i : Int) : Plane :=
  if i < 0 then default else planes.getD i.toNat default

/-- The six values of `sideNum` at which `fileBrushSides` is read to derive the
bounds of a fog: `firstSide + 0`, ..., `firstSide + 5`. -/
def fogBrushSideNums (firstSide : Int) : List Int :=
  [firstSide + 0, firstSide + 1, firstSide + 2, firstSide + 3, firstSide + 4, firstSide + 5]

/-- The distance of the plane of brush side `sideNum`. -/
def brushSideDistance (planes : List Plane) (fileBrushSides : List dbrushside_t) (sideNum : Int) : ℚ :=
  (readPlane planes (readBrushSide fileBrushSides sideNum).planeNum).distance

/-- The bounds of a fog, from the six axial sides of its brush. -/
def fogBounds (planes : List Plane) (fileBrushSides : List dbrushside_t) (firstSide : Int) : Bounds :=
  let d := (fogBrushSideNums firstSide).map (brushSideDistance planes fileBrushSides)
  { min := { x := -(d.getD 0 0), y := -(d.getD 2 0), z := -(d.getD 4 0) }
    max := { x := d.getD 1 0, y := d.getD 3 0, z := d.getD 5 0 } }

/-- The body of the loop "Fogs" of `loadFromBspFile` for the file record `ff`,
as far as the members of `Fog` kept here are concerned: the two range tests and
the bounds. -/
def loadFog (planes : List Plane) (fileBrushes : List dbrush_t) (fileBrushSides : List dbrushside_t)
    (ff : dfog_t) : Except LoadError Fog :=
  let nBrushes := fileBrushes.length
  let nBrushSides := fileBrushSides.length
  if toUnsigned ff.brushNum ≥ nBrushes then .error LoadError.fogBrushNumber
  else
    let brush := fileBrushes.getD ff.brushNum.toNat default
    let firstSide := brush.firstSide
    if toUnsigned firstSide > sizeSub nBrushSides 6 then .error LoadError.fogBrushSide
    else
      -- Brushes are always sorted with the axial sides first.
      .ok { originalBrushNumber := ff.brushNum
            bounds := fogBounds planes fileBrushSides firstSide }

/-- The loop "Fogs" of `loadFromBspFile`: the fogs, or the first fatal error. -/
def loadFogs (planes : List Plane) (fileBrushes : List dbrush_t) (fileBrushSides : List dbrushside_t) :
    List dfog_t → Except LoadError (List Fog)
  | [] => .ok []
  | ff :: rest =>
    match loadFog planes fileBrushes fileBrushSides ff with
    | .error e => .error e
    | .ok f =>
      match loadFogs planes fileBrushes fileBrushSides rest with
      | .error e => .error e
      | .ok fs => .ok (f :: fs)

/-- The conversion `int(x)` of a float: the fractional part is dropped. -/
def truncToInt (x : ℚ) : Int := if 0 ≤ x then ⌊x⌋ else ⌈x⌉

/-- The light-grid origin and the number of samples along one axis, from the
grid spacing and the world bounds along that axis. -/
def lightGridAxis (size min max : ℚ) : ℚ × Int :=
  let origin := size * (⌈min / size⌉ : ℚ)
  let maxv := size * (⌊max / size⌋ : ℚ)
  (origin, truncToInt ((maxv - origin) / size + 1))

/-- The calls `overbrightenColor(&data[offset], &data[offset])`: three bytes are
read and then overwritten. -/
def overbrightenAt (env : Externals) (data : List Nat) (offset : Nat) : List Nat :=
  let c := overbrightenColor env.g_overbrightFactor (data.getD offset 0) (data.getD (offset + 1) 0)
    (data.getD (offset + 2) 0)
  ((data.set offset c.1).set (offset + 1) c.2.1).set (offset + 2) c.2.2

/-- The block "Light grid" of `loadFromBspFile`; `fileData` are the bytes of the
file and `lump` is the light-grid lump. A mismatch only prints a warning. The
`resize` to a negative length, which the code cannot survive, is not modelled:
the length is taken as a byte count. -/
def loadLightGrid (env : Externals) (w : World) (fileData : List Nat) (lump : lump_t) : World :=
  let size := w.lightGridSize_
  let worldBounds := (w.modelDefs_.getD 0 default).bounds
  let ax := lightGridAxis size.x worldBounds.min.x worldBounds.max.x
  let ay := lightGridAxis size.y worldBounds.min.y worldBounds.max.y
  let az := lightGridAxis size.z worldBounds.min.z worldBounds.max.z
  let w1 : World :=
    { w with
      lightGridInverseSize_ := { x := 1 / size.x, y := 1 / size.y, z := 1 / size.z }
      lightGridOrigin_ := { x := ax.1, y := ay.1, z := az.1 }
      lightGridBounds_ := { x := ax.2, y := ay.2, z := az.2 } }
  let numGridPoints : Int := ax.2 * ay.2 * az.2
  if lump.filelen ≠ numGridPoints * 8 then w1
  else
    let copied := (List.range lump.filelen.toNat).map (fun (k : Nat) => readByte fileData (lump.fileofs + (k : Int)))
    -- Deal with overbright bits.
    { w1 with
      lightGridData_ := (List.range numGridPoints.toNat).foldl
        (fun data i => overbrightenAt env (overbrightenAt env data (i * 8)) (i * 8 + 3)) copied }

/-- The function `World::hasLightGrid`. -/
def hasLightGrid (w : World) : Bool := !w.lightGridData_.isEmpty

/-- A newly constructed world with the world bounds (0, 0, 0) to (64, 64, 128) and
the default grid spacing (64, 64, 128), used as concrete input: the light grid
has 2 x 2 x 2 points. -/
def gridWorld : World :=
  let worldBounds : Bounds := { min := { x := 0, y := 0, z := 0 }, max := { x := 64, y := 64, z := 128 } }
  let worldModel : ModelDef := { firstSurface := 0, nSurfaces := 0, bounds := worldBounds }
  { emptyWorld with modelDefs_ := [worldModel] }

/-! ## `World::calculatePortalCamera`: the visible portal surfaces -/

/-- The enum `EntityType`, declared outside `World.cpp`: only `Portal` is told
apart from the other types here. -/
inductive EntityType where
  | Portal
  | Other
  deriving DecidableEq, Inhabited

/-- The members of `Entity` read by `calculatePortalCamera`. -/
structure Entity where
  type : EntityType
  position : vec3
  oldPosition : vec3
  rotation : mat3 := default
  oldFrame : Int := 0
  frame : Int := 0
  skinNum : Int := 0
  deriving DecidableEq, Inhabited

/-- The loop over `entities` in `calculatePortalCamera` from position `j` on: the
position in `entities` of the entity that `portalEntity` points at when the loop
is left, `none` for `nullptr`. -/
def locatePortalEntity (plane : Plane) : List Entity → Nat → Option Nat
  | [], _ => none
  | entity :: rest, j =>
    if entity.type = EntityType.Portal then
      let d := vec3.dotProduct entity.position plane.normal - plane.distance
      if d > 64 ∨ d < -64 then locatePortalEntity plane rest (j + 1)
      else some j
    else locatePortalEntity plane rest (j + 1)

/-- The struct `VisCache::Portal`; `entity` is a position in `entities` and
`surface` a position in `surfaces_`. -/
structure Portal where
  entity : Nat
  isMirror : Bool
  plane : Plane
  surface : Nat
  deriving DecidableEq, Inhabited

/-- The plane of a portal or reflective surface, from its first three indexed
vertices; with fewer than three indices only `normal[0]` is set to 1. -/
def surfacePlane (env : Externals) (w : World) (surface : Surface) : Plane :=
  if surface.indices.length ≥ 3 then
    let v1 := ((w.vertices_ surface.bufferIndex).getD (surface.indices.getD 0 0) default).pos
    let v2 := ((w.vertices_ surface.bufferIndex).getD (surface.indices.getD 1 0) default).pos
    let v3 := ((w.vertices_ surface.bufferIndex).getD (surface.indices.getD 2 0) default).pos
    let normal := env.normal (vec3.crossProduct (vec3.sub v3 v1) (vec3.sub v2 v1))
    { normal := normal, distance := vec3.dotProduct v1 normal }
  else
    { normal := { x := 1, y := 0, z := 0 }, distance := 0 }

/-- The body of the loop over `visCache->portalSurfaces` in `calculatePortalCamera`
for the portal surface at position `si`: the `Portal` pushed to
`cameraPortalSurfaces`, or `none` when the surface is skipped. -/
def cameraPortalSurface (env : Externals) (w : World) (mainCameraPosition : vec3) (mvp : mat4)
    (entities : List Entity) (si : Nat) : Option Portal :=
  let portalSurface := w.surfaceAt si
  -- Trivially reject.
  if env.IsGeometryOffscreen mvp portalSurface.indices (w.vertices_ portalSurface.bufferIndex) then none
  else
    let back := env.IsGeometryBackfacing mainCameraPosition portalSurface.indices
      (w.vertices_ portalSurface.bufferIndex)
    if back.1 then none
    else
      -- Calculate surface plane.
      let plane := surfacePlane env w portalSurface
      -- Locate the portal entity closest to this plane.
      match locatePortalEntity plane entities 0 with
      | none => none
      | some j =>
        let portalEntity := entities.getD j default
        -- Mirrors don't do a fade over distance (although they could).
        let isPortalMirror : Bool := decide (portalEntity.position = portalEntity.oldPosition)
        let portalRange := (env.materialAt portalSurface.material).portalRange
        if ¬ isPortalMirror ∧ back.2 > portalRange * portalRange then none
        else some { entity := j, isMirror := isPortalMirror, plane := plane, surface := si }

/-- The list `visCache->cameraPortalSurfaces` after the loop over the portal
surfaces of `calculatePortalCamera`. -/
def cameraPortalSurfaces (env : Externals) (w : World) (vc : VisCache) (mainCameraPosition : vec3)
    (mvp : mat4) (entities : List Entity) : List Portal :=
  vc.portalSurfaces.filterMap (cameraPortalSurface env w mainCameraPosition mvp entities)

/-- A vertex at position `p`, its other members default-initialised. -/
def vertexAt (p : vec3) : Vertex := { (default : Vertex) with pos := p }

/-- A world with one portal surface, a triangle in the plane x = 0 with corners
(0, 0, 0), (0, 1, 0) and (0, 0, 1), used as concrete input; the surface plane has
normal (-1, 0, 0) and distance 0. -/
def portalWorld : World :=
  { emptyWorld with
    vertices_ := fun i =>
      if i = 0 then
        [vertexAt { x := 0, y := 0, z := 0 }, vertexAt { x := 0, y := 1, z := 0 },
          vertexAt { x := 0, y := 0, z := 1 }]
      else []
    surfaces_ :=
      [ { (default : Surface) with
            type := SurfaceType.Face, material := 1, fogIndex := -1, indices := [0, 1, 2],
            bufferIndex := 0, duplicateId := -1, firstVertex := 0, nVertices := 3 } ] }

/-- A cache whose portal-surface list holds the one surface of `portalWorld`. -/
def portalVisCache : VisCache := { emptyVisCache with portalSurfaces := [0] }

/-- Two portal entities, the first 50 units and the second 1 unit from the plane
x = 0, used as concrete input. -/
def portalEntities : List Entity :=
  [ { type := EntityType.Portal, position := { x := 50, y := 0, z := 0 },
      oldPosition := { x := 0, y := 0, z := 100 } },
    { type := EntityType.Portal, position := { x := 1, y := 0, z := 0 },
      oldPosition := { x := 0, y := 0, z := 200 } } ]

/-! ## `World::sampleLightGrid` -/

/-- The values `pos[i]` (after the clamp) and `frac[i]` (taken before the clamp)
of `sampleLightGrid`. -/
def lightGridCell (env : Externals) (w : World) (position : vec3) (i : Nat) : Int × ℚ :=
  let lightPosition := vec3.sub position w.lightGridOrigin_
  let v := lightPosition.get i * w.lightGridInverseSize_.get i
  let p : Int := ⌊v⌋
  (env.Clamped p 0 (w.lightGridBounds_.get i - 1), v - (p : ℚ))

/-- The array `gridStep` of `sampleLightGrid`. -/
def gridStep (w : World) (j : Nat) : Int :=
  if j = 0 then 8
  else if j = 1 then 8 * w.lightGridBounds_.get 0
  else 8 * w.lightGridBounds_.get 0 * w.lightGridBounds_.get 1

/-- The position in `lightGridData_` that `gridData` points at. -/
def gridDataOffset (env : Externals) (w : World) (position : vec3) : Int :=
  (lightGridCell env w position 0).1 * gridStep w 0 +
  (lightGridCell env w position 1).1 * gridStep w 1 +
  (lightGridCell env w position 2).1 * gridStep w 2

/-- One pass of the loop over `j` for neighbour `i`, on the pair of `factor` and
the position of `data`; `none` when the loop is left by `break`. -/
def lightGridNeighbourStep (env : Externals) (w : World) (position : vec3) (i j : Nat)
    (st : ℚ × Int) : Option (ℚ × Int) :=
  if Nat.land i (1 <<< j) ≠ 0 then
    -- Ignore values outside lightgrid.
    if (lightGridCell env w position j).1 + 1 > w.lightGridBounds_.get j - 1 then none
    else some (st.1 * (lightGridCell env w position j).2, st.2 + gridStep w j)
  else some (st.1 * (1 - (lightGridCell env w position j).2), st.2)

/-- The loop over `j` for neighbour `i`: `factor` and the position of `data` when
the loop ends with `j == 3`, `none` when the neighbour is outside the grid. -/
def lightGridNeighbour (env : Externals) (w : World) (position : vec3) (i : Nat) :
    Option (ℚ × Int) :=
  ((lightGridNeighbourStep env w position i 0 (1, gridDataOffset env w position)).bind
    (lightGridNeighbourStep env w position i 1)).bind (lightGridNeighbourStep env w position i 2)

/-- The values that the loop over the 8 neighbours accumulates. -/
structure LightGridSum where
  ambientLight : vec3
  directedLight : vec3
  direction : vec3
  totalFactor : ℚ
  deriving DecidableEq, Inhabited

/-- The body of the loop over the 8 neighbours of `sampleLightGrid`. -/
def sampleLightGridAdd (env : Externals) (w : World) (position : vec3) (acc : LightGridSum)
    (i : Nat) : LightGridSum :=
  match lightGridNeighbour env w position i with
  | none => acc
  | some (factor, offset) =>
    let data : Int → Int := fun k => (readByte w.lightGridData_ (offset + k) : Int)
    -- Ignore samples in walls.
    if data 0 + data 1 + data 2 + data 3 + data 4 + data 5 = 0 then acc
    else
      let lat : Int := data 7 * Int.tdiv env.g_funcTableSize 256
      let lng : Int := data 6 * Int.tdiv env.g_funcTableSize 256
      let normal : vec3 :=
        { x := env.g_sinTable (Int.land (lat + Int.tdiv env.g_funcTableSize 4) env.g_funcTableMask) *
            env.g_sinTable lng
          y := env.g_sinTable lat * env.g_sinTable lng
          z := env.g_sinTable (Int.land (lng + Int.tdiv env.g_funcTableSize 4) env.g_funcTableMask) }
      { ambientLight :=
          { x := acc.ambientLight.x + factor * (data 0 : ℚ)
            y := acc.ambientLight.y + factor * (data 1 : ℚ)
            z := acc.ambientLight.z + factor * (data 2 : ℚ) }
        directedLight :=
          { x := acc.directedLight.x + factor * (data 3 : ℚ)
            y := acc.directedLight.y + factor * (data 4 : ℚ)
            z := acc.directedLight.z + factor * (data 5 : ℚ) }
        direction := vec3.add acc.direction (vec3.scale normal factor)
        totalFactor := acc.totalFactor + factor }

/-- The state of `sampleLightGrid` after the loop over the 8 neighbours. -/
def sampleLightGridSum (env : Externals) (w : World) (position : vec3) : LightGridSum :=
  (List.range 8).foldl (sampleLightGridAdd env w position)
    { ambientLight := vec3.empty, directedLight := vec3.empty, direction := vec3.empty,
      totalFactor := 0 }

/-- The test `totalFactor > 0 && totalFactor < 0.99` that guards the rescale. -/
def sampleLightGridRescales (s : LightGridSum) : Prop :=
  s.totalFactor > 0 ∧ s.totalFactor < 99 / 100

instance (s : LightGridSum) : Decidable (sampleLightGridRescales s) := by
  unfold sampleLightGridRescales
  infer_instance

/-- The function `World::sampleLightGrid`: the values written to `ambientLight`,
`directedLight` and `lightDir`. -/
def sampleLightGrid (env : Externals) (w : World) (position : vec3) : vec3 × vec3 × vec3 :=
  let s := sampleLightGridSum env w position
  if sampleLightGridRescales s then
    let totalFactor := 1 / s.totalFactor
    (vec3.scale s.ambientLight totalFactor, vec3.scale s.directedLight totalFactor,
      env.normalizeFast s.direction)
  else (s.ambientLight, s.directedLight, env.normalizeFast s.direction)

/-- Bytes of a light-grid lump for 8 grid points: in each record the six colour
bytes are 0 and the two direction bytes are 5. -/
def darkGridBytes : List Nat := (List.range 64).map (fun k => if k % 8 < 6 then 0 else 5)

/-! ## `R_ChopPolyBehindPlane` and `World::addMarkFragments` -/

/-- The constant `MAX_VERTS_ON_POLY`. -/
def MAX_VERTS_ON_POLY : Nat := 64

/-- The constant `SIDE_FRONT` of `R_ChopPolyBehindPlane`. -/
def SIDE_FRONT : Nat := 0

/-- The constant `SIDE_BACK` of `R_ChopPolyBehindPlane`. -/
def SIDE_BACK : Nat := 1

/-- The constant `SIDE_ON` of `R_ChopPolyBehindPlane`. -/
def SIDE_ON : Nat := 2

/-- The side stored in `sides[i]` for the distance `dot`. -/
def chopSide (epsilon dot : ℚ) : Nat :=
  if dot > epsilon then SIDE_FRONT
  else if dot < -epsilon then SIDE_BACK
  else SIDE_ON

/-- The entries `dists[0 .. numInPoints - 1]` of `R_ChopPolyBehindPlane`. -/
def chopDists (inPoints : List vec3) (normal : vec3) (dist : ℚ) : List ℚ :=
  inPoints.map (fun p => vec3.dotProduct p normal - dist)

/-- The entry `dists[i]` for `i` up to `numInPoints`: the entry at `numInPoints`
is the copy of `dists[0]`; the array starts zeroed. -/
def chopDistAt (inPoints : List vec3) (normal : vec3) (dist : ℚ) (i : Nat) : ℚ :=
  (chopDists inPoints normal dist).getD (if i < inPoints.length then i else 0) 0

/-- The entry `sides[i]` for `i` up to `numInPoints`: the entry at `numInPoints`
is the copy of `sides[0]`; the array starts zeroed. -/
def chopSideAt (inPoints : List vec3) (normal : vec3) (dist epsilon : ℚ) (i : Nat) : Nat :=
  ((chopDists inPoints normal dist).map (chopSide epsilon)).getD
    (if i < inPoints.length then i else 0) 0

/-- The value `counts[side]` after the first loop of `R_ChopPolyBehindPlane`. -/
def chopCount (inPoints : List vec3) (normal : vec3) (dist epsilon : ℚ) (side : Nat) : Nat :=
  ((chopDists inPoints normal dist).map (chopSide epsilon)).count side

/-- The split point written to `*clip`. -/
def chopSplit (p1 p2 : vec3) (dot : ℚ) : vec3 :=
  { x := p1.x + dot * (p2.x - p1.x), y := p1.y + dot * (p2.y - p1.y),
    z := p1.z + dot * (p2.z - p1.z) }

/-- The points that pass `i` of the second loop of `R_ChopPolyBehindPlane`
appends to `outPoints`. -/
def chopStep (inPoints : List vec3) (normal : vec3) (dist epsilon : ℚ) (i : Nat) : List vec3 :=
  let p1 := inPoints.getD i default
  if chopSideAt inPoints normal dist epsilon i = SIDE_ON then [p1]
  else
    let kept := if chopSideAt inPoints normal dist epsilon i = SIDE_FRONT then [p1] else []
    if chopSideAt inPoints normal dist epsilon (i + 1) = SIDE_ON ∨
        chopSideAt inPoints normal dist epsilon (i + 1) = chopSideAt inPoints normal dist epsilon i then
      kept
    else
      -- generate a split point
      let p2 := inPoints.getD ((i + 1) % inPoints.length) default
      let d := chopDistAt inPoints normal dist i - chopDistAt inPoints normal dist (i + 1)
      let dot := if d = 0 then 0 else chopDistAt inPoints normal dist i / d
      kept ++ [chopSplit p1 p2 dot]

/-- The function `R_ChopPolyBehindPlane`: the points written to `outPoints`
(`numOutPoints` is the length of the list). -/
def R_ChopPolyBehindPlane (inPoints : List vec3) (normal : vec3) (dist epsilon : ℚ) : List vec3 :=
  -- don't clip if it might overflow
  if inPoints.length ≥ MAX_VERTS_ON_POLY - 2 then []
  else if chopCount inPoints normal dist epsilon SIDE_FRONT = 0 then []
  else if chopCount inPoints normal dist epsilon SIDE_BACK = 0 then inPoints
  else (List.range inPoints.length).flatMap (chopStep inPoints normal dist epsilon)

/-- The loop of `addMarkFragments` that chops the polygon by all the bounding
planes, left as soon as no point remains: the points in `clipPoints[pingPong]`. -/
def chopByPlanes : List Plane → List vec3 → List vec3
  | [], clipPoints => clipPoints
  | plane :: rest, clipPoints =>
    let out := R_ChopPolyBehindPlane clipPoints plane.normal plane.distance (1 / 2)
    if out.length = 0 then [] else chopByPlanes rest out

/-- The struct `markFragment_t`. -/
structure markFragment_t where
  firstPoint : Int
  numPoints : Int
  deriving DecidableEq, Inhabited

/-- What a call of `markFragments` has written so far: the points copied to
`pointBuffer` and the descriptors stored in `fragmentBuffer`, in order.
`returnedPoints` and `returnedFragments` are the lengths of the two lists. -/
structure MarkBuffers where
  pointBuffer : List vec3
  fragmentBuffer : List markFragment_t
  deriving DecidableEq, Inhabited

/-- The counter `returnedPoints`. -/
def MarkBuffers.returnedPoints (st : MarkBuffers) : Int := (st.pointBuffer.length : Int)

/-- The counter `returnedFragments`. -/
def MarkBuffers.returnedFragments (st : MarkBuffers) : Int := (st.fragmentBuffer.length : Int)

/-- The function `World::addMarkFragments` for the polygon `clipPoints` and the
bounding planes (`normals[i]`, `dists[i]`). The function does not read its
parameter `maxFragments`. -/
def addMarkFragments (clipPoints : List vec3) (planes : List Plane) (maxPoints : Int)
    (st : MarkBuffers) : MarkBuffers :=
  let out := chopByPlanes planes clipPoints
  -- completely clipped away?
  if out.length = 0 then st
  -- add this fragment to the returned list
  else if (out.length : Int) + st.returnedPoints > maxPoints then st
  else
    { pointBuffer := st.pointBuffer ++ out
      fragmentBuffer := st.fragmentBuffer ++
        [{ firstPoint := st.returnedPoints, numPoints := (out.length : Int) }] }

/-! ## `World::boxSurfaces_recursive` and `World::markFragments` -/

/-- The body of the loop "add the individual surfaces" of `boxSurfaces_recursive`
for the surface at position `si`, on the pair of `surfaces_` and `list`;
`decalId` is `decalDuplicateSurfaceId_`. Once `*listlength >= listsize` holds the
loop is left, and it holds from then on: the pass changes nothing. -/
def boxSurfacesAdd (env : Externals) (decalId : Int) (bounds : Bounds) (listsize : Nat)
    (dir : vec3) (st : List Surface × List Nat) (si : Nat) : List Surface × List Nat :=
  if st.2.length ≥ listsize then st
  else
    let surface := st.1.getD si default
    let material := env.materialAt surface.material
    let stamped : Surface := { surface with decalDuplicateId := decalId }
    let surface1 : Surface :=
      -- check if the surface has NOIMPACT or NOMARKS set
      if Int.land material.surfaceFlags (Int.lor env.SURF_NOIMPACT env.SURF_NOMARKS) ≠ 0 ∨
          Int.land material.contentFlags env.CONTENTS_FOG ≠ 0 then stamped
      -- extra check for surfaces to avoid list overflows
      else if surface.type = SurfaceType.Face then
        -- the face plane should go through the box
        let s := env.testBounds surface.cullinfo.plane bounds
        if s = 1 ∨ s = 2 then stamped
        -- don't add faces that make sharp angles with the projection direction
        else if vec3.dotProduct surface.cullinfo.plane.normal dir > -1 / 2 then stamped
        else surface
      else if surface.type ≠ SurfaceType.Patch ∧ surface.type ≠ SurfaceType.Mesh then stamped
      else surface
    -- check the viewCount because the surface may have already been added if it spans multiple leafs
    if surface1.decalDuplicateId ≠ decalId then (st.1.set si stamped, st.2 ++ [si])
    else (st.1.set si surface1, st.2)

/-- The function `World::boxSurfaces_recursive` from the node at position `node`,
on the pair of `surfaces_` and `list`, run to a nesting depth of at most `fuel`
nodes; `none` when a leaf has not been reached within that depth. -/
def boxSurfaces_recursive (env : Externals) (w : World) (bounds : Bounds) (listsize : Nat)
    (dir : vec3) : Nat → Nat → List Surface × List Nat → Option (List Surface × List Nat)
  | 0, _, _ => none
  | fuel + 1, node, st =>
    match w.nodes_.get? node with
    | none => none
    | some nd =>
      if nd.leaf then
        -- add the individual surfaces
        some ((List.range nd.nSurfaces.toNat).foldl
          (fun st1 i => boxSurfacesAdd env w.decalDuplicateSurfaceId_ bounds listsize dir st1
            (readLeafSurface w (nd.firstSurface + (i : Int))).toNat) st)
      else
        let s := env.testBounds nd.plane bounds
        if s = 1 then boxSurfaces_recursive env w bounds listsize dir fuel nd.children0 st
        else if s = 2 then boxSurfaces_recursive env w bounds listsize dir fuel nd.children1 st
        else
          match boxSurfaces_recursive env w bounds listsize dir fuel nd.children0 st with
          | none => none
          | some st1 => boxSurfaces_recursive env w bounds listsize dir fuel nd.children1 st1

/-- The constant `MARKER_OFFSET` of `markFragments`. -/
def MARKER_OFFSET : ℚ := 0

/-- The box `bounds` of `markFragments` around the polygon, its projection and
the points 20 units against the projection direction. -/
def markBounds (env : Externals) (numPoints : Nat) (points : List vec3) (projection : vec3) :
    Bounds :=
  let projectionDir := env.normal projection
  (List.range numPoints).foldl
    (fun bounds i =>
      let bounds := env.addPoint bounds (points.getD i default)
      let bounds := env.addPoint bounds (vec3.add (points.getD i default) projection)
      -- make sure we get all the leafs (also the one(s) in front of the hit surface)
      env.addPoint bounds (vec3.add (points.getD i default) (vec3.scale projectionDir (-20))))
    (env.setupForAddingPoints default)

/-- The bounding planes `normals[i]`, `dists[i]` of `markFragments` for the
polygon of `numPoints` points (already limited to `MAX_VERTS_ON_POLY`): one plane
per edge, then the near and the far clipping plane. -/
def markPlanes (env : Externals) (numPoints : Nat) (points : List vec3) (projection : vec3) :
    List Plane :=
  let projectionDir := env.normal projection
  (List.range numPoints).map
    (fun i =>
      let v1 := vec3.sub (points.getD ((i + 1) % numPoints) default) (points.getD i default)
      let v2 := vec3.sub (points.getD i default) (vec3.add (points.getD i default) projection)
      let normal := env.normalizeFast (vec3.crossProduct v1 v2)
      { normal := normal, distance := vec3.dotProduct normal (points.getD i default) }) ++
    -- add near and far clipping planes for projection
    [ { normal := projectionDir,
        distance := vec3.dotProduct projectionDir (points.getD 0 default) - 32 },
      { normal := env.invert projectionDir,
        distance := vec3.dotProduct (env.invert projectionDir) (points.getD 0 default) - 20 } ]

/-- The triangles of a patch that `markFragments` hands to `addMarkFragments`, in
the order of the loops over `m` and `n`: two triangles per grid cell, each only
when its normal passes the test against the projection direction. -/
def patchTriangles (env : Externals) (patch : Patch) (projectionDir : vec3) : List (List vec3) :=
  (List.range (patch.height - 1).toNat).flatMap (fun m =>
    (List.range (patch.width - 1).toNat).flatMap (fun n =>
      let dv : Nat → Vertex := fun k => patch.verts.getD (m * patch.width.toNat + n + k) default
      let at_ : Nat → vec3 := fun k => vec3.add (dv k).pos (vec3.scale (dv k).normal MARKER_OFFSET)
      let first := [at_ 0, at_ patch.width.toNat, at_ 1]
      let second := [at_ 1, at_ patch.width.toNat, at_ (patch.width.toNat + 1)]
      -- check the normal of this triangle
      let normal1 := env.normalizeFast (vec3.crossProduct
        (vec3.sub (at_ 0) (at_ patch.width.toNat)) (vec3.sub (at_ 1) (at_ patch.width.toNat)))
      let normal2 := env.normalizeFast (vec3.crossProduct
        (vec3.sub (at_ 1) (at_ patch.width.toNat))
        (vec3.sub (at_ (patch.width.toNat + 1)) (at_ patch.width.toNat)))
      (if vec3.dotProduct normal1 projectionDir < -1 / 10 then [first] else []) ++
      (if vec3.dotProduct normal2 projectionDir < -1 / 20 then [second] else [])))

/-- The triangle that the loop `for (k = 0; ...; k += 3)` builds in pass `t`
(`k = 3 * t`) from the indices of a surface; `offset` gives the direction of the
marker offset for a vertex. -/
def indexedTriangle (w : World) (surface : Surface) (offset : Vertex → vec3) (t : Nat) : List vec3 :=
  (List.range 3).map (fun j =>
    let v := (w.vertices_ surface.bufferIndex).getD (surface.indices.getD (3 * t + j) 0) default
    vec3.add v.pos (vec3.scale (offset v) MARKER_OFFSET))

/-- The triangles of a surface that `markFragments` hands to `addMarkFragments`,
in the order of the loops. -/
def surfaceTriangles (env : Externals) (w : World) (surface : Surface) (projectionDir : vec3) :
    List (List vec3) :=
  if surface.type = SurfaceType.Patch then
    match surface.patch with
    | none => []
    | some patch => patchTriangles env patch projectionDir
  else if surface.type = SurfaceType.Face then
    -- check the normal of this face
    if vec3.dotProduct surface.cullinfo.plane.normal projectionDir > -1 / 2 then []
    else
      (List.range ((surface.indices.length + 2) / 3)).map
        (indexedTriangle w surface (fun _ => surface.cullinfo.plane.normal))
  else if surface.type = SurfaceType.Mesh then
    (List.range ((surface.indices.length + 2) / 3)).map
      (indexedTriangle w surface (fun v => v.normal))
  else []

/-- The loop of `markFragments` over the triangles handed to `addMarkFragments`:
after each call the function returns when `returnedFragments == maxFragments`. -/
def markTriangles (planes : List Plane) (maxPoints maxFragments : Int) :
    List (List vec3) → MarkBuffers → MarkBuffers
  | [], st => st
  | clipPoints :: rest, st =>
    let st1 := addMarkFragments clipPoints planes maxPoints st
    -- not enough space for more fragments
    if st1.returnedFragments = maxFragments then st1
    else markTriangles planes maxPoints maxFragments rest st1

/-- The candidate surfaces of `markFragments`: `surfaces_` and the array
`surfaces` after the call of `boxSurfaces_recursive` with room for 64 surfaces,
for `numPoints > 0`. -/
def markSurfaces (env : Externals) (w : World) (fuel : Nat) (numPoints : Nat) (points : List vec3)
    (projection : vec3) : Option (List Surface × List Nat) :=
  let w1 : World := { w with decalDuplicateSurfaceId_ := w.decalDuplicateSurfaceId_ + 1 }
  boxSurfaces_recursive env w1 (markBounds env numPoints points projection) 64
    (env.normal projection) fuel 0 (w1.surfaces_, [])

/-- The triangles of all candidate surfaces, in the order of the loops of
`markFragments`. -/
def markTriangleList (env : Externals) (w : World) (found : List Surface × List Nat)
    (projection : vec3) : List (List vec3) :=
  found.2.flatMap (fun si => surfaceTriangles env w (found.1.getD si default) (env.normal projection))

/-- The function `World::markFragments`: the value returned and what was written
to the two buffers; `none` when the walk over the nodes has not ended within
`fuel` levels. -/
def markFragments (env : Externals) (w : World) (fuel : Nat) (numPoints : Int) (points : List vec3)
    (projection : vec3) (maxPoints maxFragments : Int) : Option (Int × MarkBuffers) :=
  if numPoints ≤ 0 then some (0, { pointBuffer := [], fragmentBuffer := [] })
  else
    match markSurfaces env w fuel numPoints.toNat points projection with
    | none => none
    | some found =>
      let st := markTriangles
        (markPlanes env (min numPoints.toNat MAX_VERTS_ON_POLY) points projection)
        maxPoints maxFragments (markTriangleList env w found projection)
        { pointBuffer := [], fragmentBuffer := [] }
      some (st.returnedFragments, st)

/-- The polygon to project in the examples: the square with corners (0, 0, 5),
(0, 8, 5), (8, 8, 5) and (8, 0, 5). -/
def decalPolygon : List vec3 :=
  [{ x := 0, y := 0, z := 5 }, { x := 0, y := 8, z := 5 }, { x := 8, y := 8, z := 5 },
    { x := 8, y := 0, z := 5 }]

/-- The projection in the examples: 10 units straight down. -/
def decalProjection : vec3 := { x := 0, y := 0, z := -10 }

/-- A world of one leaf with one face in the plane z = 0, facing up, whose
vertices are `corners` (three per triangle, in order), used as concrete input. -/
def decalWorld (corners : List vec3) : World :=
  let facePlane : Plane := { normal := { x := 0, y := 0, z := 1 }, distance := 0 }
  let face : Surface :=
    { (default : Surface) with
      type := SurfaceType.Face, material := 1, fogIndex := -1,
      indices := List.range corners.length, bufferIndex := 0, duplicateId := -1,
      decalDuplicateId := -1, firstVertex := 0, nVertices := corners.length,
      cullinfo := { (default : CullInfo) with plane := facePlane } }
  { emptyWorld with
    nodes_ := [{ (default : Node) with leaf := true, cluster := 0, firstSurface := 0, nSurfaces := 1 }]
    leafSurfaces_ := [0]
    vertices_ := fun i => if i = 0 then corners.map vertexAt else []
    surfaces_ := [face] }

/-- Two triangles in the plane z = 0 that lie inside the volume below
`decalPolygon`. -/
def insideCorners : List vec3 :=
  [{ x := 1, y := 1, z := 0 }, { x := 6, y := 1, z := 0 }, { x := 1, y := 6, z := 0 },
    { x := 6, y := 1, z := 0 }, { x := 6, y := 6, z := 0 }, { x := 1, y := 6, z := 0 }]

/-- A triangle in the plane z = 0 that reaches out of the volume below
`decalPolygon` (clipping leaves four points), followed by one that lies inside. -/
def crossingCorners : List vec3 :=
  [{ x := 1, y := 1, z := 0 }, { x := 12, y := 1, z := 0 }, { x := 1, y := 6, z := 0 },
    { x := 2, y := 2, z := 0 }, { x := 5, y := 2, z := 0 }, { x := 2, y := 5, z := 0 }]

/-- A triangle in the plane z = 0 that lies beside the volume below
`decalPolygon`, beyond the plane x = 8. -/
def outsideCorners : List vec3 :=
  [{ x := 20, y := 1, z := 0 }, { x := 30, y := 1, z := 0 }, { x := 20, y := 6, z := 0 }]

/-! ## The order of `World::surfaceCompare` -/

/-- The triple (material index, fog index, geometry-buffer index) that
`surfaceCompare` reads from a surface. -/
def Surface.sortKey (env : Externals) (s : Surface) : Int × Int × Nat :=
  ((env.materialAt s.material).index, s.fogIndex, s.bufferIndex)

/-- The order "lexicographically smaller" on triples, written out: the first
components decide, equal first components leave it to the second, and equal
second components to the third. Used to compare `surfaceCompare` with. -/
def tripleLexLess (a b : Int × Int × Nat) : Prop :=
  a.1 < b.1 ∨ (a.1 = b.1 ∧ (a.2.1 < b.2.1 ∨ (a.2.1 = b.2.1 ∧ a.2.2 < b.2.2)))

/-! ## `World::updateVisCache`: the state of the leaf scan -/

/-- The world after the store `surface.duplicateId = duplicateSurfaceId_` for the
surface at position `k` of `surfaces_`. -/
def World.stamped (w : World) (k : Nat) : World :=
  let surface := w.surfaceAt k
  { w with surfaces_ := w.surfaces_.set k { surface with duplicateId := w.duplicateSurfaceId_ } }

/-- The state the leaf scan keeps for the visible-surface list: no surface occurs
twice in it, and every surface in it carries the stamp of the current pass and
is not of kind Ignore or Flare. -/
def visibleListStamped (st : World × VisCache) : Prop :=
  st.2.surfaces.Nodup ∧
  ∀ k ∈ st.2.surfaces,
    (st.1.surfaceAt k).duplicateId = st.1.duplicateSurfaceId_ ∧
    (st.1.surfaceAt k).type ≠ SurfaceType.Ignore ∧ (st.1.surfaceAt k).type ≠ SurfaceType.Flare

/-- A surface that the visible-surface list is meant to hold: not of kind Ignore
or Flare, and with a material that is not a sky. -/
def Surface.listed (env : Externals) (s : Surface) : Prop :=
  s.type ≠ SurfaceType.Ignore ∧ s.type ≠ SurfaceType.Flare ∧ (env.materialAt s.material).isSky = false

/-- The state the leaf scan keeps relative to the world `w0` it started from: the
pass counter, the leaf-surface table, the number of surfaces, and the kind and
material of every surface are those of `w0`, and every surface that carries the
stamp of the current pass and is meant to be listed is in the visible-surface
list. -/
def scanFrame (env : Externals) (w0 : World) (st : World × VisCache) : Prop :=
  st.1.duplicateSurfaceId_ = w0.duplicateSurfaceId_ ∧
  st.1.leafSurfaces_ = w0.leafSurfaces_ ∧
  st.1.surfaces_.length = w0.surfaces_.length ∧
  (∀ k, (st.1.surfaceAt k).type = (w0.surfaceAt k).type ∧
    (st.1.surfaceAt k).material = (w0.surfaceAt k).material) ∧
  (∀ k, k < w0.surfaces_.length → (st.1.surfaceAt k).duplicateId = w0.duplicateSurfaceId_ →
    (w0.surfaceAt k).listed env → k ∈ st.2.surfaces)

/-- The leaf-surface entry `si` of the world `w0` is served: when it names a world
surface that is meant to be listed, the surface is in the visible-surface list. -/
def entryListed (env : Externals) (w0 : World) (si : Int) (st : World × VisCache) : Prop :=
  0 ≤ si → si < (w0.surfaces_.length : Int) → (w0.surfaceAt si.toNat).listed env →
    si.toNat ∈ st.2.surfaces

/-- Every surface carries a stamp below the pass counter: the state between two
updates, since a stamp is a copy of an earlier value of the counter (or the
initial -1) and the counter starts at 0 and is advanced after every update. -/
def World.stampsBelow (w : World) : Prop :=
  ∀ k, k < w.surfaces_.length → (w.surfaceAt k).duplicateId < w.duplicateSurfaceId_

/-- The cache after the block "Clear data that will be recalculated" of
`updateVisCache`. -/
def clearForRebuild (env : Externals) (vc : VisCache) : VisCache :=
  { vc with
    surfaces := []
    nSkies := 0
    skyMaterials := fun i => if i < VisCache.maxSkies then none else vc.skyMaterials i
    portalSurfaces := []
    reflectiveSurfaces := []
    bounds := env.setupForAddingPoints vc.bounds }

/-- The value of `areaMask[leaf.area >> 3] & (1 << (leaf.area & 7))`: not zero
when the area bit of the leaf is set in the mask. -/
def areaBit (areaMask : List Nat) (leaf : Node) : Nat :=
  readByte areaMask (leaf.area >>> 3) &&& (1 <<< (Int.land leaf.area 7).toNat)

/-- A world of two leaves in cluster 0, the first in area 0 with the first two
faces of `exampleWorld` and the second in area 1 with the third face; cluster 0
sees itself. Used as concrete input. -/
def doorWorld : World :=
  { exampleWorld with
    nodes_ :=
      [{ (default : Node) with leaf := true, cluster := 0, area := 0, firstSurface := 0, nSurfaces := 2 },
        { (default : Node) with leaf := true, cluster := 0, area := 1, firstSurface := 2, nSurfaces := 1 }]
    clusterBytes_ := 1
    visData_ := [1] }

/-! ## `R_ChopPolyBehindPlane`: the description of the clipping -/

/-- A polygon of `n` points that zigzags across the plane z = 0: the points with
an even number lie at z = 1 and the others at z = -1. Used as concrete input. -/
def zigzag (n : Nat) : List vec3 :=
  (List.range n).map (fun (i : Nat) => { x := (i : ℚ), y := 0, z := if i % 2 = 0 then 1 else -1 })

/-- The edge from point `i` of the polygon to the next point (the first point
follows the last) has its two ends on opposite sides of the plane: one in front
by more than `epsilon` and the other behind by more than `epsilon`. -/
def chopCrossing (inPoints : List vec3) (normal : vec3) (dist epsilon : ℚ) (i : Nat) : Prop :=
  (vec3.dotProduct (inPoints.getD i default) normal - dist > epsilon ∧
    vec3.dotProduct (inPoints.getD ((i + 1) % inPoints.length) default) normal - dist < -epsilon) ∨
  (vec3.dotProduct (inPoints.getD i default) normal - dist < -epsilon ∧
    vec3.dotProduct (inPoints.getD ((i + 1) % inPoints.length) default) normal - dist > epsilon)

instance (inPoints : List vec3) (normal : vec3) (dist epsilon : ℚ) (i : Nat) :
    Decidable (chopCrossing inPoints normal dist epsilon i) := by
  unfold chopCrossing
  infer_instance

/-- The number of edges of the polygon whose two ends are on opposite sides of
the plane. -/
def chopCrossings (inPoints : List vec3) (normal : vec3) (dist epsilon : ℚ) : Nat :=
  ((List.range inPoints.length).filter
    (fun i => decide (chopCrossing inPoints normal dist epsilon i))).length

/-- What the description of the clipping gives for point `i` of the polygon and
the edge from it to the next point: the point itself unless it is behind the
plane, followed by the linear interpolation `p1 + (d1 / (d1 - d2)) * (p2 - p1)`
when the two ends of the edge are on opposite sides of the plane. Written from
the description, to compare the code with. -/
def chopEdgeSpec (inPoints : List vec3) (normal : vec3) (dist epsilon : ℚ) (i : Nat) : List vec3 :=
  let p1 := inPoints.getD i default
  let p2 := inPoints.getD ((i + 1) % inPoints.length) default
  let d1 := vec3.dotProduct p1 normal - dist
  let d2 := vec3.dotProduct p2 normal - dist
  (if d1 < -epsilon then [] else [p1]) ++
    (if chopCrossing inPoints normal dist epsilon i then [chopSplit p1 p2 (d1 / (d1 - d2))]
      else [])

/-! ## Inputs for the CPU-deform batches of `World::updateVisCache` -/

/-- The externals of the examples, except that every material has a CPU deform. -/
def deformExternals : Externals :=
  { exampleExternals with
    materialAt := fun p =>
      { index := p, surfaceFlags := 0, isSky := false, isPortal := false,
        reflective := MaterialReflective.None, hasAutoSpriteDeform := true } }

/-- A world whose geometry buffer 0 holds six vertices, vertex `j` at (j, 0, 0).
Used as concrete input. -/
def deformWorld : World :=
  { emptyWorld with
    vertices_ := fun i =>
      if i = 0 then (List.range 6).map (fun (j : Nat) => vertexAt { x := (j : ℚ), y := 0, z := 0 })
      else [] }

/-- Two triangles of one material in geometry buffer 0, the first on the vertices
3 to 5 and the second on the vertices 0 to 2. Used as concrete input. -/
def deformSurfaces : List Surface :=
  [ { (default : Surface) with
        type := SurfaceType.Face, material := 7, fogIndex := -1, indices := [3, 5, 4],
        bufferIndex := 0, duplicateId := -1, firstVertex := 3, nVertices := 3 },
    { (default : Surface) with
        type := SurfaceType.Face, material := 7, fogIndex := -1, indices := [0, 2, 1],
        bufferIndex := 0, duplicateId := -1, firstVertex := 0, nVertices := 3 } ]

/-! ## `World::calculatePortalCamera` and `World::calculateReflectionCamera`: the camera -/

/-- The static function `MirroredPoint`. -/
def MirroredPoint (in_ : vec3) (surface camera : Transform) : vec3 :=
  let local_ := vec3.sub in_ surface.position
  let transformed := (List.range 3).foldl
    (fun transformed i =>
      vec3.add transformed
        (vec3.scale (camera.rotation.get i) (vec3.dotProduct local_ (surface.rotation.get i))))
    vec3.empty
  vec3.add transformed camera.position

/-- The static function `MirroredVector`. -/
def MirroredVector (in_ : vec3) (surface camera : Transform) : vec3 :=
  (List.range 3).foldl
    (fun transformed i =>
      vec3.add transformed
        (vec3.scale (camera.rotation.get i) (vec3.dotProduct in_ (surface.rotation.get i))))
    vec3.empty

/-- The rotation of `surfaceTransform` in both camera functions: the plane normal,
a perpendicular of it, and their cross product. -/
def surfaceFrame (env : Externals) (plane : Plane) : mat3 :=
  { row0 := plane.normal
    row1 := env.perpendicular plane.normal
    row2 := vec3.crossProduct plane.normal (env.perpendicular plane.normal) }

/-- The pair `surfaceTransform`, `cameraTransform` that `calculatePortalCamera`
builds for the first visible portal surface; `entity` is the object behind
`portal.entity`. -/
def portalTransforms (env : Externals) (portal : Portal) (entity : Entity) : Transform × Transform :=
  let rotation := surfaceFrame env portal.plane
  -- If the entity is just a mirror, don't use as a camera point.
  if portal.isMirror then
    let position := vec3.scale portal.plane.normal portal.plane.distance
    ({ position := position, rotation := rotation },
      { position := position,
        rotation := { row0 := vec3.neg rotation.row0, row1 := rotation.row1, row2 := rotation.row2 } })
  else
    -- Project the origin onto the surface plane to get an origin point we can rotate around.
    let d := vec3.dotProduct entity.position portal.plane.normal - portal.plane.distance
    let surfacePosition := vec3.add entity.position (vec3.scale rotation.row0 (-d))
    -- Now get the camera position and rotation.
    let row0 := vec3.neg entity.rotation.row0
    let row1 := vec3.neg entity.rotation.row1
    let row2 := entity.rotation.row2
    -- Optionally rotate.
    if entity.oldFrame ≠ 0 ∨ entity.skinNum ≠ 0 then
      let angle : ℚ :=
        if entity.oldFrame ≠ 0 then
          -- If a speed is specified.
          if entity.frame ≠ 0 then env.GetFloatTime * (entity.frame : ℚ)
          -- Bobbing rotate, with skinNum being the rotation offset.
          else (entity.skinNum : ℚ) + env.sin env.GetFloatTime * 4
        else (entity.skinNum : ℚ)
      let rotated1 := env.rotatedAroundDirection row1 row0 angle
      ({ position := surfacePosition, rotation := rotation },
        { position := entity.oldPosition,
          rotation := { row0 := row0, row1 := rotated1, row2 := vec3.crossProduct row0 rotated1 } })
    else
      ({ position := surfacePosition, rotation := rotation },
        { position := entity.oldPosition,
          rotation := { row0 := row0, row1 := row1, row2 := row2 } })

/-- The values that `calculatePortalCamera` writes through its pointers. -/
structure PortalCamera where
  pvsPosition : vec3
  portalCamera : Transform
  isMirror : Bool
  portalPlane : Plane
  deriving DecidableEq, Inhabited

/-- The part of `calculatePortalCamera` behind the choice of the first visible
portal surface: the values written for the portal `portal` with entity `entity`. -/
def portalCameraFor (env : Externals) (portal : Portal) (entity : Entity)
    (mainCameraPosition : vec3) (mainCameraRotation : mat3) : PortalCamera :=
  let transforms := portalTransforms env portal entity
  { pvsPosition := entity.oldPosition
    portalCamera :=
      { position := MirroredPoint mainCameraPosition transforms.1 transforms.2
        rotation :=
          { row0 := MirroredVector mainCameraRotation.row0 transforms.1 transforms.2
            row1 := MirroredVector mainCameraRotation.row1 transforms.1 transforms.2
            row2 := MirroredVector mainCameraRotation.row2 transforms.1 transforms.2 } }
    isMirror := portal.isMirror
    portalPlane :=
      { normal := vec3.neg transforms.2.rotation.row0
        distance := vec3.dotProduct transforms.2.position (vec3.neg transforms.2.rotation.row0) } }

/-- The function `World::calculatePortalCamera`: `none` for the return value
`false`, otherwise the values written for the first visible portal surface. -/
def calculatePortalCamera (env : Externals) (w : World) (vc : VisCache) (mainCameraPosition : vec3)
    (mainCameraRotation : mat3) (mvp : mat4) (entities : List Entity) : Option PortalCamera :=
  match cameraPortalSurfaces env w vc mainCameraPosition mvp entities with
  | [] => none
  | portal :: _ =>
    some (portalCameraFor env portal (entities.getD portal.entity default) mainCameraPosition
      mainCameraRotation)

/-- The struct `VisCache::Reflective`; `surface` is a position in `surfaces_`. -/
structure Reflective where
  surface : Nat
  plane : Plane
  deriving DecidableEq, Inhabited

/-- The body of the loop over `visCache->reflectiveSurfaces` in
`calculateReflectionCamera` for the surface at position `si`. -/
def cameraReflectiveSurface (env : Externals) (w : World) (mainCameraPosition : vec3) (mvp : mat4)
    (si : Nat) : Option Reflective :=
  let surface := w.surfaceAt si
  -- Trivially reject.
  if env.IsGeometryOffscreen mvp surface.indices (w.vertices_ surface.bufferIndex) then none
  -- Determine if this surface is backfaced.
  else if (env.IsGeometryBackfacing mainCameraPosition surface.indices
      (w.vertices_ surface.bufferIndex)).1 then none
  else some { surface := si, plane := surfacePlane env w surface }

/-- The list `visCache->cameraReflectiveSurfaces` after the loop over the
reflective surfaces of `calculateReflectionCamera`. -/
def cameraReflectiveSurfaces (env : Externals) (w : World) (vc : VisCache)
    (mainCameraPosition : vec3) (mvp : mat4) : List Reflective :=
  vc.reflectiveSurfaces.filterMap (cameraReflectiveSurface env w mainCameraPosition mvp)

/-- The part of `calculateReflectionCamera` behind the choice of the first visible
reflective surface: the camera and the clip plane written for the plane of that
surface. -/
def reflectionCameraFor (env : Externals) (plane : Plane) (mainCameraPosition : vec3)
    (mainCameraRotation : mat3) : Transform × Plane :=
  let rotation := surfaceFrame env plane
  let position := vec3.scale plane.normal plane.distance
  let surfaceTransform : Transform := { position := position, rotation := rotation }
  let cameraTransform : Transform :=
    { position := position,
      rotation := { row0 := vec3.neg rotation.row0, row1 := rotation.row1, row2 := rotation.row2 } }
  ({ position := MirroredPoint mainCameraPosition surfaceTransform cameraTransform
     rotation :=
       { row0 := MirroredVector mainCameraRotation.row0 surfaceTransform cameraTransform
         row1 := MirroredVector mainCameraRotation.row1 surfaceTransform cameraTransform
         row2 := MirroredVector mainCameraRotation.row2 surfaceTransform cameraTransform } },
    { normal := vec3.neg cameraTransform.rotation.row0
      distance := vec3.dotProduct cameraTransform.position (vec3.neg cameraTransform.rotation.row0) })

/-- The function `World::calculateReflectionCamera`: `none` for the return value
`false`, otherwise the camera and the plane written. -/
def calculateReflectionCamera (env : Externals) (w : World) (vc : VisCache)
    (mainCameraPosition : vec3) (mainCameraRotation : mat3) (mvp : mat4) :
    Option (Transform × Plane) :=
  match cameraReflectiveSurfaces env w vc mainCameraPosition mvp with
  | [] => none
  | reflective :: _ =>
    some (reflectionCameraFor env reflective.plane mainCameraPosition mainCameraRotation)

/-- The reflection `p - 2 (n . p - d) n` of a point across the plane `(n, d)`. -/
def reflectPoint (plane : Plane) (p : vec3) : vec3 :=
  vec3.sub p (vec3.scale plane.normal (2 * (vec3.dotProduct plane.normal p - plane.distance)))

/-- The reflection `a - 2 (n . a) n` of a direction for the plane normal `n`. -/
def reflectVector (normal a : vec3) : vec3 :=
  vec3.sub a (vec3.scale normal (2 * vec3.dotProduct normal a))

/-- A world with one surface, a triangle in the plane x = 2 with corners
(2, 0, 0), (2, 1, 0) and (2, 0, 1), used as concrete input; the surface plane has
normal (-1, 0, 0) and distance -2. -/
def mirrorWorld : World :=
  { emptyWorld with
    vertices_ := fun i =>
      if i = 0 then
        [vertexAt { x := 2, y := 0, z := 0 }, vertexAt { x := 2, y := 1, z := 0 },
          vertexAt { x := 2, y := 0, z := 1 }]
      else []
    surfaces_ :=
      [ { (default : Surface) with
            type := SurfaceType.Face, material := 1, fogIndex := -1, indices := [0, 1, 2],
            bufferIndex := 0, duplicateId := -1, firstVertex := 0, nVertices := 3 } ] }

/-- A cache whose portal-surface list and reflective-surface list both hold the
one surface of `mirrorWorld`. -/
def mirrorVisCache : VisCache :=
  { emptyVisCache with portalSurfaces := [0], reflectiveSurfaces := [0] }

/-- One portal entity that is a mirror (its position equals its old position),
on the plane x = 2. Used as concrete input. -/
def mirrorEntities : List Entity :=
  [ { type := EntityType.Portal, position := { x := 2, y := 2, z := 3 },
      oldPosition := { x := 2, y := 2, z := 3 } } ]

/-- A main camera rotation with the coordinate axes as rows, used as concrete input. -/
def axisRotation : mat3 :=
  { row0 := { x := 1, y := 0, z := 0 }, row1 := { x := 0, y := 1, z := 0 },
    row2 := { x := 0, y := 0, z := 1 } }

/-! ## `World::boxSurfaces_recursive`: what may be listed -/

/-- What the description of the box-surfaces query asks of a listed surface: its
material has neither the no-impact nor the no-marks flag nor fog contents, its
kind is Face, Mesh or Patch, and a Face has a cull plane that crosses the box
(`testBounds` gives neither 1 nor 2) and a normal whose dot product with the
direction is at most -0.5. Written from the description, to compare the code
with. -/
def decalCandidate (env : Externals) (bounds : Bounds) (dir : vec3) (s : Surface) : Prop :=
  Int.land (env.materialAt s.material).surfaceFlags (Int.lor env.SURF_NOIMPACT env.SURF_NOMARKS) = 0 ∧
  Int.land (env.materialAt s.material).contentFlags env.CONTENTS_FOG = 0 ∧
  (s.type = SurfaceType.Face ∨ s.type = SurfaceType.Mesh ∨ s.type = SurfaceType.Patch) ∧
  (s.type = SurfaceType.Face →
    env.testBounds s.cullinfo.plane bounds ≠ 1 ∧ env.testBounds s.cullinfo.plane bounds ≠ 2 ∧
    vec3.dotProduct s.cullinfo.plane.normal dir ≤ -1 / 2)

instance (env : Externals) (bounds : Bounds) (dir : vec3) (s : Surface) :
    Decidable (decalCandidate env bounds dir s) := by
  unfold decalCandidate
  infer_instance

/-- The state of the box-surfaces query agrees with the surface table `orig` but
for the decal stamps, the list holds no surface twice, and every listed surface
is inside the table, carries the stamp `decalId` and is a candidate. -/
def boxFrame (env : Externals) (decalId : Int) (bounds : Bounds) (dir : vec3)
    (orig : List Surface) (st : List Surface × List Nat) : Prop :=
  st.1.length = orig.length ∧
  (∀ k, { st.1.getD k default with decalDuplicateId := 0 } =
    { orig.getD k default with decalDuplicateId := 0 }) ∧
  st.2.Nodup ∧
  ∀ si ∈ st.2, si < orig.length ∧ (st.1.getD si default).decalDuplicateId = decalId ∧
    decalCandidate env bounds dir (orig.getD si default)

/-- A world whose root splits at the plane x = 4 into two leaves. Surface 0 is a
face in the plane z = 0 facing up that both leaves name, surface 1 a flare,
surface 2 a mesh and surface 3 a face in the plane x = 4 facing sideways. No
surface carries the decal stamp 0 of the pass. Used as concrete input. -/
def boxWorld : World :=
  let up : CullInfo :=
    { (default : CullInfo) with plane := { normal := { x := 0, y := 0, z := 1 }, distance := 0 } }
  let sideways : CullInfo :=
    { (default : CullInfo) with plane := { normal := { x := 1, y := 0, z := 0 }, distance := 4 } }
  let blank : Surface :=
    { (default : Surface) with material := 1, fogIndex := -1, duplicateId := -1, decalDuplicateId := -1 }
  { emptyWorld with
    nodes_ :=
      [ { (default : Node) with
            leaf := false, plane := { normal := { x := 1, y := 0, z := 0 }, distance := 4 },
            children0 := 1, children1 := 2 },
        { (default : Node) with leaf := true, cluster := 0, firstSurface := 0, nSurfaces := 2 },
        { (default : Node) with leaf := true, cluster := 0, firstSurface := 2, nSurfaces := 3 } ]
    firstLeaf_ := 1
    leafSurfaces_ := [0, 1, 0, 2, 3]
    surfaces_ :=
      [ { blank with type := SurfaceType.Face, cullinfo := up },
        { blank with type := SurfaceType.Flare },
        { blank with type := SurfaceType.Mesh },
        { blank with type := SurfaceType.Face, cullinfo := sideways } ] }

/-- The box from (0, 0, -5) to (8, 8, 5), used as concrete input. -/
def boxBounds : Bounds :=
  { min := { x := 0, y := 0, z := -5 }, max := { x := 8, y := 8, z := 5 } }

/-! ## `World::sampleLightGrid`: the samples read -/

/-- The step along axis `j` that neighbour `i` of `sampleLightGrid` takes from the
cell: 1 when bit `j` of `i` is set, otherwise 0. -/
def lightGridNeighbourDelta (i j : Nat) : Int :=
  if Nat.land i (1 <<< j) ≠ 0 then 1 else 0

/-! ## Inputs for the reads of the leaf scan and of the box-surfaces query -/

/-- A world of two leaves: the camera leaf in cluster 0 and area 0, and a leaf
with cluster -1 and area -1, as the leaves inside solid geometry have; one byte
per PVS row. Used as concrete input. -/
def solidLeafWorld : World :=
  { exampleWorld with
    nodes_ :=
      [{ (default : Node) with leaf := true, cluster := 0, area := 0, firstSurface := 0, nSurfaces := 2 },
        { (default : Node) with leaf := true, cluster := -1, area := -1, firstSurface := 2, nSurfaces := 1 }]
    clusterBytes_ := 1
    visData_ := [1] }

/-- The example world, but the third leaf-surface entry is 5 although the world
has three surfaces. Used as concrete input. -/
def strayWorld : World := { exampleWorld with leafSurfaces_ := [0, 1, 5] }

/-! ## `World::loadFromBspFile`: the lightmap atlases -/

/-- The value `(int)ceil(sqrtf((float)nLightmaps))`: the least integer whose
square is at least `nLightmaps`. The conversion to `float` and `sqrtf` give
exactly this for fewer than 2^24 lightmaps; the lump, whose length is an `int`,
holds fewer than 2^16. -/
def ceilSqrt (nLightmaps : Nat) : Int :=
  if Nat.sqrt nLightmaps * Nat.sqrt nLightmaps = nLightmaps then (Nat.sqrt nLightmaps : Int)
  else (Nat.sqrt nLightmaps : Int) + 1

/-- The loop `while (lightmapAtlasSize_ < sr) lightmapAtlasSize_ *= 2`, run for at
most `fuel` tests; `none` when the loop has not ended by then. -/
def atlasSizeLoop (sr : Int) : Nat → Int → Option Int
  | 0, _ => none
  | fuel + 1, lightmapAtlasSize =>
    if lightmapAtlasSize < sr then atlasSizeLoop sr fuel (lightmapAtlasSize * 2)
    else some lightmapAtlasSize

/-- The start of the block "Lightmaps" of `World::loadFromBspFile` for `nLightmaps` > 0: the
atlas size, the number of lightmaps per atlas and the number of atlases. The
texture of atlas `i` is given the handle `i`. The `float` quotient
`nLightmaps / (float)nLightmapsPerAtlas_` is taken exactly. -/
def loadLightmapAtlasSize (w : World) (fuel : Nat) (nLightmaps : Nat) : Option World :=
  -- Calculate the smallest square POT atlas size.
  let sr := ceilSqrt nLightmaps
  match atlasSizeLoop sr fuel 1 with
  | none => none
  | some size =>
    let lightmapAtlasSize := min 1024 (size * w.lightmapSize_)
    let nLightmapsPerAtlas := (Int.tdiv lightmapAtlasSize w.lightmapSize_) ^ 2
    let nAtlases := (⌈(nLightmaps : ℚ) / (nLightmapsPerAtlas : ℚ)⌉).toNat
    some { w with
      lightmapAtlasSize_ := lightmapAtlasSize
      nLightmapsPerAtlas_ := nLightmapsPerAtlas
      lightmapAtlases_ := List.range nAtlases }

/-- One lightmap copied into an atlas: the number of the lightmap in the lump
(`lightmapIndex`), the atlas (`i`), and the tile `lightmapX`, `lightmapY`. -/
structure AtlasTile where
  lightmapIndex : Nat
  atlas : Nat
  lightmapX : Int
  lightmapY : Int
  deriving DecidableEq, Inhabited

/-- The loop `for (;;)` that packs lightmaps into atlas `i`, run for at most
`fuel` lightmaps: the value of `lightmapIndex` when the loop is left by `break`,
and the tiles written so far. The loops over `x` and `y` copy the texels of the
lightmap to the tile. -/
def packAtlasLoop (w : World) (nLightmaps : Nat) (i : Nat) :
    Nat → Int → Nat → List AtlasTile → Option (Nat × List AtlasTile)
  | 0, _, _, _ => none
  | fuel + 1, nAtlasedLightmaps, lightmapIndex, tiles =>
    let nLightmapsPerDimension := Int.tdiv w.lightmapAtlasSize_ w.lightmapSize_
    let lightmapX := Int.tmod (Int.tmod nAtlasedLightmaps w.nLightmapsPerAtlas_) nLightmapsPerDimension
    let lightmapY := Int.tdiv (Int.tmod nAtlasedLightmaps w.nLightmapsPerAtlas_) nLightmapsPerDimension
    let tiles1 := tiles ++
      [{ lightmapIndex := lightmapIndex, atlas := i, lightmapX := lightmapX, lightmapY := lightmapY }]
    if nAtlasedLightmaps + 1 ≥ w.nLightmapsPerAtlas_ ∨ lightmapIndex + 1 ≥ nLightmaps then
      some (lightmapIndex + 1, tiles1)
    else packAtlasLoop w nLightmaps i fuel (nAtlasedLightmaps + 1) (lightmapIndex + 1) tiles1

/-- The loop "Pack lightmaps into atlas(es)" over the atlases: the tiles written,
in order. -/
def packLightmaps (w : World) (fuel : Nat) (nLightmaps : Nat) : Option (List AtlasTile) :=
  ((List.range w.lightmapAtlases_.length).foldl
    (fun (st : Option (Nat × List AtlasTile)) (i : Nat) =>
      st.bind (fun s => packAtlasLoop w nLightmaps i fuel 0 s.1 s.2))
    (some (0, []))).map (fun s => s.2)

/-- The texel column of the atlas that the loader writes for column `x` of the
tile, `lightmapX * lightmapSize_ + x`, and the texel row for row `y`. The byte
written is `destOffset = (column + row * lightmapAtlasSize_) * 4`. -/
def atlasTexel (w : World) (tile : AtlasTile) (x y : Int) : Int × Int :=
  (tile.lightmapX * w.lightmapSize_ + x, tile.lightmapY * w.lightmapSize_ + y)

/-- The lightmap index that `World::findMaterial` hands to the material cache:
the number of the atlas for a lightmap index above 0. -/
def findMaterialLightmapIndex (w : World) (lightmapIndex : Int) : Int :=
  if lightmapIndex > 0 then Int.tdiv lightmapIndex w.nLightmapsPerAtlas_ else lightmapIndex

/-- Where the description of the packing puts lightmap `L`: atlas
`L div lightmapsPerAtlas`, column `(L mod lightmapsPerAtlas) mod tilesPerDimension`
and row `(L mod lightmapsPerAtlas) div tilesPerDimension`. Written from the
description, to compare the code with. -/
def atlasTileOf (lightmapsPerAtlas tilesPerDimension : Nat) (L : Nat) : AtlasTile :=
  { lightmapIndex := L
    atlas := L / lightmapsPerAtlas
    lightmapX := ((L % lightmapsPerAtlas % tilesPerDimension : Nat) : Int)
    lightmapY := ((L % lightmapsPerAtlas / tilesPerDimension : Nat) : Int) }

/-! ## `MaterialCache::generateHash` -/

/-- The C library function `tolower` in the "C" locale, on the code of a
character: the capital letters 'A' (65) to 'Z' (90) are moved to the small
letters, every other code is returned as it is. -/
def tolower (c : Int) : Int := if 65 ≤ c ∧ c ≤ 90 then c + 32 else c

/-- The loop of `MaterialCache::generateHash` over the characters of `fname` from
position `i` on; the list holds the codes of the characters before the
terminating zero. `hash` is a `size_t` of 64 bits, and `PATH_SEP` is the path
separator of the platform, defined outside the renderer. -/
def generateHashLoop (PATH_SEP : Int) : List Int → Int → Nat → Nat
  | [], _, hash => hash
  | c :: rest, i, hash =>
    let letter := tolower c
    -- don't include extension
    if letter = 46 then hash
    else
      -- damn path names
      let letter1 := if letter = 92 then 47 else letter
      let letter2 := if letter1 = PATH_SEP then 47 else letter1
      generateHashLoop PATH_SEP rest (i + 1)
        (((hash : Int) + letter2 * (i + 119)) % 2 ^ 64).toNat

/-- The function `MaterialCache::generateHash`. -/
def generateHash (PATH_SEP : Int) (fname : List Int) (size : Nat) : Nat :=
  let hash := generateHashLoop PATH_SEP fname 0 0
  let hash1 := hash ^^^ (hash >>> 10) ^^^ (hash >>> 20)
  hash1 &&& ((size + 2 ^ 64 - 1) % 2 ^ 64)

/-- What the hash reads of a name: the characters before the first '.', in small
letters, with '/' for a backslash and for the path separator. Written from the
description, to compare the code with. -/
def hashKey (PATH_SEP : Int) (fname : List Int) : List Int :=
  ((fname.map tolower).takeWhile (fun l => decide (l ≠ 46))).map
    (fun l => if (if l = 92 then 47 else l) = PATH_SEP then 47 else (if l = 92 then 47 else l))

/-- The codes of the characters of a string, used in examples. -/
def charCodes (s : String) : List Int := s.toList.map (fun c => (c.toNat : Int))

/-! ## `WorldModel::addSurface` and `WorldModel::batchSurfaces` -/

/-- The struct `WorldModel::TempSurface`; `material` is `none` for `nullptr`.
Only `material` has a member initialiser. -/
structure TempSurface where
  material : Option MaterialPtr
  firstVertex : Nat
  nVertices : Nat
  firstIndex : Nat
  nIndices : Nat
  batched : Bool
  deriving DecidableEq, Inhabited

/-- The struct `WorldModel::Surface`. -/
structure WorldModel.Surface where
  material : MaterialPtr
  firstIndex : Nat
  nIndices : Nat
  deriving DecidableEq, Inhabited

/-- The data members of `WorldModel` that `addSurface` and `batchSurfaces` use;
`vertices` and `indices` are the contents handed to the vertex buffer and to the
index buffer. -/
structure WorldModel where
  surfaces_ : List WorldModel.Surface
  nVertices_ : Nat
  tempSurfaces_ : List TempSurface
  tempVertices_ : List Vertex
  tempIndices_ : List Nat
  vertices : List Vertex
  indices : List Nat
  deriving DecidableEq, Inhabited

/-- The constructor of `WorldModel` for a model of `nSurfaces` surfaces: the
vector `tempSurfaces_(nSurfaces)` holds value-initialised temp surfaces, with
`material` equal to `nullptr` and the other members zero. -/
def WorldModel.create (nSurfaces : Nat) : WorldModel :=
  { surfaces_ := []
    nVertices_ := 0
    tempSurfaces_ := List.replicate nSurfaces
      { material := none, firstVertex := 0, nVertices := 0, firstIndex := 0, nIndices := 0,
        batched := false }
    tempVertices_ := []
    tempIndices_ := []
    vertices := []
    indices := [] }

/-- The function `WorldModel::addSurface`; `vertices` and `indices` are the
`nVertices` vertices and `nIndices` indices passed. -/
def WorldModel.addSurface (m : WorldModel) (index : Nat) (material : MaterialPtr)
    (vertices : List Vertex) (indices : List Nat) (lightmapIndex nLightmapTilesPerDimension : Int) :
    WorldModel :=
  -- Create a temp surface.
  let ts : TempSurface :=
    { material := some material
      firstVertex := m.tempVertices_.length % 2 ^ 32
      nVertices := vertices.length % 2 ^ 32
      firstIndex := m.tempIndices_.length % 2 ^ 32
      nIndices := indices.length % 2 ^ 32
      batched := false }
  -- Append the geometry.
  { m with
    tempSurfaces_ := m.tempSurfaces_.set index ts
    tempVertices_ := m.tempVertices_ ++ vertices.map (fun v =>
      if lightmapIndex ≥ 0 then
        { v with texCoord2 := AtlasTexCoord v.texCoord2 lightmapIndex nLightmapTilesPerDimension }
      else v)
    tempIndices_ := m.tempIndices_ ++ indices }

/-- The local state of `batchSurfaces`: the batched surfaces, what has been
written to `vertices` and `indices`, and the two counters. -/
structure BatchState where
  surfaces : List WorldModel.Surface
  vertices : List Vertex
  indices : List Nat
  currentVertex : Nat
  currentIndex : Nat
  deriving DecidableEq, Inhabited

/-- The body of the loop "Batch all temp surfaces with this material" for one
temp surface; `k` is the position in `surfaces_` that `surface` points at. The
writes to `vertices` and `indices` go to the positions `currentVertex` and
`currentIndex` on, which follow what was written before. -/
def batchTempSurface (m : WorldModel) (material : MaterialPtr) (k : Nat) (st : BatchState)
    (ts : TempSurface) : BatchState × TempSurface :=
  if ts.material ≠ some material then (st, ts)
  else
    let surface := st.surfaces.getD k default
    ({ surfaces := st.surfaces.set k
          { surface with nIndices := (surface.nIndices + ts.nIndices) % 2 ^ 32 }
       vertices := st.vertices ++ (m.tempVertices_.drop ts.firstVertex).take ts.nVertices
       -- Make indices absolute.
       indices := st.indices ++
         ((m.tempIndices_.drop ts.firstIndex).take ts.nIndices).map
           (fun (x : Nat) => (st.currentVertex + x) % 2 ^ 16)
       currentVertex := (st.currentVertex + ts.nVertices) % 2 ^ 32
       currentIndex := (st.currentIndex + ts.nIndices) % 2 ^ 32 },
      { ts with batched := true })

/-- The loop "Batch all temp surfaces with this material" over the temp surfaces. -/
def batchMaterial (m : WorldModel) (material : MaterialPtr) (k : Nat) :
    BatchState → List TempSurface → BatchState × List TempSurface
  | st, [] => (st, [])
  | st, ts :: rest =>
    let r := batchTempSurface m material k st ts
    let r2 := batchMaterial m material k r.1 rest
    (r2.1, r.2 :: r2.2)

/-- The loop `for (;;)` of `batchSurfaces`, run for at most `fuel` materials;
`none` when the loop has not ended by then. -/
def batchLoop (m : WorldModel) : Nat → BatchState → List TempSurface →
    Option (BatchState × List TempSurface)
  | 0, _, _ => none
  | fuel + 1, st, temps =>
    -- Get the material from the first temp surface that hasn't been batched.
    match (temps.find? (fun ts => ts.material.isSome && !ts.batched)).bind
        (fun ts => ts.material) with
    -- Stop when all temp surfaces are batched.
    | none => some (st, temps)
    | some material =>
      -- Find a batched surface with the same material.
      match st.surfaces.findIdx? (fun s => decide (s.material = material)) with
      | some k =>
        let r := batchMaterial m material k st temps
        batchLoop m fuel r.1 r.2
      -- If not found, create one.
      | none =>
        let s : WorldModel.Surface :=
          { material := material, firstIndex := st.currentIndex, nIndices := 0 }
        let r := batchMaterial m material st.surfaces.length
          { st with surfaces := st.surfaces ++ [s] } temps
        batchLoop m fuel r.1 r.2

/-- The function `WorldModel::batchSurfaces`. -/
def WorldModel.batchSurfaces (fuel : Nat) (m : WorldModel) : Option WorldModel :=
  if m.tempVertices_.isEmpty ∨ m.tempIndices_.isEmpty then some m
  else
    match batchLoop m fuel
        { surfaces := m.surfaces_, vertices := [], indices := [], currentVertex := 0,
          currentIndex := 0 } m.tempSurfaces_ with
    | none => none
    | some r =>
      some { m with
        surfaces_ := r.1.surfaces
        vertices := r.1.vertices
        indices := r.1.indices
        nVertices_ := m.tempVertices_.length % 2 ^ 32
        -- Clear temp state.
        tempSurfaces_ := []
        tempVertices_ := []
        tempIndices_ := [] }

/-- A sub-model of four surfaces, built by `addSurface`: surfaces 0 and 2 have
material 7 (3 and 6 indices) and surface 3 has material 9 (3 indices); surface 1
is not added. Used as concrete input. -/
def exampleModel : WorldModel :=
  (((WorldModel.create 4).addSurface 0 7 (blankVertices 3) [0, 1, 2] (-1) 1).addSurface 2 7
    (blankVertices 4) [0, 1, 2, 0, 2, 3] (-1) 1).addSurface 3 9 (blankVertices 3) [0, 1, 2] (-1) 1

/-- The sum of `nIndices` over the temp surfaces with the material `material`. -/
def tempIndexSum (temps : List TempSurface) (material : MaterialPtr) : Nat :=
  ((temps.filter (fun ts => decide (ts.material = some material))).map (fun ts => ts.nIndices)).sum

/-- The sum of `nIndices` over the temp surfaces that have a material and are not
batched. -/
def pendingIndexSum (temps : List TempSurface) : Nat :=
  ((temps.filter (fun ts => ts.material.isSome && !ts.batched)).map (fun ts => ts.nIndices)).sum

/-- The temp surfaces with every surface of the material `material` marked as
batched. -/
def markBatched (material : MaterialPtr) (temps : List TempSurface) : List TempSurface :=
  temps.map (fun ts => if ts.material = some material then { ts with batched := true } else ts)

/-- The index ranges of the batched surfaces follow one another from `start` on:
each surface starts where the one before it ends. -/
def indexRangesFrom : List WorldModel.Surface → Nat → Prop
  | [], _ => True
  | s :: rest, start => s.firstIndex = start ∧ indexRangesFrom rest (start + s.nIndices)

/-- The state that the loop of `batchSurfaces` keeps, for the temp surfaces
`temps0` at the start: the temp surfaces differ from `temps0` in `batched` only;
a temp surface with a material is batched exactly when a batched surface has its
material; no two batched surfaces share a material, each has the material of a
temp surface and holds the indices of all temp surfaces with its material; the
ranges follow one another from 0 to `currentIndex`; and `currentIndex` plus the
indices still to batch is the total. -/
def batchFrame (temps0 : List TempSurface) (total : Nat) (st : BatchState)
    (temps : List TempSurface) : Prop :=
  temps.map (fun ts => { ts with batched := false }) =
    temps0.map (fun ts => { ts with batched := false }) ∧
  (∀ ts ∈ temps, ∀ material, ts.material = some material →
    (ts.batched = true ↔ material ∈ st.surfaces.map (fun s => s.material))) ∧
  (st.surfaces.map (fun s => s.material)).Nodup ∧
  (∀ s ∈ st.surfaces, (∃ ts ∈ temps0, ts.material = some s.material) ∧
    s.nIndices = tempIndexSum temps0 s.material) ∧
  indexRangesFrom st.surfaces 0 ∧
  st.currentIndex = (st.surfaces.map (fun s => s.nIndices)).sum ∧
  st.currentIndex + pendingIndexSum temps = total

/-- The number of temp surfaces that have a material and are not batched. -/
def pendingCount (temps : List TempSurface) : Nat :=
  (temps.filter (fun ts => ts.material.isSome && !ts.batched)).length

/-! ## Polygons that cross a plane at most twice -/

/-- The pairs of neighbouring entries of a list that is closed by `first`: each
entry with the one after it, and the last entry with `first`. -/
def edgesFrom {α : Type} (first : α) : List α → List (α × α)
  | [] => []
  | [x] => [(x, first)]
  | x :: y :: rest => (x, y) :: edgesFrom first (y :: rest)

/-- The edges of a polygon: each point with the next one, the first point
following the last. -/
def cyclicEdges {α : Type} : List α → List (α × α)
  | [] => []
  | x :: rest => edgesFrom x (x :: rest)

/-- The number of places where two neighbouring entries of a list differ. -/
def changes : List Bool → Nat
  | [] => 0
  | [_] => 0
  | a :: b :: rest => (if a = b then 0 else 1) + changes (b :: rest)

/-- The number of places where the entries change, going once round the list
(the first entry follows the last). -/
def cyclicChanges (sides : List Bool) : Nat :=
  (cyclicEdges sides).countP (fun e => e.1 != e.2)

/-- Going once round the polygon, the points pass between the two sides of a
plane at most twice, whatever the plane: for every normal and every distance `t`
the points farther than `t` along the normal form one run of the polygon. This
is the property of a convex polygon that the bound "two more vertexes than in"
of `R_ChopPolyBehindPlane` rests on. -/
def crossesAtMostTwice (points : List vec3) : Prop :=
  ∀ (normal : vec3) (t : ℚ),
    cyclicChanges (points.map (fun p => decide (vec3.dotProduct p normal > t))) ≤ 2

/-- The edge `e` has its two ends on opposite sides of the plane: one in front
by more than `epsilon` and the other behind by more than `epsilon`. -/
def chopEdgeCrosses (normal : vec3) (dist epsilon : ℚ) (e : vec3 × vec3) : Prop :=
  (vec3.dotProduct e.1 normal - dist > epsilon ∧ vec3.dotProduct e.2 normal - dist < -epsilon) ∨
  (vec3.dotProduct e.1 normal - dist < -epsilon ∧ vec3.dotProduct e.2 normal - dist > epsilon)

instance (normal : vec3) (dist epsilon : ℚ) (e : vec3 × vec3) :
    Decidable (chopEdgeCrosses normal dist epsilon e) := by
  unfold chopEdgeCrosses
  infer_instance

/-- What the description of the clipping gives for the edge `e`, as
`chopEdgeSpec` does for the edge that starts at a position. -/
def chopEdgePoints (normal : vec3) (dist epsilon : ℚ) (e : vec3 × vec3) : List vec3 :=
  let d1 := vec3.dotProduct e.1 normal - dist
  let d2 := vec3.dotProduct e.2 normal - dist
  (if d1 < -epsilon then [] else [e.1]) ++
    (if chopEdgeCrosses normal dist epsilon e then [chopSplit e.1 e.2 (d1 / (d1 - d2))] else [])

end renderer

namespace renderer

/-! ## Theorems: `World::overbrightenColor` -/

/-- The result of `setSurfaceGeometry` when the vertices fit in the current buffer. -/
theorem setSurfaceGeometry_fits (w : World) (surface : Surface) (vertices : List Vertex)
    (indices : List Nat) (lightmapIndex : Int)
    (h : (w.vertices_ w.currentGeometryBuffer_).length + vertices.length < UINT16_MAX) :
    setSurfaceGeometry w surface vertices indices lightmapIndex =
      .ok ({ w with
              vertices_ := fun i => if i = w.currentGeometryBuffer_
                then w.vertices_ w.currentGeometryBuffer_ ++ vertices.map (atlasVertex w lightmapIndex)
                else w.vertices_ i },
           { surface with
              bufferIndex := w.currentGeometryBuffer_
              firstVertex := (w.vertices_ w.currentGeometryBuffer_).length % 2 ^ 32
              nVertices := vertices.length % 2 ^ 32
              indices := indices.map (fun index =>
                (index + (w.vertices_ w.currentGeometryBuffer_).length % 2 ^ 32) % 2 ^ 32 % 2 ^ 16) }) := by
  have hd : decide ((w.vertices_ w.currentGeometryBuffer_).length + vertices.length ≥ UINT16_MAX) = false := by
    simp only [decide_eq_false_iff_not]
    omega
  unfold setSurfaceGeometry
  simp only [hd]
  simp

/-- The result of `setSurfaceGeometry` when the vertices do not fit in the current
buffer and the next buffer number is not `maxWorldGeometryBuffers_`. -/
theorem setSurfaceGeometry_spills (w : World) (surface : Surface) (vertices : List Vertex)
    (indices : List Nat) (lightmapIndex : Int)
    (h : (w.vertices_ w.currentGeometryBuffer_).length + vertices.length ≥ UINT16_MAX)
    (hnext : w.currentGeometryBuffer_ + 1 ≠ maxWorldGeometryBuffers_) :
    setSurfaceGeometry w surface vertices indices lightmapIndex =
      .ok ({ w with
              currentGeometryBuffer_ := w.currentGeometryBuffer_ + 1
              vertices_ := fun i => if i = w.currentGeometryBuffer_ + 1
                then w.vertices_ (w.currentGeometryBuffer_ + 1) ++ vertices.map (atlasVertex w lightmapIndex)
                else w.vertices_ i },
           { surface with
              bufferIndex := w.currentGeometryBuffer_ + 1
              firstVertex := (w.vertices_ (w.currentGeometryBuffer_ + 1)).length % 2 ^ 32
              nVertices := vertices.length % 2 ^ 32
              indices := indices.map (fun index =>
                (index + (w.vertices_ (w.currentGeometryBuffer_ + 1)).length % 2 ^ 32) % 2 ^ 32 % 2 ^ 16) }) := by
  have hd : decide ((w.vertices_ w.currentGeometryBuffer_).length + vertices.length ≥ UINT16_MAX) = true := by
    simp only [decide_eq_true_eq]
    omega
  unfold setSurfaceGeometry
  simp only [hd]
  simp [hnext]

/-- The fatal error of `setSurfaceGeometry`: the vertices do not fit and the next
buffer number is `maxWorldGeometryBuffers_`. -/
theorem setSurfaceGeometry_fatal (w : World) (surface : Surface) (vertices : List Vertex)
    (indices : List Nat) (lightmapIndex : Int)
    (h : (w.vertices_ w.currentGeometryBuffer_).length + vertices.length ≥ UINT16_MAX)
    (hnext : w.currentGeometryBuffer_ + 1 = maxWorldGeometryBuffers_) :
    setSurfaceGeometry w surface vertices indices lightmapIndex =
      .error "Not enough world vertex buffers" := by
  have hd : decide ((w.vertices_ w.currentGeometryBuffer_).length + vertices.length ≥ UINT16_MAX) = true := by
    simp only [decide_eq_true_eq]
    omega
  unfold setSurfaceGeometry
  simp only [hd]
  simp [hnext]

/-- The length of `blankVertices n`. -/
theorem blankVertices_length (n : Nat) : (blankVertices n).length = n :=
  List.length_replicate _ _

/-- The world before loading keeps the later buffers empty. -/
theorem emptyWorld_laterBuffersEmpty : emptyWorld.laterBuffersEmpty := by
  intro i _
  rfl

/-- A call of `setSurfaceGeometry` keeps the buffers after the current one empty. -/
theorem setSurfaceGeometry_laterBuffersEmpty (w : World) (surface : Surface)
    (vertices : List Vertex) (indices : List Nat) (lightmapIndex : Int) (w1 : World) (s1 : Surface)
    (hwf : w.laterBuffersEmpty)
    (h : setSurfaceGeometry w surface vertices indices lightmapIndex = .ok (w1, s1)) :
    w1.laterBuffersEmpty := by
  by_cases hfit : (w.vertices_ w.currentGeometryBuffer_).length + vertices.length < UINT16_MAX
  · rw [setSurfaceGeometry_fits w surface vertices indices lightmapIndex hfit] at h
    injection h with h
    injection h with hw hs
    subst hw
    intro i hi
    have hi2 : w.currentGeometryBuffer_ < i := hi
    show (if i = w.currentGeometryBuffer_ then _ else w.vertices_ i) = []
    rw [if_neg (by omega)]
    exact hwf i hi2
  · by_cases hnext : w.currentGeometryBuffer_ + 1 = maxWorldGeometryBuffers_
    · rw [setSurfaceGeometry_fatal w surface vertices indices lightmapIndex (by omega) hnext] at h
      cases h
    · rw [setSurfaceGeometry_spills w surface vertices indices lightmapIndex (by omega) hnext] at h
      injection h with h
      injection h with hw hs
      subst hw
      intro i hi
      have hi2 : w.currentGeometryBuffer_ + 1 < i := hi
      show (if i = w.currentGeometryBuffer_ + 1 then _ else w.vertices_ i) = []
      rw [if_neg (by omega)]
      exact hwf i (by omega)

/-- C6: for a surface appended by `setSurfaceGeometry` whose relative indices (16-bit
values) are all below its vertex count, in a world whose buffers after the current
one are still empty: every stored index is the relative index plus the stored
`firstVertex` with no 16-bit wrap-around, subtracting `firstVertex` from the stored
indices gives back the relative indices, and adding it again reproduces the stored
indices. -/
theorem setSurfaceGeometry_indices_roundtrip (w : World) (surface : Surface)
    (vertices : List Vertex) (indices : List Nat) (lightmapIndex : Int) (w1 : World) (s1 : Surface)
    (hwf : w.laterBuffersEmpty)
    (hu16 : ∀ index ∈ indices, index < 2 ^ 16)
    (hrel : ∀ index ∈ indices, index < vertices.length)
    (h : setSurfaceGeometry w surface vertices indices lightmapIndex = .ok (w1, s1)) :
    s1.indices = indices.map (fun index => index + s1.firstVertex) ∧
    (∀ stored ∈ s1.indices, stored < 2 ^ 16) ∧
    s1.indices.map (fun stored => stored - s1.firstVertex) = indices ∧
    (s1.indices.map (fun stored => stored - s1.firstVertex)).map (fun index => index + s1.firstVertex)
      = s1.indices := by
  have key : s1.indices = indices.map (fun index => index + s1.firstVertex) ∧
      (∀ index ∈ indices, index + s1.firstVertex < 2 ^ 16) := by
    by_cases hfit : (w.vertices_ w.currentGeometryBuffer_).length + vertices.length < UINT16_MAX
    · rw [setSurfaceGeometry_fits w surface vertices indices lightmapIndex hfit] at h
      injection h with h
      injection h with hw hs
      subst hs
      have hU : UINT16_MAX = 65535 := rfl
      constructor
      · apply List.map_congr_left
        intro index hmem
        have := hrel index hmem
        show (index + (w.vertices_ w.currentGeometryBuffer_).length % 2 ^ 32) % 2 ^ 32 % 2 ^ 16
          = index + (w.vertices_ w.currentGeometryBuffer_).length % 2 ^ 32
        omega
      · intro index hmem
        have := hrel index hmem
        show index + (w.vertices_ w.currentGeometryBuffer_).length % 2 ^ 32 < 2 ^ 16
        omega
    · by_cases hnext : w.currentGeometryBuffer_ + 1 = maxWorldGeometryBuffers_
      · rw [setSurfaceGeometry_fatal w surface vertices indices lightmapIndex (by omega) hnext] at h
        cases h
      · rw [setSurfaceGeometry_spills w surface vertices indices lightmapIndex (by omega) hnext] at h
        injection h with h
        injection h with hw hs
        subst hs
        have hempty : w.vertices_ (w.currentGeometryBuffer_ + 1) = [] := hwf _ (by omega)
        constructor
        · apply List.map_congr_left
          intro index hmem
          have := hu16 index hmem
          show (index + (w.vertices_ (w.currentGeometryBuffer_ + 1)).length % 2 ^ 32) % 2 ^ 32 % 2 ^ 16
            = index + (w.vertices_ (w.currentGeometryBuffer_ + 1)).length % 2 ^ 32
          rw [hempty]
          simp only [List.length_nil]
          omega
        · intro index hmem
          have := hu16 index hmem
          show index + (w.vertices_ (w.currentGeometryBuffer_ + 1)).length % 2 ^ 32 < 2 ^ 16
          rw [hempty]
          simp only [List.length_nil]
          omega
  obtain ⟨hstored, hbound⟩ := key
  have hback : s1.indices.map (fun stored => stored - s1.firstVertex) = indices := by
    rw [hstored, List.map_map]
    conv_rhs => rw [← List.map_id indices]
    apply List.map_congr_left
    intro index _
    simp
  refine ⟨hstored, ?_, hback, ?_⟩
  · intro stored hmem
    rw [hstored] at hmem
    obtain ⟨index, hi, rfl⟩ := List.mem_map.1 hmem
    exact hbound index hi
  · rw [hback]
    exact hstored.symm

/-- C6 on a world whose buffer 0 already holds two vertices: a triangle with
relative indices 0, 1, 2 is stored as 2, 3, 4 with `firstVertex = 2`. -/
theorem setSurfaceGeometry_indices_roundtrip_witness :
    ∃ w1 s1,
      setSurfaceGeometry { emptyWorld with vertices_ := fun i => if i = 0 then [default, default] else [] }
        default [default, default, default] [0, 1, 2] (-1) = .ok (w1, s1) ∧
      s1.firstVertex = 2 ∧
      s1.indices = [2, 3, 4] ∧
      s1.indices.map (fun stored => stored - s1.firstVertex) = [0, 1, 2] :=
  ⟨_, _, rfl, rfl, rfl,
    (setSurfaceGeometry_indices_roundtrip
      { emptyWorld with vertices_ := fun i => if i = 0 then [default, default] else [] }
      default [default, default, default] [0, 1, 2] (-1) _ _
      (fun i hi => if_neg (Nat.pos_iff_ne_zero.1 hi)) (by decide) (by decide) rfl).2.2.1⟩

/-- C7: when the current buffer's vertex count plus the surface's vertex count
exceeds 65535 and another buffer is available, `setSurfaceGeometry` succeeds, the
current buffer number is advanced by one, the surface's vertices are appended to
the new buffer, every other buffer (the old one included) is unchanged, and the
surface records the new buffer number with `firstVertex` the new buffer's
previous size. -/
theorem setSurfaceGeometry_spill_records_new_buffer (w : World) (surface : Surface)
    (vertices : List Vertex) (indices : List Nat) (lightmapIndex : Int)
    (hover : (w.vertices_ w.currentGeometryBuffer_).length + vertices.length > 65535)
    (havail : w.currentGeometryBuffer_ + 1 < maxWorldGeometryBuffers_) :
    ∃ w1 s1, setSurfaceGeometry w surface vertices indices lightmapIndex = .ok (w1, s1) ∧
      w1.currentGeometryBuffer_ = w.currentGeometryBuffer_ + 1 ∧
      w1.vertices_ (w.currentGeometryBuffer_ + 1) =
        w.vertices_ (w.currentGeometryBuffer_ + 1) ++ vertices.map (atlasVertex w lightmapIndex) ∧
      w1.vertices_ w.currentGeometryBuffer_ = w.vertices_ w.currentGeometryBuffer_ ∧
      (∀ i, i ≠ w.currentGeometryBuffer_ + 1 → w1.vertices_ i = w.vertices_ i) ∧
      s1.bufferIndex = w.currentGeometryBuffer_ + 1 ∧
      s1.firstVertex = (w.vertices_ (w.currentGeometryBuffer_ + 1)).length % 2 ^ 32 := by
  have hU : UINT16_MAX = 65535 := rfl
  refine ⟨_, _, setSurfaceGeometry_spills w surface vertices indices lightmapIndex (by omega) (by omega),
    rfl, ?_, ?_, ?_, rfl, rfl⟩
  · show (if w.currentGeometryBuffer_ + 1 = w.currentGeometryBuffer_ + 1 then _ else _) = _
    rw [if_pos rfl]
  · show (if w.currentGeometryBuffer_ = w.currentGeometryBuffer_ + 1 then _ else _) = _
    rw [if_neg (by omega)]
  · intro i hi
    show (if i = w.currentGeometryBuffer_ + 1 then _ else _) = _
    rw [if_neg hi]

/-- A world whose geometry buffer 0 holds the given vertices and whose other
buffers are empty. -/
theorem worldWithBuffer_current (buffer : List Vertex) :
    ({ emptyWorld with vertices_ := fun i => if i = 0 then buffer else [] } : World).vertices_
      ({ emptyWorld with vertices_ := fun i => if i = 0 then buffer else [] } : World).currentGeometryBuffer_
      = buffer := rfl

/-- C7 on a world whose buffer 0 holds 65534 vertices: a surface of two vertices
goes to buffer 1. -/
theorem setSurfaceGeometry_spill_records_new_buffer_witness :
    ∃ w1 s1,
      setSurfaceGeometry
        { emptyWorld with vertices_ := fun i => if i = 0 then blankVertices 65534 else [] }
        default [default, default] [0, 1, 1] (-1) = .ok (w1, s1) ∧
      w1.currentGeometryBuffer_ = 0 + 1 ∧ s1.bufferIndex = 0 + 1 :=
  match setSurfaceGeometry_spill_records_new_buffer
      { emptyWorld with vertices_ := fun i => if i = 0 then blankVertices 65534 else [] }
      default [default, default] [0, 1, 1] (-1)
      (by rw [worldWithBuffer_current, blankVertices_length]; decide)
      (by decide) with
  | ⟨w1, s1, h⟩ => ⟨w1, s1, h.1, h.2.1, h.2.2.2.2.2.1⟩

/-- One `setSurfaceGeometry` call on a world before loading for a surface whose
vertex count `n` is at least 65535: the call succeeds and buffer 1 holds `n` vertices. -/
theorem setSurfaceGeometryAll_single_large (vs : List Vertex) (h : vs.length ≥ 65535) :
    ∃ w1 ss,
      setSurfaceGeometryAll emptyWorld [(default, vs, [], -1)] = .ok (w1, ss) ∧
      (w1.vertices_ 1).length = vs.length := by
  have hU : UINT16_MAX = 65535 := rfl
  have hcall := setSurfaceGeometry_spills emptyWorld default vs [] (-1)
    (by
      show ([] : List Vertex).length + vs.length ≥ UINT16_MAX
      simp only [List.length_nil]
      omega)
    (by decide)
  obtain ⟨w1, s1, hc, hv⟩ : ∃ w1 s1, setSurfaceGeometry emptyWorld default vs [] (-1) = .ok (w1, s1) ∧
      (w1.vertices_ 1).length = vs.length := by
    refine ⟨_, _, hcall, ?_⟩
    simp [emptyWorld]
  refine ⟨w1, [s1], ?_, hv⟩
  simp only [setSurfaceGeometryAll, hc]

/-- C8, the failing input: on a world before loading, one `setSurfaceGeometry`
call for a surface of 70000 vertices completes without the fatal error and leaves
geometry buffer 1, one of the `maxWorldGeometryBuffers_` buffers, with 70000
vertices, which is more than 65535. -/
theorem setSurfaceGeometry_buffer_above_cap :
    ∃ w1 ss,
      setSurfaceGeometryAll emptyWorld [(default, blankVertices 70000, [], -1)] = .ok (w1, ss) ∧
      1 < maxWorldGeometryBuffers_ ∧
      (w1.vertices_ 1).length = 70000 ∧
      ¬ (w1.vertices_ 1).length ≤ 65535 :=
  match setSurfaceGeometryAll_single_large (blankVertices 70000)
      (by rw [blankVertices_length]; decide) with
  | ⟨w1, ss, h1, h2⟩ =>
    ⟨w1, ss, h1, by decide, h2.trans (blankVertices_length 70000),
      by rw [h2, blankVertices_length]; decide⟩

/-- One call keeps every buffer below `UINT16_MAX` vertices when the surface
itself has fewer than `UINT16_MAX` vertices. -/
theorem setSurfaceGeometry_keeps_cap (w : World) (surface : Surface)
    (vertices : List Vertex) (indices : List Nat) (lightmapIndex : Int) (w1 : World) (s1 : Surface)
    (hwf : w.laterBuffersEmpty)
    (hcap : ∀ i, (w.vertices_ i).length < UINT16_MAX)
    (hn : vertices.length < UINT16_MAX)
    (h : setSurfaceGeometry w surface vertices indices lightmapIndex = .ok (w1, s1)) :
    ∀ i, (w1.vertices_ i).length < UINT16_MAX := by
  by_cases hfit : (w.vertices_ w.currentGeometryBuffer_).length + vertices.length < UINT16_MAX
  · rw [setSurfaceGeometry_fits w surface vertices indices lightmapIndex hfit] at h
    injection h with h
    injection h with hw hs
    subst hw
    intro i
    show (if i = w.currentGeometryBuffer_ then _ else w.vertices_ i).length < UINT16_MAX
    split_ifs
    · simpa using hfit
    · exact hcap i
  · by_cases hnext : w.currentGeometryBuffer_ + 1 = maxWorldGeometryBuffers_
    · rw [setSurfaceGeometry_fatal w surface vertices indices lightmapIndex (by omega) hnext] at h
      cases h
    · rw [setSurfaceGeometry_spills w surface vertices indices lightmapIndex (by omega) hnext] at h
      injection h with h
      injection h with hw hs
      subst hw
      intro i
      show (if i = w.currentGeometryBuffer_ + 1 then _ else w.vertices_ i).length < UINT16_MAX
      split_ifs
      · rw [hwf _ (Nat.lt_succ_self _)]
        simpa using hn
      · exact hcap i

/-- The cap as far as the code keeps it: after a sequence of calls without fatal
error in which every surface has fewer than 65535 vertices, every geometry buffer
holds fewer than 65535 vertices. -/
theorem setSurfaceGeometryAll_keeps_cap (calls : List (Surface × List Vertex × List Nat × Int)) :
    ∀ (w w1 : World) (ss : List Surface), w.laterBuffersEmpty →
      (∀ i, (w.vertices_ i).length < UINT16_MAX) →
      (∀ c ∈ calls, c.2.1.length < UINT16_MAX) →
      setSurfaceGeometryAll w calls = .ok (w1, ss) →
      ∀ i, (w1.vertices_ i).length < UINT16_MAX := by
  induction calls with
  | nil =>
    intro w w1 ss _ hcap _ h
    simp only [setSurfaceGeometryAll] at h
    injection h with h
    injection h with hw hs
    subst hw
    exact hcap
  | cons c rest ih =>
    intro w w1 ss hwf hcap hn h
    obtain ⟨s, vs, is, lm⟩ := c
    simp only [setSurfaceGeometryAll] at h
    cases hstep : setSurfaceGeometry w s vs is lm with
    | error e => simp [hstep] at h
    | ok r =>
      obtain ⟨w2, s2⟩ := r
      simp only [hstep] at h
      cases hrest : setSurfaceGeometryAll w2 rest with
      | error e => simp [hrest] at h
      | ok r2 =>
        obtain ⟨w3, ss3⟩ := r2
        simp only [hrest] at h
        injection h with h
        injection h with hw hs
        subst hw
        exact ih w2 w3 ss3
          (setSurfaceGeometry_laterBuffersEmpty w s vs is lm w2 s2 hwf hstep)
          (setSurfaceGeometry_keeps_cap w s vs is lm w2 s2 hwf hcap
            (hn (s, vs, is, lm) (List.mem_cons_self _ _)) hstep)
          (fun c hc => hn c (List.mem_cons_of_mem _ hc)) hrest

/-! ## Theorems: `World::leafFromPosition` and `World::findFogIndex` -/

/-- C9: at an internal node whose plane contains the point exactly
(`dot(pos, normal) - distance = 0`) the descent of `leafFromPosition` continues in
the back child `children[1]`, from every node and with every number of remaining
iterations; and when the root is such a node and its back child is a leaf,
`leafFromPosition` returns that back leaf. -/
theorem leafFromPosition_on_plane_back_child (w : World) (pos : vec3) (root back : Node)
    (hroot : w.nodes_.get? 0 = some root) (hsplit : root.leaf = false)
    (hon : vec3.dotProduct pos root.plane.normal - root.plane.distance = 0)
    (hback : w.nodes_.get? root.children1 = some back) (hleaf : back.leaf = true) :
    (∀ (fuel node : Nat) (n : Node), w.nodes_.get? node = some n → n.leaf = false →
      vec3.dotProduct pos n.plane.normal - n.plane.distance = 0 →
      leafFromPositionLoop w.nodes_ pos (fuel + 1) node =
        leafFromPositionLoop w.nodes_ pos fuel n.children1) ∧
    leafFromPosition w pos = some root.children1 := by
  have step : ∀ (fuel node : Nat) (n : Node), w.nodes_.get? node = some n → n.leaf = false →
      vec3.dotProduct pos n.plane.normal - n.plane.distance = 0 →
      leafFromPositionLoop w.nodes_ pos (fuel + 1) node =
        leafFromPositionLoop w.nodes_ pos fuel n.children1 := by
    intro fuel node n hn hl hd
    simp only [leafFromPositionLoop, hn, hl, hd]
    simp
  refine ⟨step, ?_⟩
  have hne : root.children1 ≠ 0 := by
    intro h0
    rw [h0, hroot] at hback
    injection hback with hb
    rw [← hb, hsplit] at hleaf
    cases hleaf
  have hlen : root.children1 < w.nodes_.length := by
    rw [List.get?_eq_some] at hback
    exact hback.1
  obtain ⟨k, hk⟩ : ∃ k, w.nodes_.length = k + 2 := ⟨w.nodes_.length - 2, by omega⟩
  unfold leafFromPosition
  rw [hk, step (k + 1) 0 root hroot hsplit hon]
  simp only [leafFromPositionLoop, hback, hleaf]
  simp

/-- C9 on the single-split tree: the point (0, 5, 7) lies on the plane `x = 0` and
resolves to the back leaf, at position 2. -/
theorem leafFromPosition_on_plane_back_child_witness :
    vec3.dotProduct { x := 0, y := 5, z := 7 } { x := 1, y := 0, z := 0 } - 0 = 0 ∧
    leafFromPosition singleSplitWorld { x := 0, y := 5, z := 7 } = some 2 :=
  ⟨by norm_num [vec3.dotProduct],
    (leafFromPosition_on_plane_back_child singleSplitWorld { x := 0, y := 5, z := 7 }
      { (default : Node) with
          leaf := false, plane := { normal := { x := 1, y := 0, z := 0 }, distance := 0 },
          children0 := 1, children1 := 2 }
      { (default : Node) with leaf := true, cluster := 1 }
      rfl rfl (by norm_num [vec3.dotProduct]) rfl rfl).2⟩

/-- C10: in a world with zero fog volumes both `findFogIndex` overloads return -1,
for every position and radius and for every box. -/
theorem findFogIndex_no_fogs (env : Externals) (w : World) (h : w.fogs_ = []) :
    (∀ (position : vec3) (radius : ℚ), findFogIndexSphere w position radius = -1) ∧
    (∀ bounds : Bounds, findFogIndexBounds env w bounds = -1) := by
  constructor
  · intro position radius
    unfold findFogIndexSphere
    rw [h]
    rfl
  · intro bounds
    unfold findFogIndexBounds
    rw [h]
    rfl

/-- C10 on the world before loading, which has no fog. -/
theorem findFogIndex_no_fogs_witness :
    emptyWorld.fogs_ = [] ∧
    findFogIndexSphere emptyWorld { x := 1, y := 2, z := 3 } 4 = -1 ∧
    findFogIndexBounds exampleExternals emptyWorld default = -1 :=
  ⟨rfl, (findFogIndex_no_fogs exampleExternals emptyWorld rfl).1 _ _,
    (findFogIndex_no_fogs exampleExternals emptyWorld rfl).2 _⟩

/-! ## Theorems: batching in `World::updateVisCache` -/

/-- The last position of the list closes a batch. -/
theorem closesBatch_last (ss : List Surface) (i : Nat) (h : i = ss.length - 1) :
    closesBatch ss i = true := by
  unfold closesBatch
  simp [h]

/-- A position that does not close a batch is not the last one and the next
surface has the same triple. -/
theorem closesBatch_false (ss : List Surface) (i : Nat) (h : closesBatch ss i = false) :
    i ≠ ss.length - 1 ∧ (ss.getD (i + 1) default).batchKey = (ss.getD i default).batchKey := by
  unfold closesBatch at h
  by_cases hl : i = ss.length - 1
  · simp [hl] at h
  · simp only [hl, decide_False, Bool.false_eq_true, if_false, decide_eq_false_iff_not, not_or,
      not_not] at h
    refine ⟨hl, ?_⟩
    unfold Surface.batchKey
    rw [h.1, h.2.1, h.2.2]

/-- A position before the last one that closes a batch is followed by a surface
with a different triple. -/
theorem closesBatch_true (ss : List Surface) (i : Nat) (h : closesBatch ss i = true)
    (hl : i ≠ ss.length - 1) :
    (ss.getD (i + 1) default).batchKey ≠ (ss.getD i default).batchKey := by
  unfold closesBatch at h
  simp only [hl, decide_False, Bool.false_eq_true, if_false, decide_eq_true_eq] at h
  unfold Surface.batchKey
  intro he
  injection he with h1 h2
  injection h2 with h2 h3
  rcases h with h | h | h
  · exact h h1
  · exact h h2
  · exact h h3

/-- The windows produced by the loop from position `a` on, with `firstSurface = f`
and no batch closed in `f..a-1`, form a list of windows from `f`. -/
theorem batchWindowsLoop_windowsFrom (ss : List Surface) (m : Nat) :
    ∀ a f : Nat, f ≤ a → a + m = ss.length → (m = 0 → f = a) →
      (∀ j, f ≤ j → j < a → closesBatch ss j = false) →
      WindowsFrom ss f (batchWindowsLoop ss (List.range' a m) f) := by
  induction m with
  | zero =>
    intro a f _ hn h0 _
    simp only [List.range'_zero, batchWindowsLoop, WindowsFrom]
    have := h0 rfl
    omega
  | succ m ih =>
    intro a f hfa hn _ hpend
    rw [List.range'_succ]
    by_cases hc : closesBatch ss a = true
    · rw [batchWindowsLoop, if_pos hc, WindowsFrom]
      refine ⟨rfl, hfa, by omega, hc, hpend, ?_⟩
      exact ih (a + 1) (a + 1) le_rfl (by omega) (fun _ => rfl) (fun j h1 h2 => by omega)
    · have hcf : closesBatch ss a = false := by simpa using hc
      simp only [batchWindowsLoop, hcf, Bool.false_eq_true, if_false]
      refine ih (a + 1) f (by omega) (by omega) ?_ ?_
      · intro hm
        exfalso
        have := closesBatch_last ss a (by omega)
        rw [this] at hcf
        cases hcf
      · intro j h1 h2
        by_cases hj : j = a
        · rw [hj]
          exact hcf
        · exact hpend j h1 (by omega)

/-- The windows of the batches of a list form a list of windows from position 0. -/
theorem batchWindows_windowsFrom (ss : List Surface) : WindowsFrom ss 0 (batchWindows ss) := by
  unfold batchWindows
  rw [List.range_eq_range']
  exact batchWindowsLoop_windowsFrom ss ss.length 0 0 le_rfl (by omega) (fun _ => rfl)
    (fun j _ h2 => by omega)

/-- Reading every position of a list gives the list back. -/
theorem map_getD_range (ss : List Surface) :
    (List.range' 0 ss.length).map (fun j => ss.getD j default) = ss := by
  apply List.ext_getElem
  · simp
  · intro i h1 h2
    simp [h2]

/-- A list of windows from `first` starts inside the list. -/
theorem WindowsFrom.first_le (ss : List Surface) (first : Nat) (ws : List (Nat × Nat))
    (h : WindowsFrom ss first ws) : first ≤ ss.length := by
  cases ws with
  | nil =>
    rw [WindowsFrom] at h
    omega
  | cons p rest =>
    rw [WindowsFrom] at h
    omega

/-- The positions of a list of windows from `first`, one window after the other,
are exactly `first, first + 1, ..., ss.length - 1`. -/
theorem WindowsFrom.flatten_eq (ss : List Surface) (ws : List (Nat × Nat)) :
    ∀ first, WindowsFrom ss first ws →
      (ws.map (fun p => List.range' p.1 (p.2 + 1 - p.1))).flatten =
        List.range' first (ss.length - first) := by
  induction ws with
  | nil =>
    intro first h
    rw [WindowsFrom] at h
    simp [h]
  | cons p rest ih =>
    intro first h
    rw [WindowsFrom] at h
    obtain ⟨h1, h2, h3, _, _, h6⟩ := h
    have hle := WindowsFrom.first_le ss _ _ h6
    rw [List.map_cons, List.flatten_cons, ih _ h6, ← h1]
    have e := List.range'_append p.1 (p.2 + 1 - p.1) (ss.length - (p.2 + 1)) 1
    have e1 : p.1 + 1 * (p.2 + 1 - p.1) = p.2 + 1 := by omega
    have e2 : ss.length - (p.2 + 1) + (p.2 + 1 - p.1) = ss.length - p.1 := by omega
    rw [e1, e2] at e
    exact e

/-- The index counts of a list of windows from `first` add up to the number of
indices of the surfaces from position `first` on. -/
theorem WindowsFrom.count_sum (ss : List Surface) (ws : List (Nat × Nat)) :
    ∀ first, WindowsFrom ss first ws →
      (ws.map (fun p => windowIndexCount ss p.1 p.2)).sum =
        ((List.range' first (ss.length - first)).map
          (fun j => (ss.getD j default).indices.length)).sum := by
  intro first h
  rw [← WindowsFrom.flatten_eq ss ws first h]
  clear h
  induction ws with
  | nil => simp
  | cons p rest ih =>
    rw [List.map_cons, List.sum_cons, ih, List.map_cons, List.flatten_cons, List.map_append,
      List.sum_append]
    congr 1
    unfold windowIndexCount batchWindow
    rw [List.map_map]
    rfl

/-- Inside a stretch without closed batch all surfaces have the triple of the
surface at its end. -/
theorem batchKey_uniform (ss : List Surface) (a b : Nat)
    (h : ∀ j, a ≤ j → j < b → closesBatch ss j = false) :
    ∀ d j, j + d = b → a ≤ j → (ss.getD j default).batchKey = (ss.getD b default).batchKey := by
  intro d
  induction d with
  | zero =>
    intro j hj _
    have : j = b := by omega
    rw [this]
  | succ d ih =>
    intro j hj haj
    have h1 := (closesBatch_false ss j (h j haj (by omega))).2
    rw [← h1]
    exact ih (j + 1) (by omega) (by omega)

/-- In a list of windows all surfaces of a window have the triple of the surface
that closes the window. -/
theorem WindowsFrom.uniform (ss : List Surface) (ws : List (Nat × Nat)) :
    ∀ first, WindowsFrom ss first ws →
      ∀ p ∈ ws, ∀ j, p.1 ≤ j → j ≤ p.2 →
        (ss.getD j default).batchKey = (ss.getD p.2 default).batchKey := by
  induction ws with
  | nil =>
    intro first _ p hp
    cases hp
  | cons q rest ih =>
    intro first h p hp j h1 h2
    rw [WindowsFrom] at h
    rcases List.mem_cons.1 hp with rfl | hmem
    · exact batchKey_uniform ss p.1 p.2 h.2.2.2.2.1 (p.2 - j) j (by omega) h1
    · exact ih _ h.2.2.2.2.2 p hmem j h1 h2

/-- In a list of windows the surfaces that close two consecutive windows differ
in material, fog index or buffer index. -/
theorem WindowsFrom.chain (ss : List Surface) (ws : List (Nat × Nat)) :
    ∀ first, WindowsFrom ss first ws →
      List.Chain' (fun p q => (ss.getD p.2 default).batchKey ≠ (ss.getD q.2 default).batchKey) ws := by
  induction ws with
  | nil =>
    intro first _
    exact List.chain'_nil
  | cons p rest ih =>
    intro first h
    rw [WindowsFrom] at h
    obtain ⟨_, _, _, h4, _, h6⟩ := h
    cases rest with
    | nil => exact List.chain'_singleton _
    | cons q rest2 =>
      rw [List.chain'_cons]
      refine ⟨?_, ih _ h6⟩
      have hq := h6
      rw [WindowsFrom] at hq
      obtain ⟨q1, q2, q3, _, q5, _⟩ := hq
      have hne := closesBatch_true ss p.2 h4 (by omega)
      have hu := batchKey_uniform ss q.1 q.2 q5 (q.2 - q.1) q.1 (by omega) le_rfl
      rw [q1] at hu
      intro he
      exact hne (hu.trans he.symm)

/-- The counter `bs.nIndices` after the plain loop over `j`. -/
theorem foldl_appendSurfaceIndices_nIndices (l : List Surface) :
    ∀ acc : IndexBatch, acc.nIndices < 2 ^ 32 →
      (l.foldl appendSurfaceIndices acc).nIndices =
        (acc.nIndices + (l.map (fun s => s.indices.length)).sum) % 2 ^ 32 := by
  induction l with
  | nil =>
    intro acc h
    simp only [List.foldl_nil, List.map_nil, List.sum_nil]
    omega
  | cons s rest ih =>
    intro acc h
    rw [List.foldl_cons, ih _ (by unfold appendSurfaceIndices; exact Nat.mod_lt _ (by norm_num))]
    simp only [appendSurfaceIndices, List.map_cons, List.sum_cons]
    omega

/-- The counter `bs.nIndices` after the CPU-deform loop over `j`. -/
theorem foldl_appendDeformSurface_nIndices (w : World) (surface : Surface) (l : List Surface) :
    ∀ acc : DeformBatch, acc.nIndices < 2 ^ 32 →
      (l.foldl (appendDeformSurface w surface) acc).nIndices =
        (acc.nIndices + (l.map (fun s => s.indices.length)).sum) % 2 ^ 32 := by
  induction l with
  | nil =>
    intro acc h
    simp only [List.foldl_nil, List.map_nil, List.sum_nil]
    omega
  | cons s rest ih =>
    intro acc h
    rw [List.foldl_cons, ih _ (by unfold appendDeformSurface; exact Nat.mod_lt _ (by norm_num))]
    simp only [appendDeformSurface, List.map_cons, List.sum_cons]
    omega

/-- Pushing a batch keeps the visible-surface list and appends one batch whose
header is that of the window. -/
theorem pushBatch_spec (env : Externals) (w : World) (ss : List Surface) (firstSurface i : Nat)
    (vc : VisCache) :
    (pushBatch env w ss firstSurface i vc).surfaces = vc.surfaces ∧
    ∃ b : BatchedSurface,
      (pushBatch env w ss firstSurface i vc).batchedSurfaces = vc.batchedSurfaces ++ [b] ∧
      b.header = batchHeader env ss (firstSurface, i) := by
  simp only [pushBatch]
  split_ifs with hd
  · refine ⟨rfl, _, rfl, ?_⟩
    unfold BatchedSurface.header batchHeader windowIndexCount
    simp only [hd, if_true]
    rw [foldl_appendDeformSurface_nIndices _ _ _ _ (by norm_num)]
    simp
  · refine ⟨rfl, _, rfl, ?_⟩
    unfold BatchedSurface.header batchHeader windowIndexCount
    simp only [hd, Bool.false_eq_true, if_false]
    rw [foldl_appendSurfaceIndices_nIndices _ _ (by norm_num)]
    simp

/-- The batching loop keeps the visible-surface list and appends, in order, one
batch per window, with the header of that window. -/
theorem createBatchedSurfacesLoop_spec (env : Externals) (w : World) (ss : List Surface)
    (is : List Nat) :
    ∀ (firstSurface : Nat) (vc : VisCache),
      (createBatchedSurfacesLoop env w ss is firstSurface vc).surfaces = vc.surfaces ∧
      (createBatchedSurfacesLoop env w ss is firstSurface vc).batchedSurfaces.map BatchedSurface.header =
        vc.batchedSurfaces.map BatchedSurface.header ++
          (batchWindowsLoop ss is firstSurface).map (batchHeader env ss) := by
  induction is with
  | nil =>
    intro firstSurface vc
    simp [createBatchedSurfacesLoop, batchWindowsLoop]
  | cons i rest ih =>
    intro firstSurface vc
    by_cases hc : closesBatch ss i = true
    · rw [createBatchedSurfacesLoop, if_pos hc, batchWindowsLoop, if_pos hc]
      obtain ⟨hs, b, hb, hh⟩ := pushBatch_spec env w ss firstSurface i vc
      obtain ⟨i1, i2⟩ := ih (i + 1) (pushBatch env w ss firstSurface i vc)
      refine ⟨i1.trans hs, ?_⟩
      rw [i2, hb, List.map_append, List.map_cons, List.map_nil, hh, List.map_cons,
        List.append_assoc]
      rfl
    · rw [createBatchedSurfacesLoop, if_neg hc, batchWindowsLoop, if_neg hc]
      exact ih firstSurface vc

/-- The batches made by `createBatchedSurfaces` are, in order, the batches of the
windows of the list; the visible-surface list is kept. -/
theorem createBatchedSurfaces_spec (env : Externals) (w : World) (ss : List Surface) (vc : VisCache) :
    (createBatchedSurfaces env w ss vc).surfaces = vc.surfaces ∧
    (createBatchedSurfaces env w ss vc).batchedSurfaces.map BatchedSurface.header =
      (batchWindows ss).map (batchHeader env ss) := by
  unfold createBatchedSurfaces batchWindows
  obtain ⟨h1, h2⟩ := createBatchedSurfacesLoop_spec env w ss (List.range ss.length) 0
    { vc with batchedSurfaces := [] }
  exact ⟨h1, by rw [h2]; rfl⟩

/-- After the rebuild the batch list is, in order, one batch per window of the
sorted visible-surface list, with the header of that window. -/
theorem rebuildVisCache_batches (env : Externals) (w : World) (vc : VisCache) (cameraLeaf : Node)
    (areaMask : List Nat) :
    (rebuildVisCache env w vc cameraLeaf areaMask).2.batchedSurfaces.map BatchedSurface.header =
      (batchWindows (visibleSurfaces (rebuildVisCache env w vc cameraLeaf areaMask).1
          (rebuildVisCache env w vc cameraLeaf areaMask).2)).map
        (batchHeader env (visibleSurfaces (rebuildVisCache env w vc cameraLeaf areaMask).1
          (rebuildVisCache env w vc cameraLeaf areaMask).2)) := by
  obtain ⟨h1, h2⟩ := createBatchedSurfaces_spec env
    (collectVisibleSurfaces env w vc cameraLeaf areaMask).1
    (visibleSurfaces (collectVisibleSurfaces env w vc cameraLeaf areaMask).1
      (sortAndClear env (collectVisibleSurfaces env w vc cameraLeaf areaMask)))
    (sortAndClear env (collectVisibleSurfaces env w vc cameraLeaf areaMask))
  have hv : visibleSurfaces (rebuildVisCache env w vc cameraLeaf areaMask).1
      (rebuildVisCache env w vc cameraLeaf areaMask).2 =
      visibleSurfaces (collectVisibleSurfaces env w vc cameraLeaf areaMask).1
        (sortAndClear env (collectVisibleSurfaces env w vc cameraLeaf areaMask)) := by
    show List.map _ (createBatchedSurfaces env _ _ _).surfaces = _
    rw [h1]
    rfl
  rw [hv]
  exact h2

/-- When the camera leaf is found and the rebuild condition holds, `updateVisCache`
returns the rebuilt state with the pass counter advanced and the baseline recorded. -/
theorem updateVisCache_rebuilds (env : Externals) (w : World) (vc : VisCache) (pos : vec3)
    (areaMask : List Nat) (leaf : Nat)
    (hl : leafFromPosition w pos = some leaf)
    (hr : needsRebuild env w vc leaf areaMask = true) :
    updateVisCache env w vc pos areaMask =
      some ({ (rebuildVisCache env w vc (w.nodes_.getD leaf default) areaMask).1 with
              duplicateSurfaceId_ :=
                (rebuildVisCache env w vc (w.nodes_.getD leaf default) areaMask).1.duplicateSurfaceId_ + 1 },
            { (rebuildVisCache env w vc (w.nodes_.getD leaf default) areaMask).2 with
              lastCameraLeaf := some leaf
              lastAreaMask := (List.range env.MAX_MAP_AREA_BYTES).map (fun i => areaMask.getD i 0) }) := by
  unfold updateVisCache
  rw [hl]
  simp only [hr, if_true]

/-- C1: after every rebuild by `updateVisCache` the batch list is, in order, one
batch per window of the sorted visible-surface list, carrying the material and fog
index of the surface that closes the window (and its buffer index unless the
material has a CPU deform); all surfaces of a window have the same (material, fog
index, buffer index) triple; and the surfaces from which two consecutive batches
were built differ in at least one of material, fog index and buffer index. For
consecutive batches themselves: they differ in material, fog index or stored buffer
index, unless the first is a CPU-deform batch, whose `bufferIndex` is unassigned. -/
theorem updateVisCache_consecutive_batches_differ (env : Externals) (w : World) (vc : VisCache)
    (pos : vec3) (areaMask : List Nat) (leaf : Nat)
    (hl : leafFromPosition w pos = some leaf)
    (hr : needsRebuild env w vc leaf areaMask = true) :
    ∃ w1 vc1, updateVisCache env w vc pos areaMask = some (w1, vc1) ∧
      vc1.batchedSurfaces.map BatchedSurface.header =
        (batchWindows (visibleSurfaces w1 vc1)).map (batchHeader env (visibleSurfaces w1 vc1)) ∧
      (∀ p ∈ batchWindows (visibleSurfaces w1 vc1), ∀ j, p.1 ≤ j → j ≤ p.2 →
        ((visibleSurfaces w1 vc1).getD j default).batchKey =
          ((visibleSurfaces w1 vc1).getD p.2 default).batchKey) ∧
      List.Chain'
        (fun p q => ((visibleSurfaces w1 vc1).getD p.2 default).batchKey ≠
          ((visibleSurfaces w1 vc1).getD q.2 default).batchKey)
        (batchWindows (visibleSurfaces w1 vc1)) ∧
      List.Chain'
        (fun b1 b2 : BatchedSurface =>
          b1.material ≠ b2.material ∨ b1.fogIndex ≠ b2.fogIndex ∨ b1.bufferIndex ≠ b2.bufferIndex ∨
            (env.materialAt b1.material).hasAutoSpriteDeform = true)
        vc1.batchedSurfaces := by
  refine ⟨_, _, updateVisCache_rebuilds env w vc pos areaMask leaf hl hr, ?_⟩
  have hb := rebuildVisCache_batches env w vc (w.nodes_.getD leaf default) areaMask
  generalize rebuildVisCache env w vc (w.nodes_.getD leaf default) areaMask = r at hb ⊢
  obtain ⟨w1, vc1⟩ := r
  show vc1.batchedSurfaces.map BatchedSurface.header =
        (batchWindows (visibleSurfaces w1 vc1)).map (batchHeader env (visibleSurfaces w1 vc1)) ∧
      (∀ p ∈ batchWindows (visibleSurfaces w1 vc1), ∀ j, p.1 ≤ j → j ≤ p.2 →
        ((visibleSurfaces w1 vc1).getD j default).batchKey =
          ((visibleSurfaces w1 vc1).getD p.2 default).batchKey) ∧
      List.Chain'
        (fun p q => ((visibleSurfaces w1 vc1).getD p.2 default).batchKey ≠
          ((visibleSurfaces w1 vc1).getD q.2 default).batchKey)
        (batchWindows (visibleSurfaces w1 vc1)) ∧
      List.Chain'
        (fun b1 b2 : BatchedSurface =>
          b1.material ≠ b2.material ∨ b1.fogIndex ≠ b2.fogIndex ∨ b1.bufferIndex ≠ b2.bufferIndex ∨
            (env.materialAt b1.material).hasAutoSpriteDeform = true)
        vc1.batchedSurfaces
  have hb1 : vc1.batchedSurfaces.map BatchedSurface.header =
      (batchWindows (visibleSurfaces w1 vc1)).map (batchHeader env (visibleSurfaces w1 vc1)) := hb
  generalize visibleSurfaces w1 vc1 = ss at hb1 ⊢
  have hw := batchWindows_windowsFrom ss
  have hchain := WindowsFrom.chain ss _ 0 hw
  refine ⟨hb1, WindowsFrom.uniform ss _ 0 hw, hchain, ?_⟩
  have hwin : List.Chain'
      (fun p q : Nat × Nat =>
        (batchHeader env ss p).1 ≠ (batchHeader env ss q).1 ∨
        (batchHeader env ss p).2.1 ≠ (batchHeader env ss q).2.1 ∨
        (batchHeader env ss p).2.2.1 ≠ (batchHeader env ss q).2.2.1 ∨
        (env.materialAt (batchHeader env ss p).1).hasAutoSpriteDeform = true)
      (batchWindows ss) := by
    refine List.Chain'.imp ?_ hchain
    intro p q hne
    unfold batchHeader
    simp only []
    by_cases hm : (ss.getD p.2 default).material = (ss.getD q.2 default).material
    · by_cases hf : (ss.getD p.2 default).fogIndex = (ss.getD q.2 default).fogIndex
      · by_cases hd : (env.materialAt (ss.getD p.2 default).material).hasAutoSpriteDeform = true
        · exact Or.inr (Or.inr (Or.inr hd))
        · refine Or.inr (Or.inr (Or.inl ?_))
          rw [← hm]
          simp only [hd, Bool.false_eq_true, if_false]
          intro hbuf
          injection hbuf with hbuf
          apply hne
          unfold Surface.batchKey
          rw [hm, hf, hbuf]
      · exact Or.inr (Or.inl hf)
    · exact Or.inl hm
  have hmap : List.Chain'
      (fun h1 h2 : MaterialPtr × Int × Option Nat × Nat =>
        h1.1 ≠ h2.1 ∨ h1.2.1 ≠ h2.2.1 ∨ h1.2.2.1 ≠ h2.2.2.1 ∨
          (env.materialAt h1.1).hasAutoSpriteDeform = true)
      ((batchWindows ss).map (batchHeader env ss)) :=
    (List.chain'_map (batchHeader env ss)).2 hwin
  rw [← hb1] at hmap
  exact (List.chain'_map BatchedSurface.header).1 hmap

/-- C1 on the example world: the first update of a fresh cache rebuilds, and the
two batches (material 1 with two faces, material 2 with one face) differ. -/
theorem updateVisCache_consecutive_batches_differ_witness :
    leafFromPosition exampleWorld default = some 0 ∧
    needsRebuild exampleExternals exampleWorld emptyVisCache 0 [] = true ∧
    (updateVisCache exampleExternals exampleWorld emptyVisCache default []).map
      (fun r => r.2.batchedSurfaces.map BatchedSurface.header) =
        some [(1, -1, some 0, 6), (2, -1, some 0, 3)] ∧
    ∃ w1 vc1, updateVisCache exampleExternals exampleWorld emptyVisCache default [] = some (w1, vc1) ∧
      List.Chain'
        (fun b1 b2 : BatchedSurface =>
          b1.material ≠ b2.material ∨ b1.fogIndex ≠ b2.fogIndex ∨ b1.bufferIndex ≠ b2.bufferIndex ∨
            (exampleExternals.materialAt b1.material).hasAutoSpriteDeform = true)
        vc1.batchedSurfaces :=
  ⟨rfl, rfl, rfl,
    match updateVisCache_consecutive_batches_differ exampleExternals exampleWorld emptyVisCache
        default [] 0 rfl rfl with
    | ⟨w1, vc1, h, _, _, _, hc⟩ => ⟨w1, vc1, h, hc⟩⟩

/-- Taking every count modulo `m` does not change a sum that is below `m`. -/
theorem sum_map_mod_of_lt (l : List Nat) (m : Nat) (h : l.sum < m) :
    (l.map (fun x => x % m)).sum = l.sum := by
  induction l with
  | nil => rfl
  | cons x rest ih =>
    rw [List.sum_cons] at h
    rw [List.map_cons, List.sum_cons, List.sum_cons, ih (by omega), Nat.mod_eq_of_lt (by omega)]

/-- C2: after every rebuild by `updateVisCache` the windows `[firstSurface, i]` of
the sorted visible-surface list consumed by the successive batches start at
position 0, each starts right after the previous one, and the last ends at the end
of the list, so listed one after the other they are exactly the positions
`0, ..., n - 1` (every visible surface lies in exactly one window); the batch list
has one batch per window whose `nIndices` is the window's index count as a
`uint32_t`; and when the total index count fits in 32 bits, the sum of `nIndices`
over all batches equals the total number of indices of the visible surfaces. -/
theorem updateVisCache_batch_windows_partition (env : Externals) (w : World) (vc : VisCache)
    (pos : vec3) (areaMask : List Nat) (leaf : Nat)
    (hl : leafFromPosition w pos = some leaf)
    (hr : needsRebuild env w vc leaf areaMask = true) :
    ∃ w1 vc1, updateVisCache env w vc pos areaMask = some (w1, vc1) ∧
      WindowsFrom (visibleSurfaces w1 vc1) 0 (batchWindows (visibleSurfaces w1 vc1)) ∧
      ((batchWindows (visibleSurfaces w1 vc1)).map
          (fun p => List.range' p.1 (p.2 + 1 - p.1))).flatten =
        List.range (visibleSurfaces w1 vc1).length ∧
      vc1.batchedSurfaces.map (fun b => b.nIndices) =
        (batchWindows (visibleSurfaces w1 vc1)).map
          (fun p => windowIndexCount (visibleSurfaces w1 vc1) p.1 p.2 % 2 ^ 32) ∧
      (((visibleSurfaces w1 vc1).map (fun s => s.indices.length)).sum < 2 ^ 32 →
        (vc1.batchedSurfaces.map (fun b => b.nIndices)).sum =
          ((visibleSurfaces w1 vc1).map (fun s => s.indices.length)).sum) := by
  refine ⟨_, _, updateVisCache_rebuilds env w vc pos areaMask leaf hl hr, ?_⟩
  have hb := rebuildVisCache_batches env w vc (w.nodes_.getD leaf default) areaMask
  generalize rebuildVisCache env w vc (w.nodes_.getD leaf default) areaMask = r at hb ⊢
  obtain ⟨w1, vc1⟩ := r
  show WindowsFrom (visibleSurfaces w1 vc1) 0 (batchWindows (visibleSurfaces w1 vc1)) ∧
      ((batchWindows (visibleSurfaces w1 vc1)).map
          (fun p => List.range' p.1 (p.2 + 1 - p.1))).flatten =
        List.range (visibleSurfaces w1 vc1).length ∧
      vc1.batchedSurfaces.map (fun b => b.nIndices) =
        (batchWindows (visibleSurfaces w1 vc1)).map
          (fun p => windowIndexCount (visibleSurfaces w1 vc1) p.1 p.2 % 2 ^ 32) ∧
      (((visibleSurfaces w1 vc1).map (fun s => s.indices.length)).sum < 2 ^ 32 →
        (vc1.batchedSurfaces.map (fun b => b.nIndices)).sum =
          ((visibleSurfaces w1 vc1).map (fun s => s.indices.length)).sum)
  have hb1 : vc1.batchedSurfaces.map BatchedSurface.header =
      (batchWindows (visibleSurfaces w1 vc1)).map (batchHeader env (visibleSurfaces w1 vc1)) := hb
  generalize visibleSurfaces w1 vc1 = ss at hb1 ⊢
  have hw := batchWindows_windowsFrom ss
  have hflat := WindowsFrom.flatten_eq ss _ 0 hw
  have hcount := WindowsFrom.count_sum ss _ 0 hw
  have hn : vc1.batchedSurfaces.map (fun b => b.nIndices) =
      (batchWindows ss).map (fun p => windowIndexCount ss p.1 p.2 % 2 ^ 32) := by
    have e := congrArg (List.map (fun h : MaterialPtr × Int × Option Nat × Nat => h.2.2.2)) hb1
    rw [List.map_map, List.map_map] at e
    exact e
  have htotal : ((List.range' 0 (ss.length - 0)).map
      (fun j => (ss.getD j default).indices.length)).sum =
      (ss.map (fun s => s.indices.length)).sum := by
    conv_rhs => rw [← map_getD_range ss]
    rw [List.map_map]
    rfl
  refine ⟨hw, ?_, hn, ?_⟩
  · rw [hflat, List.range_eq_range']
    rfl
  · intro hlt
    rw [hn]
    have e2 : (batchWindows ss).map (fun p => windowIndexCount ss p.1 p.2 % 2 ^ 32) =
        ((batchWindows ss).map (fun p => windowIndexCount ss p.1 p.2)).map (fun x => x % 2 ^ 32) := by
      rw [List.map_map]
      rfl
    rw [e2, sum_map_mod_of_lt _ _ (by rw [hcount, htotal]; exact hlt), hcount, htotal]

/-- C2 on the example world: the windows are `[0, 1]` and `[2, 2]`, the batches
have 6 and 3 indices, and 6 + 3 is the number of indices of the three faces. -/
theorem updateVisCache_batch_windows_partition_witness :
    leafFromPosition exampleWorld default = some 0 ∧
    needsRebuild exampleExternals exampleWorld emptyVisCache 0 [] = true ∧
    (updateVisCache exampleExternals exampleWorld emptyVisCache default []).map
      (fun r => (batchWindows (visibleSurfaces r.1 r.2), r.2.batchedSurfaces.map (fun b => b.nIndices))) =
        some ([(0, 1), (2, 2)], [6, 3]) ∧
    ∃ w1 vc1, updateVisCache exampleExternals exampleWorld emptyVisCache default [] = some (w1, vc1) ∧
      ((batchWindows (visibleSurfaces w1 vc1)).map
          (fun p => List.range' p.1 (p.2 + 1 - p.1))).flatten =
        List.range (visibleSurfaces w1 vc1).length :=
  ⟨rfl, rfl, rfl,
    match updateVisCache_batch_windows_partition exampleExternals exampleWorld emptyVisCache
        default [] 0 rfl rfl with
    | ⟨w1, vc1, h, _, hf, _, _⟩ => ⟨w1, vc1, h, hf⟩⟩

/-! ## Theorems: the change test of `World::updateVisCache` -/

/-- A property kept by every step of a left fold is kept by the fold. -/
theorem foldl_preserves {α β : Type} (P : α → Prop) (f : α → β → α)
    (hf : ∀ a b, P a → P (f a b)) : ∀ (l : List β) (a : α), P a → P (l.foldl f a) := by
  intro l
  induction l with
  | nil =>
    intro a ha
    exact ha
  | cons b rest ih =>
    intro a ha
    exact ih (f a b) (hf a b ha)

/-- Adding a leaf surface does not change the BSP nodes. -/
theorem addLeafSurface_nodes (env : Externals) (st : World × VisCache) (si : Int) :
    (addLeafSurface env st si).1.nodes_ = st.1.nodes_ := by
  unfold addLeafSurface
  simp only []
  split_ifs <;> rfl

/-- Scanning a leaf does not change the BSP nodes. -/
theorem scanLeaf_nodes (env : Externals) (areaMask : List Nat) (pvs : Option Int)
    (st : World × VisCache) (leaf : Node) :
    (scanLeaf env areaMask pvs st leaf).1.nodes_ = st.1.nodes_ := by
  unfold scanLeaf
  simp only []
  split_ifs
  · rfl
  · rfl
  · apply foldl_preserves (fun s : World × VisCache => s.1.nodes_ = st.1.nodes_)
    · intro a b ha
      rw [addLeafSurface_nodes]
      exact ha
    · rfl

/-- The rebuild does not change the BSP nodes. -/
theorem rebuildVisCache_nodes (env : Externals) (w : World) (vc : VisCache) (cameraLeaf : Node)
    (areaMask : List Nat) :
    (rebuildVisCache env w vc cameraLeaf areaMask).1.nodes_ = w.nodes_ := by
  show (collectVisibleSurfaces env w vc cameraLeaf areaMask).1.nodes_ = w.nodes_
  unfold collectVisibleSurfaces
  simp only []
  apply foldl_preserves (fun s : World × VisCache => s.1.nodes_ = w.nodes_)
  · intro a b ha
    rw [scanLeaf_nodes]
    exact ha
  · rfl

/-- The recorded area mask compares equal to every mask with the same first
`MAX_MAP_AREA_BYTES` bytes. -/
theorem areaMaskEqual_recorded (env : Externals) (mask1 mask2 : List Nat)
    (hm : ∀ i, i < env.MAX_MAP_AREA_BYTES → mask2.getD i 0 = mask1.getD i 0) :
    areaMaskEqual env mask2
      ((List.range env.MAX_MAP_AREA_BYTES).map (fun i => mask1.getD i 0)) = true := by
  unfold areaMaskEqual
  rw [List.all_eq_true]
  intro i hi
  have hlt : i < env.MAX_MAP_AREA_BYTES := List.mem_range.1 hi
  simp only [decide_eq_true_eq]
  rw [hm i hlt]
  simp [hlt]

/-- When the camera leaf is found and the rebuild condition fails, `updateVisCache`
only advances the pass counter and records the baseline. -/
theorem updateVisCache_keeps (env : Externals) (w : World) (vc : VisCache) (pos : vec3)
    (areaMask : List Nat) (leaf : Nat)
    (hl : leafFromPosition w pos = some leaf)
    (hr : needsRebuild env w vc leaf areaMask = false) :
    updateVisCache env w vc pos areaMask =
      some ({ w with duplicateSurfaceId_ := w.duplicateSurfaceId_ + 1 },
            { vc with
              lastCameraLeaf := some leaf
              lastAreaMask := (List.range env.MAX_MAP_AREA_BYTES).map (fun i => areaMask.getD i 0) }) := by
  unfold updateVisCache
  rw [hl]
  simp only [hr, Bool.false_eq_true, if_false]

/-- C3: after an `updateVisCache` call whose camera position resolves to the leaf
`leaf1`, a second call whose camera position resolves to a leaf with the same
cluster and whose area mask has the same `MAX_MAP_AREA_BYTES` bytes returns, does
not take the rebuild branch, and leaves the cache as it was (batch list,
visible-surface list, merged bounds and every other member) apart from the
recorded camera leaf; in the world only the pass counter changes. -/
theorem updateVisCache_same_cluster_no_rebuild (env : Externals) (w : World) (vc : VisCache)
    (pos1 pos2 : vec3) (mask1 mask2 : List Nat) (leaf1 leaf2 : Nat)
    (h1 : leafFromPosition w pos1 = some leaf1)
    (h2 : leafFromPosition w pos2 = some leaf2)
    (hc : (w.nodes_.getD leaf2 default).cluster = (w.nodes_.getD leaf1 default).cluster)
    (hm : ∀ i, i < env.MAX_MAP_AREA_BYTES → mask2.getD i 0 = mask1.getD i 0) :
    ∃ w1 vc1 w2 vc2,
      updateVisCache env w vc pos1 mask1 = some (w1, vc1) ∧
      leafFromPosition w1 pos2 = some leaf2 ∧
      needsRebuild env w1 vc1 leaf2 mask2 = false ∧
      updateVisCache env w1 vc1 pos2 mask2 = some (w2, vc2) ∧
      vc2.batchedSurfaces = vc1.batchedSurfaces ∧
      vc2.surfaces = vc1.surfaces ∧
      vc2.bounds = vc1.bounds ∧
      vc2 = { vc1 with lastCameraLeaf := some leaf2 } ∧
      w2 = { w1 with duplicateSurfaceId_ := w1.duplicateSurfaceId_ + 1 } := by
  have hfirst : ∃ (w1 : World) (vc1 : VisCache),
      updateVisCache env w vc pos1 mask1 = some (w1, vc1) ∧ w1.nodes_ = w.nodes_ ∧
      vc1.lastCameraLeaf = some leaf1 ∧
      vc1.lastAreaMask = (List.range env.MAX_MAP_AREA_BYTES).map (fun i => mask1.getD i 0) := by
    by_cases hr : needsRebuild env w vc leaf1 mask1 = true
    · exact ⟨_, _, updateVisCache_rebuilds env w vc pos1 mask1 leaf1 h1 hr,
        rebuildVisCache_nodes env w vc _ mask1, rfl, rfl⟩
    · exact ⟨_, _, updateVisCache_keeps env w vc pos1 mask1 leaf1 h1 (by simpa using hr),
        rfl, rfl, rfl⟩
  obtain ⟨w1, vc1, hup, hnodes, hlast, hlam⟩ := hfirst
  have hleaf2 : leafFromPosition w1 pos2 = some leaf2 := by
    unfold leafFromPosition at h2 ⊢
    rw [hnodes]
    exact h2
  have hno : needsRebuild env w1 vc1 leaf2 mask2 = false := by
    unfold needsRebuild
    rw [hlast]
    simp only []
    rw [hnodes, hlam, areaMaskEqual_recorded env mask1 mask2 hm, hc]
    simp
  have hmask : (List.range env.MAX_MAP_AREA_BYTES).map (fun i => mask2.getD i 0) =
      (List.range env.MAX_MAP_AREA_BYTES).map (fun i => mask1.getD i 0) := by
    apply List.map_congr_left
    intro i hi
    exact hm i (List.mem_range.1 hi)
  have hup2 : updateVisCache env w1 vc1 pos2 mask2 =
      some ({ w1 with duplicateSurfaceId_ := w1.duplicateSurfaceId_ + 1 },
            { vc1 with lastCameraLeaf := some leaf2 }) := by
    unfold updateVisCache
    rw [hleaf2]
    simp only [hno, Bool.false_eq_true, if_false]
    rw [hmask, ← hlam]
  exact ⟨w1, vc1, _, _, hup, hleaf2, hno, hup2, rfl, rfl, rfl, rfl, rfl⟩

/-- C3 on the example world: a second update from the same position with the same
(empty) area mask does not rebuild and keeps the two batches. -/
theorem updateVisCache_same_cluster_no_rebuild_witness :
    leafFromPosition exampleWorld default = some 0 ∧
    ∃ w1 vc1 w2 vc2,
      updateVisCache exampleExternals exampleWorld emptyVisCache default [] = some (w1, vc1) ∧
      needsRebuild exampleExternals w1 vc1 0 [] = false ∧
      updateVisCache exampleExternals w1 vc1 default [] = some (w2, vc2) ∧
      vc2.batchedSurfaces = vc1.batchedSurfaces :=
  ⟨rfl,
    match updateVisCache_same_cluster_no_rebuild exampleExternals exampleWorld emptyVisCache
        default default [] [] 0 0 rfl rfl rfl (fun _ _ => rfl) with
    | ⟨w1, vc1, w2, vc2, h1, _, h3, h4, h5, _⟩ => ⟨w1, vc1, w2, vc2, h1, h3, h4, h5⟩⟩

/-! ## Theorems: the sky slots of `World::updateVisCache` -/

/-- The slot search keeps the sky slots ordered, given that the slots before `k`
are taken by other materials. -/
theorem skySlotLoop_ordered (material : MaterialPtr) (fuel : Nat) :
    ∀ (k : Nat) (vc : VisCache), k + fuel = VisCache.maxSkies → vc.skySlotsOrdered →
      (∀ j, j < k → vc.skyMaterials j ≠ none ∧ vc.skyMaterials j ≠ some material) →
      (skySlotLoop material fuel k vc).2.skySlotsOrdered := by
  induction fuel with
  | zero =>
    intro k vc _ hinv _
    exact hinv
  | succ fuel ih =>
    intro k vc hk hinv hbefore
    unfold skySlotLoop
    cases hslot : vc.skyMaterials k with
    | none =>
      simp only []
      obtain ⟨_, h2, h3, h4⟩ := hinv
      have hkn : k = vc.nSkies := by
        have h5 : ¬ k < vc.nSkies := fun hlt => h2 k hlt hslot
        have h6 : ¬ vc.nSkies < k := fun hlt => (hbefore vc.nSkies hlt).1 (h3 _ le_rfl (by omega))
        omega
      refine ⟨?_, ?_, ?_, ?_⟩
      · show vc.nSkies + 1 ≤ VisCache.maxSkies
        omega
      · intro j hj
        show (if j = k then some material else vc.skyMaterials j) ≠ none
        have hj2 : j < vc.nSkies + 1 := hj
        split_ifs with hjk
        · simp
        · exact h2 j (by omega)
      · intro j hj1 hj2
        show (if j = k then some material else vc.skyMaterials j) = none
        have hj3 : vc.nSkies + 1 ≤ j := hj1
        rw [if_neg (by omega)]
        exact h3 j (by omega) hj2
      · intro i j hij hj
        show (if i = k then some material else vc.skyMaterials i) ≠
          (if j = k then some material else vc.skyMaterials j)
        have hj2 : j < vc.nSkies + 1 := hj
        by_cases hjk : j = k
        · rw [if_neg (by omega), if_pos hjk]
          exact (hbefore i (by omega)).2
        · rw [if_neg (by omega), if_neg hjk]
          exact h4 i j hij (by omega)
    | some m =>
      simp only []
      split_ifs with hm
      · exact hinv
      · apply ih (k + 1) vc (by omega) hinv
        intro j hj
        by_cases hjk : j = k
        · rw [hjk, hslot]
          exact ⟨by simp, by simpa using hm⟩
        · exact hbefore j (by omega)

/-- The slot search does not touch the visible-surface list. -/
theorem skySlotLoop_surfaces (material : MaterialPtr) (fuel : Nat) :
    ∀ (k : Nat) (vc : VisCache), (skySlotLoop material fuel k vc).2.surfaces = vc.surfaces := by
  induction fuel with
  | zero =>
    intro k vc
    rfl
  | succ fuel ih =>
    intro k vc
    unfold skySlotLoop
    cases hslot : vc.skyMaterials k with
    | none => rfl
    | some m =>
      simp only []
      split_ifs
      · rfl
      · exact ih (k + 1) vc

/-- When every slot from `k` on is taken by another material, the slot search
runs to the end and changes nothing. -/
theorem skySlotLoop_full (material : MaterialPtr) (fuel : Nat) :
    ∀ (k : Nat) (vc : VisCache),
      (∀ j, k ≤ j → j < k + fuel → ∃ m, vc.skyMaterials j = some m ∧ m ≠ material) →
      skySlotLoop material fuel k vc = (k + fuel, vc) := by
  induction fuel with
  | zero =>
    intro k vc _
    rfl
  | succ fuel ih =>
    intro k vc h
    obtain ⟨m, hm, hne⟩ := h k le_rfl (by omega)
    unfold skySlotLoop
    rw [hm]
    simp only [hne, if_false]
    rw [ih (k + 1) vc (fun j h1 h2 => h j (by omega) (by omega))]
    congr 1
    omega

/-- Adding a leaf surface keeps the sky slots ordered. -/
theorem addLeafSurface_skySlotsOrdered (env : Externals) (st : World × VisCache) (si : Int)
    (h : st.2.skySlotsOrdered) : (addLeafSurface env st si).2.skySlotsOrdered := by
  have hloop : ∀ m, (skySlotLoop m VisCache.maxSkies 0 st.2).2.skySlotsOrdered :=
    fun m => skySlotLoop_ordered m VisCache.maxSkies 0 st.2 (by simp) h
      (fun j hj => absurd hj (Nat.not_lt_zero j))
  unfold addLeafSurface
  simp only []
  split_ifs
  · exact h
  · exact h
  · exact h
  · exact hloop _
  · exact hloop _
  · exact h
  · exact h
  · exact h
  · exact h

/-- Scanning a leaf keeps the sky slots ordered. -/
theorem scanLeaf_skySlotsOrdered (env : Externals) (areaMask : List Nat) (pvs : Option Int)
    (st : World × VisCache) (leaf : Node) (h : st.2.skySlotsOrdered) :
    (scanLeaf env areaMask pvs st leaf).2.skySlotsOrdered := by
  unfold scanLeaf
  simp only []
  split_ifs
  · exact h
  · exact h
  · apply foldl_preserves (fun s : World × VisCache => s.2.skySlotsOrdered)
    · intro a b ha
      exact addLeafSurface_skySlotsOrdered env a _ ha
    · exact h

/-- After the leaf scan of a rebuild the sky slots are ordered. -/
theorem collectVisibleSurfaces_skySlotsOrdered (env : Externals) (w : World) (vc : VisCache)
    (cameraLeaf : Node) (areaMask : List Nat) :
    (collectVisibleSurfaces env w vc cameraLeaf areaMask).2.skySlotsOrdered := by
  unfold collectVisibleSurfaces
  simp only []
  apply foldl_preserves (fun s : World × VisCache => s.2.skySlotsOrdered)
  · intro a b ha
    exact scanLeaf_skySlotsOrdered env areaMask _ a b ha
  · refine ⟨Nat.zero_le _, ?_, ?_, ?_⟩
    · intro k hk
      exact absurd hk (Nat.not_lt_zero k)
    · intro k _ hk
      show (if k < VisCache.maxSkies then none else vc.skyMaterials k) = none
      rw [if_pos hk]
    · intro j k _ hk
      exact absurd hk (Nat.not_lt_zero k)

/-- Pushing a batch does not touch the sky members. -/
theorem pushBatch_sky (env : Externals) (w : World) (ss : List Surface) (firstSurface i : Nat)
    (vc : VisCache) :
    (pushBatch env w ss firstSurface i vc).nSkies = vc.nSkies ∧
    (pushBatch env w ss firstSurface i vc).skyMaterials = vc.skyMaterials ∧
    (pushBatch env w ss firstSurface i vc).skyVertices = vc.skyVertices := by
  simp only [pushBatch]
  split_ifs
  · exact ⟨rfl, rfl, rfl⟩
  · exact ⟨rfl, rfl, rfl⟩

/-- The batching loop does not touch the sky members. -/
theorem createBatchedSurfacesLoop_sky (env : Externals) (w : World) (ss : List Surface)
    (is : List Nat) :
    ∀ (firstSurface : Nat) (vc : VisCache),
      (createBatchedSurfacesLoop env w ss is firstSurface vc).nSkies = vc.nSkies ∧
      (createBatchedSurfacesLoop env w ss is firstSurface vc).skyMaterials = vc.skyMaterials ∧
      (createBatchedSurfacesLoop env w ss is firstSurface vc).skyVertices = vc.skyVertices := by
  induction is with
  | nil =>
    intro firstSurface vc
    exact ⟨rfl, rfl, rfl⟩
  | cons i rest ih =>
    intro firstSurface vc
    by_cases hc : closesBatch ss i = true
    · rw [createBatchedSurfacesLoop, if_pos hc]
      obtain ⟨h1, h2, h3⟩ := ih (i + 1) (pushBatch env w ss firstSurface i vc)
      obtain ⟨p1, p2, p3⟩ := pushBatch_sky env w ss firstSurface i vc
      exact ⟨h1.trans p1, h2.trans p2, h3.trans p3⟩
    · rw [createBatchedSurfacesLoop, if_neg hc]
      exact ih firstSurface vc

/-- The sky members after a rebuild are those after its leaf scan. -/
theorem rebuildVisCache_sky (env : Externals) (w : World) (vc : VisCache) (cameraLeaf : Node)
    (areaMask : List Nat) :
    (rebuildVisCache env w vc cameraLeaf areaMask).2.nSkies =
      (collectVisibleSurfaces env w vc cameraLeaf areaMask).2.nSkies ∧
    (rebuildVisCache env w vc cameraLeaf areaMask).2.skyMaterials =
      (collectVisibleSurfaces env w vc cameraLeaf areaMask).2.skyMaterials := by
  obtain ⟨h1, h2, _⟩ := createBatchedSurfacesLoop_sky env
    (collectVisibleSurfaces env w vc cameraLeaf areaMask).1
    (visibleSurfaces (collectVisibleSurfaces env w vc cameraLeaf areaMask).1
      (sortAndClear env (collectVisibleSurfaces env w vc cameraLeaf areaMask)))
    (List.range (visibleSurfaces (collectVisibleSurfaces env w vc cameraLeaf areaMask).1
      (sortAndClear env (collectVisibleSurfaces env w vc cameraLeaf areaMask))).length) 0
    { sortAndClear env (collectVisibleSurfaces env w vc cameraLeaf areaMask) with
      batchedSurfaces := [] }
  exact ⟨h1, h2⟩

/-- With ordered sky slots the recorded sky materials are pairwise different and
there are `nSkies` of them. -/
theorem skySlotsOrdered_count (vc : VisCache) (h : vc.skySlotsOrdered) :
    vc.recordedSkyMaterials.dedup.length = vc.nSkies := by
  obtain ⟨h1, h2, h3, h4⟩ := h
  have hmax : VisCache.maxSkies = 4 := rfl
  have hrange : List.range VisCache.maxSkies = [0, 1, 2, 3] := rfl
  unfold VisCache.recordedSkyMaterials
  rw [hrange]
  rw [hmax] at h1 h3
  have hcases : vc.nSkies = 0 ∨ vc.nSkies = 1 ∨ vc.nSkies = 2 ∨ vc.nSkies = 3 ∨ vc.nSkies = 4 := by
    omega
  rcases hcases with hn | hn | hn | hn | hn <;> rw [hn] at h2 h3 h4 ⊢
  · have e0 := h3 0 (by omega) (by omega)
    have e1 := h3 1 (by omega) (by omega)
    have e2 := h3 2 (by omega) (by omega)
    have e3 := h3 3 (by omega) (by omega)
    simp [List.filterMap_cons, e0, e1, e2, e3]
  · obtain ⟨a, ha⟩ := Option.ne_none_iff_exists'.1 (h2 0 (by omega))
    have e1 := h3 1 (by omega) (by omega)
    have e2 := h3 2 (by omega) (by omega)
    have e3 := h3 3 (by omega) (by omega)
    simp [List.filterMap_cons, ha, e1, e2, e3]
  · obtain ⟨a, ha⟩ := Option.ne_none_iff_exists'.1 (h2 0 (by omega))
    obtain ⟨b, hb⟩ := Option.ne_none_iff_exists'.1 (h2 1 (by omega))
    have e2 := h3 2 (by omega) (by omega)
    have e3 := h3 3 (by omega) (by omega)
    have hab : a ≠ b := by
      have := h4 0 1 (by omega) (by omega)
      rw [ha, hb] at this
      simpa using this
    have hnd : [a, b].Nodup := by simp [hab]
    simp [List.filterMap_cons, ha, hb, e2, e3, hnd.dedup]
  · obtain ⟨a, ha⟩ := Option.ne_none_iff_exists'.1 (h2 0 (by omega))
    obtain ⟨b, hb⟩ := Option.ne_none_iff_exists'.1 (h2 1 (by omega))
    obtain ⟨c, hc⟩ := Option.ne_none_iff_exists'.1 (h2 2 (by omega))
    have e3 := h3 3 (by omega) (by omega)
    have hab : a ≠ b := by
      have := h4 0 1 (by omega) (by omega)
      rw [ha, hb] at this
      simpa using this
    have hac : a ≠ c := by
      have := h4 0 2 (by omega) (by omega)
      rw [ha, hc] at this
      simpa using this
    have hbc : b ≠ c := by
      have := h4 1 2 (by omega) (by omega)
      rw [hb, hc] at this
      simpa using this
    have hnd : [a, b, c].Nodup := by simp [hab, hac, hbc]
    simp [List.filterMap_cons, ha, hb, hc, e3, hnd.dedup]
  · obtain ⟨a, ha⟩ := Option.ne_none_iff_exists'.1 (h2 0 (by omega))
    obtain ⟨b, hb⟩ := Option.ne_none_iff_exists'.1 (h2 1 (by omega))
    obtain ⟨c, hc⟩ := Option.ne_none_iff_exists'.1 (h2 2 (by omega))
    obtain ⟨d, hd⟩ := Option.ne_none_iff_exists'.1 (h2 3 (by omega))
    have hab : a ≠ b := by
      have := h4 0 1 (by omega) (by omega)
      rw [ha, hb] at this
      simpa using this
    have hac : a ≠ c := by
      have := h4 0 2 (by omega) (by omega)
      rw [ha, hc] at this
      simpa using this
    have had : a ≠ d := by
      have := h4 0 3 (by omega) (by omega)
      rw [ha, hd] at this
      simpa using this
    have hbc : b ≠ c := by
      have := h4 1 2 (by omega) (by omega)
      rw [hb, hc] at this
      simpa using this
    have hbd : b ≠ d := by
      have := h4 1 3 (by omega) (by omega)
      rw [hb, hd] at this
      simpa using this
    have hcd : c ≠ d := by
      have := h4 2 3 (by omega) (by omega)
      rw [hc, hd] at this
      simpa using this
    have hnd : [a, b, c, d].Nodup := by simp [hab, hac, had, hbc, hbd, hcd]
    simp [List.filterMap_cons, ha, hb, hc, hd, hnd.dedup]

/-- C20: after every rebuild by `updateVisCache` the sky count is at most
`VisCache::maxSkies` = 4 and equals the number of distinct sky materials recorded
in the sky-material slots (the first `nSkies` slots hold pairwise different
materials, the others are empty). In the leaf scan, a surface with a sky material
for which all four slots are taken by other materials leaves every sky vertex
list, the slots and the sky count unchanged, and no surface with a sky material
enters the visible-surface list. -/
theorem updateVisCache_sky_slots (env : Externals) (w : World) (vc : VisCache)
    (pos : vec3) (areaMask : List Nat) (leaf : Nat)
    (hl : leafFromPosition w pos = some leaf)
    (hr : needsRebuild env w vc leaf areaMask = true) :
    (∃ w1 vc1, updateVisCache env w vc pos areaMask = some (w1, vc1) ∧
      vc1.nSkies ≤ 4 ∧
      vc1.nSkies = vc1.recordedSkyMaterials.dedup.length ∧
      vc1.skySlotsOrdered) ∧
    (∀ (st : World × VisCache) (si : Int),
      (env.materialAt (st.1.surfaceAt si.toNat).material).isSky = true →
      (addLeafSurface env st si).2.surfaces = st.2.surfaces ∧
      ((∀ k, k < VisCache.maxSkies →
          ∃ m, st.2.skyMaterials k = some m ∧ m ≠ (st.1.surfaceAt si.toNat).material) →
        (addLeafSurface env st si).2.skyVertices = st.2.skyVertices ∧
        (addLeafSurface env st si).2.skyMaterials = st.2.skyMaterials ∧
        (addLeafSurface env st si).2.nSkies = st.2.nSkies)) := by
  constructor
  · refine ⟨_, _, updateVisCache_rebuilds env w vc pos areaMask leaf hl hr, ?_⟩
    have hinv := collectVisibleSurfaces_skySlotsOrdered env w vc (w.nodes_.getD leaf default) areaMask
    obtain ⟨e1, e2⟩ := rebuildVisCache_sky env w vc (w.nodes_.getD leaf default) areaMask
    have hord : ({ (rebuildVisCache env w vc (w.nodes_.getD leaf default) areaMask).2 with
        lastCameraLeaf := some leaf
        lastAreaMask := (List.range env.MAX_MAP_AREA_BYTES).map (fun i => areaMask.getD i 0) }
          : VisCache).skySlotsOrdered := by
      unfold VisCache.skySlotsOrdered
      show (rebuildVisCache env w vc (w.nodes_.getD leaf default) areaMask).2.nSkies ≤ VisCache.maxSkies ∧
        (∀ k, k < (rebuildVisCache env w vc (w.nodes_.getD leaf default) areaMask).2.nSkies →
          (rebuildVisCache env w vc (w.nodes_.getD leaf default) areaMask).2.skyMaterials k ≠ none) ∧
        (∀ k, (rebuildVisCache env w vc (w.nodes_.getD leaf default) areaMask).2.nSkies ≤ k →
          k < VisCache.maxSkies →
          (rebuildVisCache env w vc (w.nodes_.getD leaf default) areaMask).2.skyMaterials k = none) ∧
        (∀ j k, j < k → k < (rebuildVisCache env w vc (w.nodes_.getD leaf default) areaMask).2.nSkies →
          (rebuildVisCache env w vc (w.nodes_.getD leaf default) areaMask).2.skyMaterials j ≠
            (rebuildVisCache env w vc (w.nodes_.getD leaf default) areaMask).2.skyMaterials k)
      rw [e1, e2]
      exact hinv
    exact ⟨hord.1, (skySlotsOrdered_count _ hord).symm, hord⟩
  · intro st si hsky
    have hfull : (∀ k, k < VisCache.maxSkies →
        ∃ m, st.2.skyMaterials k = some m ∧ m ≠ (st.1.surfaceAt si.toNat).material) →
        skySlotLoop (st.1.surfaceAt si.toNat).material VisCache.maxSkies 0 st.2 =
          (VisCache.maxSkies, st.2) := by
      intro h
      have e := skySlotLoop_full (st.1.surfaceAt si.toNat).material VisCache.maxSkies 0 st.2
        (fun j _ h2 => h j (by omega))
      rw [e]
      simp
    unfold addLeafSurface
    simp only [hsky, if_true]
    split_ifs with c1 c2 c3 c4
    · exact ⟨rfl, fun _ => ⟨rfl, rfl, rfl⟩⟩
    · exact ⟨rfl, fun _ => ⟨rfl, rfl, rfl⟩⟩
    · exact ⟨rfl, fun _ => ⟨rfl, rfl, rfl⟩⟩
    · refine ⟨skySlotLoop_surfaces _ _ _ _, fun h => ?_⟩
      rw [hfull h]
      exact ⟨rfl, rfl, rfl⟩
    · refine ⟨skySlotLoop_surfaces _ _ _ _, fun h => ?_⟩
      exfalso
      apply c4
      rw [hfull h]

/-- C20 on the sky world: five distinct sky materials are visible, four are
recorded in the slots, the fifth is dropped, and only the face of material 1 is in
the visible-surface list. -/
theorem updateVisCache_sky_slots_witness :
    leafFromPosition skyWorld default = some 0 ∧
    needsRebuild skyExternals skyWorld emptyVisCache 0 [] = true ∧
    (updateVisCache skyExternals skyWorld emptyVisCache default []).map
      (fun r => (r.2.nSkies, r.2.recordedSkyMaterials, r.2.surfaces,
        (List.range 4).map (fun k => (r.2.skyVertices k).length))) =
      some (4, [100, 101, 102, 103], [5], [3, 3, 3, 3]) ∧
    ∃ w1 vc1, updateVisCache skyExternals skyWorld emptyVisCache default [] = some (w1, vc1) ∧
      vc1.nSkies ≤ 4 ∧ vc1.nSkies = vc1.recordedSkyMaterials.dedup.length :=
  ⟨rfl, rfl, by decide,
    match (updateVisCache_sky_slots skyExternals skyWorld emptyVisCache default [] 0 rfl rfl).1 with
    | ⟨w1, vc1, h, h1, h2, _⟩ => ⟨w1, vc1, h, h1, h2⟩⟩

/-! ## Theorems: `World::loadFromBspFile` -/

/-- The size loop reports nothing exactly when no lump of the list has a non-zero
table entry that fails to divide its length; otherwise it reports such a lump. -/
theorem validateLumpSizes_spec (sz : RecordSizes) (lumps : Nat → lump_t) (is : List Nat) :
    ((∀ i ∈ is, ¬ ((lumpSizes sz).getD i 0 ≠ 0 ∧
        Int.tmod (lumps i).filelen ((lumpSizes sz).getD i 0) ≠ 0)) →
      validateLumpSizes sz lumps is = .ok ()) ∧
    ((∃ i ∈ is, (lumpSizes sz).getD i 0 ≠ 0 ∧
        Int.tmod (lumps i).filelen ((lumpSizes sz).getD i 0) ≠ 0) →
      ∃ j ∈ is, validateLumpSizes sz lumps is = .error (LoadError.lumpBadSize j) ∧
        (lumpSizes sz).getD j 0 ≠ 0 ∧ Int.tmod (lumps j).filelen ((lumpSizes sz).getD j 0) ≠ 0) := by
  induction is with
  | nil =>
    constructor
    · intro _
      rfl
    · rintro ⟨i, hi, _⟩
      cases hi
  | cons i rest ih =>
    by_cases hbad : (lumpSizes sz).getD i 0 ≠ 0 ∧
        Int.tmod (lumps i).filelen ((lumpSizes sz).getD i 0) ≠ 0
    · constructor
      · intro h
        exact absurd hbad (h i (List.mem_cons_self _ _))
      · intro _
        refine ⟨i, List.mem_cons_self _ _, ?_, hbad⟩
        rw [validateLumpSizes, if_pos hbad]
    · constructor
      · intro h
        rw [validateLumpSizes, if_neg hbad]
        exact ih.1 (fun j hj => h j (List.mem_cons_of_mem _ hj))
      · rintro ⟨j, hj, hjbad⟩
        rw [validateLumpSizes, if_neg hbad]
        rcases List.mem_cons.1 hj with rfl | hmem
        · exact absurd hjbad hbad
        · obtain ⟨k, hk, hres, hkbad⟩ := ih.2 ⟨j, hmem, hjbad⟩
          exact ⟨k, List.mem_cons_of_mem _ hk, hres, hkbad⟩

/-- The table entry of the entities, leaf-brush, lightmap, light-grid and
visibility lumps is 0; for the other lumps it is the record size. -/
theorem lumpSizes_entry (sz : RecordSizes) (i : Nat) (_hi : i < HEADER_LUMPS) :
    ((i = LUMP_ENTITIES ∨ i = LUMP_LEAFBRUSHES ∨ i = LUMP_LIGHTMAPS ∨ i = LUMP_LIGHTGRID ∨
        i = LUMP_VISIBILITY) → (lumpSizes sz).getD i 0 = 0) ∧
    (i ≠ LUMP_LEAFBRUSHES → (lumpSizes sz).getD i 0 = lumpRecordSize sz i) := by
  constructor
  · unfold LUMP_ENTITIES LUMP_LEAFBRUSHES LUMP_LIGHTMAPS LUMP_LIGHTGRID LUMP_VISIBILITY
    rintro (h | h | h | h | h) <;> rw [h] <;> rfl
  · intro h
    unfold lumpRecordSize
    rw [if_neg h]

/-- C16, as the code has it: with the right version and non-zero record sizes,
`loadFromBspFile` reports the fatal "lump has bad size" error whenever a lump
other than entities, leaf brushes, lightmaps, light grid and visibility has a
length that is not an exact multiple of its record size (the lump reported is the
first such lump), and reports no error when every one of those lumps has a length
that is an exact multiple. The leaf-brush index lump is never reported. -/
theorem checkHeader_lump_sizes (env : Externals) (sz : RecordSizes) (version : Int)
    (lumps : Nat → lump_t)
    (hv : version = env.BSP_VERSION)
    (hsz : ∀ i, i < HEADER_LUMPS → i ≠ LUMP_ENTITIES → i ≠ LUMP_LEAFBRUSHES → i ≠ LUMP_LIGHTMAPS →
      i ≠ LUMP_LIGHTGRID → i ≠ LUMP_VISIBILITY → lumpRecordSize sz i ≠ 0) :
    ((∃ i, i < HEADER_LUMPS ∧ i ≠ LUMP_ENTITIES ∧ i ≠ LUMP_LEAFBRUSHES ∧ i ≠ LUMP_LIGHTMAPS ∧
        i ≠ LUMP_LIGHTGRID ∧ i ≠ LUMP_VISIBILITY ∧ ¬ (lumpRecordSize sz i ∣ (lumps i).filelen)) →
      ∃ j, j < HEADER_LUMPS ∧ checkHeader env sz version lumps = .error (LoadError.lumpBadSize j) ∧
        j ≠ LUMP_ENTITIES ∧ j ≠ LUMP_LEAFBRUSHES ∧ j ≠ LUMP_LIGHTMAPS ∧ j ≠ LUMP_LIGHTGRID ∧
        j ≠ LUMP_VISIBILITY ∧ ¬ (lumpRecordSize sz j ∣ (lumps j).filelen)) ∧
    ((∀ i, i < HEADER_LUMPS → i ≠ LUMP_ENTITIES → i ≠ LUMP_LEAFBRUSHES → i ≠ LUMP_LIGHTMAPS →
        i ≠ LUMP_LIGHTGRID → i ≠ LUMP_VISIBILITY → lumpRecordSize sz i ∣ (lumps i).filelen) →
      checkHeader env sz version lumps = .ok ()) := by
  have hcheck : checkHeader env sz version lumps =
      validateLumpSizes sz lumps (List.range HEADER_LUMPS) := by
    unfold checkHeader
    rw [if_neg (by simpa using hv)]
  obtain ⟨hok, herr⟩ := validateLumpSizes_spec sz lumps (List.range HEADER_LUMPS)
  constructor
  · rintro ⟨i, hi, h0, h6, h14, h15, h16, hnd⟩
    have hentry := (lumpSizes_entry sz i hi).2 h6
    obtain ⟨j, hj, hres, hj1, hj2⟩ := herr ⟨i, List.mem_range.2 hi, by
      rw [hentry]
      exact ⟨hsz i hi h0 h6 h14 h15 h16, fun h => hnd (Int.dvd_of_tmod_eq_zero h)⟩⟩
    have hjl : j < HEADER_LUMPS := List.mem_range.1 hj
    have hnot : ¬ (j = LUMP_ENTITIES ∨ j = LUMP_LEAFBRUSHES ∨ j = LUMP_LIGHTMAPS ∨
        j = LUMP_LIGHTGRID ∨ j = LUMP_VISIBILITY) :=
      fun h => hj1 ((lumpSizes_entry sz j hjl).1 h)
    have hj6 : j ≠ LUMP_LEAFBRUSHES := fun h => hnot (Or.inr (Or.inl h))
    refine ⟨j, hjl, by rw [hcheck, hres], fun h => hnot (Or.inl h), hj6,
      fun h => hnot (Or.inr (Or.inr (Or.inl h))),
      fun h => hnot (Or.inr (Or.inr (Or.inr (Or.inl h)))),
      fun h => hnot (Or.inr (Or.inr (Or.inr (Or.inr h)))), ?_⟩
    rw [← (lumpSizes_entry sz j hjl).2 hj6]
    exact fun h => hj2 (Int.tmod_eq_zero_of_dvd h)
  · intro h
    rw [hcheck]
    apply hok
    intro i hi
    have hil : i < HEADER_LUMPS := List.mem_range.1 hi
    rintro ⟨hne, hmod⟩
    have hnot : ¬ (i = LUMP_ENTITIES ∨ i = LUMP_LEAFBRUSHES ∨ i = LUMP_LIGHTMAPS ∨
        i = LUMP_LIGHTGRID ∨ i = LUMP_VISIBILITY) :=
      fun hx => hne ((lumpSizes_entry sz i hil).1 hx)
    have hi6 : i ≠ LUMP_LEAFBRUSHES := fun hx => hnot (Or.inr (Or.inl hx))
    apply hmod
    rw [(lumpSizes_entry sz i hil).2 hi6]
    exact Int.tmod_eq_zero_of_dvd (h i hil (fun hx => hnot (Or.inl hx)) hi6
      (fun hx => hnot (Or.inr (Or.inr (Or.inl hx))))
      (fun hx => hnot (Or.inr (Or.inr (Or.inr (Or.inl hx)))))
      (fun hx => hnot (Or.inr (Or.inr (Or.inr (Or.inr hx))))))

/-- The Quake III record sizes are not zero. -/
theorem quake3RecordSizes_nonzero :
    ∀ i, i < HEADER_LUMPS → i ≠ LUMP_ENTITIES → i ≠ LUMP_LEAFBRUSHES → i ≠ LUMP_LIGHTMAPS →
      i ≠ LUMP_LIGHTGRID → i ≠ LUMP_VISIBILITY → lumpRecordSize quake3RecordSizes i ≠ 0 := by
  intro i hi h0 h6 h14 h15 h16
  unfold HEADER_LUMPS at hi
  unfold LUMP_ENTITIES at h0
  unfold LUMP_LEAFBRUSHES at h6
  unfold LUMP_LIGHTMAPS at h14
  unfold LUMP_LIGHTGRID at h15
  unfold LUMP_VISIBILITY at h16
  interval_cases i <;> first | omega | decide

/-- C16 with the Quake III record sizes: a planes lump of 17 bytes (records of 16
bytes) is reported. -/
theorem checkHeader_lump_sizes_witness :
    (46 : Int) = exampleExternals.BSP_VERSION ∧
    checkHeader exampleExternals quake3RecordSizes 46
      (fun i => if i = 2 then { fileofs := 0, filelen := 17 } else { fileofs := 0, filelen := 0 })
      = .error (LoadError.lumpBadSize 2) ∧
    ∃ j, j < HEADER_LUMPS ∧
      checkHeader exampleExternals quake3RecordSizes 46
        (fun i => if i = 2 then { fileofs := 0, filelen := 17 } else { fileofs := 0, filelen := 0 })
        = .error (LoadError.lumpBadSize j) :=
  ⟨rfl, rfl,
    match (checkHeader_lump_sizes exampleExternals quake3RecordSizes 46
        (fun i => if i = 2 then { fileofs := 0, filelen := 17 } else { fileofs := 0, filelen := 0 })
        rfl quake3RecordSizes_nonzero).1 ⟨2, by decide⟩ with
    | ⟨j, hj, h, _⟩ => ⟨j, hj, h⟩⟩

/-- C16, the counterexample: with the Quake III record sizes and every other lump
empty, a leaf-brush index lump of 3 bytes, which is not a multiple of
`sizeof(int)` = 4, is accepted without error. -/
theorem checkHeader_leafBrushes_not_validated :
    lumpRecordSize quake3RecordSizes LUMP_LEAFBRUSHES = 4 ∧
    ¬ ((4 : Int) ∣ 3) ∧
    checkHeader exampleExternals quake3RecordSizes 46
      (fun i => if i = LUMP_LEAFBRUSHES then { fileofs := 0, filelen := 3 }
        else { fileofs := 0, filelen := 0 }) = .ok () :=
  ⟨rfl, by decide, rfl⟩

/-- The side test of `loadFog` as far as the code keeps it: for a brush-side
table of at least six sides (and a brush number inside the brush table), the fatal
error is reported exactly when `firstSide < 0` or `firstSide + 6` exceeds the
number of brush sides, and otherwise all six sides read lie inside the table. -/
theorem loadFog_side_check (planes : List Plane) (fileBrushes : List dbrush_t)
    (fileBrushSides : List dbrushside_t) (ff : dfog_t)
    (hbrush : 0 ≤ ff.brushNum ∧ ff.brushNum < fileBrushes.length)
    (hint : ff.brushNum < 2 ^ 31)
    (hfirst : -(2 ^ 31) ≤ (fileBrushes.getD ff.brushNum.toNat default).firstSide ∧
      (fileBrushes.getD ff.brushNum.toNat default).firstSide < 2 ^ 31)
    (hsides : 6 ≤ fileBrushSides.length ∧ fileBrushSides.length < 2 ^ 31) :
    (((fileBrushes.getD ff.brushNum.toNat default).firstSide < 0 ∨
        (fileBrushes.getD ff.brushNum.toNat default).firstSide + 6 > fileBrushSides.length) →
      loadFog planes fileBrushes fileBrushSides ff = .error LoadError.fogBrushSide) ∧
    (¬ ((fileBrushes.getD ff.brushNum.toNat default).firstSide < 0 ∨
        (fileBrushes.getD ff.brushNum.toNat default).firstSide + 6 > fileBrushSides.length) →
      (∃ f, loadFog planes fileBrushes fileBrushSides ff = .ok f) ∧
      ∀ sideNum ∈ fogBrushSideNums (fileBrushes.getD ff.brushNum.toNat default).firstSide,
        0 ≤ sideNum ∧ sideNum < fileBrushSides.length) := by
  have hb : ¬ toUnsigned ff.brushNum ≥ fileBrushes.length := by
    unfold toUnsigned
    omega
  constructor
  · intro h
    have hs : toUnsigned (fileBrushes.getD ff.brushNum.toNat default).firstSide >
        sizeSub fileBrushSides.length 6 := by
      unfold toUnsigned sizeSub
      omega
    unfold loadFog
    simp only [hb, if_false, hs, if_true]
  · intro h
    have hs : ¬ toUnsigned (fileBrushes.getD ff.brushNum.toNat default).firstSide >
        sizeSub fileBrushSides.length 6 := by
      unfold toUnsigned sizeSub
      omega
    constructor
    · have e : loadFog planes fileBrushes fileBrushSides ff =
          .ok { originalBrushNumber := ff.brushNum
                bounds := fogBounds planes fileBrushSides
                  (fileBrushes.getD ff.brushNum.toNat default).firstSide } := by
        unfold loadFog
        simp only [hb, if_false, hs]
      exact ⟨_, e⟩
    · intro sideNum hmem
      unfold fogBrushSideNums at hmem
      simp only [List.mem_cons, List.mem_singleton, List.not_mem_nil, or_false] at hmem
      omega

/-- C17, the failing input: a brush table of one brush with `firstSide = 0`, a
brush-side table of three sides, and one fog of brush 0. Six sides from side 0
do not fit in the table (0 + 6 > 3), yet `nBrushSides - 6` wraps around, no fatal
error is reported, and the sides 3, 4 and 5 read for the bounds lie outside the
table. -/
theorem loadFogs_short_side_table_no_error :
    (∃ f, loadFogs [] [{ firstSide := 0 }] [{ planeNum := 0 }, { planeNum := 0 }, { planeNum := 0 }]
      [{ brushNum := 0, visibleSide := -1 }] = .ok [f]) ∧
    (0 : Int) + 6 > ([{ planeNum := 0 }, { planeNum := 0 }, { planeNum := 0 }] : List dbrushside_t).length ∧
    (3 : Int) ∈ fogBrushSideNums 0 ∧
    ¬ ((3 : Int) < ([{ planeNum := 0 }, { planeNum := 0 }, { planeNum := 0 }] : List dbrushside_t).length) :=
  ⟨⟨_, rfl⟩, by decide, by decide, by decide⟩

/-- A call of `overbrightenAt` keeps the length of the data. -/
theorem overbrightenAt_length (env : Externals) (data : List Nat) (offset : Nat) :
    (overbrightenAt env data offset).length = data.length := by
  unfold overbrightenAt
  simp

/-- C18: the block "Light grid" of `loadFromBspFile` has no fatal error. When the
length of the light-grid lump differs from 8 times the number of grid points
(the product of the three grid bounds derived from the world bounds and the grid
spacing), the light-grid data of a newly constructed world stays empty and
`hasLightGrid()` is false; when the length matches and is not zero (a byte count),
`hasLightGrid()` is true and the stored data has exactly 8 bytes per grid point. -/
theorem loadLightGrid_hasLightGrid (env : Externals) (w : World) (fileData : List Nat)
    (lump : lump_t) (hnew : w.lightGridData_ = []) (hlen : 0 ≤ lump.filelen) :
    (lump.filelen ≠
        (loadLightGrid env w fileData lump).lightGridBounds_.x *
          (loadLightGrid env w fileData lump).lightGridBounds_.y *
          (loadLightGrid env w fileData lump).lightGridBounds_.z * 8 →
      hasLightGrid (loadLightGrid env w fileData lump) = false) ∧
    (lump.filelen =
        (loadLightGrid env w fileData lump).lightGridBounds_.x *
          (loadLightGrid env w fileData lump).lightGridBounds_.y *
          (loadLightGrid env w fileData lump).lightGridBounds_.z * 8 →
      lump.filelen ≠ 0 →
      hasLightGrid (loadLightGrid env w fileData lump) = true ∧
      ((loadLightGrid env w fileData lump).lightGridData_.length : Int) =
        8 * ((loadLightGrid env w fileData lump).lightGridBounds_.x *
          (loadLightGrid env w fileData lump).lightGridBounds_.y *
          (loadLightGrid env w fileData lump).lightGridBounds_.z)) := by
  have hbounds : (loadLightGrid env w fileData lump).lightGridBounds_ =
      { x := (lightGridAxis w.lightGridSize_.x (w.modelDefs_.getD 0 default).bounds.min.x
                (w.modelDefs_.getD 0 default).bounds.max.x).2
        y := (lightGridAxis w.lightGridSize_.y (w.modelDefs_.getD 0 default).bounds.min.y
                (w.modelDefs_.getD 0 default).bounds.max.y).2
        z := (lightGridAxis w.lightGridSize_.z (w.modelDefs_.getD 0 default).bounds.min.z
                (w.modelDefs_.getD 0 default).bounds.max.z).2 } := by
    unfold loadLightGrid
    simp only []
    split_ifs <;> rfl
  rw [hbounds]
  simp only []
  constructor
  · intro hne
    unfold hasLightGrid loadLightGrid
    simp only [hne, ne_eq, not_false_eq_true, if_true, hnew]
    rfl
  · intro heq hnz
    have hdata : (loadLightGrid env w fileData lump).lightGridData_.length = lump.filelen.toNat := by
      unfold loadLightGrid
      simp only [heq, ne_eq, not_true_eq_false, if_false]
      have := foldl_preserves
        (fun data : List Nat => data.length = lump.filelen.toNat)
        (fun data i => overbrightenAt env (overbrightenAt env data (i * 8)) (i * 8 + 3))
        (fun a b ha => by
          show (overbrightenAt env (overbrightenAt env a (b * 8)) (b * 8 + 3)).length = _
          rw [overbrightenAt_length, overbrightenAt_length]
          exact ha)
      rw [← heq]
      exact this _ _ (by simp)
    constructor
    · unfold hasLightGrid
      have hpos : 0 < (loadLightGrid env w fileData lump).lightGridData_.length := by
        rw [hdata]
        omega
      cases hl : (loadLightGrid env w fileData lump).lightGridData_ with
      | nil =>
        rw [hl] at hpos
        simp at hpos
      | cons a rest => rfl
    · rw [hdata, Int.toNat_of_nonneg hlen, heq]
      ring

/-- C18 on the grid world: the grid has 2 x 2 x 2 points, a lump of 64 bytes
matches and gives a light grid. -/
theorem loadLightGrid_hasLightGrid_witness :
    gridWorld.lightGridData_ = [] ∧ (0 : Int) ≤ 64 ∧
    (loadLightGrid exampleExternals gridWorld (List.replicate 64 1)
      { fileofs := 0, filelen := 64 }).lightGridBounds_ = { x := 2, y := 2, z := 2 } ∧
    hasLightGrid (loadLightGrid exampleExternals gridWorld (List.replicate 64 1)
      { fileofs := 0, filelen := 64 }) = true :=
  ⟨rfl, by decide, by with_unfolding_all decide,
    ((loadLightGrid_hasLightGrid exampleExternals gridWorld (List.replicate 64 1)
      { fileofs := 0, filelen := 64 } rfl (by decide)).2
        (by with_unfolding_all decide) (by decide)).1⟩

/-! ## Theorems: `World::calculatePortalCamera` -/

/-- The entity located for a plane, as the code has it: the first entity of the
list that is of type portal and whose signed distance to the plane is within 64
units; none is located exactly when no portal entity is within 64 units. -/
theorem locatePortalEntity_first (plane : Plane) (entities : List Entity) :
    ∀ j0 : Nat,
      (∀ j, locatePortalEntity plane entities j0 = some j →
        j0 ≤ j ∧ j - j0 < entities.length ∧
        (entities.getD (j - j0) default).type = EntityType.Portal ∧
        ¬ (vec3.dotProduct (entities.getD (j - j0) default).position plane.normal - plane.distance > 64 ∨
          vec3.dotProduct (entities.getD (j - j0) default).position plane.normal - plane.distance < -64) ∧
        ∀ k, k < j - j0 → ¬ ((entities.getD k default).type = EntityType.Portal ∧
          ¬ (vec3.dotProduct (entities.getD k default).position plane.normal - plane.distance > 64 ∨
            vec3.dotProduct (entities.getD k default).position plane.normal - plane.distance < -64))) ∧
      (locatePortalEntity plane entities j0 = none ↔
        ∀ e ∈ entities, ¬ (e.type = EntityType.Portal ∧
          ¬ (vec3.dotProduct e.position plane.normal - plane.distance > 64 ∨
            vec3.dotProduct e.position plane.normal - plane.distance < -64))) := by
  induction entities with
  | nil =>
    intro j0
    constructor
    · intro j h
      simp [locatePortalEntity] at h
    · simp [locatePortalEntity]
  | cons e rest ih =>
    intro j0
    by_cases hp : e.type = EntityType.Portal ∧
        ¬ (vec3.dotProduct e.position plane.normal - plane.distance > 64 ∨
          vec3.dotProduct e.position plane.normal - plane.distance < -64)
    · have hres : locatePortalEntity plane (e :: rest) j0 = some j0 := by
        unfold locatePortalEntity
        simp only [hp.1, if_true, hp.2, if_false]
      rw [hres]
      constructor
      · intro j hj
        injection hj with hj
        subst hj
        simp only [Nat.sub_self, List.getD_cons_zero, List.length_cons]
        refine ⟨le_rfl, Nat.succ_pos _, hp.1, hp.2, ?_⟩
        intro k hk
        exact absurd hk (Nat.not_lt_zero k)
      · constructor
        · intro h
          cases h
        · intro h
          exact absurd hp (h e (List.mem_cons_self _ _))
    · have hres : locatePortalEntity plane (e :: rest) j0 = locatePortalEntity plane rest (j0 + 1) := by
        by_cases ht : e.type = EntityType.Portal
        · have hd : vec3.dotProduct e.position plane.normal - plane.distance > 64 ∨
              vec3.dotProduct e.position plane.normal - plane.distance < -64 := by
            by_contra hc
            exact hp ⟨ht, hc⟩
          rw [locatePortalEntity, if_pos ht, if_pos hd]
        · rw [locatePortalEntity, if_neg ht]
      rw [hres]
      obtain ⟨ih1, ih2⟩ := ih (j0 + 1)
      constructor
      · intro j hj
        obtain ⟨h1, h2, h3, h4, h5⟩ := ih1 j hj
        have e1 : j - j0 = (j - (j0 + 1)) + 1 := by omega
        rw [e1]
        simp only [List.getD_cons_succ, List.length_cons]
        refine ⟨by omega, by omega, h3, h4, ?_⟩
        intro k hk
        cases k with
        | zero =>
          simp only [List.getD_cons_zero]
          exact hp
        | succ k =>
          simp only [List.getD_cons_succ]
          exact h5 k (by omega)
      · rw [ih2]
        constructor
        · intro h x hx
          rcases List.mem_cons.1 hx with rfl | hmem
          · exact hp
          · exact h x hmem
        · intro h x hx
          exact h x (List.mem_cons_of_mem _ hx)

/-- C19, the failing input: the portal surface of `portalWorld` lies in the
plane x = 0 and both portal entities of `portalEntities` are within 64 units of
it; the surface is paired with entity 0, at distance 50, although entity 1, at
distance 1, is nearer to the plane. -/
theorem calculatePortalCamera_first_portal_entity_not_nearest :
    surfacePlane exampleExternals portalWorld (portalWorld.surfaceAt 0) =
      { normal := { x := -1, y := 0, z := 0 }, distance := 0 } ∧
    (cameraPortalSurfaces exampleExternals portalWorld portalVisCache { x := -30, y := 0, z := 0 } []
      portalEntities).map Portal.entity = [0] ∧
    (portalEntities.map (fun e => |vec3.dotProduct e.position { x := -1, y := 0, z := 0 } - 0|)) =
      [50, 1] := by
  refine ⟨by with_unfolding_all decide, by with_unfolding_all decide, ?_⟩
  norm_num [portalEntities, vec3.dotProduct]

/-! ## Theorems: `World::sampleLightGrid` -/

/-- A left fold whose step leaves the start value as it is for every element of
the list gives the start value. -/
theorem foldl_fixed {α β : Type} (f : α → β → α) (a : α) :
    ∀ l : List β, (∀ b ∈ l, f a b = a) → l.foldl f a = a := by
  intro l
  induction l with
  | nil =>
    intro _
    rfl
  | cons b rest ih =>
    intro h
    rw [List.foldl_cons, h b (List.mem_cons_self _ _)]
    exact ih (fun c hc => h c (List.mem_cons_of_mem _ hc))

/-- C11: when each of the 8 neighbouring samples is outside the grid or has six
colour bytes that are all zero, the loop of `sampleLightGrid` leaves the
accumulated weight at 0, the rescale is not applied, and the ambient and the
directed light returned are both (0, 0, 0). -/
theorem sampleLightGrid_dark_neighbours (env : Externals) (w : World) (position : vec3)
    (h : ∀ i, i < 8 → ∀ st ∈ lightGridNeighbour env w position i,
      ∀ k : Nat, k < 6 → readByte w.lightGridData_ (st.2 + (k : Int)) = 0) :
    (sampleLightGridSum env w position).totalFactor = 0 ∧
    ¬ sampleLightGridRescales (sampleLightGridSum env w position) ∧
    (sampleLightGrid env w position).1 = vec3.empty ∧
    (sampleLightGrid env w position).2.1 = vec3.empty := by
  have hsum : sampleLightGridSum env w position =
      { ambientLight := vec3.empty, directedLight := vec3.empty, direction := vec3.empty,
        totalFactor := 0 } := by
    unfold sampleLightGridSum
    apply foldl_fixed
    intro i hi
    have hi8 : i < 8 := List.mem_range.1 hi
    unfold sampleLightGridAdd
    cases hn : lightGridNeighbour env w position i with
    | none => rfl
    | some st =>
      obtain ⟨factor, offset⟩ := st
      have hz := h i hi8 (factor, offset) (by rw [hn]; exact Option.mem_some_iff.2 rfl)
      have h0 := hz 0 (by omega)
      have h1 := hz 1 (by omega)
      have h2 := hz 2 (by omega)
      have h3 := hz 3 (by omega)
      have h4 := hz 4 (by omega)
      have h5 := hz 5 (by omega)
      simp only [Nat.cast_zero, Nat.cast_one, Nat.cast_ofNat, add_zero] at h0 h1 h2 h3 h4 h5
      simp only [h0, h1, h2, h3, h4, h5, Nat.cast_zero, add_zero, if_true]
  have hno : ¬ sampleLightGridRescales (sampleLightGridSum env w position) := by
    rw [hsum]
    unfold sampleLightGridRescales
    intro hc
    exact lt_irrefl _ hc.1
  refine ⟨by rw [hsum], hno, ?_, ?_⟩
  · unfold sampleLightGrid
    simp only [if_neg hno]
    rw [hsum]
  · unfold sampleLightGrid
    simp only [if_neg hno]
    rw [hsum]

/-- C11 on the grid world loaded with `darkGridBytes`: at (10, 10, 10) all 8
neighbours are inside the grid and dark, and the lights returned are zero. -/
theorem sampleLightGrid_dark_neighbours_witness :
    (∀ i, i < 8 → lightGridNeighbour exampleExternals
      (loadLightGrid exampleExternals gridWorld darkGridBytes { fileofs := 0, filelen := 64 })
      { x := 10, y := 10, z := 10 } i ≠ none) ∧
    (sampleLightGrid exampleExternals
      (loadLightGrid exampleExternals gridWorld darkGridBytes { fileofs := 0, filelen := 64 })
      { x := 10, y := 10, z := 10 }).1 = vec3.empty ∧
    (sampleLightGrid exampleExternals
      (loadLightGrid exampleExternals gridWorld darkGridBytes { fileofs := 0, filelen := 64 })
      { x := 10, y := 10, z := 10 }).2.1 = vec3.empty :=
  ⟨by with_unfolding_all decide,
    (sampleLightGrid_dark_neighbours exampleExternals
      (loadLightGrid exampleExternals gridWorld darkGridBytes { fileofs := 0, filelen := 64 })
      { x := 10, y := 10, z := 10 } (by with_unfolding_all decide)).2.2⟩

/-! ## Theorems: `World::markFragments` -/

/-- The bounding planes of the example polygon: the four sides of the square,
the near plane 32 units above and the far plane 20 units below its plane. -/
theorem markPlanes_decalPolygon :
    markPlanes exampleExternals 4 decalPolygon decalProjection =
      [ { normal := { x := 1, y := 0, z := 0 }, distance := 0 },
        { normal := { x := 0, y := -1, z := 0 }, distance := -8 },
        { normal := { x := -1, y := 0, z := 0 }, distance := -8 },
        { normal := { x := 0, y := 1, z := 0 }, distance := 0 },
        { normal := { x := 0, y := 0, z := -1 }, distance := -37 },
        { normal := { x := 0, y := 0, z := 1 }, distance := -15 } ] := by
  with_unfolding_all decide

/-- Reading a mapped list inside its range reads the mapped element. -/
theorem getD_map_lt {α β : Type} (f : α → β) (a : β) (b : α) :
    ∀ (l : List α) (j : Nat), j < l.length → (l.map f).getD j a = f (l.getD j b) := by
  intro l
  induction l with
  | nil =>
    intro j hj
    exact absurd hj (Nat.not_lt_zero _)
  | cons x rest ih =>
    intro j hj
    cases j with
    | zero => rfl
    | succ j =>
      simp only [List.map_cons, List.getD_cons_succ]
      exact ih j (Nat.lt_of_succ_lt_succ hj)

/-- Reading a list inside its range gives one of its elements. -/
theorem getD_mem_lt {α : Type} (b : α) :
    ∀ (l : List α) (j : Nat), j < l.length → l.getD j b ∈ l := by
  intro l
  induction l with
  | nil =>
    intro j hj
    exact absurd hj (Nat.not_lt_zero _)
  | cons x rest ih =>
    intro j hj
    cases j with
    | zero => exact List.mem_cons_self _ _
    | succ j =>
      simp only [List.getD_cons_succ]
      exact List.mem_cons_of_mem _ (ih j (Nat.lt_of_succ_lt_succ hj))

/-- For a polygon with at least one point, `sides[i]` is the side of `dists[i]`,
also at the wrap-around entry. -/
theorem chopSideAt_eq (inPoints : List vec3) (normal : vec3) (dist epsilon : ℚ) (i : Nat)
    (h : 0 < inPoints.length) :
    chopSideAt inPoints normal dist epsilon i =
      chopSide epsilon (chopDistAt inPoints normal dist i) := by
  unfold chopSideAt chopDistAt
  apply getD_map_lt
  unfold chopDists
  rw [List.length_map]
  split_ifs <;> omega

/-- A point is in front of the plane exactly when its side is `SIDE_FRONT`. -/
theorem chopSide_front (epsilon dot : ℚ) : chopSide epsilon dot = SIDE_FRONT ↔ dot > epsilon := by
  unfold chopSide SIDE_FRONT SIDE_BACK SIDE_ON
  split_ifs <;> simp_all

/-- A point has side `SIDE_BACK` exactly when it is behind the plane and not in
front of it. -/
theorem chopSide_back (epsilon dot : ℚ) :
    chopSide epsilon dot = SIDE_BACK ↔ ¬ dot > epsilon ∧ dot < -epsilon := by
  unfold chopSide SIDE_FRONT SIDE_BACK SIDE_ON
  split_ifs <;> simp_all

/-- Two sides that differ and are both not `SIDE_ON` are one in front and one
behind. -/
theorem chopSide_split (epsilon a b : ℚ) (h1 : chopSide epsilon a ≠ SIDE_ON)
    (h2 : chopSide epsilon b ≠ SIDE_ON) (h3 : chopSide epsilon b ≠ chopSide epsilon a) :
    (a > epsilon ∧ b < -epsilon) ∨ (a < -epsilon ∧ b > epsilon) := by
  have ha : chopSide epsilon a = SIDE_FRONT ∨ chopSide epsilon a = SIDE_BACK := by
    unfold chopSide SIDE_FRONT SIDE_BACK SIDE_ON at *
    split_ifs at h1 ⊢ <;> simp_all
  have hb : chopSide epsilon b = SIDE_FRONT ∨ chopSide epsilon b = SIDE_BACK := by
    unfold chopSide SIDE_FRONT SIDE_BACK SIDE_ON at *
    split_ifs at h2 ⊢ <;> simp_all
  rcases ha with ha | ha <;> rcases hb with hb | hb
  · exact absurd (hb.trans ha.symm) h3
  · exact Or.inl ⟨(chopSide_front epsilon a).1 ha, ((chopSide_back epsilon b).1 hb).2⟩
  · exact Or.inr ⟨((chopSide_back epsilon a).1 ha).2, (chopSide_front epsilon b).1 hb⟩
  · exact absurd (hb.trans ha.symm) h3

/-- The ratio used for a split point lies between 0 and 1 when the two ends are
on different sides of the plane. -/
theorem chop_ratio_bounds (a b epsilon : ℚ) (he : 0 ≤ epsilon)
    (h : (a > epsilon ∧ b < -epsilon) ∨ (a < -epsilon ∧ b > epsilon)) :
    0 ≤ (if a - b = 0 then 0 else a / (a - b)) ∧ (if a - b = 0 then 0 else a / (a - b)) ≤ 1 := by
  rcases h with ⟨h1, h2⟩ | ⟨h1, h2⟩
  · have hd : 0 < a - b := by linarith
    rw [if_neg (ne_of_gt hd)]
    constructor
    · exact div_nonneg (by linarith) hd.le
    · rw [div_le_one hd]
      linarith
  · have hd : 0 < b - a := by linarith
    have hne : a - b ≠ 0 := by
      intro hc
      linarith
    rw [if_neg hne]
    have e : a / (a - b) = (-a) / (b - a) := by
      rw [← neg_div_neg_eq, neg_sub]
    rw [e]
    constructor
    · exact div_nonneg (by linarith) hd.le
    · rw [div_le_one hd]
      linarith

/-- A split point between two points that are both behind a second plane by more
than `c` is behind that plane by more than `c`. -/
theorem chopSplit_behind (qn : vec3) (qd c : ℚ) (p1 p2 : vec3) (t : ℚ) (h0 : 0 ≤ t) (h1 : t ≤ 1)
    (hp1 : vec3.dotProduct p1 qn - qd < c) (hp2 : vec3.dotProduct p2 qn - qd < c) :
    vec3.dotProduct (chopSplit p1 p2 t) qn - qd < c := by
  have e : vec3.dotProduct (chopSplit p1 p2 t) qn - qd =
      (1 - t) * (vec3.dotProduct p1 qn - qd) + t * (vec3.dotProduct p2 qn - qd) := by
    simp only [chopSplit, vec3.dotProduct]
    ring
  rw [e]
  rcases le_total (vec3.dotProduct p1 qn - qd) (vec3.dotProduct p2 qn - qd) with hab | hab
  · have := mul_le_mul_of_nonneg_left hab (sub_nonneg.2 h1)
    linarith
  · have := mul_le_mul_of_nonneg_left hab h0
    linarith

/-- Chopping by one plane keeps a polygon behind any second plane: every point
written is a point of the input or lies between two of them. -/
theorem R_ChopPolyBehindPlane_keeps_behind (inPoints : List vec3) (normal : vec3)
    (dist epsilon : ℚ) (he : 0 ≤ epsilon) (qn : vec3) (qd c : ℚ)
    (h : ∀ p ∈ inPoints, vec3.dotProduct p qn - qd < c) :
    ∀ p ∈ R_ChopPolyBehindPlane inPoints normal dist epsilon, vec3.dotProduct p qn - qd < c := by
  intro p hp
  unfold R_ChopPolyBehindPlane at hp
  split_ifs at hp with h1 h2 h3
  · cases hp
  · cases hp
  · exact h p hp
  · obtain ⟨i, hi, hpi⟩ := List.mem_flatMap.1 hp
    have hi1 : i < inPoints.length := List.mem_range.1 hi
    have hpos : 0 < inPoints.length := by omega
    have hp1 : inPoints.getD i default ∈ inPoints := getD_mem_lt default inPoints i hi1
    have hp2 : inPoints.getD ((i + 1) % inPoints.length) default ∈ inPoints :=
      getD_mem_lt default inPoints _ (Nat.mod_lt _ hpos)
    have hkept : ∀ q ∈ (if chopSideAt inPoints normal dist epsilon i = SIDE_FRONT then
        [inPoints.getD i default] else []), vec3.dotProduct q qn - qd < c := by
      intro q hq
      split_ifs at hq
      · rw [List.mem_singleton.1 hq]
        exact h _ hp1
      · cases hq
    simp only [chopStep] at hpi
    by_cases c1 : chopSideAt inPoints normal dist epsilon i = SIDE_ON
    · rw [if_pos c1] at hpi
      rw [List.mem_singleton.1 hpi]
      exact h _ hp1
    · rw [if_neg c1] at hpi
      by_cases c2 : chopSideAt inPoints normal dist epsilon (i + 1) = SIDE_ON ∨
          chopSideAt inPoints normal dist epsilon (i + 1) = chopSideAt inPoints normal dist epsilon i
      · rw [if_pos c2] at hpi
        exact hkept p hpi
      · rw [if_neg c2] at hpi
        rcases List.mem_append.1 hpi with hk | hk
        · exact hkept p hk
        · rw [List.mem_singleton.1 hk]
          rw [chopSideAt_eq _ _ _ _ _ hpos] at c1
          rw [chopSideAt_eq _ _ _ _ _ hpos, chopSideAt_eq _ _ _ _ _ hpos] at c2
          have hb := chop_ratio_bounds _ _ epsilon he
            (chopSide_split epsilon _ _ c1 (fun hc => c2 (Or.inl hc)) (fun hc => c2 (Or.inr hc)))
          exact chopSplit_behind qn qd c _ _ _ hb.1 hb.2 (h _ hp1) (h _ hp2)

/-- A polygon that lies behind the chopping plane by more than the tolerance is
chopped away completely. -/
theorem R_ChopPolyBehindPlane_back (inPoints : List vec3) (normal : vec3) (dist epsilon : ℚ)
    (he : 0 ≤ epsilon) (h : ∀ p ∈ inPoints, vec3.dotProduct p normal - dist < -epsilon) :
    R_ChopPolyBehindPlane inPoints normal dist epsilon = [] := by
  have hc : chopCount inPoints normal dist epsilon SIDE_FRONT = 0 := by
    unfold chopCount chopDists
    rw [List.count_eq_zero]
    intro hm
    obtain ⟨d, hd, hs⟩ := List.mem_map.1 hm
    obtain ⟨q, hq, hqd⟩ := List.mem_map.1 hd
    have h1 := (chopSide_front epsilon d).1 hs
    have h2 := h q hq
    rw [hqd] at h2
    linarith
  unfold R_ChopPolyBehindPlane
  split_ifs
  · rfl
  · rfl

/-- A polygon of fewer than 62 points, at least one, that lies in front of the
chopping plane by more than the tolerance is copied unchanged. -/
theorem R_ChopPolyBehindPlane_front (inPoints : List vec3) (normal : vec3) (dist epsilon : ℚ)
    (hlen : 0 < inPoints.length) (hmax : inPoints.length < 62)
    (h : ∀ p ∈ inPoints, vec3.dotProduct p normal - dist > epsilon) :
    R_ChopPolyBehindPlane inPoints normal dist epsilon = inPoints := by
  have hfront : chopCount inPoints normal dist epsilon SIDE_FRONT ≠ 0 := by
    unfold chopCount chopDists
    rw [Ne, List.count_eq_zero, not_not]
    cases inPoints with
    | nil => exact absurd hlen (Nat.lt_irrefl 0)
    | cons q rest =>
      simp only [List.map_cons]
      rw [(chopSide_front epsilon _).2 (h q (List.mem_cons_self _ _))]
      exact List.mem_cons_self _ _
  have hback : chopCount inPoints normal dist epsilon SIDE_BACK = 0 := by
    unfold chopCount chopDists
    rw [List.count_eq_zero]
    intro hm
    obtain ⟨d, hd, hs⟩ := List.mem_map.1 hm
    obtain ⟨q, hq, hqd⟩ := List.mem_map.1 hd
    have h1 := ((chopSide_back epsilon d).1 hs).1
    have h2 := h q hq
    rw [hqd] at h2
    exact h1 h2
  unfold R_ChopPolyBehindPlane MAX_VERTS_ON_POLY
  rw [if_neg (by omega), if_neg hfront, if_pos hback]

/-- A polygon that lies behind one of the bounding planes by more than the
tolerance is chopped away completely: chopping by the planes before it cannot
bring a point back in front of that plane. -/
theorem chopByPlanes_behind (q : Plane) :
    ∀ (planes : List Plane) (clipPoints : List vec3), q ∈ planes →
      (∀ p ∈ clipPoints, vec3.dotProduct p q.normal - q.distance < -(1 / 2)) →
      chopByPlanes planes clipPoints = [] := by
  intro planes
  induction planes with
  | nil =>
    intro _ hq
    cases hq
  | cons plane rest ih =>
    intro clipPoints hq hb
    rw [chopByPlanes]
    by_cases hz : (R_ChopPolyBehindPlane clipPoints plane.normal plane.distance (1 / 2)).length = 0
    · simp only [hz, if_true]
    · simp only [hz, if_false]
      rcases List.mem_cons.1 hq with hqe | hmem
      · exfalso
        apply hz
        rw [← hqe, R_ChopPolyBehindPlane_back _ _ _ _ (by norm_num) hb]
        rfl
      · exact ih _ hmem
          (R_ChopPolyBehindPlane_keeps_behind _ _ _ _ (by norm_num) _ _ _ hb)

/-- A polygon of fewer than 62 points, at least one, that lies in front of every
bounding plane by more than the tolerance comes out of the chopping unchanged. -/
theorem chopByPlanes_inside :
    ∀ (planes : List Plane) (clipPoints : List vec3), 0 < clipPoints.length →
      clipPoints.length < 62 →
      (∀ plane ∈ planes, ∀ p ∈ clipPoints,
        vec3.dotProduct p plane.normal - plane.distance > 1 / 2) →
      chopByPlanes planes clipPoints = clipPoints := by
  intro planes
  induction planes with
  | nil =>
    intro clipPoints _ _ _
    rfl
  | cons plane rest ih =>
    intro clipPoints hlen hmax h
    rw [chopByPlanes]
    have e := R_ChopPolyBehindPlane_front clipPoints plane.normal plane.distance (1 / 2) hlen hmax
      (h plane (List.mem_cons_self _ _))
    simp only [e]
    rw [if_neg (by omega)]
    exact ih clipPoints hlen hmax (fun pl hpl => h pl (List.mem_cons_of_mem _ hpl))

/-- A polygon that is chopped away completely adds nothing. -/
theorem addMarkFragments_clipped (clipPoints : List vec3) (planes : List Plane) (maxPoints : Int)
    (st : MarkBuffers) (h : chopByPlanes planes clipPoints = []) :
    addMarkFragments clipPoints planes maxPoints st = st := by
  unfold addMarkFragments
  simp only [h, List.length_nil, if_true]

/-- A fragment whose points do not fit below `maxPoints` is not added. -/
theorem addMarkFragments_refused (clipPoints : List vec3) (planes : List Plane) (maxPoints : Int)
    (st : MarkBuffers)
    (h : ((chopByPlanes planes clipPoints).length : Int) + st.returnedPoints > maxPoints) :
    addMarkFragments clipPoints planes maxPoints st = st := by
  unfold addMarkFragments
  simp only []
  split_ifs
  · rfl
  · rfl

/-- A fragment with at least one point that fits below `maxPoints` is appended to
both buffers. -/
theorem addMarkFragments_added (clipPoints : List vec3) (planes : List Plane) (maxPoints : Int)
    (st : MarkBuffers) (h0 : (chopByPlanes planes clipPoints).length ≠ 0)
    (h : ¬ ((chopByPlanes planes clipPoints).length : Int) + st.returnedPoints > maxPoints) :
    addMarkFragments clipPoints planes maxPoints st =
      { pointBuffer := st.pointBuffer ++ chopByPlanes planes clipPoints
        fragmentBuffer := st.fragmentBuffer ++
          [{ firstPoint := st.returnedPoints,
             numPoints := ((chopByPlanes planes clipPoints).length : Int) }] } := by
  unfold addMarkFragments
  simp only []
  rw [if_neg h0, if_neg h]

/-- One call of `addMarkFragments` adds at most one fragment, and keeps the
number of points written at or below `maxPoints`. -/
theorem addMarkFragments_step (clipPoints : List vec3) (planes : List Plane) (maxPoints : Int)
    (st : MarkBuffers) :
    st.returnedFragments ≤ (addMarkFragments clipPoints planes maxPoints st).returnedFragments ∧
    (addMarkFragments clipPoints planes maxPoints st).returnedFragments ≤ st.returnedFragments + 1 ∧
    (st.returnedPoints ≤ maxPoints →
      (addMarkFragments clipPoints planes maxPoints st).returnedPoints ≤ maxPoints) := by
  by_cases h0 : (chopByPlanes planes clipPoints).length = 0
  · rw [addMarkFragments_clipped _ _ _ _ (List.length_eq_zero.1 h0)]
    exact ⟨le_rfl, by omega, fun hp => hp⟩
  · by_cases h : ((chopByPlanes planes clipPoints).length : Int) + st.returnedPoints > maxPoints
    · rw [addMarkFragments_refused _ _ _ _ h]
      exact ⟨le_rfl, by omega, fun hp => hp⟩
    · rw [addMarkFragments_added _ _ _ _ h0 h]
      unfold MarkBuffers.returnedFragments MarkBuffers.returnedPoints at *
      simp only [List.length_append, List.length_singleton, Nat.cast_add, Nat.cast_one]
      refine ⟨by omega, by omega, fun _ => ?_⟩
      omega

/-- Supporting C12: with room for at least one fragment, the loop over the
triangles never lets the fragment count pass `maxFragments` or the point count
pass `maxPoints`. -/
theorem markTriangles_within_bounds (planes : List Plane) (maxPoints maxFragments : Int) :
    ∀ (tris : List (List vec3)) (st : MarkBuffers),
      st.returnedFragments < maxFragments → st.returnedPoints ≤ maxPoints →
      (markTriangles planes maxPoints maxFragments tris st).returnedFragments ≤ maxFragments ∧
      (markTriangles planes maxPoints maxFragments tris st).returnedPoints ≤ maxPoints := by
  intro tris
  induction tris with
  | nil =>
    intro st hf hp
    exact ⟨le_of_lt hf, hp⟩
  | cons tri rest ih =>
    intro st hf hp
    obtain ⟨s1, s2, s3⟩ := addMarkFragments_step tri planes maxPoints st
    simp only [markTriangles]
    split_ifs with hc
    · exact ⟨le_of_eq hc, s3 hp⟩
    · exact ih _ (lt_of_le_of_ne (by omega) hc) (s3 hp)

/-- When every triangle is chopped away completely, the loop over the triangles
writes nothing. -/
theorem markTriangles_all_clipped (planes : List Plane) (maxPoints maxFragments : Int) :
    ∀ (tris : List (List vec3)) (st : MarkBuffers),
      (∀ tri ∈ tris, chopByPlanes planes tri = []) →
      markTriangles planes maxPoints maxFragments tris st = st := by
  intro tris
  induction tris with
  | nil =>
    intro st _
    rfl
  | cons tri rest ih =>
    intro st h
    simp only [markTriangles]
    rw [addMarkFragments_clipped _ _ _ _ (h tri (List.mem_cons_self _ _))]
    split_ifs
    · rfl
    · exact ih st (fun t ht => h t (List.mem_cons_of_mem _ ht))

/-- When every triangle lies inside the volume and the buffers have room for all
of them, the loop over the triangles adds one fragment per triangle and copies
the triangles to the point buffer in order. -/
theorem markTriangles_inside (planes : List Plane) (maxPoints maxFragments : Int) :
    ∀ (tris : List (List vec3)) (st : MarkBuffers),
      (∀ tri ∈ tris, tri.length = 3 ∧ ∀ plane ∈ planes, ∀ p ∈ tri,
        vec3.dotProduct p plane.normal - plane.distance > 1 / 2) →
      st.returnedFragments + (tris.length : Int) ≤ maxFragments →
      st.returnedPoints + 3 * (tris.length : Int) ≤ maxPoints →
      (markTriangles planes maxPoints maxFragments tris st).returnedFragments =
        st.returnedFragments + (tris.length : Int) ∧
      (markTriangles planes maxPoints maxFragments tris st).pointBuffer =
        st.pointBuffer ++ tris.flatten := by
  intro tris
  induction tris with
  | nil =>
    intro st _ _ _
    simp [markTriangles]
  | cons tri rest ih =>
    intro st h hf hp
    obtain ⟨hlen, hin⟩ := h tri (List.mem_cons_self _ _)
    have hchop : chopByPlanes planes tri = tri :=
      chopByPlanes_inside planes tri (by omega) (by omega) hin
    simp only [List.length_cons, Nat.cast_add, Nat.cast_one] at hf hp
    have hadd := addMarkFragments_added tri planes maxPoints st (by rw [hchop]; omega)
      (by rw [hchop, hlen]; push_cast; omega)
    rw [hchop] at hadd
    have hrf : (addMarkFragments tri planes maxPoints st).returnedFragments =
        st.returnedFragments + 1 := by
      rw [hadd]
      simp [MarkBuffers.returnedFragments]
    have hrp : (addMarkFragments tri planes maxPoints st).returnedPoints =
        st.returnedPoints + 3 := by
      rw [hadd]
      simp [MarkBuffers.returnedPoints, hlen]
    have hpb : (addMarkFragments tri planes maxPoints st).pointBuffer = st.pointBuffer ++ tri := by
      rw [hadd]
    simp only [markTriangles, List.length_cons, Nat.cast_add, Nat.cast_one, List.flatten_cons]
    split_ifs with hc
    · have hz : rest.length = 0 := by omega
      rw [List.length_eq_zero.1 hz]
      refine ⟨by rw [hrf]; simp, ?_⟩
      rw [hpb]
      simp
    · obtain ⟨i1, i2⟩ := ih (addMarkFragments tri planes maxPoints st)
        (fun t ht => h t (List.mem_cons_of_mem _ ht)) (by rw [hrf]; omega) (by rw [hrp]; omega)
      refine ⟨by rw [i1, hrf]; ring, ?_⟩
      rw [i2, hpb, List.append_assoc]

/-- Supporting C12: with `maxFragments` at least 1 and `maxPoints` at least 0, a
call of `markFragments` that returns gives a count of at most `maxFragments`,
which is the number of descriptors written, and writes at most `maxPoints`
points. -/
theorem markFragments_within_bounds (env : Externals) (w : World) (fuel : Nat) (numPoints : Int)
    (points : List vec3) (projection : vec3) (maxPoints maxFragments : Int)
    (hf : 0 < maxFragments) (hp : 0 ≤ maxPoints) (r : Int × MarkBuffers)
    (h : markFragments env w fuel numPoints points projection maxPoints maxFragments = some r) :
    r.1 ≤ maxFragments ∧ r.2.returnedFragments = r.1 ∧ r.2.returnedPoints ≤ maxPoints := by
  unfold markFragments at h
  split_ifs at h with hn
  · injection h with h
    rw [← h]
    exact ⟨le_of_lt hf, rfl, hp⟩
  · cases hs : markSurfaces env w fuel numPoints.toNat points projection with
    | none =>
      rw [hs] at h
      cases h
    | some found =>
      rw [hs] at h
      injection h with h
      rw [← h]
      obtain ⟨b1, b2⟩ := markTriangles_within_bounds
        (markPlanes env (min numPoints.toNat MAX_VERTS_ON_POLY) points projection)
        maxPoints maxFragments (markTriangleList env w found projection)
        { pointBuffer := [], fragmentBuffer := [] } hf hp
      exact ⟨b1, rfl, b2⟩

set_option maxRecDepth 100000 in
/-- C12, the failing input: with `maxFragments = 0` and room for 16 points, the
call on the face of two triangles inside the volume writes two fragment
descriptors and six points and returns 2, which is more than `maxFragments`. -/
theorem markFragments_zero_maxFragments_overrun :
    markFragments exampleExternals (decalWorld insideCorners) 4 4 decalPolygon decalProjection 16 0 =
      some (2, { pointBuffer := insideCorners,
                 fragmentBuffer := [{ firstPoint := 0, numPoints := 3 },
                   { firstPoint := 3, numPoints := 3 }] }) := by
  with_unfolding_all decide

set_option maxRecDepth 100000 in
/-- C13, the counterexample: with room for 3 points and 8 fragments, the first
triangle of the face is chopped to a polygon of four points and refused, and the
second triangle, which comes later, still adds a fragment. -/
theorem markFragments_refused_fragment_then_added :
    (chopByPlanes (markPlanes exampleExternals 4 decalPolygon decalProjection)
      (crossingCorners.take 3)).length = 4 ∧
    addMarkFragments (crossingCorners.take 3)
      (markPlanes exampleExternals 4 decalPolygon decalProjection) 3
      { pointBuffer := [], fragmentBuffer := [] } = { pointBuffer := [], fragmentBuffer := [] } ∧
    markFragments exampleExternals (decalWorld crossingCorners) 4 4 decalPolygon decalProjection 3 8 =
      some (1, { pointBuffer := crossingCorners.drop 3,
                 fragmentBuffer := [{ firstPoint := 0, numPoints := 3 }] }) := by
  refine ⟨?_, ?_, ?_⟩
  · with_unfolding_all decide
  · with_unfolding_all decide
  · with_unfolding_all decide

/-- C13, amended: in the loop of `markFragments` over the triangles, once an
added fragment has brought the count to `maxFragments` no later triangle adds a
fragment and the buffers stay as they are at that moment; a fragment refused
because its points would pass `maxPoints` is skipped and the later triangles are
still processed. -/
theorem markTriangles_stops_when_full (planes : List Plane) (maxPoints maxFragments : Int) :
    (∀ (pre post : List (List vec3)) (st : MarkBuffers),
      st.returnedFragments < maxFragments →
      (markTriangles planes maxPoints maxFragments pre st).returnedFragments = maxFragments →
      markTriangles planes maxPoints maxFragments (pre ++ post) st =
        markTriangles planes maxPoints maxFragments pre st) ∧
    (∀ (clipPoints : List vec3) (rest : List (List vec3)) (st : MarkBuffers),
      ((chopByPlanes planes clipPoints).length : Int) + st.returnedPoints > maxPoints →
      st.returnedFragments ≠ maxFragments →
      markTriangles planes maxPoints maxFragments (clipPoints :: rest) st =
        markTriangles planes maxPoints maxFragments rest st) := by
  constructor
  · intro pre
    induction pre with
    | nil =>
      intro post st hlt hfull
      simp only [markTriangles] at hfull
      omega
    | cons tri pre ih =>
      intro post st hlt hfull
      obtain ⟨_, s2, _⟩ := addMarkFragments_step tri planes maxPoints st
      simp only [List.cons_append, markTriangles] at hfull ⊢
      split_ifs at hfull ⊢ with hc
      · rfl
      · exact ih post _ (lt_of_le_of_ne (by omega) hc) hfull
  · intro clipPoints rest st hrefused hne
    simp only [markTriangles]
    rw [addMarkFragments_refused _ _ _ _ hrefused, if_neg hne]

set_option maxRecDepth 100000 in
/-- C13 amended, on the example planes: with room for one fragment the second
inside triangle changes nothing after the first has been added, and with room
for 3 points the refused crossing triangle is skipped. -/
theorem markTriangles_stops_when_full_witness :
    markTriangles (markPlanes exampleExternals 4 decalPolygon decalProjection) 16 1
      ([insideCorners.take 3] ++ [insideCorners.drop 3]) { pointBuffer := [], fragmentBuffer := [] } =
      markTriangles (markPlanes exampleExternals 4 decalPolygon decalProjection) 16 1
        [insideCorners.take 3] { pointBuffer := [], fragmentBuffer := [] } ∧
    markTriangles (markPlanes exampleExternals 4 decalPolygon decalProjection) 3 8
      (crossingCorners.take 3 :: [crossingCorners.drop 3])
      { pointBuffer := [], fragmentBuffer := [] } =
      markTriangles (markPlanes exampleExternals 4 decalPolygon decalProjection) 3 8
        [crossingCorners.drop 3] { pointBuffer := [], fragmentBuffer := [] } :=
  ⟨(markTriangles_stops_when_full (markPlanes exampleExternals 4 decalPolygon decalProjection)
      16 1).1 [insideCorners.take 3] [insideCorners.drop 3]
      { pointBuffer := [], fragmentBuffer := [] } (by with_unfolding_all decide)
      (by with_unfolding_all decide),
    (markTriangles_stops_when_full (markPlanes exampleExternals 4 decalPolygon decalProjection)
      3 8).2 (crossingCorners.take 3) [crossingCorners.drop 3]
      { pointBuffer := [], fragmentBuffer := [] } (by with_unfolding_all decide)
      (by with_unfolding_all decide)⟩

set_option maxRecDepth 100000 in
/-- C14, the counterexample: the only candidate surface is one planar face that
faces the polygon and lies inside the volume; it has two triangles, and
`markFragments` returns two fragments, not one. -/
theorem markFragments_face_of_two_triangles :
    markSurfaces exampleExternals (decalWorld insideCorners) 4 4 decalPolygon decalProjection =
      some ([{ (decalWorld insideCorners).surfaceAt 0 with decalDuplicateId := 1 }], [0]) ∧
    markFragments exampleExternals (decalWorld insideCorners) 4 4 decalPolygon decalProjection 16 8 =
      some (2, { pointBuffer := insideCorners,
                 fragmentBuffer := [{ firstPoint := 0, numPoints := 3 },
                   { firstPoint := 3, numPoints := 3 }] }) := by
  refine ⟨?_, ?_⟩
  · with_unfolding_all decide
  · with_unfolding_all decide

/-- C14, amended: when the only candidate surface is one planar face that faces
the polygon, every triangle of the face lies inside the projection volume by
more than the clipping tolerance, and the buffers have room, `markFragments`
returns one fragment per triangle of the face (one per started triple of
indices) and copies the triangles to the point buffer in order; the result is
one fragment exactly for a face of one triangle. -/
theorem markFragments_one_fragment_per_triangle (env : Externals) (w : World) (fuel : Nat)
    (numPoints : Int) (points : List vec3) (projection : vec3) (maxPoints maxFragments : Int)
    (surfaces : List Surface) (si : Nat) (hn : 0 < numPoints)
    (hfound : markSurfaces env w fuel numPoints.toNat points projection = some (surfaces, [si]))
    (hface : (surfaces.getD si default).type = SurfaceType.Face)
    (hfacing : ¬ vec3.dotProduct (surfaces.getD si default).cullinfo.plane.normal
      (env.normal projection) > -1 / 2)
    (hinside : ∀ tri ∈ surfaceTriangles env w (surfaces.getD si default) (env.normal projection),
      ∀ plane ∈ markPlanes env (min numPoints.toNat MAX_VERTS_ON_POLY) points projection,
      ∀ p ∈ tri, vec3.dotProduct p plane.normal - plane.distance > 1 / 2)
    (hfrags : ((((surfaces.getD si default).indices.length + 2) / 3 : Nat) : Int) ≤ maxFragments)
    (hpoints : 3 * ((((surfaces.getD si default).indices.length + 2) / 3 : Nat) : Int) ≤ maxPoints) :
    ∃ st : MarkBuffers,
      markFragments env w fuel numPoints points projection maxPoints maxFragments =
        some (((((surfaces.getD si default).indices.length + 2) / 3 : Nat) : Int), st) ∧
      st.fragmentBuffer.length = ((surfaces.getD si default).indices.length + 2) / 3 ∧
      st.pointBuffer =
        (surfaceTriangles env w (surfaces.getD si default) (env.normal projection)).flatten := by
  have hnp : (surfaces.getD si default).type ≠ SurfaceType.Patch := by
    rw [hface]
    decide
  have htris : surfaceTriangles env w (surfaces.getD si default) (env.normal projection) =
      (List.range (((surfaces.getD si default).indices.length + 2) / 3)).map
        (indexedTriangle w (surfaces.getD si default)
          (fun _ => (surfaces.getD si default).cullinfo.plane.normal)) := by
    unfold surfaceTriangles
    rw [if_neg hnp, if_pos hface, if_neg hfacing]
  have hcount : (surfaceTriangles env w (surfaces.getD si default) (env.normal projection)).length =
      ((surfaces.getD si default).indices.length + 2) / 3 := by
    rw [htris, List.length_map, List.length_range]
  have hlen3 : ∀ tri ∈ surfaceTriangles env w (surfaces.getD si default) (env.normal projection),
      tri.length = 3 := by
    intro tri ht
    rw [htris] at ht
    obtain ⟨t, _, e⟩ := List.mem_map.1 ht
    rw [← e]
    unfold indexedTriangle
    rw [List.length_map, List.length_range]
  have hlist : markTriangleList env w (surfaces, [si]) projection =
      surfaceTriangles env w (surfaces.getD si default) (env.normal projection) := by
    simp [markTriangleList]
  obtain ⟨m1, m2⟩ := markTriangles_inside
    (markPlanes env (min numPoints.toNat MAX_VERTS_ON_POLY) points projection)
    maxPoints maxFragments
    (surfaceTriangles env w (surfaces.getD si default) (env.normal projection))
    { pointBuffer := [], fragmentBuffer := [] }
    (fun tri ht => ⟨hlen3 tri ht, hinside tri ht⟩)
    (by rw [hcount]; simpa [MarkBuffers.returnedFragments] using hfrags)
    (by rw [hcount]; simpa [MarkBuffers.returnedPoints] using hpoints)
  rw [hcount] at m1
  simp only [MarkBuffers.returnedFragments, List.length_nil, Nat.cast_zero, zero_add,
    List.nil_append] at m1 m2
  refine ⟨markTriangles (markPlanes env (min numPoints.toNat MAX_VERTS_ON_POLY) points projection)
    maxPoints maxFragments
    (surfaceTriangles env w (surfaces.getD si default) (env.normal projection))
    { pointBuffer := [], fragmentBuffer := [] }, ?_, ?_, m2⟩
  · unfold markFragments
    rw [if_neg (not_le.2 hn), hfound]
    simp only [hlist, MarkBuffers.returnedFragments, m1]
  · exact_mod_cast m1

set_option maxRecDepth 100000 in
/-- C14 amended, on the face of two triangles inside the volume: two fragments. -/
theorem markFragments_one_fragment_per_triangle_witness :
    ∃ st : MarkBuffers,
      markFragments exampleExternals (decalWorld insideCorners) 4 4 decalPolygon decalProjection
        16 8 = some (2, st) ∧
      st.fragmentBuffer.length = 2 ∧ st.pointBuffer = insideCorners :=
  match markFragments_one_fragment_per_triangle exampleExternals (decalWorld insideCorners) 4 4
      decalPolygon decalProjection 16 8
      [{ (decalWorld insideCorners).surfaceAt 0 with decalDuplicateId := 1 }] 0
      (by decide) (by with_unfolding_all decide) (by with_unfolding_all decide)
      (by with_unfolding_all decide) (by with_unfolding_all decide)
      (by with_unfolding_all decide) (by with_unfolding_all decide) with
  | ⟨st, h1, h2, h3⟩ =>
    ⟨st, h1, h2, h3.trans (by with_unfolding_all decide)⟩

/-- C15: when every triangle handed to `addMarkFragments` lies behind one of the
bounding planes of the projection volume by more than the 0.5 tolerance,
`markFragments` returns 0 and writes no point and no fragment descriptor. -/
theorem markFragments_separated (env : Externals) (w : World) (fuel : Nat) (numPoints : Int)
    (points : List vec3) (projection : vec3) (maxPoints maxFragments : Int)
    (found : List Surface × List Nat)
    (hfound : markSurfaces env w fuel numPoints.toNat points projection = some found)
    (hsep : ∀ tri ∈ markTriangleList env w found projection,
      ∃ plane ∈ markPlanes env (min numPoints.toNat MAX_VERTS_ON_POLY) points projection,
      ∀ p ∈ tri, vec3.dotProduct p plane.normal - plane.distance < -(1 / 2)) :
    markFragments env w fuel numPoints points projection maxPoints maxFragments =
      some (0, { pointBuffer := [], fragmentBuffer := [] }) := by
  unfold markFragments
  split_ifs with hn
  · rfl
  · rw [hfound]
    simp only []
    rw [markTriangles_all_clipped]
    · rfl
    · intro tri ht
      obtain ⟨plane, hplane, hb⟩ := hsep tri ht
      exact chopByPlanes_behind plane _ tri hplane hb

set_option maxRecDepth 100000 in
/-- C15 on the face beside the volume: the face is a candidate, its triangle is
handed to `addMarkFragments`, and nothing is written. -/
theorem markFragments_separated_witness :
    markTriangleList exampleExternals (decalWorld outsideCorners)
      ([{ (decalWorld outsideCorners).surfaceAt 0 with decalDuplicateId := 1 }], [0])
      decalProjection = [outsideCorners] ∧
    markFragments exampleExternals (decalWorld outsideCorners) 4 4 decalPolygon decalProjection
      16 8 = some (0, { pointBuffer := [], fragmentBuffer := [] }) :=
  ⟨by with_unfolding_all decide,
    markFragments_separated exampleExternals (decalWorld outsideCorners) 4 4 decalPolygon
      decalProjection 16 8
      ([{ (decalWorld outsideCorners).surfaceAt 0 with decalDuplicateId := 1 }], [0])
      (by with_unfolding_all decide) (by with_unfolding_all decide)⟩

/-- C29, the counterexample: geometry buffer 0 holds 65532 vertices and the
surface has 3 vertices, so the append would leave the buffer with exactly 65535
vertices, which is not more than 65535; yet the call advances to buffer 1 and the
surface records buffer 1. -/
theorem setSurfaceGeometry_spills_at_exact_fit :
    ∃ w1 s1,
      setSurfaceGeometry
        { emptyWorld with vertices_ := fun i => if i = 0 then blankVertices 65532 else [] }
        default [default, default, default] [0, 1, 2] (-1) = .ok (w1, s1) ∧
      (blankVertices 65532).length + 3 ≤ 65535 ∧
      w1.currentGeometryBuffer_ = 1 ∧ s1.bufferIndex = 1 ∧
      w1.vertices_ 0 = blankVertices 65532 :=
  ⟨_, _,
    setSurfaceGeometry_spills
      { emptyWorld with vertices_ := fun i => if i = 0 then blankVertices 65532 else [] }
      default [default, default, default] [0, 1, 2] (-1)
      (by rw [worldWithBuffer_current, blankVertices_length]; decide) (by decide),
    by rw [blankVertices_length], rfl, rfl, rfl⟩

/-- C29, amended: `setSurfaceGeometry` stays in the current geometry buffer, and
the surface records the current buffer index, exactly when the append leaves the
current buffer with fewer than `UINT16_MAX` = 65535 vertices (at most 65534); when
the append would reach or exceed 65535 vertices and a next buffer exists, the call
advances to the next buffer and the surface records that one. -/
theorem setSurfaceGeometry_buffer_choice (w : World) (surface : Surface)
    (vertices : List Vertex) (indices : List Nat) (lightmapIndex : Int) :
    ((w.vertices_ w.currentGeometryBuffer_).length + vertices.length ≤ 65534 →
      ∃ w1 s1, setSurfaceGeometry w surface vertices indices lightmapIndex = .ok (w1, s1) ∧
        w1.currentGeometryBuffer_ = w.currentGeometryBuffer_ ∧
        s1.bufferIndex = w.currentGeometryBuffer_ ∧
        w1.vertices_ w.currentGeometryBuffer_ =
          w.vertices_ w.currentGeometryBuffer_ ++ vertices.map (atlasVertex w lightmapIndex)) ∧
    ((w.vertices_ w.currentGeometryBuffer_).length + vertices.length ≥ 65535 →
      w.currentGeometryBuffer_ + 1 ≠ maxWorldGeometryBuffers_ →
      ∃ w1 s1, setSurfaceGeometry w surface vertices indices lightmapIndex = .ok (w1, s1) ∧
        w1.currentGeometryBuffer_ = w.currentGeometryBuffer_ + 1 ∧
        s1.bufferIndex = w.currentGeometryBuffer_ + 1 ∧
        w1.vertices_ w.currentGeometryBuffer_ = w.vertices_ w.currentGeometryBuffer_) := by
  have hU : UINT16_MAX = 65535 := rfl
  constructor
  · intro h
    refine ⟨_, _, setSurfaceGeometry_fits w surface vertices indices lightmapIndex (by omega),
      rfl, rfl, ?_⟩
    show (if w.currentGeometryBuffer_ = w.currentGeometryBuffer_ then _ else _) = _
    rw [if_pos rfl]
  · intro h hnext
    refine ⟨_, _, setSurfaceGeometry_spills w surface vertices indices lightmapIndex (by omega) hnext,
      rfl, rfl, ?_⟩
    show (if w.currentGeometryBuffer_ = w.currentGeometryBuffer_ + 1 then _ else _) = _
    rw [if_neg (by omega)]

/-- C29 amended, on a world whose buffer 0 holds 65531 vertices: a surface of
three vertices stays in buffer 0 (65534 vertices afterwards), and a surface of
four vertices goes to buffer 1. -/
theorem setSurfaceGeometry_buffer_choice_witness :
    (∃ w1 s1,
      setSurfaceGeometry
        { emptyWorld with vertices_ := fun i => if i = 0 then blankVertices 65531 else [] }
        default [default, default, default] [0, 1, 2] (-1) = .ok (w1, s1) ∧
      w1.currentGeometryBuffer_ = 0 ∧ s1.bufferIndex = 0) ∧
    (∃ w1 s1,
      setSurfaceGeometry
        { emptyWorld with vertices_ := fun i => if i = 0 then blankVertices 65531 else [] }
        default [default, default, default, default] [0, 1, 2] (-1) = .ok (w1, s1) ∧
      w1.currentGeometryBuffer_ = 0 + 1 ∧ s1.bufferIndex = 0 + 1) :=
  ⟨match (setSurfaceGeometry_buffer_choice
      { emptyWorld with vertices_ := fun i => if i = 0 then blankVertices 65531 else [] }
      default [default, default, default] [0, 1, 2] (-1)).1
      (by rw [worldWithBuffer_current, blankVertices_length]; decide) with
    | ⟨w1, s1, h1, h2, h3, _⟩ => ⟨w1, s1, h1, h2, h3⟩,
   match (setSurfaceGeometry_buffer_choice
      { emptyWorld with vertices_ := fun i => if i = 0 then blankVertices 65531 else [] }
      default [default, default, default, default] [0, 1, 2] (-1)).2
      (by rw [worldWithBuffer_current, blankVertices_length]; decide) (by decide) with
    | ⟨w1, s1, h1, h2, h3, _⟩ => ⟨w1, s1, h1, h2, h3⟩⟩

/-! ## Theorems: the order of `World::surfaceCompare` -/

/-- The comparator holds exactly when the triple of the first surface is
lexicographically smaller than that of the second. -/
theorem surfaceCompare_iff (env : Externals) (s1 s2 : Surface) :
    surfaceCompare env s1 s2 = true ↔ tripleLexLess (s1.sortKey env) (s2.sortKey env) := by
  unfold surfaceCompare tripleLexLess Surface.sortKey
  simp only []
  split_ifs <;> simp <;> omega

/-- The comparator fails exactly when the triple of the second surface is
lexicographically smaller than or equal to that of the first. -/
theorem surfaceCompare_false_iff (env : Externals) (s1 s2 : Surface) :
    surfaceCompare env s1 s2 = false ↔
      (tripleLexLess (s2.sortKey env) (s1.sortKey env) ∨ s2.sortKey env = s1.sortKey env) := by
  rw [← Bool.not_eq_true, surfaceCompare_iff]
  unfold tripleLexLess
  generalize s1.sortKey env = a
  generalize s2.sortKey env = b
  obtain ⟨a1, a2, a3⟩ := a
  obtain ⟨b1, b2, b3⟩ := b
  simp only [Prod.mk.injEq]
  omega

/-- The rebuild leaves the visible-surface list as the sort made it, and the
world as the leaf scan left it. -/
theorem rebuildVisCache_surfaces (env : Externals) (w : World) (vc : VisCache) (cameraLeaf : Node)
    (areaMask : List Nat) :
    (rebuildVisCache env w vc cameraLeaf areaMask).1 =
      (collectVisibleSurfaces env w vc cameraLeaf areaMask).1 ∧
    (rebuildVisCache env w vc cameraLeaf areaMask).2.surfaces =
      sortSurfaces env (collectVisibleSurfaces env w vc cameraLeaf areaMask).1
        (collectVisibleSurfaces env w vc cameraLeaf areaMask).2.surfaces := by
  refine ⟨rfl, ?_⟩
  show (createBatchedSurfaces env _ _ _).surfaces = _
  rw [(createBatchedSurfaces_spec env _ _ _).1]
  rfl

/-- The sort gives a permutation of the list that is ordered by the comparator:
no surface stands before one that compares smaller. -/
theorem sortSurfaces_sorted (env : Externals) (w : World) (surfaces : List Nat) :
    (sortSurfaces env w surfaces).Perm surfaces ∧
    (sortSurfaces env w surfaces).Pairwise
      (fun a b => surfaceCompare env (w.surfaceAt b) (w.surfaceAt a) = false) := by
  unfold sortSurfaces
  refine ⟨List.perm_insertionSort _ _, ?_⟩
  haveI : IsTotal Nat (fun a b => surfaceCompare env (w.surfaceAt b) (w.surfaceAt a) = false) :=
    ⟨by
      intro a b
      simp only [surfaceCompare_false_iff]
      unfold tripleLexLess
      generalize (w.surfaceAt a).sortKey env = x
      generalize (w.surfaceAt b).sortKey env = y
      obtain ⟨x1, x2, x3⟩ := x
      obtain ⟨y1, y2, y3⟩ := y
      simp only [Prod.mk.injEq]
      omega⟩
  haveI : IsTrans Nat (fun a b => surfaceCompare env (w.surfaceAt b) (w.surfaceAt a) = false) :=
    ⟨by
      intro a b c
      simp only [surfaceCompare_false_iff]
      unfold tripleLexLess
      generalize (w.surfaceAt a).sortKey env = x
      generalize (w.surfaceAt b).sortKey env = y
      generalize (w.surfaceAt c).sortKey env = z
      obtain ⟨x1, x2, x3⟩ := x
      obtain ⟨y1, y2, y3⟩ := y
      obtain ⟨z1, z2, z3⟩ := z
      simp only [Prod.mk.injEq]
      omega⟩
  exact List.sorted_insertionSort _ _

/-- C23: `surfaceCompare(s1, s2)` holds exactly when the triple (material index,
fog index, geometry-buffer index) of `s1` is lexicographically smaller than that
of `s2`; it is irreflexive, asymmetric and transitive, and being incomparable is
transitive; and after every rebuild the visible-surface list is non-decreasing in
that triple: no surface stands before one whose triple is smaller. -/
theorem surfaceCompare_strict_weak_order (env : Externals) :
    (∀ s1 s2 : Surface,
      surfaceCompare env s1 s2 = true ↔ tripleLexLess (s1.sortKey env) (s2.sortKey env)) ∧
    (∀ s : Surface, surfaceCompare env s s = false) ∧
    (∀ s1 s2 : Surface, surfaceCompare env s1 s2 = true → surfaceCompare env s2 s1 = false) ∧
    (∀ s1 s2 s3 : Surface, surfaceCompare env s1 s2 = true → surfaceCompare env s2 s3 = true →
      surfaceCompare env s1 s3 = true) ∧
    (∀ s1 s2 s3 : Surface,
      surfaceCompare env s1 s2 = false ∧ surfaceCompare env s2 s1 = false →
      surfaceCompare env s2 s3 = false ∧ surfaceCompare env s3 s2 = false →
      surfaceCompare env s1 s3 = false ∧ surfaceCompare env s3 s1 = false) ∧
    (∀ (w : World) (vc : VisCache) (cameraLeaf : Node) (areaMask : List Nat),
      (rebuildVisCache env w vc cameraLeaf areaMask).2.surfaces.Pairwise
        (fun a b => ¬ tripleLexLess
          (((rebuildVisCache env w vc cameraLeaf areaMask).1.surfaceAt b).sortKey env)
          (((rebuildVisCache env w vc cameraLeaf areaMask).1.surfaceAt a).sortKey env))) := by
  refine ⟨surfaceCompare_iff env, ?_, ?_, ?_, ?_, ?_⟩
  · intro s
    rw [surfaceCompare_false_iff]
    exact Or.inr rfl
  · intro s1 s2
    rw [surfaceCompare_iff, surfaceCompare_false_iff]
    unfold tripleLexLess
    generalize s1.sortKey env = x
    generalize s2.sortKey env = y
    obtain ⟨x1, x2, x3⟩ := x
    obtain ⟨y1, y2, y3⟩ := y
    simp only [Prod.mk.injEq]
    omega
  · intro s1 s2 s3
    simp only [surfaceCompare_iff]
    unfold tripleLexLess
    generalize s1.sortKey env = x
    generalize s2.sortKey env = y
    generalize s3.sortKey env = z
    obtain ⟨x1, x2, x3⟩ := x
    obtain ⟨y1, y2, y3⟩ := y
    obtain ⟨z1, z2, z3⟩ := z
    simp only []
    omega
  · intro s1 s2 s3
    simp only [surfaceCompare_false_iff]
    unfold tripleLexLess
    generalize s1.sortKey env = x
    generalize s2.sortKey env = y
    generalize s3.sortKey env = z
    obtain ⟨x1, x2, x3⟩ := x
    obtain ⟨y1, y2, y3⟩ := y
    obtain ⟨z1, z2, z3⟩ := z
    simp only [Prod.mk.injEq]
    omega
  · intro w vc cameraLeaf areaMask
    obtain ⟨h1, h2⟩ := rebuildVisCache_surfaces env w vc cameraLeaf areaMask
    rw [h1, h2]
    refine List.Pairwise.imp ?_ (sortSurfaces_sorted env _ _).2
    intro a b h
    rw [← surfaceCompare_iff, h]
    simp

/-- C23 on the example world: surface 0 (material 1) compares smaller than
surface 1 (material 2), so surface 1 does not compare smaller than surface 0. -/
theorem surfaceCompare_strict_weak_order_witness :
    surfaceCompare exampleExternals (exampleWorld.surfaceAt 0) (exampleWorld.surfaceAt 1) = true ∧
    surfaceCompare exampleExternals (exampleWorld.surfaceAt 1) (exampleWorld.surfaceAt 0) = false :=
  ⟨rfl, (surfaceCompare_strict_weak_order exampleExternals).2.2.1
    (exampleWorld.surfaceAt 0) (exampleWorld.surfaceAt 1) rfl⟩

/-! ## Theorems: the leaf scan of `World::updateVisCache` -/

/-- Reading a list after one entry inside its range was replaced. -/
theorem getD_set_eq (l : List Surface) (i : Nat) (x : Surface) (k : Nat) (hi : i < l.length) :
    (l.set i x).getD k default = if k = i then x else l.getD k default := by
  by_cases h : k = i
  · subst h
    simp [List.getD_eq_getElem?_getD, hi]
  · rw [if_neg h]
    simp [List.getD_eq_getElem?_getD, List.getElem?_set_ne (Ne.symm h)]

/-- The sky-slot search keeps the bounds of the cache. -/
theorem skySlotLoop_bounds (material : MaterialPtr) (fuel : Nat) :
    ∀ (k : Nat) (vc : VisCache), (skySlotLoop material fuel k vc).2.bounds = vc.bounds := by
  induction fuel with
  | zero =>
    intro k vc
    rfl
  | succ n ih =>
    intro k vc
    rw [skySlotLoop]
    cases h : vc.skyMaterials k with
    | none => rfl
    | some m =>
      simp only []
      split_ifs
      · rfl
      · exact ih (k + 1) vc

/-- What one pass of the loop over the leaf surfaces does, for the entry `si`:
nothing (the entry is outside `surfaces_`, the surface is already stamped, or it
is of kind Ignore or Flare); or the surface is stamped and, having a sky
material, is kept out of the visible-surface list; or the surface is stamped and
appended to the visible-surface list. -/
theorem addLeafSurface_cases (env : Externals) (st : World × VisCache) (si : Int) :
    (addLeafSurface env st si = st ∧
      (si < 0 ∨ si ≥ (st.1.surfaces_.length : Int) ∨
        (st.1.surfaceAt si.toNat).duplicateId = st.1.duplicateSurfaceId_ ∨
        (st.1.surfaceAt si.toNat).type = SurfaceType.Ignore ∨
        (st.1.surfaceAt si.toNat).type = SurfaceType.Flare)) ∨
    ((0 ≤ si ∧ si < (st.1.surfaces_.length : Int) ∧
        (st.1.surfaceAt si.toNat).duplicateId ≠ st.1.duplicateSurfaceId_ ∧
        (st.1.surfaceAt si.toNat).type ≠ SurfaceType.Ignore ∧
        (st.1.surfaceAt si.toNat).type ≠ SurfaceType.Flare) ∧
      (addLeafSurface env st si).1 = st.1.stamped si.toNat ∧
      (addLeafSurface env st si).2.bounds = st.2.bounds ∧
      (((env.materialAt (st.1.surfaceAt si.toNat).material).isSky = true ∧
          (addLeafSurface env st si).2.surfaces = st.2.surfaces) ∨
        ((env.materialAt (st.1.surfaceAt si.toNat).material).isSky = false ∧
          (addLeafSurface env st si).2.surfaces = st.2.surfaces ++ [si.toNat]))) := by
  unfold addLeafSurface
  simp only []
  by_cases h1 : si < 0 ∨ si ≥ (st.1.surfaces_.length : Int)
  · rw [if_pos h1]
    left
    refine ⟨rfl, ?_⟩
    rcases h1 with h | h
    · exact Or.inl h
    · exact Or.inr (Or.inl h)
  · rw [if_neg h1]
    by_cases h2 : (st.1.surfaceAt si.toNat).duplicateId = st.1.duplicateSurfaceId_
    · rw [if_pos h2]
      exact Or.inl ⟨rfl, Or.inr (Or.inr (Or.inl h2))⟩
    · rw [if_neg h2]
      by_cases h3 : (st.1.surfaceAt si.toNat).type = SurfaceType.Ignore ∨
          (st.1.surfaceAt si.toNat).type = SurfaceType.Flare
      · rw [if_pos h3]
        exact Or.inl ⟨rfl, Or.inr (Or.inr (Or.inr h3))⟩
      · rw [if_neg h3]
        right
        refine ⟨⟨by omega, by omega, h2, fun h => h3 (Or.inl h), fun h => h3 (Or.inr h)⟩, ?_⟩
        by_cases h4 : (env.materialAt (st.1.surfaceAt si.toNat).material).isSky = true
        · rw [if_pos h4]
          split_ifs
          · exact ⟨rfl, skySlotLoop_bounds _ _ _ _, Or.inl ⟨h4, skySlotLoop_surfaces _ _ _ _⟩⟩
          · refine ⟨rfl, ?_, Or.inl ⟨h4, ?_⟩⟩
            · exact skySlotLoop_bounds _ _ _ _
            · exact skySlotLoop_surfaces _ _ _ _
        · rw [if_neg h4]
          refine ⟨rfl, ?_, Or.inr ⟨by simpa using h4, ?_⟩⟩
          · split_ifs <;> rfl
          · split_ifs <;> rfl

/-- The surface at position `j` after the surface at position `k` was stamped. -/
theorem stamped_surfaceAt (w : World) (k j : Nat) (hk : k < w.surfaces_.length) :
    (w.stamped k).surfaceAt j =
      if j = k then { w.surfaceAt k with duplicateId := w.duplicateSurfaceId_ } else w.surfaceAt j := by
  unfold World.stamped World.surfaceAt
  simp only []
  exact getD_set_eq _ _ _ _ hk

/-- One pass of the loop over the leaf surfaces keeps the visible-surface list
free of repetitions, stamped, and free of Ignore and Flare surfaces. -/
theorem addLeafSurface_visibleListStamped (env : Externals) (st : World × VisCache) (si : Int)
    (h : visibleListStamped st) : visibleListStamped (addLeafSurface env st si) := by
  rcases addLeafSurface_cases env st si with ⟨e, _⟩ | ⟨⟨c1, c2, c3, c4, c5⟩, ew, _, hs⟩
  · rw [e]
    exact h
  · have hk : si.toNat < st.1.surfaces_.length := by omega
    obtain ⟨hnd, hall⟩ := h
    have hid : (addLeafSurface env st si).1.duplicateSurfaceId_ = st.1.duplicateSurfaceId_ := by
      rw [ew]
      rfl
    have hold : ∀ k ∈ st.2.surfaces,
        ((addLeafSurface env st si).1.surfaceAt k).duplicateId =
          (addLeafSurface env st si).1.duplicateSurfaceId_ ∧
        ((addLeafSurface env st si).1.surfaceAt k).type ≠ SurfaceType.Ignore ∧
        ((addLeafSurface env st si).1.surfaceAt k).type ≠ SurfaceType.Flare := by
      intro k hkm
      obtain ⟨a1, a2, a3⟩ := hall k hkm
      rw [hid, ew, stamped_surfaceAt _ _ _ hk]
      have hne : k ≠ si.toNat := by
        intro he
        rw [he] at a1
        exact c3 a1
      rw [if_neg hne]
      exact ⟨a1, a2, a3⟩
    rcases hs with ⟨_, es⟩ | ⟨_, es⟩
    · refine ⟨by rw [es]; exact hnd, ?_⟩
      intro k hkm
      rw [es] at hkm
      exact hold k hkm
    · have hnew : si.toNat ∉ st.2.surfaces := fun hm => c3 (hall _ hm).1
      refine ⟨?_, ?_⟩
      · rw [es]
        exact List.Nodup.append hnd (List.nodup_singleton _)
          (by
            intro x hx hy
            rw [List.mem_singleton.1 hy] at hx
            exact hnew hx)
      · intro k hkm
        rw [es] at hkm
        rcases List.mem_append.1 hkm with hm | hm
        · exact hold k hm
        · rw [List.mem_singleton.1 hm, hid, ew, stamped_surfaceAt _ _ _ hk, if_pos rfl]
          exact ⟨rfl, c4, c5⟩

/-- The pass of the loop over the leaves for one leaf keeps the visible-surface
list free of repetitions, stamped, and free of Ignore and Flare surfaces. -/
theorem scanLeaf_visibleListStamped (env : Externals) (areaMask : List Nat) (pvs : Option Int)
    (st : World × VisCache) (leaf : Node) (h : visibleListStamped st) :
    visibleListStamped (scanLeaf env areaMask pvs st leaf) := by
  unfold scanLeaf
  split_ifs
  · exact h
  · exact h
  · exact foldl_preserves visibleListStamped _
      (fun a b ha => addLeafSurface_visibleListStamped env a _ ha) _ _ h

/-- After the leaf scan of a rebuild no surface occurs twice in the
visible-surface list, and no surface in it is of kind Ignore or Flare. -/
theorem collectVisibleSurfaces_visibleListStamped (env : Externals) (w : World) (vc : VisCache)
    (cameraLeaf : Node) (areaMask : List Nat) :
    visibleListStamped (collectVisibleSurfaces env w vc cameraLeaf areaMask) := by
  unfold collectVisibleSurfaces
  refine foldl_preserves visibleListStamped _
    (fun a b ha => scanLeaf_visibleListStamped env areaMask _ a b ha) _ _ ?_
  exact ⟨List.nodup_nil, fun k hk => absurd hk (List.not_mem_nil k)⟩

/-- C28: after every rebuild by `updateVisCache`, whatever stamps the surfaces
carry from earlier updates, no surface occurs twice in the visible-surface list,
and no surface in it is of kind Ignore or Flare. -/
theorem updateVisCache_visible_surfaces_distinct (env : Externals) (w : World) (vc : VisCache)
    (pos : vec3) (areaMask : List Nat) (leaf : Nat)
    (hl : leafFromPosition w pos = some leaf)
    (hr : needsRebuild env w vc leaf areaMask = true) :
    ∃ w1 vc1, updateVisCache env w vc pos areaMask = some (w1, vc1) ∧
      vc1.surfaces.Nodup ∧
      ∀ k ∈ vc1.surfaces, (w1.surfaceAt k).type ≠ SurfaceType.Ignore ∧
        (w1.surfaceAt k).type ≠ SurfaceType.Flare := by
  refine ⟨_, _, updateVisCache_rebuilds env w vc pos areaMask leaf hl hr, ?_, ?_⟩
  · show (rebuildVisCache env w vc (w.nodes_.getD leaf default) areaMask).2.surfaces.Nodup
    rw [(rebuildVisCache_surfaces env w vc _ areaMask).2]
    exact (sortSurfaces_sorted env _ _).1.nodup_iff.2
      (collectVisibleSurfaces_visibleListStamped env w vc _ areaMask).1
  · intro k hk
    have hk1 : k ∈ (rebuildVisCache env w vc (w.nodes_.getD leaf default) areaMask).2.surfaces := hk
    rw [(rebuildVisCache_surfaces env w vc _ areaMask).2] at hk1
    have hk2 := (sortSurfaces_sorted env _ _).1.mem_iff.1 hk1
    obtain ⟨_, a2, a3⟩ :=
      (collectVisibleSurfaces_visibleListStamped env w vc _ areaMask).2 k hk2
    exact ⟨a2, a3⟩

/-- C28 on the example world: the three faces are each listed once. -/
theorem updateVisCache_visible_surfaces_distinct_witness :
    (updateVisCache exampleExternals exampleWorld emptyVisCache default []).map
      (fun r => r.2.surfaces) = some [0, 2, 1] ∧
    ∃ w1 vc1, updateVisCache exampleExternals exampleWorld emptyVisCache default [] = some (w1, vc1) ∧
      vc1.surfaces.Nodup :=
  ⟨rfl,
    match updateVisCache_visible_surfaces_distinct exampleExternals exampleWorld emptyVisCache
        default [] 0 rfl rfl with
    | ⟨w1, vc1, h, hn, _⟩ => ⟨w1, vc1, h, hn⟩⟩

/-- A left fold with an invariant `I`, and a property `Q b` that the step for `b`
establishes and that later steps keep: after the fold the invariant holds, a
property that held at the start still holds, and `Q b` holds for every element. -/
theorem foldl_establishes {σ β : Type} (f : σ → β → σ) (I : σ → Prop) (Q : β → σ → Prop)
    (hstep : ∀ s b, I s → I (f s b) ∧ Q b (f s b))
    (hkeep : ∀ s b c, I s → Q c s → Q c (f s b)) :
    ∀ (l : List β) (s : σ), I s →
      I (l.foldl f s) ∧ (∀ c, Q c s → Q c (l.foldl f s)) ∧ ∀ b ∈ l, Q b (l.foldl f s) := by
  intro l
  induction l with
  | nil =>
    intro s hs
    exact ⟨hs, fun c hc => hc, fun b hb => absurd hb (List.not_mem_nil b)⟩
  | cons a rest ih =>
    intro s hs
    obtain ⟨i1, i2, i3⟩ := ih (f s a) (hstep s a hs).1
    refine ⟨i1, fun c hc => i2 c (hkeep s a c hs hc), ?_⟩
    intro b hb
    rcases List.mem_cons.1 hb with rfl | hmem
    · exact i2 b (hstep s b hs).2
    · exact i3 b hmem

/-- One pass of the loop over the leaf surfaces only appends to the
visible-surface list. -/
theorem addLeafSurface_mem (env : Externals) (st : World × VisCache) (si : Int) (k : Nat)
    (h : k ∈ st.2.surfaces) : k ∈ (addLeafSurface env st si).2.surfaces := by
  rcases addLeafSurface_cases env st si with ⟨e, _⟩ | ⟨_, _, _, hs⟩
  · rw [e]
    exact h
  · rcases hs with ⟨_, es⟩ | ⟨_, es⟩
    · rw [es]
      exact h
    · rw [es]
      exact List.mem_append_left _ h

/-- One pass of the loop over the leaf surfaces keeps the scan frame and serves
its entry. -/
theorem addLeafSurface_scanFrame (env : Externals) (w0 : World) (st : World × VisCache) (si : Int)
    (h : scanFrame env w0 st) :
    scanFrame env w0 (addLeafSurface env st si) ∧ entryListed env w0 si (addLeafSurface env st si) := by
  obtain ⟨f1, f2, f3, f4, f5⟩ := h
  rcases addLeafSurface_cases env st si with ⟨e, hskip⟩ | ⟨⟨c1, c2, c3, c4, c5⟩, ew, _, hs⟩
  · rw [e]
    refine ⟨⟨f1, f2, f3, f4, f5⟩, ?_⟩
    intro h0 hlen hlisted
    have l1 := hlisted.1
    have l2 := hlisted.2.1
    rw [f3] at hskip
    rw [f1, (f4 si.toNat).1] at hskip
    rcases hskip with hk | hk | hk | hk | hk
    · omega
    · omega
    · exact f5 si.toNat (by omega) hk hlisted
    · exact absurd hk l1
    · exact absurd hk l2
  · have hk : si.toNat < st.1.surfaces_.length := by omega
    have hframe : ∀ k, ((addLeafSurface env st si).1.surfaceAt k).type = (w0.surfaceAt k).type ∧
        ((addLeafSurface env st si).1.surfaceAt k).material = (w0.surfaceAt k).material := by
      intro k
      rw [ew, stamped_surfaceAt _ _ _ hk]
      split_ifs with hki
      · rw [hki]
        exact f4 si.toNat
      · exact f4 k
    have hin : (w0.surfaceAt si.toNat).listed env → si.toNat ∈ (addLeafSurface env st si).2.surfaces := by
      intro hlisted
      rcases hs with ⟨hsky, _⟩ | ⟨_, es⟩
      · rw [(f4 si.toNat).2, hlisted.2.2] at hsky
        cases hsky
      · rw [es]
        exact List.mem_append_right _ (List.mem_singleton.2 rfl)
    refine ⟨⟨?_, ?_, ?_, hframe, ?_⟩, fun _ _ hlisted => hin hlisted⟩
    · rw [ew]
      exact f1
    · rw [ew]
      exact f2
    · rw [ew]
      unfold World.stamped
      simp only [List.length_set]
      exact f3
    · intro k hklen hstamp hlisted
      by_cases hki : k = si.toNat
      · rw [hki]
        rw [hki] at hlisted
        exact hin hlisted
      · rw [ew, stamped_surfaceAt _ _ _ hk, if_neg hki] at hstamp
        exact addLeafSurface_mem env st si k (f5 k hklen hstamp hlisted)

/-- The pass of the loop over the leaves for one leaf only appends to the
visible-surface list. -/
theorem scanLeaf_mem (env : Externals) (areaMask : List Nat) (pvs : Option Int)
    (st : World × VisCache) (leaf : Node) (k : Nat) (h : k ∈ st.2.surfaces) :
    k ∈ (scanLeaf env areaMask pvs st leaf).2.surfaces := by
  unfold scanLeaf
  split_ifs
  · exact h
  · exact h
  · exact foldl_preserves (fun s : World × VisCache => k ∈ s.2.surfaces)
      (fun st1 j => addLeafSurface env st1 (readLeafSurface st1.1 (leaf.firstSurface + j)))
      (fun a b ha => addLeafSurface_mem env a _ k ha) _
      (st.1, { st.2 with bounds := env.addPoints st.2.bounds leaf.bounds }) h

/-- The loop over `j` visits every entry number below `nSurfaces`. -/
theorem mem_intRange (n j : Nat) (h : j < n) :
    (j : Int) ∈ ((List.range n : List Nat) : List Int) :=
  List.mem_flatMap.2 ⟨j, List.mem_range.2 h, List.mem_singleton.2 rfl⟩

/-- With no PVS row no leaf is culled: the pass for a leaf merges its bounds and
runs the loop over its leaf surfaces. -/
theorem scanLeaf_none (env : Externals) (areaMask : List Nat) (st : World × VisCache)
    (leaf : Node) :
    scanLeaf env areaMask none st leaf =
      ((List.range leaf.nSurfaces.toNat : List Nat) : List Int).foldl
        (fun st1 j => addLeafSurface env st1 (readLeafSurface st1.1 (leaf.firstSurface + j)))
        (st.1, { st.2 with bounds := env.addPoints st.2.bounds leaf.bounds }) := by
  unfold scanLeaf pvsCulled areaCulled
  simp only [Bool.false_eq_true, if_false]

/-- The pass of the loop over the leaves for a leaf that is not culled keeps the
scan frame and serves every entry of the leaf. -/
theorem scanLeaf_scanFrame (env : Externals) (w0 : World) (areaMask : List Nat)
    (st : World × VisCache) (leaf : Node) (h : scanFrame env w0 st) :
    scanFrame env w0 (scanLeaf env areaMask none st leaf) ∧
    ∀ j : Nat, j < leaf.nSurfaces.toNat →
      entryListed env w0 (readLeafSurface w0 (leaf.firstSurface + (j : Int)))
        (scanLeaf env areaMask none st leaf) := by
  have hstart : scanFrame env w0
      (st.1, { st.2 with bounds := env.addPoints st.2.bounds leaf.bounds }) := h
  obtain ⟨r1, _, r3⟩ := foldl_establishes
    (fun (st1 : World × VisCache) (j : Int) =>
      addLeafSurface env st1 (readLeafSurface st1.1 (leaf.firstSurface + j)))
    (scanFrame env w0)
    (fun j s => entryListed env w0 (readLeafSurface w0 (leaf.firstSurface + j)) s)
    (by
      intro s b hs
      have e : readLeafSurface s.1 (leaf.firstSurface + b) =
          readLeafSurface w0 (leaf.firstSurface + b) := by
        unfold readLeafSurface
        rw [hs.2.1]
      simp only [e]
      exact addLeafSurface_scanFrame env w0 s _ hs)
    (by
      intro s b c _ hc h0 hlen hlisted
      exact addLeafSurface_mem env s _ _ (hc h0 hlen hlisted))
    ((List.range leaf.nSurfaces.toNat : List Nat) : List Int)
    (st.1, { st.2 with bounds := env.addPoints st.2.bounds leaf.bounds }) hstart
  rw [scanLeaf_none]
  exact ⟨r1, fun j hj => r3 (j : Int) (mem_intRange _ _ hj)⟩

/-- With no PVS row, the leaf scan from a state in the scan frame keeps the frame
and serves every leaf-surface entry of every leaf it visits. -/
theorem scanLeaves_scanFrame (env : Externals) (w0 : World) (areaMask : List Nat)
    (leaves : List Node) (st : World × VisCache) (h : scanFrame env w0 st) :
    scanFrame env w0 (leaves.foldl (scanLeaf env areaMask none) st) ∧
    ∀ leaf ∈ leaves, ∀ j, j < leaf.nSurfaces.toNat →
      entryListed env w0 (readLeafSurface w0 (leaf.firstSurface + (j : Int)))
        (leaves.foldl (scanLeaf env areaMask none) st) := by
  obtain ⟨r1, _, r3⟩ := foldl_establishes (scanLeaf env areaMask none) (scanFrame env w0)
    (fun leaf s => ∀ j, j < leaf.nSurfaces.toNat →
      entryListed env w0 (readLeafSurface w0 (leaf.firstSurface + (j : Int))) s)
    (fun s b hs => scanLeaf_scanFrame env w0 areaMask s b hs)
    (by
      intro s b c _ hc j hj h0 hlen hlisted
      exact scanLeaf_mem env areaMask none s b _ (hc j hj h0 hlen hlisted))
    leaves st h
  exact ⟨r1, r3⟩

/-- One pass of the loop over the leaf surfaces keeps the bounds of the cache. -/
theorem addLeafSurface_bounds (env : Externals) (st : World × VisCache) (si : Int) :
    (addLeafSurface env st si).2.bounds = st.2.bounds := by
  rcases addLeafSurface_cases env st si with ⟨e, _⟩ | ⟨_, _, hb, _⟩
  · rw [e]
  · exact hb

/-- With no PVS row, the pass of the loop over the leaves for one leaf merges the
bounds of the leaf into the bounds of the cache. -/
theorem scanLeaf_bounds (env : Externals) (areaMask : List Nat) (st : World × VisCache)
    (leaf : Node) :
    (scanLeaf env areaMask none st leaf).2.bounds = env.addPoints st.2.bounds leaf.bounds := by
  rw [scanLeaf_none]
  exact foldl_preserves
    (fun s : World × VisCache => s.2.bounds = env.addPoints st.2.bounds leaf.bounds)
    (fun st1 j => addLeafSurface env st1 (readLeafSurface st1.1 (leaf.firstSurface + j)))
    (fun a b ha => (addLeafSurface_bounds env a _).trans ha) _
    (st.1, { st.2 with bounds := env.addPoints st.2.bounds leaf.bounds }) rfl

/-- With no PVS row, the leaf scan merges the bounds of every leaf it visits, in
order, into the bounds of the cache. -/
theorem scanLeaves_bounds (env : Externals) (areaMask : List Nat) (leaves : List Node) :
    ∀ st : World × VisCache,
      (leaves.foldl (scanLeaf env areaMask none) st).2.bounds =
        leaves.foldl (fun bounds leaf => env.addPoints bounds leaf.bounds) st.2.bounds := by
  induction leaves with
  | nil =>
    intro st
    rfl
  | cons leaf rest ih =>
    intro st
    rw [List.foldl_cons, List.foldl_cons, ih, scanLeaf_bounds]

/-- Pushing a batch does not touch the bounds of the cache. -/
theorem pushBatch_bounds (env : Externals) (w : World) (ss : List Surface) (firstSurface i : Nat)
    (vc : VisCache) : (pushBatch env w ss firstSurface i vc).bounds = vc.bounds := by
  simp only [pushBatch]
  split_ifs
  · rfl
  · rfl

/-- The batching loop does not touch the bounds of the cache. -/
theorem createBatchedSurfacesLoop_bounds (env : Externals) (w : World) (ss : List Surface)
    (is : List Nat) :
    ∀ (firstSurface : Nat) (vc : VisCache),
      (createBatchedSurfacesLoop env w ss is firstSurface vc).bounds = vc.bounds := by
  induction is with
  | nil =>
    intro firstSurface vc
    rfl
  | cons i rest ih =>
    intro firstSurface vc
    by_cases hc : closesBatch ss i = true
    · rw [createBatchedSurfacesLoop, if_pos hc, ih, pushBatch_bounds]
    · rw [createBatchedSurfacesLoop, if_neg hc]
      exact ih firstSurface vc

/-- The bounds after a rebuild are those after its leaf scan. -/
theorem rebuildVisCache_bounds (env : Externals) (w : World) (vc : VisCache) (cameraLeaf : Node)
    (areaMask : List Nat) :
    (rebuildVisCache env w vc cameraLeaf areaMask).2.bounds =
      (collectVisibleSurfaces env w vc cameraLeaf areaMask).2.bounds := by
  show (createBatchedSurfaces env _ _ _).bounds = _
  unfold createBatchedSurfaces
  rw [createBatchedSurfacesLoop_bounds]
  rfl

/-- C21: when the cluster of the camera leaf is -1 and no surface carries the
stamp of the pass yet (stamps are copies of earlier values of the pass counter,
which is advanced after every update), a rebuild by `updateVisCache` merges the
bounds of every leaf from `firstLeaf_` on, and every leaf-surface entry of every
such leaf that names a world surface of kind Face, Mesh or Patch with a material
that is not a sky is in the visible-surface list. -/
theorem updateVisCache_outside_pvs_lists_everything (env : Externals) (w : World) (vc : VisCache)
    (pos : vec3) (areaMask : List Nat) (leaf : Nat)
    (hl : leafFromPosition w pos = some leaf)
    (hr : needsRebuild env w vc leaf areaMask = true)
    (hc : (w.nodes_.getD leaf default).cluster = -1)
    (hfresh : ∀ k, k < w.surfaces_.length → (w.surfaceAt k).duplicateId ≠ w.duplicateSurfaceId_) :
    ∃ w1 vc1, updateVisCache env w vc pos areaMask = some (w1, vc1) ∧
      vc1.bounds =
        (w.nodes_.drop w.firstLeaf_).foldl (fun bounds node => env.addPoints bounds node.bounds)
          (env.setupForAddingPoints vc.bounds) ∧
      ∀ node ∈ w.nodes_.drop w.firstLeaf_, ∀ j : Nat, j < node.nSurfaces.toNat →
        0 ≤ readLeafSurface w (node.firstSurface + (j : Int)) →
        readLeafSurface w (node.firstSurface + (j : Int)) < (w.surfaces_.length : Int) →
        ((w.surfaceAt (readLeafSurface w (node.firstSurface + (j : Int))).toNat).type =
            SurfaceType.Face ∨
          (w.surfaceAt (readLeafSurface w (node.firstSurface + (j : Int))).toNat).type =
            SurfaceType.Mesh ∨
          (w.surfaceAt (readLeafSurface w (node.firstSurface + (j : Int))).toNat).type =
            SurfaceType.Patch) →
        (env.materialAt
          (w.surfaceAt (readLeafSurface w (node.firstSurface + (j : Int))).toNat).material).isSky =
            false →
        (readLeafSurface w (node.firstSurface + (j : Int))).toNat ∈ vc1.surfaces := by
  have hcollect : collectVisibleSurfaces env w vc (w.nodes_.getD leaf default) areaMask =
      (w.nodes_.drop w.firstLeaf_).foldl (scanLeaf env areaMask none)
        (w, { vc with
              surfaces := []
              nSkies := 0
              skyMaterials := fun i => if i < VisCache.maxSkies then none else vc.skyMaterials i
              portalSurfaces := []
              reflectiveSurfaces := []
              bounds := env.setupForAddingPoints vc.bounds }) := by
    unfold collectVisibleSurfaces
    simp only [hc, if_true]
  have hstart : scanFrame env w
      (w, { vc with
            surfaces := []
            nSkies := 0
            skyMaterials := fun i => if i < VisCache.maxSkies then none else vc.skyMaterials i
            portalSurfaces := []
            reflectiveSurfaces := []
            bounds := env.setupForAddingPoints vc.bounds }) :=
    ⟨rfl, rfl, rfl, fun _ => ⟨rfl, rfl⟩, fun k hk hs _ => absurd hs (hfresh k hk)⟩
  obtain ⟨_, hserved⟩ := scanLeaves_scanFrame env w areaMask (w.nodes_.drop w.firstLeaf_) _ hstart
  rw [← hcollect] at hserved
  refine ⟨_, _, updateVisCache_rebuilds env w vc pos areaMask leaf hl hr, ?_, ?_⟩
  · show (rebuildVisCache env w vc (w.nodes_.getD leaf default) areaMask).2.bounds = _
    rw [rebuildVisCache_bounds, hcollect, scanLeaves_bounds]
  · intro node hnode j hj h0 hlen htype hsky
    show _ ∈ (rebuildVisCache env w vc (w.nodes_.getD leaf default) areaMask).2.surfaces
    rw [(rebuildVisCache_surfaces env w vc _ areaMask).2]
    refine (sortSurfaces_sorted env _ _).1.mem_iff.2 (hserved node hnode j hj h0 hlen ⟨?_, ?_, hsky⟩)
    · rcases htype with h | h | h <;> rw [h] <;> decide
    · rcases htype with h | h | h <;> rw [h] <;> decide

/-- C21 on the example world, whose only leaf has cluster -1: the three faces
named by the leaf are in the visible-surface list. -/
theorem updateVisCache_outside_pvs_lists_everything_witness :
    ∃ w1 vc1, updateVisCache exampleExternals exampleWorld emptyVisCache default [] = some (w1, vc1) ∧
      0 ∈ vc1.surfaces ∧ 1 ∈ vc1.surfaces ∧ 2 ∈ vc1.surfaces :=
  match updateVisCache_outside_pvs_lists_everything exampleExternals exampleWorld emptyVisCache
      default [] 0 rfl rfl rfl (by decide) with
  | ⟨w1, vc1, h, _, hs⟩ =>
    ⟨w1, vc1, h,
      hs (exampleWorld.nodes_.getD 0 default) (by decide) 0 (by decide) (by decide) (by decide)
        (Or.inl rfl) rfl,
      hs (exampleWorld.nodes_.getD 0 default) (by decide) 1 (by decide) (by decide) (by decide)
        (Or.inl rfl) rfl,
      hs (exampleWorld.nodes_.getD 0 default) (by decide) 2 (by decide) (by decide) (by decide)
        (Or.inl rfl) rfl⟩

/-- One pass of the loop over the leaf surfaces keeps the pass counter and leaves
every stamp at or below it. -/
theorem addLeafSurface_stamps (env : Externals) (id : Int) (st : World × VisCache) (si : Int)
    (h : st.1.duplicateSurfaceId_ = id ∧
      ∀ k, k < st.1.surfaces_.length → (st.1.surfaceAt k).duplicateId ≤ id) :
    (addLeafSurface env st si).1.duplicateSurfaceId_ = id ∧
      ∀ k, k < (addLeafSurface env st si).1.surfaces_.length →
        ((addLeafSurface env st si).1.surfaceAt k).duplicateId ≤ id := by
  rcases addLeafSurface_cases env st si with ⟨e, _⟩ | ⟨⟨c1, c2, _, _, _⟩, ew, _, _⟩
  · rw [e]
    exact h
  · have hk : si.toNat < st.1.surfaces_.length := by omega
    rw [ew]
    refine ⟨h.1, ?_⟩
    intro k hklen
    have hklen1 : k < st.1.surfaces_.length := by
      unfold World.stamped at hklen
      simpa using hklen
    rw [stamped_surfaceAt _ _ _ hk]
    split_ifs
    · exact le_of_eq h.1
    · exact h.2 k hklen1

/-- The pass of the loop over the leaves for one leaf keeps the pass counter and
leaves every stamp at or below it. -/
theorem scanLeaf_stamps (env : Externals) (id : Int) (areaMask : List Nat) (pvs : Option Int)
    (st : World × VisCache) (node : Node)
    (hst : st.1.duplicateSurfaceId_ = id ∧
      ∀ k, k < st.1.surfaces_.length → (st.1.surfaceAt k).duplicateId ≤ id) :
    (scanLeaf env areaMask pvs st node).1.duplicateSurfaceId_ = id ∧
      ∀ k, k < (scanLeaf env areaMask pvs st node).1.surfaces_.length →
        ((scanLeaf env areaMask pvs st node).1.surfaceAt k).duplicateId ≤ id := by
  unfold scanLeaf
  split_ifs
  · exact hst
  · exact hst
  · exact foldl_preserves
      (fun st : World × VisCache => st.1.duplicateSurfaceId_ = id ∧
        ∀ k, k < st.1.surfaces_.length → (st.1.surfaceAt k).duplicateId ≤ id)
      (fun st1 j => addLeafSurface env st1 (readLeafSurface st1.1 (node.firstSurface + j)))
      (fun a b ha => addLeafSurface_stamps env _ a _ ha) _
      (st.1, { st.2 with bounds := env.addPoints st.2.bounds node.bounds }) hst

/-- The leaf scan of a rebuild keeps the pass counter and leaves every stamp at
or below it, when every stamp was below it before. -/
theorem collectVisibleSurfaces_stamps (env : Externals) (w : World) (vc : VisCache)
    (cameraLeaf : Node) (areaMask : List Nat) (h : w.stampsBelow) :
    (collectVisibleSurfaces env w vc cameraLeaf areaMask).1.duplicateSurfaceId_ =
        w.duplicateSurfaceId_ ∧
      ∀ k, k < (collectVisibleSurfaces env w vc cameraLeaf areaMask).1.surfaces_.length →
        ((collectVisibleSurfaces env w vc cameraLeaf areaMask).1.surfaceAt k).duplicateId ≤
          w.duplicateSurfaceId_ := by
  unfold collectVisibleSurfaces
  exact foldl_preserves
    (fun st : World × VisCache => st.1.duplicateSurfaceId_ = w.duplicateSurfaceId_ ∧
      ∀ k, k < st.1.surfaces_.length → (st.1.surfaceAt k).duplicateId ≤ w.duplicateSurfaceId_)
    _ (fun st node hst => scanLeaf_stamps env _ areaMask _ st node hst) _ _
    ⟨rfl, fun k hk => le_of_lt (h k hk)⟩

/-- Between two updates every stamp is below the pass counter: `updateVisCache`
keeps that state, so at the start of every update no surface carries the stamp
of the pass. -/
theorem updateVisCache_stampsBelow (env : Externals) (w : World) (vc : VisCache) (pos : vec3)
    (areaMask : List Nat) (w1 : World) (vc1 : VisCache) (h : w.stampsBelow)
    (hu : updateVisCache env w vc pos areaMask = some (w1, vc1)) : w1.stampsBelow := by
  unfold updateVisCache at hu
  cases hleaf : leafFromPosition w pos with
  | none =>
    rw [hleaf] at hu
    cases hu
  | some cameraLeaf =>
    rw [hleaf] at hu
    simp only [Option.some.injEq, Prod.mk.injEq] at hu
    rw [← hu.1]
    split_ifs
    · obtain ⟨s1, s2⟩ := collectVisibleSurfaces_stamps env w vc (w.nodes_.getD cameraLeaf default)
        areaMask h
      intro k hk
      have := s2 k hk
      show ((collectVisibleSurfaces env w vc (w.nodes_.getD cameraLeaf default) areaMask).1.surfaceAt
        k).duplicateId <
        (collectVisibleSurfaces env w vc (w.nodes_.getD cameraLeaf default)
          areaMask).1.duplicateSurfaceId_ + 1
      rw [s1]
      omega
    · intro k hk
      have := h k hk
      show (w.surfaceAt k).duplicateId < w.duplicateSurfaceId_ + 1
      omega

/-- C27, the counterexample: the only leaf of the example world has cluster -1,
so it is the camera leaf, and its area bit is set in the area mask `[1]`; the
rebuild still lists the three faces of that leaf. -/
theorem updateVisCache_outside_pvs_ignores_area_mask :
    leafFromPosition exampleWorld default = some 0 ∧
    (exampleWorld.nodes_.getD 0 default).cluster = -1 ∧
    areaBit [1] (exampleWorld.nodes_.getD 0 default) ≠ 0 ∧
    (updateVisCache exampleExternals exampleWorld emptyVisCache default [1]).map
      (fun r => r.2.surfaces) = some [0, 2, 1] :=
  ⟨rfl, rfl, by decide, rfl⟩

/-- C27, amended: during a rebuild for a camera leaf whose cluster is not -1, a
leaf whose area bit is set in the area mask is passed over, so the state after
the leaf scan is the one the scan over the other leaves gives: the leaf adds
neither its bounds nor any surface to any list. For a camera leaf of cluster -1
the area mask is not consulted and no leaf is passed over. -/
theorem collectVisibleSurfaces_area_door (env : Externals) (w : World) (vc : VisCache)
    (cameraLeaf : Node) (areaMask : List Nat) :
    (cameraLeaf.cluster ≠ -1 →
      ∀ (pre : List Node) (leaf : Node) (post : List Node),
        w.nodes_.drop w.firstLeaf_ = pre ++ leaf :: post → areaBit areaMask leaf ≠ 0 →
        (∀ st, scanLeaf env areaMask (some (cameraLeaf.cluster * w.clusterBytes_)) st leaf = st) ∧
        collectVisibleSurfaces env w vc cameraLeaf areaMask =
          (pre ++ post).foldl (scanLeaf env areaMask (some (cameraLeaf.cluster * w.clusterBytes_)))
            (w, clearForRebuild env vc)) ∧
    (cameraLeaf.cluster = -1 →
      (∀ leaf, areaCulled none areaMask leaf = false) ∧
      collectVisibleSurfaces env w vc cameraLeaf areaMask =
        (w.nodes_.drop w.firstLeaf_).foldl (scanLeaf env areaMask none) (w, clearForRebuild env vc)) := by
  constructor
  · intro hc pre leaf post hleaves hbit
    have hskip : ∀ st,
        scanLeaf env areaMask (some (cameraLeaf.cluster * w.clusterBytes_)) st leaf = st := by
      intro st
      unfold scanLeaf
      have ha : areaCulled (some (cameraLeaf.cluster * w.clusterBytes_)) areaMask leaf = true := by
        unfold areaCulled
        simp only [decide_eq_true_eq]
        exact hbit
      rw [ha]
      split_ifs with h1 h2
      · rfl
      · rfl
      · exact absurd rfl h2
    refine ⟨hskip, ?_⟩
    unfold collectVisibleSurfaces
    simp only [if_neg hc, hleaves, List.foldl_append, List.foldl_cons, hskip]
    rfl
  · intro hc
    refine ⟨fun leaf => rfl, ?_⟩
    unfold collectVisibleSurfaces
    simp only [hc, if_true]
    rfl

/-- C27 amended, on the world of two leaves with the area mask `[2]`, which
closes area 1: the camera leaf has cluster 0, the second leaf is passed over,
and only the two faces of the first leaf are listed. -/
theorem collectVisibleSurfaces_area_door_witness :
    (updateVisCache exampleExternals doorWorld emptyVisCache default [2]).map
      (fun r => r.2.surfaces) = some [0, 1] ∧
    collectVisibleSurfaces exampleExternals doorWorld emptyVisCache (doorWorld.nodes_.getD 0 default)
        [2] =
      ([doorWorld.nodes_.getD 0 default] ++ []).foldl
        (scanLeaf exampleExternals [2]
          (some ((doorWorld.nodes_.getD 0 default).cluster * doorWorld.clusterBytes_)))
        (doorWorld, clearForRebuild exampleExternals emptyVisCache) :=
  ⟨rfl,
    ((collectVisibleSurfaces_area_door exampleExternals doorWorld emptyVisCache
      (doorWorld.nodes_.getD 0 default) [2]).1 (by decide) [doorWorld.nodes_.getD 0 default]
      (doorWorld.nodes_.getD 1 default) [] rfl (by decide)).2⟩


/-! ## Theorems: one batch per triple in `World::updateVisCache` -/

/-- After every rebuild no surface of the visible-surface list stands before one
whose sort triple is smaller. -/
theorem surfaceCompare_sorted_rebuild (env : Externals) (w : World) (vc : VisCache)
    (cameraLeaf : Node) (areaMask : List Nat) :
    (rebuildVisCache env w vc cameraLeaf areaMask).2.surfaces.Pairwise
      (fun a b => ¬ tripleLexLess
        (((rebuildVisCache env w vc cameraLeaf areaMask).1.surfaceAt b).sortKey env)
        (((rebuildVisCache env w vc cameraLeaf areaMask).1.surfaceAt a).sortKey env)) := by
  obtain ⟨h1, h2⟩ := rebuildVisCache_surfaces env w vc cameraLeaf areaMask
  rw [h1, h2]
  refine List.Pairwise.imp ?_ (sortSurfaces_sorted env _ _).2
  intro a b h
  rw [← surfaceCompare_iff, h]
  simp

/-- In a list of windows from `first`, every window lies inside the list behind
`first` and ends at a position that closes a batch, and a later window ends
behind an earlier one. -/
theorem WindowsFrom.ordered (ss : List Surface) (ws : List (Nat × Nat)) :
    ∀ first, WindowsFrom ss first ws →
      (∀ p ∈ ws, first ≤ p.1 ∧ p.1 ≤ p.2 ∧ p.2 < ss.length ∧ closesBatch ss p.2 = true) ∧
      ws.Pairwise (fun p q => p.2 < q.2) := by
  induction ws with
  | nil =>
    intro first _
    exact ⟨fun p hp => absurd hp (List.not_mem_nil p), List.Pairwise.nil⟩
  | cons p rest ih =>
    intro first h
    rw [WindowsFrom] at h
    obtain ⟨h1, h2, h3, h4, _, h6⟩ := h
    obtain ⟨i1, i2⟩ := ih _ h6
    constructor
    · intro q hq
      rcases List.mem_cons.1 hq with rfl | hmem
      · exact ⟨by omega, h2, h3, h4⟩
      · obtain ⟨a1, a2, a3, a4⟩ := i1 q hmem
        exact ⟨by omega, a2, a3, a4⟩
    · rw [List.pairwise_cons]
      refine ⟨?_, i2⟩
      intro q hq
      obtain ⟨a1, a2, _, _⟩ := i1 q hq
      omega

/-- In a list of windows from `first`, every position of the list from `first`
on lies in one of the windows. -/
theorem WindowsFrom.covers (ss : List Surface) (ws : List (Nat × Nat)) (first : Nat)
    (h : WindowsFrom ss first ws) (j : Nat) (h1 : first ≤ j) (h2 : j < ss.length) :
    ∃ p ∈ ws, p.1 ≤ j ∧ j ≤ p.2 := by
  have hj : j ∈ List.range' first (ss.length - first) := by
    rw [List.mem_range']
    exact ⟨j - first, by omega, by omega⟩
  rw [← WindowsFrom.flatten_eq ss ws first h] at hj
  obtain ⟨r, hr, hjr⟩ := List.mem_flatten.1 hj
  obtain ⟨p, hp, e⟩ := List.mem_map.1 hr
  rw [← e, List.mem_range'] at hjr
  obtain ⟨i, hi, hji⟩ := hjr
  exact ⟨p, hp, by omega, by omega⟩

/-- In a list that is ordered by the comparator, a surface at a later position
does not have a smaller triple. -/
theorem sorted_getD (env : Externals) (ss : List Surface)
    (hsorted : ss.Pairwise (fun a b => ¬ tripleLexLess (b.sortKey env) (a.sortKey env)))
    (a b : Nat) (hab : a ≤ b) (hb : b < ss.length) :
    ¬ tripleLexLess ((ss.getD b default).sortKey env) ((ss.getD a default).sortKey env) := by
  rcases Nat.eq_or_lt_of_le hab with rfl | hlt
  · unfold tripleLexLess
    omega
  · rw [List.getD_eq_getElem _ _ hb, List.getD_eq_getElem _ _ (by omega : a < ss.length)]
    exact (List.pairwise_iff_getElem.1 hsorted) a b (by omega) hb hlt

/-- With material indices that tell the materials apart, surfaces with equal
sort triples have equal (material, fog index, buffer index) triples. -/
theorem batchKey_eq_of_sortKey_eq (env : Externals)
    (hinj : ∀ m1 m2 : MaterialPtr, (env.materialAt m1).index = (env.materialAt m2).index → m1 = m2)
    (s1 s2 : Surface) (h : s1.sortKey env = s2.sortKey env) : s1.batchKey = s2.batchKey := by
  unfold Surface.sortKey at h
  unfold Surface.batchKey
  simp only [Prod.mk.injEq] at h ⊢
  exact ⟨hinj _ _ h.1, h.2.1, h.2.2⟩

/-- In a list ordered by the comparator, the surface at a position that closes a
batch has a smaller sort triple than every surface behind it. -/
theorem sortKey_lt_of_closesBatch (env : Externals)
    (hinj : ∀ m1 m2 : MaterialPtr, (env.materialAt m1).index = (env.materialAt m2).index → m1 = m2)
    (ss : List Surface)
    (hsorted : ss.Pairwise (fun a b => ¬ tripleLexLess (b.sortKey env) (a.sortKey env)))
    (a b : Nat) (ha : closesBatch ss a = true) (hab : a < b) (hb : b < ss.length) :
    tripleLexLess ((ss.getD a default).sortKey env) ((ss.getD b default).sortKey env) := by
  have hne := closesBatch_true ss a ha (by omega)
  have hne2 : (ss.getD (a + 1) default).sortKey env ≠ (ss.getD a default).sortKey env :=
    fun he => hne (batchKey_eq_of_sortKey_eq env hinj _ _ he)
  have s1 := sorted_getD env ss hsorted a (a + 1) (by omega) (by omega)
  have s2 := sorted_getD env ss hsorted (a + 1) b (by omega) hb
  revert hne2 s1 s2
  unfold tripleLexLess
  generalize (ss.getD a default).sortKey env = x
  generalize (ss.getD (a + 1) default).sortKey env = y
  generalize (ss.getD b default).sortKey env = z
  obtain ⟨x1, x2, x3⟩ := x
  obtain ⟨y1, y2, y3⟩ := y
  obtain ⟨z1, z2, z3⟩ := z
  simp only [ne_eq, Prod.mk.injEq]
  omega

/-- In a list ordered by the comparator, with material indices that tell the
materials apart, the surfaces that close the windows have pairwise different
(material, fog index, buffer index) triples. -/
theorem WindowsFrom.closing_keys_nodup (env : Externals)
    (hinj : ∀ m1 m2 : MaterialPtr, (env.materialAt m1).index = (env.materialAt m2).index → m1 = m2)
    (ss : List Surface)
    (hsorted : ss.Pairwise (fun a b => ¬ tripleLexLess (b.sortKey env) (a.sortKey env)))
    (ws : List (Nat × Nat)) (first : Nat) (h : WindowsFrom ss first ws) :
    (ws.map (fun p => (ss.getD p.2 default).batchKey)).Nodup := by
  obtain ⟨h1, h2⟩ := WindowsFrom.ordered ss ws first h
  rw [List.Nodup, List.pairwise_map]
  have h3 : ws.Pairwise (fun p q => p ∈ ws ∧ q ∈ ws ∧ p.2 < q.2) := by
    rw [List.pairwise_iff_forall_sublist] at h2 ⊢
    intro p q hs
    exact ⟨(hs.subset (List.mem_cons_self _ _)),
      (hs.subset (List.mem_cons_of_mem _ (List.mem_singleton.2 rfl))), h2 hs⟩
  refine List.Pairwise.imp ?_ h3
  intro p q hpq he
  obtain ⟨hp, hq, hlt⟩ := hpq
  have hlex := sortKey_lt_of_closesBatch env hinj ss hsorted p.2 q.2 (h1 p hp).2.2.2 hlt
    (h1 q hq).2.2.1
  have hk : (ss.getD p.2 default).sortKey env = (ss.getD q.2 default).sortKey env := by
    unfold Surface.batchKey at he
    unfold Surface.sortKey
    simp only [Prod.mk.injEq] at he ⊢
    exact ⟨by rw [he.1], he.2.1, he.2.2⟩
  rw [hk] at hlex
  unfold tripleLexLess at hlex
  omega

/-- In a list ordered by the comparator, with material indices that tell the
materials apart, the number of windows is the number of distinct (material, fog
index, buffer index) triples in the list. -/
theorem WindowsFrom.count_distinct (env : Externals)
    (hinj : ∀ m1 m2 : MaterialPtr, (env.materialAt m1).index = (env.materialAt m2).index → m1 = m2)
    (ss : List Surface)
    (hsorted : ss.Pairwise (fun a b => ¬ tripleLexLess (b.sortKey env) (a.sortKey env)))
    (ws : List (Nat × Nat)) (h : WindowsFrom ss 0 ws) :
    (ss.map Surface.batchKey).dedup.length = ws.length := by
  have hnd := WindowsFrom.closing_keys_nodup env hinj ss hsorted ws 0 h
  obtain ⟨h1, _⟩ := WindowsFrom.ordered ss ws 0 h
  have hset : (ss.map Surface.batchKey).toFinset =
      (ws.map (fun p => (ss.getD p.2 default).batchKey)).toFinset := by
    ext k
    simp only [List.mem_toFinset, List.mem_map]
    constructor
    · rintro ⟨s, hs, rfl⟩
      obtain ⟨j, hj, rfl⟩ := List.getElem_of_mem hs
      obtain ⟨p, hp, p1, p2⟩ := WindowsFrom.covers ss ws 0 h j (Nat.zero_le _) hj
      refine ⟨p, hp, ?_⟩
      rw [← WindowsFrom.uniform ss ws 0 h p hp j p1 p2, List.getD_eq_getElem _ _ hj]
    · rintro ⟨p, hp, rfl⟩
      refine ⟨ss.getD p.2 default, getD_mem_lt default ss p.2 (h1 p hp).2.2.1, rfl⟩
  rw [← List.card_toFinset, hset, List.toFinset_card_of_nodup hnd, List.length_map]

/-- C24: after every rebuild by `updateVisCache`, when the material index tells
the materials apart, the number of batches equals the number of distinct
(material, fog index, buffer index) triples among the visible surfaces, and all
visible surfaces that share a triple lie in the window of one single batch. -/
theorem updateVisCache_one_batch_per_triple (env : Externals) (w : World) (vc : VisCache)
    (pos : vec3) (areaMask : List Nat) (leaf : Nat)
    (hl : leafFromPosition w pos = some leaf)
    (hr : needsRebuild env w vc leaf areaMask = true)
    (hinj : ∀ m1 m2 : MaterialPtr,
      (env.materialAt m1).index = (env.materialAt m2).index → m1 = m2) :
    ∃ w1 vc1, updateVisCache env w vc pos areaMask = some (w1, vc1) ∧
      vc1.batchedSurfaces.length =
        ((visibleSurfaces w1 vc1).map Surface.batchKey).dedup.length ∧
      vc1.batchedSurfaces.length = (batchWindows (visibleSurfaces w1 vc1)).length ∧
      ∀ p ∈ batchWindows (visibleSurfaces w1 vc1), ∀ q ∈ batchWindows (visibleSurfaces w1 vc1),
        ∀ i j, p.1 ≤ i → i ≤ p.2 → q.1 ≤ j → j ≤ q.2 →
          ((visibleSurfaces w1 vc1).getD i default).batchKey =
            ((visibleSurfaces w1 vc1).getD j default).batchKey → p = q := by
  have hsorted : (visibleSurfaces (rebuildVisCache env w vc (w.nodes_.getD leaf default) areaMask).1
      (rebuildVisCache env w vc (w.nodes_.getD leaf default) areaMask).2).Pairwise
      (fun a b => ¬ tripleLexLess (b.sortKey env) (a.sortKey env)) := by
    unfold visibleSurfaces
    rw [List.pairwise_map]
    exact (surfaceCompare_sorted_rebuild env w vc (w.nodes_.getD leaf default) areaMask)
  have hw := batchWindows_windowsFrom
    (visibleSurfaces (rebuildVisCache env w vc (w.nodes_.getD leaf default) areaMask).1
      (rebuildVisCache env w vc (w.nodes_.getD leaf default) areaMask).2)
  have hlen : (rebuildVisCache env w vc (w.nodes_.getD leaf default) areaMask).2.batchedSurfaces.length =
      (batchWindows (visibleSurfaces
        (rebuildVisCache env w vc (w.nodes_.getD leaf default) areaMask).1
        (rebuildVisCache env w vc (w.nodes_.getD leaf default) areaMask).2)).length := by
    have := congrArg List.length (rebuildVisCache_batches env w vc (w.nodes_.getD leaf default) areaMask)
    simpa using this
  refine ⟨_, _, updateVisCache_rebuilds env w vc pos areaMask leaf hl hr, ?_, hlen, ?_⟩
  · exact hlen.trans (WindowsFrom.count_distinct env hinj _ hsorted _ hw).symm
  · intro p hp q hq i j p1 p2 q1 q2 he
    have hnd := WindowsFrom.closing_keys_nodup env hinj _ hsorted _ 0 hw
    have up := WindowsFrom.uniform _ _ 0 hw p hp i p1 p2
    have uq := WindowsFrom.uniform _ _ 0 hw q hq j q1 q2
    exact List.inj_on_of_nodup_map hnd hp hq (up.symm.trans (he.trans uq))

/-- C24 on the example world, whose visible surfaces have the two triples
(1, -1, 0) and (2, -1, 0): two batches. -/
theorem updateVisCache_one_batch_per_triple_witness :
    (updateVisCache exampleExternals exampleWorld emptyVisCache default []).map
      (fun r => (r.2.batchedSurfaces.length,
        ((visibleSurfaces r.1 r.2).map Surface.batchKey).dedup)) =
      some (2, [(1, -1, 0), (2, -1, 0)]) ∧
    ∃ w1 vc1, updateVisCache exampleExternals exampleWorld emptyVisCache default [] = some (w1, vc1) ∧
      vc1.batchedSurfaces.length = ((visibleSurfaces w1 vc1).map Surface.batchKey).dedup.length :=
  ⟨by decide,
    match updateVisCache_one_batch_per_triple exampleExternals exampleWorld emptyVisCache
        default [] 0 rfl rfl (fun m1 m2 h => Int.ofNat.inj h) with
    | ⟨w1, vc1, h, hn, _⟩ => ⟨w1, vc1, h, hn⟩⟩


/-! ## Theorems: `R_ChopPolyBehindPlane` -/

/-- One pass of the second loop of `R_ChopPolyBehindPlane` writes at most two
points. -/
theorem chopStep_length (inPoints : List vec3) (normal : vec3) (dist epsilon : ℚ) (i : Nat) :
    (chopStep inPoints normal dist epsilon i).length ≤ 2 := by
  simp only [chopStep]
  split_ifs <;> simp

/-- What the code keeps of the bound in its comment "Out must have space for two
more vertexes than in": `R_ChopPolyBehindPlane` writes at most twice as many
points as the polygon has. -/
theorem R_ChopPolyBehindPlane_length (inPoints : List vec3) (normal : vec3) (dist epsilon : ℚ) :
    (R_ChopPolyBehindPlane inPoints normal dist epsilon).length ≤ 2 * inPoints.length := by
  unfold R_ChopPolyBehindPlane
  split_ifs
  · simp
  · simp
  · omega
  · rw [List.length_flatMap]
    have h := List.sum_le_card_nsmul
      ((List.range inPoints.length).map (fun i => (chopStep inPoints normal dist epsilon i).length)) 2
      (by
        intro x hx
        obtain ⟨i, _, rfl⟩ := List.mem_map.1 hx
        exact chopStep_length _ _ _ _ i)
    simp only [List.length_map, List.length_range, smul_eq_mul] at h
    rw [Nat.mul_comm]
    exact h

/-- For a polygon with at least one point, `dists[i]` is the distance of point
`i` from the plane, and the entry behind it is the distance of the next point of
the polygon, the first point following the last. -/
theorem chopDistAt_eq (inPoints : List vec3) (normal : vec3) (dist : ℚ) (i : Nat)
    (hi : i < inPoints.length) :
    chopDistAt inPoints normal dist i = vec3.dotProduct (inPoints.getD i default) normal - dist ∧
    chopDistAt inPoints normal dist (i + 1) =
      vec3.dotProduct (inPoints.getD ((i + 1) % inPoints.length) default) normal - dist := by
  unfold chopDistAt chopDists
  constructor
  · rw [if_pos hi]
    exact getD_map_lt (fun p => vec3.dotProduct p normal - dist) 0 default inPoints i hi
  · have e : (if i + 1 < inPoints.length then i + 1 else 0) = (i + 1) % inPoints.length := by
      split_ifs with h
      · rw [Nat.mod_eq_of_lt h]
      · have : i + 1 = inPoints.length := by omega
        rw [this, Nat.mod_self]
    rw [e]
    exact getD_map_lt (fun p => vec3.dotProduct p normal - dist) 0 default inPoints _
      (Nat.mod_lt _ (by omega))

/-- With `epsilon` not negative, a point has side `SIDE_BACK` exactly when it is
behind the plane by more than `epsilon`. -/
theorem chopSide_back_iff (epsilon dot : ℚ) (he : 0 ≤ epsilon) :
    chopSide epsilon dot = SIDE_BACK ↔ dot < -epsilon := by
  rw [chopSide_back]
  constructor
  · exact fun h => h.2
  · intro h
    exact ⟨by intro hc; linarith, h⟩

/-- A point that is neither in front of nor behind the plane by more than
`epsilon` has side `SIDE_ON`. -/
theorem chopSide_on (epsilon dot : ℚ) (h1 : ¬ dot > epsilon) (h2 : ¬ dot < -epsilon) :
    chopSide epsilon dot = SIDE_ON := by
  unfold chopSide
  rw [if_neg h1, if_neg h2]

/-- The three sides a point can have, with `epsilon` not negative. -/
theorem chopSide_cases (epsilon dot : ℚ) (he : 0 ≤ epsilon) :
    (dot > epsilon ∧ ¬ dot < -epsilon ∧ chopSide epsilon dot = SIDE_FRONT) ∨
    (¬ dot > epsilon ∧ dot < -epsilon ∧ chopSide epsilon dot = SIDE_BACK) ∨
    (¬ dot > epsilon ∧ ¬ dot < -epsilon ∧ chopSide epsilon dot = SIDE_ON) := by
  by_cases h1 : dot > epsilon
  · exact Or.inl ⟨h1, by intro hc; linarith, (chopSide_front epsilon dot).2 h1⟩
  · by_cases h2 : dot < -epsilon
    · exact Or.inr (Or.inl ⟨h1, h2, (chopSide_back_iff epsilon dot he).2 h2⟩)
    · exact Or.inr (Or.inr ⟨h1, h2, chopSide_on epsilon dot h1 h2⟩)

/-- With `epsilon` not negative, one pass of the second loop of
`R_ChopPolyBehindPlane` writes what the description gives for that point and
edge. -/
theorem chopStep_eq_chopEdgeSpec (inPoints : List vec3) (normal : vec3) (dist epsilon : ℚ)
    (he : 0 ≤ epsilon) (i : Nat) (hi : i < inPoints.length) :
    chopStep inPoints normal dist epsilon i = chopEdgeSpec inPoints normal dist epsilon i := by
  have hpos : 0 < inPoints.length := by omega
  obtain ⟨d1, d2⟩ := chopDistAt_eq inPoints normal dist i hi
  have s1 := chopSideAt_eq inPoints normal dist epsilon i hpos
  have s2 := chopSideAt_eq inPoints normal dist epsilon (i + 1) hpos
  rw [d1] at s1
  rw [d2] at s2
  have hF : SIDE_FRONT ≠ SIDE_ON := by decide
  have hB : SIDE_BACK ≠ SIDE_ON := by decide
  have hFB : SIDE_FRONT ≠ SIDE_BACK := by decide
  have hBF : SIDE_BACK ≠ SIDE_FRONT := by decide
  unfold chopStep chopEdgeSpec chopCrossing
  simp only []
  rw [d1, d2]
  rcases chopSide_cases epsilon
      (vec3.dotProduct (inPoints.getD i default) normal - dist) he with
    ⟨a1, a2, ea⟩ | ⟨a1, a2, ea⟩ | ⟨a1, a2, ea⟩ <;>
  rcases chopSide_cases epsilon
      (vec3.dotProduct (inPoints.getD ((i + 1) % inPoints.length) default) normal - dist) he with
    ⟨b1, b2, eb⟩ | ⟨b1, b2, eb⟩ | ⟨b1, b2, eb⟩
  · rw [s1, s2, ea, eb, if_neg hF, if_pos rfl, if_pos (Or.inr rfl), if_neg a2,
      if_neg (by rintro (⟨_, h⟩ | ⟨h, _⟩) <;> contradiction)]
    rfl
  · have hd : vec3.dotProduct (inPoints.getD i default) normal - dist -
        (vec3.dotProduct (inPoints.getD ((i + 1) % inPoints.length) default) normal - dist) ≠ 0 := by
      intro hc
      linarith
    rw [s1, s2, ea, eb, if_neg hF, if_pos rfl,
      if_neg (by rintro (h | h) <;> [exact hB h; exact hBF h]), if_neg hd, if_neg a2,
      if_pos (Or.inl ⟨a1, b2⟩)]
  · rw [s1, s2, ea, eb, if_neg hF, if_pos rfl, if_pos (Or.inl rfl), if_neg a2,
      if_neg (by rintro (⟨_, h⟩ | ⟨h, _⟩) <;> contradiction)]
    rfl
  · have hd : vec3.dotProduct (inPoints.getD i default) normal - dist -
        (vec3.dotProduct (inPoints.getD ((i + 1) % inPoints.length) default) normal - dist) ≠ 0 := by
      intro hc
      linarith
    rw [s1, s2, ea, eb, if_neg hB, if_neg hBF,
      if_neg (by rintro (h | h) <;> [exact hF h; exact hFB h]), if_neg hd, if_pos a2,
      if_pos (Or.inr ⟨a2, b1⟩)]
  · rw [s1, s2, ea, eb, if_neg hB, if_neg hBF, if_pos (Or.inr rfl), if_pos a2,
      if_neg (by rintro (⟨h, _⟩ | ⟨_, h⟩) <;> contradiction)]
    rfl
  · rw [s1, s2, ea, eb, if_neg hB, if_neg hBF, if_pos (Or.inl rfl), if_pos a2,
      if_neg (by rintro (⟨h, _⟩ | ⟨_, h⟩) <;> contradiction)]
    rfl
  · rw [s1, ea, if_pos rfl, if_neg a2,
      if_neg (by rintro (⟨h, _⟩ | ⟨h, _⟩) <;> contradiction)]
    rfl
  · rw [s1, ea, if_pos rfl, if_neg a2,
      if_neg (by rintro (⟨h, _⟩ | ⟨h, _⟩) <;> contradiction)]
    rfl
  · rw [s1, ea, if_pos rfl, if_neg a2,
      if_neg (by rintro (⟨h, _⟩ | ⟨h, _⟩) <;> contradiction)]
    rfl

/-- Reading every position of a list of points gives the list back. -/
theorem map_getD_range_points (l : List vec3) :
    (List.range l.length).map (fun i => l.getD i default) = l := by
  apply List.ext_getElem
  · simp
  · intro i h1 h2
    simp [h2]

/-- Collecting, position by position, the elements that pass a test is filtering. -/
theorem flatMap_if_singleton (P : vec3 → Bool) (h : Nat → vec3) (L : List Nat) :
    L.flatMap (fun i => if P (h i) = true then [h i] else []) = (L.map h).filter P := by
  induction L with
  | nil => rfl
  | cons a rest ih =>
    rw [List.flatMap_cons, List.map_cons, List.filter_cons, ih]
    split_ifs <;> rfl

/-- A concatenation of pieces is a sublist of the concatenation of larger pieces. -/
theorem flatMap_sublist (f g : Nat → List vec3) (L : List Nat)
    (h : ∀ i ∈ L, (f i).Sublist (g i)) : (L.flatMap f).Sublist (L.flatMap g) := by
  induction L with
  | nil => exact List.Sublist.refl _
  | cons a rest ih =>
    rw [List.flatMap_cons, List.flatMap_cons]
    exact List.Sublist.append (h a (List.mem_cons_self _ _))
      (ih (fun i hi => h i (List.mem_cons_of_mem _ hi)))

/-- Concatenations of pieces that agree position by position are equal. -/
theorem flatMap_congr_mem (f g : Nat → List vec3) (L : List Nat)
    (h : ∀ i ∈ L, f i = g i) : L.flatMap f = L.flatMap g := by
  induction L with
  | nil => rfl
  | cons a rest ih =>
    rw [List.flatMap_cons, List.flatMap_cons, h a (List.mem_cons_self _ _),
      ih (fun i hi => h i (List.mem_cons_of_mem _ hi))]

/-- The count `counts[SIDE_FRONT]` is zero exactly when no point is in front of
the plane by more than `epsilon`. -/
theorem chopCount_front_eq_zero (inPoints : List vec3) (normal : vec3) (dist epsilon : ℚ) :
    chopCount inPoints normal dist epsilon SIDE_FRONT = 0 ↔
      ∀ p ∈ inPoints, ¬ vec3.dotProduct p normal - dist > epsilon := by
  unfold chopCount chopDists
  rw [List.count_eq_zero]
  constructor
  · intro h p hp hc
    exact h (List.mem_map.2 ⟨_, List.mem_map.2 ⟨p, hp, rfl⟩, (chopSide_front epsilon _).2 hc⟩)
  · intro h hm
    obtain ⟨d, hd, hs⟩ := List.mem_map.1 hm
    obtain ⟨q, hq, hqd⟩ := List.mem_map.1 hd
    rw [← hqd] at hs
    exact h q hq ((chopSide_front epsilon _).1 hs)

/-- With `epsilon` not negative, the count `counts[SIDE_BACK]` is zero exactly
when no point is behind the plane by more than `epsilon`. -/
theorem chopCount_back_eq_zero (inPoints : List vec3) (normal : vec3) (dist epsilon : ℚ)
    (he : 0 ≤ epsilon) :
    chopCount inPoints normal dist epsilon SIDE_BACK = 0 ↔
      ∀ p ∈ inPoints, ¬ vec3.dotProduct p normal - dist < -epsilon := by
  unfold chopCount chopDists
  rw [List.count_eq_zero]
  constructor
  · intro h p hp hc
    exact h (List.mem_map.2 ⟨_, List.mem_map.2 ⟨p, hp, rfl⟩, (chopSide_back_iff epsilon _ he).2 hc⟩)
  · intro h hm
    obtain ⟨d, hd, hs⟩ := List.mem_map.1 hm
    obtain ⟨q, hq, hqd⟩ := List.mem_map.1 hd
    rw [← hqd] at hs
    exact h q hq ((chopSide_back_iff epsilon _ he).1 hs)

/-- With `epsilon` not negative, for a polygon of fewer than 62 points with at
least one point in front of the plane, `R_ChopPolyBehindPlane` writes, point by
point and edge by edge, what the description gives. -/
theorem R_ChopPolyBehindPlane_eq_spec (inPoints : List vec3) (normal : vec3) (dist epsilon : ℚ)
    (hlen : inPoints.length < 62) (he : 0 ≤ epsilon)
    (hfront : ∃ p ∈ inPoints, vec3.dotProduct p normal - dist > epsilon) :
    R_ChopPolyBehindPlane inPoints normal dist epsilon =
      (List.range inPoints.length).flatMap (chopEdgeSpec inPoints normal dist epsilon) := by
  have h0 : chopCount inPoints normal dist epsilon SIDE_FRONT ≠ 0 := by
    rw [Ne, chopCount_front_eq_zero]
    intro hc
    obtain ⟨p, hp, hf⟩ := hfront
    exact hc p hp hf
  unfold R_ChopPolyBehindPlane MAX_VERTS_ON_POLY
  rw [if_neg (by omega), if_neg h0]
  split_ifs with h1
  · rw [chopCount_back_eq_zero _ _ _ _ he] at h1
    have e : ∀ i ∈ List.range inPoints.length,
        chopEdgeSpec inPoints normal dist epsilon i = [inPoints.getD i default] := by
      intro i hi
      have hi1 : i < inPoints.length := List.mem_range.1 hi
      have b1 := h1 _ (getD_mem_lt default inPoints i hi1)
      have b2 := h1 _ (getD_mem_lt default inPoints ((i + 1) % inPoints.length)
        (Nat.mod_lt _ (by omega)))
      unfold chopEdgeSpec chopCrossing
      simp only []
      rw [if_neg b1, if_neg (by rintro (⟨_, h⟩ | ⟨h, _⟩) <;> contradiction)]
      rfl
    rw [flatMap_congr_mem _ _ _ e]
    have e2 : (List.range inPoints.length).flatMap (fun i => [inPoints.getD i default]) =
        (List.range inPoints.length).map (fun i => inPoints.getD i default) := by
      induction (List.range inPoints.length) with
      | nil => rfl
      | cons a rest ih => rw [List.flatMap_cons, List.map_cons, ih]; rfl
    rw [e2, map_getD_range_points]
  · exact flatMap_congr_mem _ _ _
      (fun i hi => chopStep_eq_chopEdgeSpec inPoints normal dist epsilon he i (List.mem_range.1 hi))

/-- C26, the counterexample: the three points of the triangle (0, 0, 0),
(1, 0, 0), (0, 1, 0) are all classified as on the plane z = 0 (epsilon 0.5), and
`R_ChopPolyBehindPlane` writes no point: the points on the plane do not appear
in the output. -/
theorem R_ChopPolyBehindPlane_drops_on_plane_points :
    ([{ x := 0, y := 0, z := 0 }, { x := 1, y := 0, z := 0 }, { x := 0, y := 1, z := 0 }] :
        List vec3).map
      (fun p => chopSide (1 / 2) (vec3.dotProduct p { x := 0, y := 0, z := 1 } - 0)) =
      [SIDE_ON, SIDE_ON, SIDE_ON] ∧
    R_ChopPolyBehindPlane
      [{ x := 0, y := 0, z := 0 }, { x := 1, y := 0, z := 0 }, { x := 0, y := 1, z := 0 }]
      { x := 0, y := 0, z := 1 } 0 (1 / 2) = [] := by
  refine ⟨?_, ?_⟩
  · with_unfolding_all decide
  · with_unfolding_all decide

/-- C26, amended: for a polygon of fewer than 62 points and `epsilon` not
negative, `R_ChopPolyBehindPlane` writes nothing when no point is in front of the
plane by more than `epsilon` (points on the plane are then dropped too). When
some point is in front, the output is, point by point in input order, every point
that is in front of or on the plane, unchanged, each followed by the linear
interpolation `p1 + (d1 / (d1 - d2)) * (p2 - p1)` when the edge to the next point
has its ends on opposite sides of the plane; so the points in front of or on the
plane appear in the output in input order. -/
theorem R_ChopPolyBehindPlane_spec (inPoints : List vec3) (normal : vec3) (dist epsilon : ℚ)
    (hlen : inPoints.length < 62) (he : 0 ≤ epsilon) :
    ((∀ p ∈ inPoints, ¬ vec3.dotProduct p normal - dist > epsilon) →
      R_ChopPolyBehindPlane inPoints normal dist epsilon = []) ∧
    ((∃ p ∈ inPoints, vec3.dotProduct p normal - dist > epsilon) →
      R_ChopPolyBehindPlane inPoints normal dist epsilon =
        (List.range inPoints.length).flatMap (chopEdgeSpec inPoints normal dist epsilon) ∧
      (inPoints.filter (fun p => decide (¬ vec3.dotProduct p normal - dist < -epsilon))).Sublist
        (R_ChopPolyBehindPlane inPoints normal dist epsilon)) := by
  constructor
  · intro h
    have h0 := (chopCount_front_eq_zero inPoints normal dist epsilon).2 h
    unfold R_ChopPolyBehindPlane
    split_ifs <;> rfl
  · intro hfront
    have e := R_ChopPolyBehindPlane_eq_spec inPoints normal dist epsilon hlen he hfront
    refine ⟨e, ?_⟩
    rw [e]
    have hf := flatMap_if_singleton
      (fun p => decide (¬ vec3.dotProduct p normal - dist < -epsilon))
      (fun i => inPoints.getD i default) (List.range inPoints.length)
    rw [map_getD_range_points] at hf
    rw [← hf]
    apply flatMap_sublist
    intro i _
    unfold chopEdgeSpec
    simp only [decide_eq_true_eq]
    split_ifs with c1 c2 c3
    · exact List.nil_sublist _
    · exact List.nil_sublist _
    · exact List.sublist_append_left _ _
    · exact List.sublist_append_left _ _

/-- The points the description gives, over a list of positions: at most one per
position and one more per edge whose ends are on opposite sides of the plane. -/
theorem chopEdgeSpec_length (inPoints : List vec3) (normal : vec3) (dist epsilon : ℚ)
    (L : List Nat) :
    (L.flatMap (chopEdgeSpec inPoints normal dist epsilon)).length ≤
      L.length + (L.filter (fun i => decide (chopCrossing inPoints normal dist epsilon i))).length := by
  induction L with
  | nil => simp
  | cons a rest ih =>
    rw [List.flatMap_cons, List.length_append, List.length_cons, List.filter_cons]
    have h1 : (chopEdgeSpec inPoints normal dist epsilon a).length ≤
        1 + (if chopCrossing inPoints normal dist epsilon a then 1 else 0) := by
      unfold chopEdgeSpec
      simp only []
      split_ifs <;> simp
    by_cases hc : chopCrossing inPoints normal dist epsilon a
    · rw [if_pos hc] at h1
      rw [if_pos (by simpa using hc), List.length_cons]
      omega
    · rw [if_neg hc] at h1
      rw [if_neg (by simpa using hc)]
      omega

/-- For a polygon of fewer than 62 points and `epsilon` not negative,
`R_ChopPolyBehindPlane` writes at most one point per input point and one more
per edge whose ends are on opposite sides of the plane: at most
`numInPoints + 2` points when at most two edges cross the plane, and at most
`2 * numInPoints` points for any polygon. -/
theorem R_ChopPolyBehindPlane_length_bound (inPoints : List vec3) (normal : vec3)
    (dist epsilon : ℚ) (hlen : inPoints.length < 62) (he : 0 ≤ epsilon) :
    (R_ChopPolyBehindPlane inPoints normal dist epsilon).length ≤
      inPoints.length + chopCrossings inPoints normal dist epsilon ∧
    (chopCrossings inPoints normal dist epsilon ≤ 2 →
      (R_ChopPolyBehindPlane inPoints normal dist epsilon).length ≤ inPoints.length + 2) ∧
    (R_ChopPolyBehindPlane inPoints normal dist epsilon).length ≤ 2 * inPoints.length := by
  have h1 : (R_ChopPolyBehindPlane inPoints normal dist epsilon).length ≤
      inPoints.length + chopCrossings inPoints normal dist epsilon := by
    by_cases hfront : ∃ p ∈ inPoints, vec3.dotProduct p normal - dist > epsilon
    · rw [R_ChopPolyBehindPlane_eq_spec inPoints normal dist epsilon hlen he hfront]
      have h := chopEdgeSpec_length inPoints normal dist epsilon (List.range inPoints.length)
      rw [List.length_range] at h
      exact h
    · have h0 : chopCount inPoints normal dist epsilon SIDE_FRONT = 0 := by
        rw [chopCount_front_eq_zero]
        intro p hp hc
        exact hfront ⟨p, hp, hc⟩
      have e : R_ChopPolyBehindPlane inPoints normal dist epsilon = [] := by
        unfold R_ChopPolyBehindPlane
        split_ifs <;> rfl
      rw [e]
      simp
  exact ⟨h1, fun hc => by omega, R_ChopPolyBehindPlane_length inPoints normal dist epsilon⟩

set_option maxRecDepth 100000 in
/-- The count of the points written, on a triangle that reaches across the plane
x = 8: two edges cross the plane and four points are written. -/
theorem R_ChopPolyBehindPlane_length_bound_witness :
    chopCrossings (crossingCorners.take 3) { x := -1, y := 0, z := 0 } (-8) (1 / 2) = 2 ∧
    (R_ChopPolyBehindPlane (crossingCorners.take 3) { x := -1, y := 0, z := 0 } (-8)
      (1 / 2)).length = 4 ∧
    (R_ChopPolyBehindPlane (crossingCorners.take 3) { x := -1, y := 0, z := 0 } (-8)
      (1 / 2)).length ≤ (crossingCorners.take 3).length + 2 :=
  ⟨by with_unfolding_all decide, by with_unfolding_all decide,
    (R_ChopPolyBehindPlane_length_bound (crossingCorners.take 3) { x := -1, y := 0, z := 0 } (-8)
      (1 / 2) (by decide) (by norm_num)).2.1 (by with_unfolding_all decide)⟩

set_option maxRecDepth 100000 in
/-- C26 amended, on the same triangle: the two points in front of the plane are
kept, and each crossing edge adds its interpolated point on the plane x = 8. -/
theorem R_ChopPolyBehindPlane_spec_witness :
    R_ChopPolyBehindPlane (crossingCorners.take 3) { x := -1, y := 0, z := 0 } (-8) (1 / 2) =
      [{ x := 1, y := 1, z := 0 }, { x := 8, y := 1, z := 0 }, { x := 8, y := 31 / 11, z := 0 },
        { x := 1, y := 6, z := 0 }] ∧
    R_ChopPolyBehindPlane (crossingCorners.take 3) { x := -1, y := 0, z := 0 } (-8) (1 / 2) =
      (List.range (crossingCorners.take 3).length).flatMap
        (chopEdgeSpec (crossingCorners.take 3) { x := -1, y := 0, z := 0 } (-8) (1 / 2)) :=
  ⟨by with_unfolding_all decide,
    ((R_ChopPolyBehindPlane_spec (crossingCorners.take 3) { x := -1, y := 0, z := 0 } (-8)
      (1 / 2) (by decide) (by norm_num)).2
      ⟨{ x := 1, y := 1, z := 0 }, by decide, by norm_num [vec3.dotProduct]⟩).1⟩


/-! ## Theorems: the CPU-deform batches of `World::updateVisCache` -/

/-- Surfaces whose vertex ranges `[firstVertex, firstVertex + nVertices)` lie
inside a buffer of `L` vertices and are pairwise disjoint have at most `L`
vertices in total. -/
theorem disjoint_ranges_sum (L : Nat) :
    ∀ l : List Surface, (∀ s ∈ l, s.firstVertex + s.nVertices ≤ L) →
      l.Pairwise (fun a b => a.firstVertex + a.nVertices ≤ b.firstVertex ∨
        b.firstVertex + b.nVertices ≤ a.firstVertex) →
      (l.map (fun s => s.nVertices)).sum ≤ L := by
  have key : ∀ l : List Surface, (∀ s ∈ l, s.firstVertex + s.nVertices ≤ L) →
      l.Pairwise (fun a b => a.firstVertex + a.nVertices ≤ b.firstVertex ∨
        b.firstVertex + b.nVertices ≤ a.firstVertex) →
      ∃ U : Finset Nat, U.card = (l.map (fun s => s.nVertices)).sum ∧ U ⊆ Finset.range L ∧
        ∀ x ∈ U, ∃ s ∈ l, s.firstVertex ≤ x ∧ x < s.firstVertex + s.nVertices := by
    intro l
    induction l with
    | nil =>
      intro _ _
      exact ⟨∅, rfl, Finset.empty_subset _, fun x hx => absurd hx (Finset.not_mem_empty x)⟩
    | cons s rest ih =>
      intro hin hp
      rw [List.pairwise_cons] at hp
      obtain ⟨U, hcard, hsub, hmem⟩ := ih (fun t ht => hin t (List.mem_cons_of_mem _ ht)) hp.2
      have hdis : Disjoint (Finset.Ico s.firstVertex (s.firstVertex + s.nVertices)) U := by
        rw [Finset.disjoint_left]
        intro x hx hxU
        obtain ⟨t, ht, t1, t2⟩ := hmem x hxU
        rw [Finset.mem_Ico] at hx
        have := hp.1 t ht
        omega
      refine ⟨Finset.Ico s.firstVertex (s.firstVertex + s.nVertices) ∪ U, ?_, ?_, ?_⟩
      · rw [Finset.card_union_of_disjoint hdis, hcard, Nat.card_Ico, List.map_cons, List.sum_cons]
        omega
      · intro x hx
        rcases Finset.mem_union.1 hx with h | h
        · rw [Finset.mem_Ico] at h
          rw [Finset.mem_range]
          have := hin s (List.mem_cons_self _ _)
          omega
        · exact hsub h
      · intro x hx
        rcases Finset.mem_union.1 hx with h | h
        · rw [Finset.mem_Ico] at h
          exact ⟨s, List.mem_cons_self _ _, h.1, h.2⟩
        · obtain ⟨t, ht, t1, t2⟩ := hmem x h
          exact ⟨t, List.mem_cons_of_mem _ ht, t1, t2⟩
  intro l hin hp
  obtain ⟨U, hcard, hsub, _⟩ := key l hin hp
  rw [← hcard]
  have := Finset.card_le_card hsub
  rwa [Finset.card_range] at this

/-- The CPU-deform loop over `j` only appends to the two scratch vectors, and
adds the vertex counts of the surfaces to `bs.nVertices`. -/
theorem foldl_appendDeformSurface_prefix (w : World) (surface : Surface) (l : List Surface) :
    ∀ acc : DeformBatch,
      (∃ extra, (l.foldl (appendDeformSurface w surface) acc).cpuDeformIndices =
        acc.cpuDeformIndices ++ extra) ∧
      (∃ extra, (l.foldl (appendDeformSurface w surface) acc).cpuDeformVertices =
        acc.cpuDeformVertices ++ extra) ∧
      (acc.nVertices + (l.map (fun s => s.nVertices)).sum < 2 ^ 32 →
        (l.foldl (appendDeformSurface w surface) acc).nVertices =
          acc.nVertices + (l.map (fun s => s.nVertices)).sum) := by
  induction l with
  | nil =>
    intro acc
    exact ⟨⟨[], by simp⟩, ⟨[], by simp⟩, fun _ => by simp⟩
  | cons s rest ih =>
    intro acc
    obtain ⟨⟨e1, h1⟩, ⟨e2, h2⟩, h3⟩ := ih (appendDeformSurface w surface acc s)
    rw [List.foldl_cons]
    refine ⟨⟨_, by rw [h1]; exact List.append_assoc _ _ _⟩,
      ⟨_, by rw [h2]; exact List.append_assoc _ _ _⟩, ?_⟩
    intro hlt
    simp only [List.map_cons, List.sum_cons] at hlt
    have hn : (appendDeformSurface w surface acc s).nVertices = acc.nVertices + s.nVertices := by
      show (acc.nVertices + s.nVertices) % 2 ^ 32 = _
      exact Nat.mod_eq_of_lt (by omega)
    rw [h3 (by rw [hn]; omega), hn, List.map_cons, List.sum_cons]
    omega

/-- The index stored for an absolute index of a surface whose range holds it,
when the count of vertices so far and the vertices of the surface together fit
in 16 bits: the index relative to the surface plus the count so far. -/
theorem deform_index_no_wrap (index firstVertex nVertices n : Nat)
    (h1 : firstVertex ≤ index) (h2 : index < firstVertex + nVertices)
    (h3 : n + nVertices ≤ 65536) :
    ((((index : Int) - (firstVertex : Int) + (n : Int)) % 2 ^ 32) % 2 ^ 16).toNat =
      index - firstVertex + n := by
  have e : (index : Int) - (firstVertex : Int) + (n : Int) = ((index - firstVertex + n : Nat) : Int) := by
    omega
  rw [e]
  have hlt : index - firstVertex + n < 65536 := by omega
  omega

/-- The entry that the CPU-deform loop stores for index `k` of the surface `s` of
the batch, and the scratch vertex it addresses, when the vertex counts up to and
including `s` fit in 16 bits: the index is made relative to the surface and
moved by the vertex count of the surfaces before it, without wrap-around, and
the scratch vertex is the vertex of the geometry buffer that the absolute index
addresses. -/
theorem foldl_appendDeformSurface_entry (w : World) (surface : Surface) :
    ∀ (pre : List Surface) (acc : DeformBatch) (s : Surface) (post : List Surface) (k : Nat),
      k < s.indices.length →
      s.firstVertex ≤ s.indices.getD k 0 →
      s.indices.getD k 0 < s.firstVertex + s.nVertices →
      acc.nVertices + (pre.map (fun t => t.nVertices)).sum + s.nVertices ≤ 65536 →
      ((pre ++ s :: post).foldl (appendDeformSurface w surface) acc).cpuDeformIndices.getD
          (acc.cpuDeformIndices.length + (pre.map (fun t => t.indices.length)).sum + k) 0 =
        s.indices.getD k 0 - s.firstVertex + (acc.nVertices + (pre.map (fun t => t.nVertices)).sum) ∧
      ((pre ++ s :: post).foldl (appendDeformSurface w surface) acc).cpuDeformVertices.getD
          (acc.cpuDeformVertices.length + (pre.map (fun t => t.nVertices)).sum +
            (s.indices.getD k 0 - s.firstVertex)) default =
        (w.vertices_ surface.bufferIndex).getD (s.indices.getD k 0) default := by
  intro pre
  induction pre with
  | nil =>
    intro acc s post k hk h1 h2 h3
    simp only [List.map_nil, List.sum_nil, add_zero] at h3 ⊢
    rw [List.nil_append, List.foldl_cons]
    obtain ⟨⟨e1, p1⟩, ⟨e2, p2⟩, _⟩ :=
      foldl_appendDeformSurface_prefix w surface post (appendDeformSurface w surface acc s)
    rw [p1, p2]
    have i1 : (appendDeformSurface w surface acc s).cpuDeformIndices =
        acc.cpuDeformIndices ++ s.indices.map (fun index =>
          ((((index : Int) - (s.firstVertex : Int) + (acc.nVertices : Int)) % 2 ^ 32) % 2 ^ 16).toNat) :=
      rfl
    have i2 : (appendDeformSurface w surface acc s).cpuDeformVertices =
        acc.cpuDeformVertices ++ (List.range s.nVertices).map (fun j =>
          (w.vertices_ surface.bufferIndex).getD (s.firstVertex + j) default) := rfl
    constructor
    · rw [List.getD_append _ _ _ _ (by rw [i1, List.length_append, List.length_map]; omega), i1,
        List.getD_append_right _ _ _ _ (by omega), Nat.add_sub_cancel_left,
        getD_map_lt _ 0 0 s.indices k hk]
      exact deform_index_no_wrap _ _ _ _ h1 h2 h3
    · rw [List.getD_append _ _ _ _
          (by rw [i2, List.length_append, List.length_map, List.length_range]; omega), i2,
        List.getD_append_right _ _ _ _ (by omega), Nat.add_sub_cancel_left,
        getD_map_lt _ default 0 (List.range s.nVertices) _ (by rw [List.length_range]; omega)]
      have e : (List.range s.nVertices).getD (s.indices.getD k 0 - s.firstVertex) 0 =
          s.indices.getD k 0 - s.firstVertex := by
        rw [List.getD_eq_getElem _ _ (by rw [List.length_range]; omega), List.getElem_range]
      rw [e]
      congr 1
      omega
  | cons p rest ih =>
    intro acc s post k hk h1 h2 h3
    simp only [List.map_cons, List.sum_cons] at h3 ⊢
    rw [List.cons_append, List.foldl_cons]
    have hn : (appendDeformSurface w surface acc p).nVertices = acc.nVertices + p.nVertices := by
      show (acc.nVertices + p.nVertices) % 2 ^ 32 = _
      exact Nat.mod_eq_of_lt (by omega)
    have hi : (appendDeformSurface w surface acc p).cpuDeformIndices.length =
        acc.cpuDeformIndices.length + p.indices.length := by
      show (acc.cpuDeformIndices ++ _).length = _
      rw [List.length_append, List.length_map]
    have hv : (appendDeformSurface w surface acc p).cpuDeformVertices.length =
        acc.cpuDeformVertices.length + p.nVertices := by
      show (acc.cpuDeformVertices ++ _).length = _
      rw [List.length_append, List.length_map, List.length_range]
    obtain ⟨r1, r2⟩ := ih (appendDeformSurface w surface acc p) s post k hk h1 h2
      (by rw [hn]; omega)
    rw [hn, hi] at r1
    rw [hv] at r2
    constructor
    · rw [← Nat.add_assoc, ← Nat.add_assoc, r1]
      omega
    · rw [← Nat.add_assoc, r2]

/-- The surfaces of a window without closed batch before its end are in the
geometry buffer of the surface that closes it. -/
theorem batchWindow_bufferIndex (ss : List Surface) (firstSurface i : Nat)
    (hwindow : ∀ j, firstSurface ≤ j → j < i → closesBatch ss j = false) :
    ∀ s ∈ batchWindow ss firstSurface i, s.bufferIndex = (ss.getD i default).bufferIndex := by
  intro s hs
  unfold batchWindow at hs
  obtain ⟨j, hj, rfl⟩ := List.mem_map.1 hs
  rw [List.mem_range'] at hj
  obtain ⟨d, hd, rfl⟩ := hj
  have h := batchKey_uniform ss firstSurface i hwindow (i - (firstSurface + 1 * d))
    (firstSurface + 1 * d) (by omega) (by omega)
  unfold Surface.batchKey at h
  simp only [Prod.mk.injEq] at h
  exact h.2.2

/-- C25: for a batch built for a CPU-deform material from a window of the sorted
list, when every stored index of a surface lies in the surface's vertex range
`[firstVertex, firstVertex + nVertices)` and the geometry is laid out as the
loader leaves it (the vertex ranges of the surfaces of the batch lie inside their
geometry buffer of at most 65535 vertices and do not overlap): every index
stored in the scratch index buffer for the batch is the surface's index made
relative to the surface plus the vertex count of the surfaces before it in the
batch, without 16-bit wrap-around, it is smaller than the batch's `nVertices`,
and the scratch vertex it addresses, counted from the batch's `firstVertex`, is
the vertex that the original index addresses in the surface's own geometry
buffer. -/
theorem pushBatch_deform_indices (env : Externals) (w : World) (ss : List Surface)
    (firstSurface i : Nat) (vc : VisCache)
    (hdeform : (env.materialAt (ss.getD i default).material).hasAutoSpriteDeform = true)
    (hwindow : ∀ j, firstSurface ≤ j → j < i → closesBatch ss j = false)
    (hrange : ∀ s ∈ batchWindow ss firstSurface i, ∀ index ∈ s.indices,
      s.firstVertex ≤ index ∧ index < s.firstVertex + s.nVertices)
    (hcap : (w.vertices_ (ss.getD i default).bufferIndex).length ≤ 65535)
    (hin : ∀ s ∈ batchWindow ss firstSurface i,
      s.firstVertex + s.nVertices ≤ (w.vertices_ s.bufferIndex).length)
    (hdisjoint : (batchWindow ss firstSurface i).Pairwise
      (fun a b => a.firstVertex + a.nVertices ≤ b.firstVertex ∨
        b.firstVertex + b.nVertices ≤ a.firstVertex))
    (hscratch : vc.cpuDeformVertices.length < 2 ^ 32) :
    ∃ b : BatchedSurface,
      (pushBatch env w ss firstSurface i vc).batchedSurfaces = vc.batchedSurfaces ++ [b] ∧
      b.firstVertex = some vc.cpuDeformVertices.length ∧
      b.nVertices = some ((batchWindow ss firstSurface i).map (fun s => s.nVertices)).sum ∧
      ∀ (pre : List Surface) (s : Surface) (post : List Surface),
        batchWindow ss firstSurface i = pre ++ s :: post →
        ∀ k, k < s.indices.length →
          (pushBatch env w ss firstSurface i vc).cpuDeformIndices.getD
              (vc.cpuDeformIndices.length + (pre.map (fun t => t.indices.length)).sum + k) 0 =
            s.indices.getD k 0 - s.firstVertex + (pre.map (fun t => t.nVertices)).sum ∧
          (pushBatch env w ss firstSurface i vc).cpuDeformIndices.getD
              (vc.cpuDeformIndices.length + (pre.map (fun t => t.indices.length)).sum + k) 0 <
            ((batchWindow ss firstSurface i).map (fun s => s.nVertices)).sum ∧
          (pushBatch env w ss firstSurface i vc).cpuDeformVertices.getD
              (vc.cpuDeformVertices.length +
                (pushBatch env w ss firstSurface i vc).cpuDeformIndices.getD
                  (vc.cpuDeformIndices.length + (pre.map (fun t => t.indices.length)).sum + k) 0)
              default =
            (w.vertices_ s.bufferIndex).getD (s.indices.getD k 0) default := by
  have hbuf := batchWindow_bufferIndex ss firstSurface i hwindow
  have hsum : ((batchWindow ss firstSurface i).map (fun s => s.nVertices)).sum ≤ 65535 :=
    (disjoint_ranges_sum (w.vertices_ (ss.getD i default).bufferIndex).length _
      (fun s hs => by rw [← hbuf s hs]; exact hin s hs) hdisjoint).trans hcap
  obtain ⟨_, _, hn⟩ := foldl_appendDeformSurface_prefix w (ss.getD i default)
    (batchWindow ss firstSurface i)
    { cpuDeformIndices := vc.cpuDeformIndices, cpuDeformVertices := vc.cpuDeformVertices,
      nVertices := 0, nIndices := 0 }
  have hn1 := hn (by simp only [Nat.zero_add]; omega)
  simp only [Nat.zero_add] at hn1
  simp only [pushBatch, hdeform, if_true]
  refine ⟨_, rfl, ?_, ?_, ?_⟩
  · simp only [Nat.mod_eq_of_lt hscratch]
  · simp only [hn1]
  · intro pre s post hsplit k hk
    have hs : s ∈ batchWindow ss firstSurface i := by
      rw [hsplit]
      exact List.mem_append_right _ (List.mem_cons_self _ _)
    have hidx := hrange s hs (s.indices.getD k 0) (getD_mem_lt 0 s.indices k hk)
    have hpart : (pre.map (fun t => t.nVertices)).sum + s.nVertices ≤
        ((batchWindow ss firstSurface i).map (fun s => s.nVertices)).sum := by
      rw [hsplit, List.map_append, List.sum_append, List.map_cons, List.sum_cons]
      omega
    obtain ⟨r1, r2⟩ := foldl_appendDeformSurface_entry w (ss.getD i default) pre
      { cpuDeformIndices := vc.cpuDeformIndices, cpuDeformVertices := vc.cpuDeformVertices,
        nVertices := 0, nIndices := 0 } s post k hk hidx.1 hidx.2
      (by simp only [Nat.zero_add]; omega)
    simp only [Nat.zero_add] at r1 r2
    rw [← hsplit] at r1 r2
    rw [r1]
    refine ⟨rfl, by omega, ?_⟩
    rw [hbuf s hs, ← r2]
    congr 1
    omega

set_option maxRecDepth 100000 in
/-- C25 on a batch of two triangles: the scratch buffers hold the indices
0, 2, 1, 3, 5, 4 and the vertices 3, 4, 5, 0, 1, 2 of the geometry buffer, and the
index stored for index 2 of the second triangle is 2 - 0 + 3 = 5. -/
theorem pushBatch_deform_indices_witness :
    (pushBatch deformExternals deformWorld deformSurfaces 0 1 emptyVisCache).cpuDeformIndices =
      [0, 2, 1, 3, 5, 4] ∧
    (pushBatch deformExternals deformWorld deformSurfaces 0 1 emptyVisCache).cpuDeformVertices.map
      (fun v => v.pos.x) = [3, 4, 5, 0, 1, 2] ∧
    (pushBatch deformExternals deformWorld deformSurfaces 0 1 emptyVisCache).cpuDeformIndices.getD
      (0 + 3 + 1) 0 = 2 - 0 + 3 :=
  ⟨by with_unfolding_all decide, by with_unfolding_all decide,
    match pushBatch_deform_indices deformExternals deformWorld deformSurfaces 0 1 emptyVisCache
        rfl
        (fun j _ h2 => by
          have e : j = 0 := by omega
          rw [e]
          rfl)
        (by decide) (by decide) (by decide) (by decide) (by decide) with
    | ⟨_, _, _, _, h⟩ =>
      (h [deformSurfaces.getD 0 default] (deformSurfaces.getD 1 default) [] rfl 1 (by decide)).1⟩


/-! ## Theorems: the mirror and reflection cameras -/

theorem MirroredVector_eq (a : vec3) (s c : Transform) :
    MirroredVector a s c =
      vec3.add (vec3.add (vec3.add vec3.empty
        (vec3.scale c.rotation.row0 (vec3.dotProduct a s.rotation.row0)))
        (vec3.scale c.rotation.row1 (vec3.dotProduct a s.rotation.row1)))
        (vec3.scale c.rotation.row2 (vec3.dotProduct a s.rotation.row2)) := by
  rfl

theorem MirroredPoint_eq (p : vec3) (s c : Transform) :
    MirroredPoint p s c = vec3.add (MirroredVector (vec3.sub p s.position) s c) c.position := by
  rfl

theorem vec3_ext (a b : vec3) (hx : a.x = b.x) (hy : a.y = b.y) (hz : a.z = b.z) : a = b := by
  cases a; cases b; simp only [vec3.mk.injEq]; exact ⟨hx, hy, hz⟩

/-- Mirroring a direction through an orthonormal surface frame whose first axis is
negated on the camera side is the reflection for the normal of the frame. -/
theorem MirroredVector_mirror (n u a pos1 pos2 : vec3)
    (hn : vec3.dotProduct n n = 1) (hu : vec3.dotProduct u u = 1)
    (hnu : vec3.dotProduct n u = 0) :
    MirroredVector a
        { position := pos1, rotation := { row0 := n, row1 := u, row2 := vec3.crossProduct n u } }
        { position := pos2,
          rotation := { row0 := vec3.neg n, row1 := u, row2 := vec3.crossProduct n u } } =
      reflectVector n a := by
  rw [MirroredVector_eq]
  obtain ⟨n1, n2, n3⟩ := n
  obtain ⟨u1, u2, u3⟩ := u
  obtain ⟨a1, a2, a3⟩ := a
  simp only [vec3.dotProduct] at hn hu hnu
  apply vec3_ext <;>
    simp only [reflectVector, vec3.add, vec3.sub, vec3.scale, vec3.neg, vec3.crossProduct,
      vec3.dotProduct, vec3.empty]
  · linear_combination (a1 * (u1*u1+u2*u2+u3*u3) - u1 * (a1*u1+a2*u2+a3*u3)) * hn
      + (a1 - n1 * (a1*n1+a2*n2+a3*n3)) * hu
      + ((a1*u1+a2*u2+a3*u3) * n1 + (a1*n1+a2*n2+a3*n3) * u1 - a1 * (n1*u1+n2*u2+n3*u3)) * hnu
  · linear_combination (a2 * (u1*u1+u2*u2+u3*u3) - u2 * (a1*u1+a2*u2+a3*u3)) * hn
      + (a2 - n2 * (a1*n1+a2*n2+a3*n3)) * hu
      + ((a1*u1+a2*u2+a3*u3) * n2 + (a1*n1+a2*n2+a3*n3) * u2 - a2 * (n1*u1+n2*u2+n3*u3)) * hnu
  · linear_combination (a3 * (u1*u1+u2*u2+u3*u3) - u3 * (a1*u1+a2*u2+a3*u3)) * hn
      + (a3 - n3 * (a1*n1+a2*n2+a3*n3)) * hu
      + ((a1*u1+a2*u2+a3*u3) * n3 + (a1*n1+a2*n2+a3*n3) * u3 - a3 * (n1*u1+n2*u2+n3*u3)) * hnu

/-- Mirroring a point through the frame placed at `n * d` is the reflection across
the plane `(n, d)`. -/
theorem MirroredPoint_mirror (plane : Plane) (u p : vec3)
    (hn : vec3.dotProduct plane.normal plane.normal = 1) (hu : vec3.dotProduct u u = 1)
    (hnu : vec3.dotProduct plane.normal u = 0) :
    MirroredPoint p
        { position := vec3.scale plane.normal plane.distance,
          rotation := { row0 := plane.normal, row1 := u,
                        row2 := vec3.crossProduct plane.normal u } }
        { position := vec3.scale plane.normal plane.distance,
          rotation := { row0 := vec3.neg plane.normal, row1 := u,
                        row2 := vec3.crossProduct plane.normal u } } =
      reflectPoint plane p := by
  rw [MirroredPoint_eq, MirroredVector_mirror _ _ _ _ _ hn hu hnu]
  obtain ⟨⟨n1, n2, n3⟩, d⟩ := plane
  obtain ⟨p1, p2, p3⟩ := p
  simp only [vec3.dotProduct] at hn
  apply vec3_ext <;>
    simp only [reflectPoint, reflectVector, vec3.add, vec3.sub, vec3.scale, vec3.dotProduct]
  · linear_combination (2 * n1 * d) * hn
  · linear_combination (2 * n2 * d) * hn
  · linear_combination (2 * n3 * d) * hn

/-- Reflecting a direction twice gives the direction back. -/
theorem reflectVector_involutive (n a : vec3) (hn : vec3.dotProduct n n = 1) :
    reflectVector n (reflectVector n a) = a := by
  obtain ⟨n1, n2, n3⟩ := n
  obtain ⟨a1, a2, a3⟩ := a
  simp only [vec3.dotProduct] at hn
  apply vec3_ext <;> simp only [reflectVector, vec3.sub, vec3.scale, vec3.dotProduct]
  · linear_combination (4 * n1 * (n1*a1+n2*a2+n3*a3)) * hn
  · linear_combination (4 * n2 * (n1*a1+n2*a2+n3*a3)) * hn
  · linear_combination (4 * n3 * (n1*a1+n2*a2+n3*a3)) * hn

/-- Reflecting a point twice across a plane gives the point back. -/
theorem reflectPoint_involutive (plane : Plane) (p : vec3)
    (hn : vec3.dotProduct plane.normal plane.normal = 1) :
    reflectPoint plane (reflectPoint plane p) = p := by
  obtain ⟨⟨n1, n2, n3⟩, d⟩ := plane
  obtain ⟨p1, p2, p3⟩ := p
  simp only [vec3.dotProduct] at hn
  apply vec3_ext <;> simp only [reflectPoint, vec3.sub, vec3.scale, vec3.dotProduct]
  · linear_combination (4 * n1 * (n1*p1+n2*p2+n3*p3 - d)) * hn
  · linear_combination (4 * n2 * (n1*p1+n2*p2+n3*p3 - d)) * hn
  · linear_combination (4 * n3 * (n1*p1+n2*p2+n3*p3 - d)) * hn

/-- The clip plane built from the camera side of the mirror frame is the plane. -/
theorem mirror_clip_plane (plane : Plane)
    (hn : vec3.dotProduct plane.normal plane.normal = 1) :
    ({ normal := vec3.neg (vec3.neg plane.normal),
       distance := vec3.dotProduct (vec3.scale plane.normal plane.distance)
         (vec3.neg (vec3.neg plane.normal)) } : Plane) = plane := by
  obtain ⟨⟨n1, n2, n3⟩, d⟩ := plane
  simp only [vec3.dotProduct] at hn
  simp only [vec3.neg, vec3.scale, vec3.dotProduct, neg_neg, Plane.mk.injEq, true_and]
  linear_combination d * hn

/-- The camera and clip plane of `reflectionCameraFor` for an orthonormal frame. -/
theorem reflectionCameraFor_eq (env : Externals) (plane : Plane) (p : vec3) (rot : mat3)
    (hn : vec3.dotProduct plane.normal plane.normal = 1)
    (hu : vec3.dotProduct (env.perpendicular plane.normal) (env.perpendicular plane.normal) = 1)
    (hnu : vec3.dotProduct plane.normal (env.perpendicular plane.normal) = 0) :
    reflectionCameraFor env plane p rot =
      ({ position := reflectPoint plane p,
         rotation := { row0 := reflectVector plane.normal rot.row0,
                       row1 := reflectVector plane.normal rot.row1,
                       row2 := reflectVector plane.normal rot.row2 } }, plane) := by
  simp only [reflectionCameraFor, surfaceFrame]
  rw [MirroredPoint_mirror plane _ p hn hu hnu, MirroredVector_mirror _ _ _ _ _ hn hu hnu,
    MirroredVector_mirror _ _ _ _ _ hn hu hnu, MirroredVector_mirror _ _ _ _ _ hn hu hnu,
    mirror_clip_plane plane hn]

/-- The mirror branch of `portalCameraFor` computes the camera and clip plane of
`reflectionCameraFor`. -/
theorem portalCameraFor_mirror (env : Externals) (portal : Portal) (entity : Entity) (p : vec3)
    (rot : mat3) (hm : portal.isMirror = true) :
    portalCameraFor env portal entity p rot =
      { pvsPosition := entity.oldPosition
        portalCamera := (reflectionCameraFor env portal.plane p rot).1
        isMirror := true
        portalPlane := (reflectionCameraFor env portal.plane p rot).2 } := by
  simp only [portalCameraFor, portalTransforms, hm, if_true, reflectionCameraFor]
/-- C30: for a plane `(n, d)` with unit normal whose perpendicular `u` is a unit
vector at a right angle to `n` (so that `n`, `u`, `n x u` is an orthonormal frame):
`calculateReflectionCamera`, when its first visible reflective surface has this
plane, returns the camera at the reflection `p - 2 (n . p - d) n` of the main
camera position with each axis `a` reflected to `a - 2 (n . a) n`, and the clip
plane `(n, d)`; `calculatePortalCamera`, when its first visible portal is a mirror
with this plane, writes the same camera and clip plane; and deriving the camera
from the derived camera gives back the main camera. -/
theorem calculateReflectionCamera_reflects (env : Externals) (w : World) (plane : Plane)
    (mainCameraPosition : vec3) (mainCameraRotation : mat3) (mvp : mat4)
    (hn : vec3.dotProduct plane.normal plane.normal = 1)
    (hu : vec3.dotProduct (env.perpendicular plane.normal) (env.perpendicular plane.normal) = 1)
    (hnu : vec3.dotProduct plane.normal (env.perpendicular plane.normal) = 0) :
    (∀ (vc : VisCache) (reflective : Reflective) (rest : List Reflective),
        cameraReflectiveSurfaces env w vc mainCameraPosition mvp = reflective :: rest →
        reflective.plane = plane →
        calculateReflectionCamera env w vc mainCameraPosition mainCameraRotation mvp =
          some ({ position := reflectPoint plane mainCameraPosition,
                  rotation := { row0 := reflectVector plane.normal mainCameraRotation.row0,
                                row1 := reflectVector plane.normal mainCameraRotation.row1,
                                row2 := reflectVector plane.normal mainCameraRotation.row2 } },
                plane)) ∧
      (∀ (vc : VisCache) (entities : List Entity) (portal : Portal) (rest : List Portal),
        cameraPortalSurfaces env w vc mainCameraPosition mvp entities = portal :: rest →
        portal.isMirror = true → portal.plane = plane →
        calculatePortalCamera env w vc mainCameraPosition mainCameraRotation mvp entities =
          some { pvsPosition := (entities.getD portal.entity default).oldPosition
                 portalCamera :=
                   { position := reflectPoint plane mainCameraPosition,
                     rotation := { row0 := reflectVector plane.normal mainCameraRotation.row0,
                                   row1 := reflectVector plane.normal mainCameraRotation.row1,
                                   row2 := reflectVector plane.normal mainCameraRotation.row2 } }
                 isMirror := true
                 portalPlane := plane }) ∧
      reflectionCameraFor env plane
          (reflectionCameraFor env plane mainCameraPosition mainCameraRotation).1.position
          (reflectionCameraFor env plane mainCameraPosition mainCameraRotation).1.rotation =
        ({ position := mainCameraPosition, rotation := mainCameraRotation }, plane) := by
  refine ⟨?_, ?_, ?_⟩
  · intro vc reflective rest hvisible hplane
    rw [calculateReflectionCamera, hvisible]
    simp only [hplane]
    rw [reflectionCameraFor_eq env plane _ _ hn hu hnu]
  · intro vc entities portal rest hvisible hmirror hplane
    rw [calculatePortalCamera, hvisible]
    simp only []
    rw [portalCameraFor_mirror env portal _ _ _ hmirror, hplane,
      reflectionCameraFor_eq env plane _ _ hn hu hnu]
  · rw [reflectionCameraFor_eq env plane _ _ hn hu hnu,
      reflectionCameraFor_eq env plane _ _ hn hu hnu]
    simp only [reflectPoint_involutive plane _ hn, reflectVector_involutive _ _ hn]

/-- The world `mirrorWorld` seen from (5, 1, 2) with the coordinate axes as camera
axes: the plane is x = 2 (normal (-1, 0, 0), distance -2), the reflection camera
and the mirror portal camera both sit at (-1, 1, 2) with the first axis turned
round, and the clip plane is the plane of the surface. -/
theorem calculateReflectionCamera_reflects_witness :
    calculateReflectionCamera exampleExternals mirrorWorld mirrorVisCache
        { x := 5, y := 1, z := 2 } axisRotation default =
      some ({ position := { x := -1, y := 1, z := 2 },
              rotation := { row0 := { x := -1, y := 0, z := 0 }, row1 := { x := 0, y := 1, z := 0 },
                            row2 := { x := 0, y := 0, z := 1 } } },
            { normal := { x := -1, y := 0, z := 0 }, distance := -2 }) ∧
      calculatePortalCamera exampleExternals mirrorWorld mirrorVisCache
        { x := 5, y := 1, z := 2 } axisRotation default mirrorEntities =
      some { pvsPosition := { x := 2, y := 2, z := 3 }
             portalCamera :=
               { position := { x := -1, y := 1, z := 2 },
                 rotation := { row0 := { x := -1, y := 0, z := 0 },
                               row1 := { x := 0, y := 1, z := 0 },
                               row2 := { x := 0, y := 0, z := 1 } } }
             isMirror := true
             portalPlane := { normal := { x := -1, y := 0, z := 0 }, distance := -2 } } ∧
      reflectionCameraFor exampleExternals { normal := { x := -1, y := 0, z := 0 }, distance := -2 }
          { x := -1, y := 1, z := 2 }
          { row0 := { x := -1, y := 0, z := 0 }, row1 := { x := 0, y := 1, z := 0 },
            row2 := { x := 0, y := 0, z := 1 } } =
        ({ position := { x := 5, y := 1, z := 2 }, rotation := axisRotation },
          { normal := { x := -1, y := 0, z := 0 }, distance := -2 }) := by
  have h := calculateReflectionCamera_reflects exampleExternals mirrorWorld
    { normal := { x := -1, y := 0, z := 0 }, distance := -2 } { x := 5, y := 1, z := 2 }
    axisRotation default (by with_unfolding_all decide) (by with_unfolding_all decide)
    (by with_unfolding_all decide)
  refine ⟨?_, ?_, ?_⟩
  · rw [h.1 mirrorVisCache
      { surface := 0, plane := { normal := { x := -1, y := 0, z := 0 }, distance := -2 } } []
      (by with_unfolding_all decide) rfl]
    with_unfolding_all decide
  · rw [h.2.1 mirrorVisCache mirrorEntities
      { entity := 0, isMirror := true,
        plane := { normal := { x := -1, y := 0, z := 0 }, distance := -2 }, surface := 0 } []
      (by with_unfolding_all decide) rfl rfl]
    with_unfolding_all decide
  · with_unfolding_all decide

/-! ## Theorems: `R_ChopPolyBehindPlane`: the side of the output points -/

/-- The split point on an edge whose ends have different signed distances lies on
the plane: its signed distance is exactly 0. -/
theorem chopSplit_on_plane (p1 p2 normal : vec3) (dist : ℚ)
    (h : vec3.dotProduct p1 normal - dist - (vec3.dotProduct p2 normal - dist) ≠ 0) :
    vec3.dotProduct
        (chopSplit p1 p2 ((vec3.dotProduct p1 normal - dist) /
          (vec3.dotProduct p1 normal - dist - (vec3.dotProduct p2 normal - dist)))) normal - dist =
      0 := by
  have key : ∀ t : ℚ, vec3.dotProduct (chopSplit p1 p2 t) normal - dist =
      (vec3.dotProduct p1 normal - dist) -
        t * (vec3.dotProduct p1 normal - dist - (vec3.dotProduct p2 normal - dist)) := by
    intro t
    simp only [vec3.dotProduct, chopSplit]
    ring
  rw [key, div_mul_cancel₀ _ h, sub_self]

/-- An edge whose ends are on opposite sides of the plane has ends with different
signed distances when `epsilon` is not negative. -/
theorem chopCrossing_divisor (inPoints : List vec3) (normal : vec3) (dist epsilon : ℚ)
    (he : 0 ≤ epsilon) (i : Nat) (h : chopCrossing inPoints normal dist epsilon i) :
    vec3.dotProduct (inPoints.getD i default) normal - dist -
      (vec3.dotProduct (inPoints.getD ((i + 1) % inPoints.length) default) normal - dist) ≠ 0 := by
  unfold chopCrossing at h
  rcases h with ⟨h1, h2⟩ | ⟨h1, h2⟩
  · intro h0
    linarith
  · intro h0
    linarith

/-- Every point that the description of the clipping gives for point `i` is the
input point, which is then not behind the plane, or the split point of a crossing
edge. -/
theorem chopEdgeSpec_mem (inPoints : List vec3) (normal : vec3) (dist epsilon : ℚ) (i : Nat)
    (p : vec3) (hp : p ∈ chopEdgeSpec inPoints normal dist epsilon i) :
    (p = inPoints.getD i default ∧
        ¬ vec3.dotProduct (inPoints.getD i default) normal - dist < -epsilon) ∨
      (chopCrossing inPoints normal dist epsilon i ∧
        p = chopSplit (inPoints.getD i default) (inPoints.getD ((i + 1) % inPoints.length) default)
          ((vec3.dotProduct (inPoints.getD i default) normal - dist) /
            (vec3.dotProduct (inPoints.getD i default) normal - dist -
              (vec3.dotProduct (inPoints.getD ((i + 1) % inPoints.length) default) normal -
                dist)))) := by
  simp only [chopEdgeSpec, List.mem_append] at hp
  rcases hp with hp | hp
  · by_cases hb : vec3.dotProduct (inPoints.getD i default) normal - dist < -epsilon
    · rw [if_pos hb] at hp
      cases hp
    · rw [if_neg hb, List.mem_singleton] at hp
      exact Or.inl ⟨hp, hb⟩
  · by_cases hc : chopCrossing inPoints normal dist epsilon i
    · rw [if_pos hc, List.mem_singleton] at hp
      exact Or.inr ⟨hc, hp⟩
    · rw [if_neg hc] at hp
      cases hp

/-- Every output point of `R_ChopPolyBehindPlane` is an input point that is not
behind the plane, or lies on the plane exactly. -/
theorem R_ChopPolyBehindPlane_mem (inPoints : List vec3) (normal : vec3) (dist epsilon : ℚ)
    (he : 0 ≤ epsilon) (p : vec3) (hp : p ∈ R_ChopPolyBehindPlane inPoints normal dist epsilon) :
    (p ∈ inPoints ∧ ¬ vec3.dotProduct p normal - dist < -epsilon) ∨
      vec3.dotProduct p normal - dist = 0 := by
  unfold R_ChopPolyBehindPlane at hp
  by_cases h1 : inPoints.length ≥ MAX_VERTS_ON_POLY - 2
  · rw [if_pos h1] at hp
    cases hp
  · rw [if_neg h1] at hp
    by_cases h2 : chopCount inPoints normal dist epsilon SIDE_FRONT = 0
    · rw [if_pos h2] at hp
      cases hp
    · rw [if_neg h2] at hp
      by_cases h3 : chopCount inPoints normal dist epsilon SIDE_BACK = 0
      · rw [if_pos h3] at hp
        exact Or.inl ⟨hp, (chopCount_back_eq_zero inPoints normal dist epsilon he).1 h3 p hp⟩
      · rw [if_neg h3, List.mem_flatMap] at hp
        obtain ⟨i, hi, hpi⟩ := hp
        rw [List.mem_range] at hi
        rw [chopStep_eq_chopEdgeSpec inPoints normal dist epsilon he i hi] at hpi
        rcases chopEdgeSpec_mem inPoints normal dist epsilon i p hpi with ⟨e, hb⟩ | ⟨hc, e⟩
        · rw [e]
          exact Or.inl ⟨getD_mem_lt default inPoints i hi, hb⟩
        · rw [e]
          exact Or.inr (chopSplit_on_plane _ _ normal dist
            (chopCrossing_divisor inPoints normal dist epsilon he i hc))

/-- A point of the polygon that is not behind the plane is among the points that
the description of the clipping gives. -/
theorem mem_flatMap_chopEdgeSpec (inPoints : List vec3) (normal : vec3) (dist epsilon : ℚ)
    (p : vec3) (hp : p ∈ inPoints) (hb : ¬ vec3.dotProduct p normal - dist < -epsilon) :
    p ∈ (List.range inPoints.length).flatMap (chopEdgeSpec inPoints normal dist epsilon) := by
  obtain ⟨i, hi, e⟩ := List.getElem_of_mem hp
  have e1 : inPoints.getD i default = p := by
    rw [List.getD_eq_getElem _ _ hi, e]
  rw [List.mem_flatMap]
  refine ⟨i, List.mem_range.2 hi, ?_⟩
  simp only [chopEdgeSpec, List.mem_append]
  left
  rw [e1, if_neg hb]
  exact List.mem_singleton.2 rfl

/-- A polygon without a point behind the plane and with a point in front of it,
of fewer than 62 points, is returned as it is. -/
theorem R_ChopPolyBehindPlane_unchanged (inPoints : List vec3) (normal : vec3) (dist epsilon : ℚ)
    (he : 0 ≤ epsilon) (hlen : inPoints.length < 62)
    (hfront : ∃ p ∈ inPoints, vec3.dotProduct p normal - dist > epsilon)
    (hback : ∀ p ∈ inPoints, ¬ vec3.dotProduct p normal - dist < -epsilon) :
    R_ChopPolyBehindPlane inPoints normal dist epsilon = inPoints := by
  have h1 : ¬ inPoints.length ≥ MAX_VERTS_ON_POLY - 2 := by
    simp only [MAX_VERTS_ON_POLY]
    omega
  have h2 : ¬ chopCount inPoints normal dist epsilon SIDE_FRONT = 0 := by
    intro h
    obtain ⟨p, hp, hf⟩ := hfront
    exact (chopCount_front_eq_zero inPoints normal dist epsilon).1 h p hp hf
  have h3 : chopCount inPoints normal dist epsilon SIDE_BACK = 0 :=
    (chopCount_back_eq_zero inPoints normal dist epsilon he).2 hback
  rw [R_ChopPolyBehindPlane, if_neg h1, if_neg h2, if_pos h3]

/-- The empty polygon is chopped to the empty polygon. -/
theorem R_ChopPolyBehindPlane_nil (normal : vec3) (dist epsilon : ℚ) :
    R_ChopPolyBehindPlane [] normal dist epsilon = [] := by
  rfl

/-- C38: for `epsilon` not negative, in exact arithmetic, every point written by
`R_ChopPolyBehindPlane` has a signed distance of at least `-epsilon` from the
plane: it is an input point that is not on the back side, or it lies on the plane
with signed distance exactly 0. Wherever the code generates a split point (the
side of point `i` is not `SIDE_ON` and the side of the next point is neither
`SIDE_ON` nor the side of point `i`), the divisor `dists[i] - dists[i+1]` is not
zero and the split point has signed distance exactly 0. -/
theorem R_ChopPolyBehindPlane_output_not_behind (inPoints : List vec3) (normal : vec3)
    (dist epsilon : ℚ) (he : 0 ≤ epsilon) :
    (∀ p ∈ R_ChopPolyBehindPlane inPoints normal dist epsilon,
        vec3.dotProduct p normal - dist ≥ -epsilon ∧
        (p ∈ inPoints ∨ vec3.dotProduct p normal - dist = 0)) ∧
    (∀ i, i < inPoints.length →
        chopSideAt inPoints normal dist epsilon i ≠ SIDE_ON →
        chopSideAt inPoints normal dist epsilon (i + 1) ≠ SIDE_ON →
        chopSideAt inPoints normal dist epsilon (i + 1) ≠ chopSideAt inPoints normal dist epsilon i →
        chopDistAt inPoints normal dist i - chopDistAt inPoints normal dist (i + 1) ≠ 0 ∧
        chopStep inPoints normal dist epsilon i =
          (if chopSideAt inPoints normal dist epsilon i = SIDE_FRONT
              then [inPoints.getD i default] else []) ++
            [chopSplit (inPoints.getD i default)
              (inPoints.getD ((i + 1) % inPoints.length) default)
              (chopDistAt inPoints normal dist i /
                (chopDistAt inPoints normal dist i - chopDistAt inPoints normal dist (i + 1)))] ∧
        vec3.dotProduct
            (chopSplit (inPoints.getD i default)
              (inPoints.getD ((i + 1) % inPoints.length) default)
              (chopDistAt inPoints normal dist i /
                (chopDistAt inPoints normal dist i - chopDistAt inPoints normal dist (i + 1))))
            normal - dist = 0) := by
  constructor
  · intro p hp
    rcases R_ChopPolyBehindPlane_mem inPoints normal dist epsilon he p hp with ⟨hm, hb⟩ | h0
    · exact ⟨not_lt.1 hb, Or.inl hm⟩
    · refine ⟨?_, Or.inr h0⟩
      rw [h0]
      linarith
  · intro i hi h1 h2 h3
    have hpos : 0 < inPoints.length := Nat.lt_of_le_of_lt (Nat.zero_le i) hi
    have hd : chopDistAt inPoints normal dist i - chopDistAt inPoints normal dist (i + 1) ≠ 0 := by
      rw [chopSideAt_eq inPoints normal dist epsilon i hpos] at h1 h3
      rw [chopSideAt_eq inPoints normal dist epsilon (i + 1) hpos] at h2 h3
      rcases chopSide_split epsilon _ _ h1 h2 h3 with ⟨a, b⟩ | ⟨a, b⟩
      · intro h0
        linarith
      · intro h0
        linarith
    refine ⟨hd, ?_, ?_⟩
    · rw [chopStep, if_neg h1]
      have h23 : ¬ (chopSideAt inPoints normal dist epsilon (i + 1) = SIDE_ON ∨
          chopSideAt inPoints normal dist epsilon (i + 1) =
            chopSideAt inPoints normal dist epsilon i) := by
        intro h
        rcases h with h | h
        · exact h2 h
        · exact h3 h
      simp only [if_neg h23, if_neg hd]
    · have e := chopDistAt_eq inPoints normal dist i hi
      rw [e.1, e.2] at hd ⊢
      exact chopSplit_on_plane _ _ normal dist hd

set_option maxRecDepth 100000 in
/-- C38 on the triangle that reaches across the plane x = 8 (normal (-1, 0, 0),
distance -8, epsilon 0.5): the four points written are not behind the plane, and
at point 0, whose edge crosses the plane, a split point is generated with a
divisor that is not zero; it lies on the plane. -/
theorem R_ChopPolyBehindPlane_output_not_behind_witness :
    R_ChopPolyBehindPlane (crossingCorners.take 3) { x := -1, y := 0, z := 0 } (-8) (1 / 2) =
      [{ x := 1, y := 1, z := 0 }, { x := 8, y := 1, z := 0 }, { x := 8, y := 31 / 11, z := 0 },
        { x := 1, y := 6, z := 0 }] ∧
    (∀ p ∈ R_ChopPolyBehindPlane (crossingCorners.take 3) { x := -1, y := 0, z := 0 } (-8) (1 / 2),
      vec3.dotProduct p { x := -1, y := 0, z := 0 } - (-8) ≥ -(1 / 2)) ∧
    chopDistAt (crossingCorners.take 3) { x := -1, y := 0, z := 0 } (-8) 0 -
      chopDistAt (crossingCorners.take 3) { x := -1, y := 0, z := 0 } (-8) (0 + 1) ≠ 0 :=
  ⟨by with_unfolding_all decide,
    fun p hp =>
      ((R_ChopPolyBehindPlane_output_not_behind (crossingCorners.take 3)
        { x := -1, y := 0, z := 0 } (-8) (1 / 2) (by norm_num)).1 p hp).1,
    ((R_ChopPolyBehindPlane_output_not_behind (crossingCorners.take 3)
      { x := -1, y := 0, z := 0 } (-8) (1 / 2) (by norm_num)).2 0 (by decide)
      (by with_unfolding_all decide) (by with_unfolding_all decide)
      (by with_unfolding_all decide)).1⟩

/-- C39: `R_ChopPolyBehindPlane` is idempotent in exact arithmetic: for `epsilon`
not negative, when the output of a chop has fewer than 62 points, chopping it
again by the same plane and `epsilon` returns it unchanged. -/
theorem R_ChopPolyBehindPlane_idempotent (inPoints : List vec3) (normal : vec3)
    (dist epsilon : ℚ) (he : 0 ≤ epsilon)
    (hout : (R_ChopPolyBehindPlane inPoints normal dist epsilon).length < 62) :
    R_ChopPolyBehindPlane (R_ChopPolyBehindPlane inPoints normal dist epsilon) normal dist epsilon =
      R_ChopPolyBehindPlane inPoints normal dist epsilon := by
  have hback : ∀ p ∈ R_ChopPolyBehindPlane inPoints normal dist epsilon,
      ¬ vec3.dotProduct p normal - dist < -epsilon := by
    intro p hp
    rcases R_ChopPolyBehindPlane_mem inPoints normal dist epsilon he p hp with ⟨_, hb⟩ | h0
    · exact hb
    · rw [h0]
      intro h
      linarith
  by_cases h1 : inPoints.length ≥ MAX_VERTS_ON_POLY - 2
  · have e : R_ChopPolyBehindPlane inPoints normal dist epsilon = [] := by
      rw [R_ChopPolyBehindPlane, if_pos h1]
    rw [e]
    rfl
  · by_cases h2 : chopCount inPoints normal dist epsilon SIDE_FRONT = 0
    · have e : R_ChopPolyBehindPlane inPoints normal dist epsilon = [] := by
        rw [R_ChopPolyBehindPlane, if_neg h1, if_pos h2]
      rw [e]
      rfl
    · have hfront : ∃ p ∈ inPoints, vec3.dotProduct p normal - dist > epsilon := by
        by_contra hne
        apply h2
        rw [chopCount_front_eq_zero]
        intro p hp hf
        exact hne ⟨p, hp, hf⟩
      apply R_ChopPolyBehindPlane_unchanged _ normal dist epsilon he hout _ hback
      obtain ⟨p, hp, hf⟩ := hfront
      refine ⟨p, ?_, hf⟩
      have hnb : ¬ vec3.dotProduct p normal - dist < -epsilon := by
        intro h
        linarith
      by_cases h3 : chopCount inPoints normal dist epsilon SIDE_BACK = 0
      · rw [R_ChopPolyBehindPlane, if_neg h1, if_neg h2, if_pos h3]
        exact hp
      · have hlen : inPoints.length < 62 := by
          simp only [MAX_VERTS_ON_POLY] at h1
          omega
        rw [R_ChopPolyBehindPlane_eq_spec inPoints normal dist epsilon hlen he ⟨p, hp, hf⟩]
        exact mem_flatMap_chopEdgeSpec inPoints normal dist epsilon p hp hnb

set_option maxRecDepth 100000 in
/-- C39 on the triangle that reaches across the plane x = 8: the first chop
writes four points, and chopping these four points again returns them. -/
theorem R_ChopPolyBehindPlane_idempotent_witness :
    R_ChopPolyBehindPlane (crossingCorners.take 3) { x := -1, y := 0, z := 0 } (-8) (1 / 2) =
      [{ x := 1, y := 1, z := 0 }, { x := 8, y := 1, z := 0 }, { x := 8, y := 31 / 11, z := 0 },
        { x := 1, y := 6, z := 0 }] ∧
    R_ChopPolyBehindPlane
        (R_ChopPolyBehindPlane (crossingCorners.take 3) { x := -1, y := 0, z := 0 } (-8) (1 / 2))
        { x := -1, y := 0, z := 0 } (-8) (1 / 2) =
      R_ChopPolyBehindPlane (crossingCorners.take 3) { x := -1, y := 0, z := 0 } (-8) (1 / 2) :=
  ⟨by with_unfolding_all decide,
    R_ChopPolyBehindPlane_idempotent (crossingCorners.take 3) { x := -1, y := 0, z := 0 } (-8)
      (1 / 2) (by norm_num) (by with_unfolding_all decide)⟩

/-! ## Theorems: `World::boxSurfaces_recursive` -/

/-- The candidate test does not read the decal stamp. -/
theorem decalCandidate_congr (env : Externals) (bounds : Bounds) (dir : vec3) (a b : Surface)
    (h : { a with decalDuplicateId := 0 } = { b with decalDuplicateId := 0 }) :
    decalCandidate env bounds dir a ↔ decalCandidate env bounds dir b := by
  obtain ⟨t1, m1, f1, g1, c1, i1, b1, d1, e1, v1, n1, u1, p1⟩ := a
  obtain ⟨t2, m2, f2, g2, c2, i2, b2, d2, e2, v2, n2, u2, p2⟩ := b
  simp only [Surface.mk.injEq] at h
  obtain ⟨ht, hm, _, _, _, _, _, _, _, _, _, hu, _⟩ := h
  simp only [decalCandidate, ht, hm, hu]

/-- The body of the loop "add the individual surfaces", with the chain of tests
on the surface gathered into the candidate test. -/
theorem boxSurfacesAdd_eq (env : Externals) (decalId : Int) (bounds : Bounds) (listsize : Nat)
    (dir : vec3) (st : List Surface × List Nat) (si : Nat) :
    boxSurfacesAdd env decalId bounds listsize dir st si =
      if st.2.length ≥ listsize then st
      else if decalCandidate env bounds dir (st.1.getD si default) then
        if (st.1.getD si default).decalDuplicateId ≠ decalId then
          (st.1.set si { st.1.getD si default with decalDuplicateId := decalId }, st.2 ++ [si])
        else (st.1.set si (st.1.getD si default), st.2)
      else (st.1.set si { st.1.getD si default with decalDuplicateId := decalId }, st.2) := by
  unfold boxSurfacesAdd
  by_cases hfull : st.2.length ≥ listsize
  · rw [if_pos hfull, if_pos hfull]
  · rw [if_neg hfull, if_neg hfull]
    simp only []
    have hst : ∀ x, ¬ ({ st.1.getD si default with decalDuplicateId := x } : Surface).decalDuplicateId ≠ x :=
      fun x h => h rfl
    by_cases hflags : Int.land (env.materialAt (st.1.getD si default).material).surfaceFlags
          (Int.lor env.SURF_NOIMPACT env.SURF_NOMARKS) ≠ 0 ∨
        Int.land (env.materialAt (st.1.getD si default).material).contentFlags env.CONTENTS_FOG ≠ 0
    · have hc : ¬ decalCandidate env bounds dir (st.1.getD si default) := by
        intro hc
        rcases hflags with h | h
        · exact h hc.1
        · exact h hc.2.1
      rw [if_pos hflags, if_neg (hst decalId), if_neg hc]
    · rw [if_neg hflags]
      have hf0 := not_or.1 hflags
      have hf1 := not_not.1 hf0.1
      have hf2 := not_not.1 hf0.2
      by_cases hface : (st.1.getD si default).type = SurfaceType.Face
      · rw [if_pos hface]
        by_cases hs : env.testBounds (st.1.getD si default).cullinfo.plane bounds = 1 ∨
            env.testBounds (st.1.getD si default).cullinfo.plane bounds = 2
        · have hc : ¬ decalCandidate env bounds dir (st.1.getD si default) := by
            intro hc
            have := hc.2.2.2 hface
            rcases hs with h | h
            · exact this.1 h
            · exact this.2.1 h
          rw [if_pos hs, if_neg (hst decalId), if_neg hc]
        · rw [if_neg hs]
          by_cases hdot : vec3.dotProduct (st.1.getD si default).cullinfo.plane.normal dir > -1 / 2
          · have hc : ¬ decalCandidate env bounds dir (st.1.getD si default) := by
              intro hc
              have := (hc.2.2.2 hface).2.2
              exact absurd hdot (not_lt.2 this)
            rw [if_pos hdot, if_neg (hst decalId), if_neg hc]
          · have hc : decalCandidate env bounds dir (st.1.getD si default) :=
              ⟨hf1, hf2, Or.inl hface, fun _ => ⟨fun h => hs (Or.inl h), fun h => hs (Or.inr h),
                not_lt.1 hdot⟩⟩
            rw [if_neg hdot, if_pos hc]
      · rw [if_neg hface]
        by_cases hk : (st.1.getD si default).type ≠ SurfaceType.Patch ∧
            (st.1.getD si default).type ≠ SurfaceType.Mesh
        · have hc : ¬ decalCandidate env bounds dir (st.1.getD si default) := by
            intro hc
            rcases hc.2.2.1 with h | h | h
            · exact hface h
            · exact hk.2 h
            · exact hk.1 h
          rw [if_pos hk, if_neg (hst decalId), if_neg hc]
        · have hc : decalCandidate env bounds dir (st.1.getD si default) := by
            refine ⟨hf1, hf2, ?_, fun h => absurd h hface⟩
            by_cases hp : (st.1.getD si default).type = SurfaceType.Patch
            · exact Or.inr (Or.inr hp)
            · by_cases hm : (st.1.getD si default).type = SurfaceType.Mesh
              · exact Or.inr (Or.inl hm)
              · exact absurd ⟨hp, hm⟩ hk
          rw [if_neg hk, if_pos hc]

/-- A write of surface `si` that changes at most its decal stamp, and keeps the
stamp `decalId` when the surface carries it, keeps the frame. -/
theorem boxFrame_set (env : Externals) (decalId : Int) (bounds : Bounds) (dir : vec3)
    (orig : List Surface) (st : List Surface × List Nat) (si : Nat) (x : Surface)
    (h : boxFrame env decalId bounds dir orig st)
    (hx : { x with decalDuplicateId := 0 } = { st.1.getD si default with decalDuplicateId := 0 })
    (hid : (st.1.getD si default).decalDuplicateId = decalId → x.decalDuplicateId = decalId) :
    boxFrame env decalId bounds dir orig (st.1.set si x, st.2) := by
  obtain ⟨h1, h2, h3, h4⟩ := h
  by_cases hsi : si < st.1.length
  · refine ⟨by rw [List.length_set]; exact h1, ?_, h3, ?_⟩
    · intro k
      show ({ (st.1.set si x).getD k default with decalDuplicateId := 0 } : Surface) = _
      rw [getD_set_eq st.1 si x k hsi]
      by_cases hk : k = si
      · rw [if_pos hk, hx, hk]
        exact h2 si
      · rw [if_neg hk]
        exact h2 k
    · intro s hs
      obtain ⟨a, b, c⟩ := h4 s hs
      refine ⟨a, ?_, c⟩
      show ((st.1.set si x).getD s default).decalDuplicateId = decalId
      rw [getD_set_eq st.1 si x s hsi]
      by_cases hk : s = si
      · rw [if_pos hk]
        rw [hk] at b
        exact hid b
      · rw [if_neg hk]
        exact b
  · have e : st.1.set si x = st.1 := List.set_eq_of_length_le (not_lt.1 hsi)
    show boxFrame env decalId bounds dir orig (st.1.set si x, st.2)
    rw [e]
    exact ⟨h1, h2, h3, h4⟩

/-- One pass of the loop "add the individual surfaces" keeps the frame. -/
theorem boxSurfacesAdd_boxFrame (env : Externals) (decalId : Int) (bounds : Bounds)
    (listsize : Nat) (dir : vec3) (orig : List Surface) (st : List Surface × List Nat) (si : Nat)
    (h : boxFrame env decalId bounds dir orig st) :
    boxFrame env decalId bounds dir orig (boxSurfacesAdd env decalId bounds listsize dir st si) := by
  rw [boxSurfacesAdd_eq]
  by_cases hfull : st.2.length ≥ listsize
  · rw [if_pos hfull]
    exact h
  · rw [if_neg hfull]
    by_cases hc : decalCandidate env bounds dir (st.1.getD si default)
    · rw [if_pos hc]
      by_cases hd : (st.1.getD si default).decalDuplicateId ≠ decalId
      · rw [if_pos hd]
        have hset := boxFrame_set env decalId bounds dir orig st si
          { st.1.getD si default with decalDuplicateId := decalId } h rfl (fun _ => rfl)
        obtain ⟨h1, h2, h3, h4⟩ := hset
        have hsi : si < st.1.length := by
          by_contra hn
          have e : st.1.getD si default = default := List.getD_eq_default _ _ (not_lt.1 hn)
          rw [e] at hc
          rcases hc.2.2.1 with t | t | t <;> cases t
        have hnot : si ∉ st.2 := fun hm => hd (h.2.2.2 si hm).2.1
        refine ⟨h1, h2, ?_, ?_⟩
        · show (st.2 ++ [si]).Nodup
          rw [List.nodup_append]
          refine ⟨h.2.2.1, List.nodup_singleton si, ?_⟩
          intro a ha hb
          rw [List.mem_singleton] at hb
          rw [hb] at ha
          exact hnot ha
        · intro s hs
          have hs1 : s ∈ st.2 ∨ s = si := by
            have : s ∈ st.2 ++ [si] := hs
            rw [List.mem_append, List.mem_singleton] at this
            exact this
          rcases hs1 with hs1 | hs1
          · exact h4 s hs1
          · rw [hs1]
            refine ⟨h.1 ▸ hsi, ?_, ?_⟩
            · show ((st.1.set si _).getD si default).decalDuplicateId = decalId
              rw [getD_set_eq st.1 si _ si hsi, if_pos rfl]
            · exact (decalCandidate_congr env bounds dir _ _ (h.2.1 si)).1 hc
      · rw [if_neg hd]
        exact boxFrame_set env decalId bounds dir orig st si _ h rfl (fun e => e)
    · rw [if_neg hc]
      exact boxFrame_set env decalId bounds dir orig st si _ h rfl (fun _ => rfl)

/-- One pass of the loop "add the individual surfaces" keeps the list within
`listsize` entries, or as long as it was. -/
theorem boxSurfacesAdd_length (env : Externals) (decalId : Int) (bounds : Bounds)
    (listsize : Nat) (dir : vec3) (m : Nat) (st : List Surface × List Nat) (si : Nat)
    (h : st.2.length ≤ max listsize m) :
    (boxSurfacesAdd env decalId bounds listsize dir st si).2.length ≤ max listsize m := by
  rw [boxSurfacesAdd_eq]
  by_cases hfull : st.2.length ≥ listsize
  · rw [if_pos hfull]
    exact h
  · rw [if_neg hfull]
    split_ifs
    · show (st.2 ++ [si]).length ≤ max listsize m
      rw [List.length_append, List.length_singleton]
      have := Nat.le_max_left listsize m
      omega
    · exact h
    · exact h

/-- A property of the state that every pass of the loop "add the individual
surfaces" keeps holds for the state that `boxSurfaces_recursive` returns. -/
theorem boxSurfaces_recursive_preserves (env : Externals) (w : World) (bounds : Bounds)
    (listsize : Nat) (dir : vec3) (P : List Surface × List Nat → Prop)
    (hstep : ∀ st si, P st →
      P (boxSurfacesAdd env w.decalDuplicateSurfaceId_ bounds listsize dir st si)) :
    ∀ (fuel node : Nat) (st found : List Surface × List Nat), P st →
      boxSurfaces_recursive env w bounds listsize dir fuel node st = some found → P found := by
  intro fuel
  induction fuel with
  | zero =>
    intro node st found _ h
    simp only [boxSurfaces_recursive] at h
    cases h
  | succ fuel ih =>
    intro node st found hP h
    rw [boxSurfaces_recursive] at h
    cases hnd : w.nodes_.get? node with
    | none =>
      rw [hnd] at h
      cases h
    | some nd =>
      rw [hnd] at h
      simp only [] at h
      by_cases hleaf : nd.leaf = true
      · rw [if_pos hleaf] at h
        injection h with h
        rw [← h]
        exact foldl_preserves P _ (fun a b ha => hstep a _ ha) _ st hP
      · rw [if_neg hleaf] at h
        by_cases h1 : env.testBounds nd.plane bounds = 1
        · rw [if_pos h1] at h
          exact ih _ _ _ hP h
        · rw [if_neg h1] at h
          by_cases h2 : env.testBounds nd.plane bounds = 2
          · rw [if_pos h2] at h
            exact ih _ _ _ hP h
          · rw [if_neg h2] at h
            cases hfront : boxSurfaces_recursive env w bounds listsize dir fuel nd.children0 st with
            | none =>
              rw [hfront] at h
              cases h
            | some st1 =>
              rw [hfront] at h
              exact ih _ _ _ (ih _ _ _ hP hfront) h

/-- C35: the list that `boxSurfaces_recursive` produces for one decal pass (it
starts empty, over the surface table of the world) has at most `listsize`
entries and holds no surface twice; every listed surface is a surface of the
table whose material has neither the no-impact nor the no-marks flag nor fog
contents and whose kind is Face, Mesh or Patch, and a listed Face has a cull
plane that crosses the box and a normal whose dot product with the direction is
at most -0.5. -/
theorem boxSurfaces_recursive_list (env : Externals) (w : World) (bounds : Bounds)
    (listsize : Nat) (dir : vec3) (fuel node : Nat) (found : List Surface × List Nat)
    (h : boxSurfaces_recursive env w bounds listsize dir fuel node (w.surfaces_, []) = some found) :
    found.2.length ≤ listsize ∧ found.2.Nodup ∧
    ∀ si ∈ found.2, si < w.surfaces_.length ∧
      Int.land (env.materialAt (w.surfaceAt si).material).surfaceFlags
        (Int.lor env.SURF_NOIMPACT env.SURF_NOMARKS) = 0 ∧
      Int.land (env.materialAt (w.surfaceAt si).material).contentFlags env.CONTENTS_FOG = 0 ∧
      ((w.surfaceAt si).type = SurfaceType.Face ∨ (w.surfaceAt si).type = SurfaceType.Mesh ∨
        (w.surfaceAt si).type = SurfaceType.Patch) ∧
      ((w.surfaceAt si).type = SurfaceType.Face →
        env.testBounds (w.surfaceAt si).cullinfo.plane bounds ≠ 1 ∧
        env.testBounds (w.surfaceAt si).cullinfo.plane bounds ≠ 2 ∧
        vec3.dotProduct (w.surfaceAt si).cullinfo.plane.normal dir ≤ -1 / 2) := by
  have hlen := boxSurfaces_recursive_preserves env w bounds listsize dir
    (fun st => st.2.length ≤ max listsize 0)
    (fun st si hst => boxSurfacesAdd_length env _ bounds listsize dir 0 st si hst)
    fuel node (w.surfaces_, []) found (Nat.zero_le _) h
  have hframe := boxSurfaces_recursive_preserves env w bounds listsize dir
    (boxFrame env w.decalDuplicateSurfaceId_ bounds dir w.surfaces_)
    (fun st si hst => boxSurfacesAdd_boxFrame env _ bounds listsize dir w.surfaces_ st si hst)
    fuel node (w.surfaces_, []) found
    ⟨rfl, fun _ => rfl, List.nodup_nil, fun si hsi => absurd hsi (List.not_mem_nil si)⟩ h
  refine ⟨by simpa using hlen, hframe.2.2.1, ?_⟩
  intro si hsi
  obtain ⟨a, _, c⟩ := hframe.2.2.2 si hsi
  exact ⟨a, c.1, c.2.1, c.2.2.1, c.2.2.2⟩

set_option maxRecDepth 100000 in
/-- C35 on the world of two leaves, for the box from (0, 0, -5) to (8, 8, 5) and
the direction straight down: the face that both leaves name is listed once, the
flare and the face that faces sideways are not listed, and the mesh is. -/
theorem boxSurfaces_recursive_list_witness :
    boxSurfaces_recursive exampleExternals boxWorld boxBounds 64 { x := 0, y := 0, z := -1 } 3 0
        (boxWorld.surfaces_, []) =
      some (boxWorld.surfaces_.map (fun s => { s with decalDuplicateId := 0 }), [0, 2]) ∧
    ([0, 2] : List Nat).length ≤ 64 ∧ ([0, 2] : List Nat).Nodup ∧
    (boxWorld.surfaceAt 0).type = SurfaceType.Face ∧
    vec3.dotProduct (boxWorld.surfaceAt 0).cullinfo.plane.normal { x := 0, y := 0, z := -1 } ≤ -1 / 2 :=
  have h : boxSurfaces_recursive exampleExternals boxWorld boxBounds 64 { x := 0, y := 0, z := -1 }
      3 0 (boxWorld.surfaces_, []) =
      some (boxWorld.surfaces_.map (fun s => { s with decalDuplicateId := 0 }), [0, 2]) := by
    with_unfolding_all decide
  have t := boxSurfaces_recursive_list exampleExternals boxWorld boxBounds 64
    { x := 0, y := 0, z := -1 } 3 0 _ h
  ⟨h, t.1, t.2.1, rfl, ((t.2.2 0 (by decide)).2.2.2.2 rfl).2.2⟩

/-! ## Theorems: `World::sampleLightGrid`: the samples read -/

/-- The record of a grid point inside a grid of `b0 * b1 * b2` points lies inside
the `8 * b0 * b1 * b2` bytes of the grid data. -/
theorem grid_offset_inside (x y z b0 b1 b2 : Int) (hx0 : 0 ≤ x) (hy0 : 0 ≤ y) (hz0 : 0 ≤ z)
    (hx : x < b0) (hy : y < b1) (hz : z < b2) :
    0 ≤ 8 * (x + b0 * (y + b1 * z)) ∧ 8 * (x + b0 * (y + b1 * z)) + 8 ≤ 8 * b0 * b1 * b2 := by
  have hb0 : 0 ≤ b0 := by omega
  have hb1 : 0 ≤ b1 := by omega
  have h1 : 0 ≤ b1 * z := mul_nonneg hb1 hz0
  have h2 : 0 ≤ b0 * (y + b1 * z) := mul_nonneg hb0 (by omega)
  have h3 : b1 * (z + 1) ≤ b1 * b2 := mul_le_mul_of_nonneg_left (by omega) hb1
  have h4 : b0 * (y + 1 + b1 * z) ≤ b0 * (b1 * b2) :=
    mul_le_mul_of_nonneg_left (by nlinarith) hb0
  constructor
  · omega
  · nlinarith

/-- The loop over `j` for neighbour `i` ends with `j == 3` exactly when the
neighbour lies inside the grid on every axis; `data` then points at the record of
the neighbour. -/
theorem lightGridNeighbour_some (env : Externals) (w : World) (position : vec3) (i : Nat)
    (st : ℚ × Int) (h : lightGridNeighbour env w position i = some st) :
    (∀ j, j < 3 →
      (lightGridCell env w position j).1 + lightGridNeighbourDelta i j ≤
        w.lightGridBounds_.get j - 1 ∨ lightGridNeighbourDelta i j = 0) ∧
    st.2 = gridDataOffset env w position + lightGridNeighbourDelta i 0 * gridStep w 0 +
      lightGridNeighbourDelta i 1 * gridStep w 1 + lightGridNeighbourDelta i 2 * gridStep w 2 := by
  unfold lightGridNeighbour at h
  have hstep : ∀ (j : Nat) (a b : ℚ × Int), lightGridNeighbourStep env w position i j a = some b →
      ((lightGridCell env w position j).1 + lightGridNeighbourDelta i j ≤
        w.lightGridBounds_.get j - 1 ∨ lightGridNeighbourDelta i j = 0) ∧
      b.2 = a.2 + lightGridNeighbourDelta i j * gridStep w j := by
    intro j a b hab
    unfold lightGridNeighbourStep at hab
    unfold lightGridNeighbourDelta
    by_cases hbit : Nat.land i (1 <<< j) ≠ 0
    · rw [if_pos hbit] at hab
      rw [if_pos hbit]
      by_cases hout : (lightGridCell env w position j).1 + 1 > w.lightGridBounds_.get j - 1
      · rw [if_pos hout] at hab
        cases hab
      · rw [if_neg hout] at hab
        injection hab with hab
        rw [← hab]
        exact ⟨Or.inl (not_lt.1 hout), by simp⟩
    · rw [if_neg hbit] at hab
      rw [if_neg hbit]
      injection hab with hab
      rw [← hab]
      exact ⟨Or.inr rfl, by simp⟩
  cases h0 : lightGridNeighbourStep env w position i 0 (1, gridDataOffset env w position) with
  | none =>
    rw [h0] at h
    cases h
  | some s0 =>
    rw [h0] at h
    simp only [Option.some_bind] at h
    cases h1 : lightGridNeighbourStep env w position i 1 s0 with
    | none =>
      rw [h1] at h
      cases h
    | some s1 =>
      rw [h1] at h
      simp only [Option.some_bind] at h
      obtain ⟨a0, e0⟩ := hstep 0 _ _ h0
      obtain ⟨a1, e1⟩ := hstep 1 _ _ h1
      obtain ⟨a2, e2⟩ := hstep 2 _ _ h
      refine ⟨?_, ?_⟩
      · intro j hj
        interval_cases j
        · exact a0
        · exact a1
        · exact a2
      · rw [e2, e1, e0]

/-- C33: for a light grid with bounds (b0, b1, b2), each at least 1, and
`8 * b0 * b1 * b2` data bytes, when `math::Clamped` returns a value between its
limits: the clamped cell (x, y, z) of `sampleLightGrid` satisfies `0 <= x < b0`,
`0 <= y < b1`, `0 <= z < b2`; `gridData` points at byte `8 * (x + b0 * (y + b1 * z))`;
every neighbour whose sample is read is a grid point inside the bounds, its
record starts at the offset of that point and its 8 bytes lie inside the data;
and a neighbour beyond the last cell on an axis is skipped: nothing is read for
it and it adds nothing. -/
theorem sampleLightGrid_reads_inside (env : Externals) (w : World) (position : vec3)
    (hclamp : ∀ x lo hi : Int, lo ≤ hi → lo ≤ env.Clamped x lo hi ∧ env.Clamped x lo hi ≤ hi)
    (hb : ∀ j, j < 3 → 1 ≤ w.lightGridBounds_.get j)
    (hdata : (w.lightGridData_.length : Int) =
      8 * w.lightGridBounds_.get 0 * w.lightGridBounds_.get 1 * w.lightGridBounds_.get 2) :
    (∀ j, j < 3 → 0 ≤ (lightGridCell env w position j).1 ∧
      (lightGridCell env w position j).1 < w.lightGridBounds_.get j) ∧
    gridDataOffset env w position =
      8 * ((lightGridCell env w position 0).1 + w.lightGridBounds_.get 0 *
        ((lightGridCell env w position 1).1 + w.lightGridBounds_.get 1 *
          (lightGridCell env w position 2).1)) ∧
    (∀ i st, lightGridNeighbour env w position i = some st →
      (∀ j, j < 3 → (lightGridCell env w position j).1 + lightGridNeighbourDelta i j <
        w.lightGridBounds_.get j) ∧
      st.2 = 8 * (((lightGridCell env w position 0).1 + lightGridNeighbourDelta i 0) +
        w.lightGridBounds_.get 0 *
          (((lightGridCell env w position 1).1 + lightGridNeighbourDelta i 1) +
            w.lightGridBounds_.get 1 *
              ((lightGridCell env w position 2).1 + lightGridNeighbourDelta i 2))) ∧
      ∀ k : Nat, k < 8 → 0 ≤ st.2 + (k : Int) ∧ st.2 + (k : Int) < (w.lightGridData_.length : Int)) ∧
    (∀ i j, j < 3 → Nat.land i (1 <<< j) ≠ 0 →
      (lightGridCell env w position j).1 + 1 ≥ w.lightGridBounds_.get j →
      lightGridNeighbour env w position i = none ∧
      ∀ acc, sampleLightGridAdd env w position acc i = acc) := by
  have hcell : ∀ j, j < 3 → 0 ≤ (lightGridCell env w position j).1 ∧
      (lightGridCell env w position j).1 < w.lightGridBounds_.get j := by
    intro j hj
    have h1 := hb j hj
    have := hclamp ⌊(vec3.sub position w.lightGridOrigin_).get j * w.lightGridInverseSize_.get j⌋ 0
      (w.lightGridBounds_.get j - 1) (by omega)
    simp only [lightGridCell]
    constructor
    · exact this.1
    · omega
  have hoff : gridDataOffset env w position =
      8 * ((lightGridCell env w position 0).1 + w.lightGridBounds_.get 0 *
        ((lightGridCell env w position 1).1 + w.lightGridBounds_.get 1 *
          (lightGridCell env w position 2).1)) := by
    simp only [gridDataOffset, gridStep]
    norm_num
    ring
  have hdelta : ∀ i j, 0 ≤ lightGridNeighbourDelta i j := by
    intro i j
    unfold lightGridNeighbourDelta
    split_ifs <;> decide
  refine ⟨hcell, hoff, ?_, ?_⟩
  · intro i st hst
    obtain ⟨hin, hst2⟩ := lightGridNeighbour_some env w position i st hst
    have hlt : ∀ j, j < 3 → (lightGridCell env w position j).1 + lightGridNeighbourDelta i j <
        w.lightGridBounds_.get j := by
      intro j hj
      rcases hin j hj with h | h
      · omega
      · rw [h]
        have := (hcell j hj).2
        omega
    have hrec : st.2 = 8 * (((lightGridCell env w position 0).1 + lightGridNeighbourDelta i 0) +
        w.lightGridBounds_.get 0 *
          (((lightGridCell env w position 1).1 + lightGridNeighbourDelta i 1) +
            w.lightGridBounds_.get 1 *
              ((lightGridCell env w position 2).1 + lightGridNeighbourDelta i 2))) := by
      rw [hst2, hoff]
      simp only [gridStep]
      norm_num
      ring
    refine ⟨hlt, hrec, ?_⟩
    intro k hk
    have hins := grid_offset_inside
      ((lightGridCell env w position 0).1 + lightGridNeighbourDelta i 0)
      ((lightGridCell env w position 1).1 + lightGridNeighbourDelta i 1)
      ((lightGridCell env w position 2).1 + lightGridNeighbourDelta i 2)
      (w.lightGridBounds_.get 0) (w.lightGridBounds_.get 1) (w.lightGridBounds_.get 2)
      (add_nonneg (hcell 0 (by decide)).1 (hdelta i 0))
      (add_nonneg (hcell 1 (by decide)).1 (hdelta i 1))
      (add_nonneg (hcell 2 (by decide)).1 (hdelta i 2))
      (hlt 0 (by decide)) (hlt 1 (by decide)) (hlt 2 (by decide))
    rw [← hrec, ← hdata] at hins
    omega
  · intro i j hj hbit hlast
    have hnone : lightGridNeighbour env w position i = none := by
      cases hn : lightGridNeighbour env w position i with
      | none => rfl
      | some st =>
        exfalso
        obtain ⟨hin, _⟩ := lightGridNeighbour_some env w position i st hn
        have hd : lightGridNeighbourDelta i j = 1 := by
          unfold lightGridNeighbourDelta
          rw [if_pos hbit]
        rcases hin j hj with h | h
        · rw [hd] at h
          omega
        · rw [hd] at h
          cases h
    refine ⟨hnone, ?_⟩
    intro acc
    unfold sampleLightGridAdd
    rw [hnone]

/-- The `Clamped` of the examples returns a value between its limits. -/
theorem exampleExternals_Clamped (x lo hi : Int) (h : lo ≤ hi) :
    lo ≤ exampleExternals.Clamped x lo hi ∧ exampleExternals.Clamped x lo hi ≤ hi := by
  simp only [exampleExternals]
  split_ifs <;> omega

/-- The grid world loaded with `darkGridBytes` has 2 x 2 x 2 grid points. -/
theorem loadLightGrid_gridWorld_bounds (j : Nat) (hj : j < 3) :
    1 ≤ (loadLightGrid exampleExternals gridWorld darkGridBytes
      { fileofs := 0, filelen := 64 }).lightGridBounds_.get j := by
  interval_cases j <;> with_unfolding_all decide

/-- The grid world loaded with `darkGridBytes` has 8 bytes for each grid point. -/
theorem loadLightGrid_gridWorld_length :
    ((loadLightGrid exampleExternals gridWorld darkGridBytes
      { fileofs := 0, filelen := 64 }).lightGridData_.length : Int) =
    8 * (loadLightGrid exampleExternals gridWorld darkGridBytes
        { fileofs := 0, filelen := 64 }).lightGridBounds_.get 0 *
      (loadLightGrid exampleExternals gridWorld darkGridBytes
        { fileofs := 0, filelen := 64 }).lightGridBounds_.get 1 *
      (loadLightGrid exampleExternals gridWorld darkGridBytes
        { fileofs := 0, filelen := 64 }).lightGridBounds_.get 2 := by
  with_unfolding_all decide

set_option maxRecDepth 100000 in
/-- On the loaded grid world at (100, 10, 10) the neighbour one step along y is
inside the grid, with its record at byte 24. -/
theorem lightGridNeighbour_gridWorld_y :
    (lightGridNeighbour exampleExternals
      (loadLightGrid exampleExternals gridWorld darkGridBytes { fileofs := 0, filelen := 64 })
      { x := 100, y := 10, z := 10 } 2).map Prod.snd = some 24 := by
  with_unfolding_all decide

set_option maxRecDepth 100000 in
/-- On the loaded grid world the point (100, 10, 10) lies in the last cell along x. -/
theorem lightGridCell_gridWorld_x :
    (lightGridCell exampleExternals
      (loadLightGrid exampleExternals gridWorld darkGridBytes { fileofs := 0, filelen := 64 })
      { x := 100, y := 10, z := 10 } 0).1 = 1 := by
  with_unfolding_all decide

/-- C33 on the grid world of 2 x 2 x 2 points (64 data bytes) at (100, 10, 10),
which lies in the last cell along x: the cell is inside the grid, the neighbour
one step along x is skipped, and the 8 bytes of the neighbour one step along y,
at byte 24, lie inside the data. -/
theorem sampleLightGrid_reads_inside_witness :
    (lightGridCell exampleExternals
      (loadLightGrid exampleExternals gridWorld darkGridBytes { fileofs := 0, filelen := 64 })
      { x := 100, y := 10, z := 10 } 0).1 <
      (loadLightGrid exampleExternals gridWorld darkGridBytes
        { fileofs := 0, filelen := 64 }).lightGridBounds_.get 0 ∧
    lightGridNeighbour exampleExternals
      (loadLightGrid exampleExternals gridWorld darkGridBytes { fileofs := 0, filelen := 64 })
      { x := 100, y := 10, z := 10 } 1 = none ∧
    ∃ st, lightGridNeighbour exampleExternals
      (loadLightGrid exampleExternals gridWorld darkGridBytes { fileofs := 0, filelen := 64 })
      { x := 100, y := 10, z := 10 } 2 = some st ∧ st.2 = 24 ∧
      ∀ k : Nat, k < 8 → 0 ≤ st.2 + (k : Int) ∧
        st.2 + (k : Int) <
          ((loadLightGrid exampleExternals gridWorld darkGridBytes
            { fileofs := 0, filelen := 64 }).lightGridData_.length : Int) :=
  have t := sampleLightGrid_reads_inside exampleExternals
    (loadLightGrid exampleExternals gridWorld darkGridBytes { fileofs := 0, filelen := 64 })
    { x := 100, y := 10, z := 10 } exampleExternals_Clamped loadLightGrid_gridWorld_bounds
    loadLightGrid_gridWorld_length
  match Option.map_eq_some'.1 lightGridNeighbour_gridWorld_y with
  | ⟨st, hst, h24⟩ =>
    ⟨(t.1 0 (by decide)).2,
      (t.2.2.2 1 0 (by decide) (by decide)
        (by rw [lightGridCell_gridWorld_x]; with_unfolding_all decide)).1,
      st, hst, h24, (t.2.2.1 2 st hst).2.2⟩

/-! ## Theorems: the reads of the leaf scan and of the box-surfaces query -/

/-- The PVS test reads the byte of `visData_` at the row of the camera cluster
plus `leaf.cluster >> 3`, and the door test the byte of the area mask at
`leaf.area >> 3`. -/
theorem pvsCulled_reads (w : World) (row : Int) (areaMask : List Nat) (leaf : Node) :
    pvsCulled w (some row) leaf =
      decide (readByte w.visData_ (row + (leaf.cluster >>> 3)) &&&
        (1 <<< (Int.land leaf.cluster 7).toNat) = 0) ∧
    areaCulled (some row) areaMask leaf =
      decide (readByte areaMask (leaf.area >>> 3) &&& (1 <<< (Int.land leaf.area 7).toNat) ≠ 0) :=
  ⟨rfl, rfl⟩

/-- C36, the failing input: the camera is in the leaf of cluster 0, so the PVS row
starts at byte 0 of `visData_` and has `clusterBytes_` = 1 byte; the scan reaches
the leaf with cluster -1 and area -1, for which the byte index `leaf.cluster >> 3`
is -1, outside `[0, clusterBytes_)`: the PVS test reads the byte at position -1,
before the row and before the vis data, and `leaf.area >> 3` is -1 as well,
outside the area mask. -/
theorem updateVisCache_pvs_index_negative_cluster :
    leafFromPosition solidLeafWorld default = some 0 ∧
    (solidLeafWorld.nodes_.getD 0 default).cluster = 0 ∧
    solidLeafWorld.nodes_.getD 1 default ∈ solidLeafWorld.nodes_.drop solidLeafWorld.firstLeaf_ ∧
    (solidLeafWorld.nodes_.getD 1 default).cluster = -1 ∧
    (solidLeafWorld.nodes_.getD 1 default).cluster >>> 3 = -1 ∧
    ¬ (0 ≤ (solidLeafWorld.nodes_.getD 1 default).cluster >>> 3 ∧
      (solidLeafWorld.nodes_.getD 1 default).cluster >>> 3 < solidLeafWorld.clusterBytes_) ∧
    pvsCulled solidLeafWorld
        (some ((solidLeafWorld.nodes_.getD 0 default).cluster * solidLeafWorld.clusterBytes_))
        (solidLeafWorld.nodes_.getD 1 default) =
      decide (readByte solidLeafWorld.visData_ (-1) &&& (1 <<< 7) = 0) ∧
    (solidLeafWorld.nodes_.getD 1 default).area >>> 3 = -1 := by
  refine ⟨rfl, rfl, ?_, rfl, rfl, ?_, ?_, rfl⟩
  · decide
  · decide
  · with_unfolding_all decide

/-- C37, the failing input: the leaf at the root of `strayWorld` names the surface
number 5 although the world has three surfaces. `updateVisCache` passes the entry
over and lists the surfaces 0 and 1; `boxSurfaces_recursive` reaches the same leaf
and runs its loop body for the surface number 5, outside the surface table. -/
theorem boxSurfaces_recursive_stray_entry :
    strayWorld.nodes_.get? 0 =
      some { (default : Node) with leaf := true, cluster := -1, firstSurface := 0, nSurfaces := 3 } ∧
    readLeafSurface strayWorld (0 + 2) = 5 ∧
    ¬ (5 < strayWorld.surfaces_.length) ∧
    (updateVisCache exampleExternals strayWorld emptyVisCache default []).map
      (fun r => r.2.surfaces) = some [0, 1] ∧
    boxSurfaces_recursive exampleExternals strayWorld boxBounds 64 { x := 0, y := 0, z := -1 } 1 0
        (strayWorld.surfaces_, []) =
      some (boxSurfacesAdd exampleExternals strayWorld.decalDuplicateSurfaceId_ boxBounds 64
        { x := 0, y := 0, z := -1 }
        (boxSurfacesAdd exampleExternals strayWorld.decalDuplicateSurfaceId_ boxBounds 64
          { x := 0, y := 0, z := -1 }
          (boxSurfacesAdd exampleExternals strayWorld.decalDuplicateSurfaceId_ boxBounds 64
            { x := 0, y := 0, z := -1 } (strayWorld.surfaces_, []) 0) 1) 5) := by
  refine ⟨rfl, rfl, by decide, ?_, rfl⟩
  with_unfolding_all decide

/-- For a leaf whose cluster lies in `[0, 8 * clusterBytes)` the byte index
`leaf.cluster >> 3` of the PVS test lies in `[0, clusterBytes)`. -/
theorem pvs_index_in_row (cluster clusterBytes : Int) (h0 : 0 ≤ cluster)
    (h1 : cluster < 8 * clusterBytes) :
    0 ≤ cluster >>> 3 ∧ cluster >>> 3 < clusterBytes := by
  obtain ⟨c, rfl⟩ := Int.eq_ofNat_of_zero_le h0
  have e : (c : Int) >>> (3 : Int) = ((c >>> 3 : Nat) : Int) := Int.shiftRight_coe_nat c 3
  rw [e, Nat.shiftRight_eq_div_pow]
  norm_num
  omega

/-! ## Theorems: the lightmap atlases of `World::loadFromBspFile` -/

/-- The value `ceilSqrt n` is the least integer that is not negative and whose
square is at least `n`. -/
theorem ceilSqrt_spec (n : Nat) :
    0 ≤ ceilSqrt n ∧ ∀ p : Int, 0 ≤ p → (ceilSqrt n ≤ p ↔ (n : Int) ≤ p * p) := by
  have h1 : Nat.sqrt n * Nat.sqrt n ≤ n := Nat.sqrt_le n
  have h2 : n < (Nat.sqrt n + 1) * (Nat.sqrt n + 1) := Nat.lt_succ_sqrt n
  have h1i : ((Nat.sqrt n : Int)) * (Nat.sqrt n : Int) ≤ (n : Int) := by exact_mod_cast h1
  have h2i : (n : Int) < ((Nat.sqrt n : Int) + 1) * ((Nat.sqrt n : Int) + 1) := by exact_mod_cast h2
  have hs0 : (0 : Int) ≤ (Nat.sqrt n : Int) := Int.ofNat_nonneg _
  unfold ceilSqrt
  by_cases he : Nat.sqrt n * Nat.sqrt n = n
  · rw [if_pos he]
    have hei : ((Nat.sqrt n : Int)) * (Nat.sqrt n : Int) = (n : Int) := by exact_mod_cast he
    refine ⟨hs0, ?_⟩
    intro p hp
    constructor
    · intro h
      nlinarith
    · intro h
      by_contra hlt
      have : p + 1 ≤ (Nat.sqrt n : Int) := by omega
      nlinarith
  · rw [if_neg he]
    have hlt : ((Nat.sqrt n : Int)) * (Nat.sqrt n : Int) < (n : Int) := by
      have : Nat.sqrt n * Nat.sqrt n < n := lt_of_le_of_ne h1 he
      exact_mod_cast this
    refine ⟨by omega, ?_⟩
    intro p hp
    constructor
    · intro h
      nlinarith
    · intro h
      by_contra hc
      have : p ≤ (Nat.sqrt n : Int) := by omega
      nlinarith

/-- The doubling loop, started at a power of two with enough fuel, ends at the
least power of two from there on that is at least `sr`. -/
theorem atlasSizeLoop_spec (sr : Int) :
    ∀ (fuel k : Nat), (sr - 2 ^ k).toNat < fuel →
      ∃ m, k ≤ m ∧ atlasSizeLoop sr fuel (2 ^ k) = some (2 ^ m) ∧ sr ≤ 2 ^ m ∧
        ∀ j, k ≤ j → j < m → (2 : Int) ^ j < sr := by
  intro fuel
  induction fuel with
  | zero =>
    intro k h
    exact absurd h (Nat.not_lt_zero _)
  | succ fuel ih =>
    intro k h
    have hpos : (1 : Int) ≤ 2 ^ k := one_le_pow₀ (by norm_num)
    have hsucc : (2 : Int) ^ (k + 1) = 2 ^ k * 2 := pow_succ 2 k
    by_cases hlt : (2 : Int) ^ k < sr
    · obtain ⟨m, hm, hloop, hge, hmin⟩ := ih (k + 1) (by omega)
      refine ⟨m, by omega, ?_, hge, ?_⟩
      · rw [atlasSizeLoop, if_pos hlt, ← hsucc]
        exact hloop
      · intro j hj hjm
        by_cases hjk : j = k
        · rw [hjk]
          exact hlt
        · exact hmin j (by omega) hjm
    · refine ⟨k, le_refl k, ?_, not_lt.1 hlt, ?_⟩
      · rw [atlasSizeLoop, if_neg hlt]
      · intro j hj hjm
        omega

/-- The number of atlases: the quotient of the lightmaps by the lightmaps per
atlas, rounded up. -/
theorem atlasCount_spec (n lpa : Nat) (hn : 1 ≤ n) (hl : 1 ≤ lpa) :
    1 ≤ (⌈(n : ℚ) / (((lpa : Int)) : ℚ)⌉).toNat ∧
    n ≤ (⌈(n : ℚ) / (((lpa : Int)) : ℚ)⌉).toNat * lpa ∧
    ((⌈(n : ℚ) / (((lpa : Int)) : ℚ)⌉).toNat - 1) * lpa < n := by
  have hlq : (0 : ℚ) < ((lpa : Int) : ℚ) := by
    have : (0 : ℚ) < (lpa : ℚ) := by exact_mod_cast hl
    simpa using this
  have hnq : (0 : ℚ) < (n : ℚ) := by exact_mod_cast hn
  have hpos : 0 < ⌈(n : ℚ) / (((lpa : Int)) : ℚ)⌉ := Int.ceil_pos.2 (div_pos hnq hlq)
  have h1 : (n : ℚ) / ((lpa : Int) : ℚ) ≤ (⌈(n : ℚ) / (((lpa : Int)) : ℚ)⌉ : ℚ) := Int.le_ceil _
  have h2 : (⌈(n : ℚ) / (((lpa : Int)) : ℚ)⌉ : ℚ) < (n : ℚ) / ((lpa : Int) : ℚ) + 1 :=
    Int.ceil_lt_add_one _
  generalize ⌈(n : ℚ) / (((lpa : Int)) : ℚ)⌉ = c at hpos h1 h2
  have hc : ((c.toNat : Nat) : Int) = c := Int.toNat_of_nonneg (le_of_lt hpos)
  have h1' : (n : ℚ) ≤ (c : ℚ) * ((lpa : Int) : ℚ) := (div_le_iff₀ hlq).1 h1
  have h2' : ((c : ℚ) - 1) * ((lpa : Int) : ℚ) < (n : ℚ) := by
    have : (c : ℚ) - 1 < (n : ℚ) / ((lpa : Int) : ℚ) := by linarith
    exact (lt_div_iff₀ hlq).1 this
  have h1i : (n : Int) ≤ c * (lpa : Int) := by exact_mod_cast h1'
  have h2i : (c - 1) * (lpa : Int) < (n : Int) := by exact_mod_cast h2'
  have hge : 1 ≤ c.toNat := by omega
  refine ⟨hge, ?_, ?_⟩
  · have : ((n : Nat) : Int) ≤ ((c.toNat * lpa : Nat) : Int) := by
      rw [Nat.cast_mul, hc]
      exact h1i
    exact_mod_cast this
  · have : (((c.toNat - 1) * lpa : Nat) : Int) < ((n : Nat) : Int) := by
      rw [Nat.cast_mul, Nat.cast_sub hge, hc]
      exact h2i
    exact_mod_cast this

/-- The atlas layout that the loader computes for `n` lightmaps of 128 texels:
with `t` the least power of two whose square is at least `n`, the atlas has
`min 8 t` tiles per dimension, and the number of atlases is the number of
lightmaps divided by the lightmaps per atlas, rounded up. -/
theorem loadLightmapAtlasSize_spec (w : World) (n fuel : Nat) (hn : 1 ≤ n)
    (hsize : w.lightmapSize_ = 128) (hfuel : n ≤ fuel) :
    ∃ m tpd pages : Nat, tpd = min 8 (2 ^ m) ∧ n ≤ 2 ^ m * 2 ^ m ∧
      (∀ j, j < m → 2 ^ j * 2 ^ j < n) ∧
      1 ≤ pages ∧ n ≤ pages * (tpd * tpd) ∧ (pages - 1) * (tpd * tpd) < n ∧
      loadLightmapAtlasSize w fuel n =
        some { w with
          lightmapAtlasSize_ := 128 * (tpd : Int)
          nLightmapsPerAtlas_ := ((tpd * tpd : Nat) : Int)
          lightmapAtlases_ := List.range pages } := by
  obtain ⟨hsr0, hsr⟩ := ceilSqrt_spec n
  have hsrn : ceilSqrt n ≤ (n : Int) := by
    rw [hsr (n : Int) (Int.ofNat_nonneg n)]
    have : (1 : Int) ≤ (n : Int) := by exact_mod_cast hn
    nlinarith
  obtain ⟨m, _, hloop, hge, hmin⟩ := atlasSizeLoop_spec (ceilSqrt n) fuel 0 (by
    have : (1 : Int) ≤ 2 ^ 0 := by norm_num
    omega)
  have hpow : ((2 ^ m : Nat) : Int) = (2 : Int) ^ m := by push_cast; rfl
  have ht1 : 1 ≤ 2 ^ m := Nat.one_le_two_pow
  have htpd1 : 1 ≤ min 8 (2 ^ m) := by
    rw [Nat.le_min]
    exact ⟨by norm_num, ht1⟩
  have hside : min (1024 : Int) ((2 : Int) ^ m * 128) = 128 * ((min 8 (2 ^ m) : Nat) : Int) := by
    rw [← hpow]
    by_cases h8 : 8 ≤ 2 ^ m
    · rw [Nat.min_eq_left h8]
      have : (8 : Int) ≤ ((2 ^ m : Nat) : Int) := by exact_mod_cast h8
      rw [min_eq_left (by omega)]
      norm_num
    · rw [Nat.min_eq_right (by omega)]
      have : ((2 ^ m : Nat) : Int) < 8 := by exact_mod_cast (not_le.1 h8)
      rw [min_eq_right (by omega)]
      ring
  have hdiv : Int.tdiv (128 * ((min 8 (2 ^ m) : Nat) : Int)) 128 = ((min 8 (2 ^ m) : Nat) : Int) := by
    rw [Int.mul_tdiv_cancel_left _ (by norm_num : (128 : Int) ≠ 0)]
  have hsq : (((min 8 (2 ^ m) : Nat) : Int)) ^ 2 =
      ((min 8 (2 ^ m) * min 8 (2 ^ m) : Nat) : Int) := by
    push_cast
    ring
  obtain ⟨hp1, hp2, hp3⟩ := atlasCount_spec n (min 8 (2 ^ m) * min 8 (2 ^ m)) hn
    (Nat.mul_le_mul htpd1 htpd1)
  refine ⟨m, min 8 (2 ^ m), _, rfl, ?_, ?_, hp1, hp2, hp3, ?_⟩
  · have h := (hsr ((2 : Int) ^ m) (by positivity)).1 hge
    rw [← hpow] at h
    exact_mod_cast h
  · intro j hj
    have h := hmin j (Nat.zero_le j) hj
    have h2 : ¬ (n : Int) ≤ (2 : Int) ^ j * (2 : Int) ^ j := by
      intro hc
      have := (hsr ((2 : Int) ^ j) (by positivity)).2 hc
      omega
    have h3 : ((2 ^ j * 2 ^ j : Nat) : Int) < (n : Int) := by
      push_cast
      omega
    exact_mod_cast h3
  · simp only [pow_zero] at hloop
    simp only [loadLightmapAtlasSize, hloop, hsize, hside, hdiv, hsq]

/-- C31: for every lightmap count `n >= 1` (lightmaps of 128 texels, and fuel for
the doubling loop), the block "Lightmaps" of the loader returns, and with `t` the
smallest power of two with `t * t >= n`: the atlas side is `128 * t` capped at
1024, that is `128 * min 8 t`; the lightmaps per atlas are `(side / 128) ^ 2`; and
the number of atlases is `n` divided by the lightmaps per atlas, rounded up, so
that `pages * lightmapsPerAtlas >= n` and `(pages - 1) * lightmapsPerAtlas < n`. -/
theorem loadLightmapAtlasSize_layout (w : World) (n fuel : Nat) (hn : 1 ≤ n)
    (hsize : w.lightmapSize_ = 128) (hfuel : n ≤ fuel) :
    ∃ (w1 : World) (m : Nat), loadLightmapAtlasSize w fuel n = some w1 ∧
      n ≤ 2 ^ m * 2 ^ m ∧ (∀ j, n ≤ 2 ^ j * 2 ^ j → 2 ^ m ≤ 2 ^ j) ∧
      w1.lightmapAtlasSize_ = min 1024 (128 * (2 : Int) ^ m) ∧
      w1.lightmapAtlasSize_ = 128 * min 8 ((2 : Int) ^ m) ∧
      w1.nLightmapsPerAtlas_ = (Int.tdiv w1.lightmapAtlasSize_ 128) ^ 2 ∧
      ((w1.lightmapAtlases_.length : Int) : ℚ) = ⌈(n : ℚ) / (w1.nLightmapsPerAtlas_ : ℚ)⌉ ∧
      (w1.lightmapAtlases_.length : Int) * w1.nLightmapsPerAtlas_ ≥ (n : Int) ∧
      ((w1.lightmapAtlases_.length : Int) - 1) * w1.nLightmapsPerAtlas_ < (n : Int) := by
  obtain ⟨m, tpd, pages, htpd, hsq, hleast, hp1, hp2, hp3, hload⟩ :=
    loadLightmapAtlasSize_spec w n fuel hn hsize hfuel
  refine ⟨_, m, hload, hsq, ?_, ?_, ?_, ?_, ?_, ?_, ?_⟩
  · intro j hj
    by_contra hc
    have hjm : j < m := by
      by_contra hge
      exact hc (Nat.pow_le_pow_right (by norm_num) (not_lt.1 hge))
    have := hleast j hjm
    omega
  · show 128 * (tpd : Int) = min 1024 (128 * (2 : Int) ^ m)
    rw [htpd]
    push_cast
    generalize (2 : Int) ^ m = x
    rcases le_total (8 : Int) x with h | h
    · rw [min_eq_left h, min_eq_left (by omega)]
      norm_num
    · rw [min_eq_right h, min_eq_right (by omega)]
  · show 128 * (tpd : Int) = 128 * min 8 ((2 : Int) ^ m)
    rw [htpd]
    push_cast
    rfl
  · show ((tpd * tpd : Nat) : Int) = (Int.tdiv (128 * (tpd : Int)) 128) ^ 2
    rw [Int.mul_tdiv_cancel_left _ (by norm_num : (128 : Int) ≠ 0)]
    push_cast
    ring
  · show (((List.range pages).length : Int) : ℚ) =
      ⌈(n : ℚ) / (((tpd * tpd : Nat) : Int) : ℚ)⌉
    rw [List.length_range]
    have hl : (0 : ℚ) < (((tpd * tpd : Nat) : Int) : ℚ) := by
      have : 0 < tpd * tpd := by
        rcases Nat.eq_zero_or_pos (tpd * tpd) with h0 | h0
        · rw [h0] at hp2
          omega
        · exact h0
      exact_mod_cast this
    symm
    have e : ((pages : Int) : ℚ) = ((pages : Int) : ℚ) := rfl
    have hc : ⌈(n : ℚ) / (((tpd * tpd : Nat) : Int) : ℚ)⌉ = (pages : Int) := by
      rw [Int.ceil_eq_iff]
      constructor
      · rw [lt_div_iff₀ hl]
        have : (((pages - 1) * (tpd * tpd) : Nat) : ℚ) < (n : ℚ) := by exact_mod_cast hp3
        rw [Nat.cast_mul, Nat.cast_sub hp1] at this
        push_cast at this ⊢
        exact this
      · rw [div_le_iff₀ hl]
        have : (n : ℚ) ≤ ((pages * (tpd * tpd) : Nat) : ℚ) := by exact_mod_cast hp2
        push_cast at this ⊢
        exact this
    rw [hc]
  · show ((List.range pages).length : Int) * ((tpd * tpd : Nat) : Int) ≥ (n : Int)
    rw [List.length_range]
    exact_mod_cast hp2
  · show (((List.range pages).length : Int) - 1) * ((tpd * tpd : Nat) : Int) < (n : Int)
    rw [List.length_range]
    have : (((pages - 1) * (tpd * tpd) : Nat) : Int) < (n : Int) := by exact_mod_cast hp3
    rw [Nat.cast_mul, Nat.cast_sub hp1] at this
    exact_mod_cast this

set_option maxRecDepth 100000 in
/-- C31 for 100 lightmaps: the smallest power of two whose square is at least 100
is 16, the side is capped at 1024, an atlas holds 64 lightmaps and two atlases
are made; for 5 lightmaps the side is 512 and one atlas of 16 lightmaps is made. -/
theorem loadLightmapAtlasSize_layout_witness :
    (loadLightmapAtlasSize emptyWorld 100 100).map
      (fun w => (w.lightmapAtlasSize_, w.nLightmapsPerAtlas_, w.lightmapAtlases_.length)) =
      some (1024, 64, 2) ∧
    (loadLightmapAtlasSize emptyWorld 5 5).map
      (fun w => (w.lightmapAtlasSize_, w.nLightmapsPerAtlas_, w.lightmapAtlases_.length)) =
      some (512, 16, 1) ∧
    ∃ (w1 : World) (m : Nat), loadLightmapAtlasSize emptyWorld 100 100 = some w1 ∧
      100 ≤ 2 ^ m * 2 ^ m ∧
      (w1.lightmapAtlases_.length : Int) * w1.nLightmapsPerAtlas_ ≥ ((100 : Nat) : Int) :=
  ⟨by with_unfolding_all decide, by with_unfolding_all decide,
    match loadLightmapAtlasSize_layout emptyWorld 100 100 (by decide) rfl (le_refl 100) with
    | ⟨w1, m, h, hsq, _, _, _, _, _, hp, _⟩ => ⟨w1, m, h, hsq, hp⟩⟩

/-- The loop that packs atlas `i`, entered with `a` lightmaps in the atlas and at
lightmap `L = i * lpa + a`, writes the tiles of the description up to the end of
the atlas or of the lightmaps. -/
theorem packAtlasLoop_spec (w : World) (n i tpd lpa : Nat)
    (hdim : Int.tdiv w.lightmapAtlasSize_ w.lightmapSize_ = (tpd : Int))
    (hl : w.nLightmapsPerAtlas_ = (lpa : Int)) :
    ∀ (fuel a L : Nat) (tiles : List AtlasTile), a < lpa → L = i * lpa + a → L < n →
      n - L ≤ fuel →
      packAtlasLoop w n i fuel (a : Int) L tiles =
        some (min n ((i + 1) * lpa),
          tiles ++ (List.range' L (min n ((i + 1) * lpa) - L)).map (atlasTileOf lpa tpd)) := by
  intro fuel
  induction fuel with
  | zero =>
    intro a L tiles _ _ hLn hf
    omega
  | succ fuel ih =>
    intro a L tiles ha hL hLn hf
    have hend : (i + 1) * lpa = i * lpa + lpa := by ring
    have hmod : L % lpa = a := by
      rw [hL, Nat.mul_add_mod_of_lt ha]
    have hdivL : L / lpa = i := by
      rw [hL, Nat.add_comm, Nat.add_mul_div_right _ _ (by omega : 0 < lpa),
        Nat.div_eq_of_lt ha, Nat.zero_add]
    have htile : AtlasTile.mk L i
          (Int.tmod (Int.tmod (a : Int) w.nLightmapsPerAtlas_)
            (Int.tdiv w.lightmapAtlasSize_ w.lightmapSize_))
          (Int.tdiv (Int.tmod (a : Int) w.nLightmapsPerAtlas_)
            (Int.tdiv w.lightmapAtlasSize_ w.lightmapSize_)) =
        atlasTileOf lpa tpd L := by
      rw [hl, hdim, ← Int.ofNat_tmod, Nat.mod_eq_of_lt ha, ← Int.ofNat_tmod, ← Int.ofNat_tdiv]
      simp only [atlasTileOf, hmod, hdivL]
    rw [packAtlasLoop, htile, hl]
    by_cases hbreak : (a : Int) + 1 ≥ (lpa : Int) ∨ L + 1 ≥ n
    · rw [if_pos hbreak]
      have hmin : min n ((i + 1) * lpa) = L + 1 := by
        rw [hend]
        rcases hbreak with h | h
        · have : a + 1 ≥ lpa := by exact_mod_cast h
          rw [Nat.min_eq_right (by omega)]
          omega
        · rw [Nat.min_eq_left (by omega)]
          omega
      rw [hmin, Nat.add_sub_cancel_left]
      rfl
    · rw [if_neg hbreak]
      have hb := not_or.1 hbreak
      have ha1 : a + 1 < lpa := by
        have : ¬ (a + 1 ≥ lpa) := by
          intro h
          exact hb.1 (by exact_mod_cast h)
        omega
      have hcast : ((a : Int) + 1) = ((a + 1 : Nat) : Int) := by push_cast; rfl
      rw [hcast, ih (a + 1) (L + 1) _ ha1 (by omega) (by omega) (by omega)]
      have hlen : min n ((i + 1) * lpa) - L = (min n ((i + 1) * lpa) - (L + 1)) + 1 := by
        rw [hend]
        have : L + 1 < min n (i * lpa + lpa) := by
          rw [Nat.lt_min]
          omega
        omega
      rw [hlen, List.range'_succ, List.map_cons, List.append_assoc]
      rfl

/-- The loop over the atlases writes, for every lightmap in turn, the tile of the
description. -/
theorem packLightmaps_spec (w : World) (n tpd lpa pages fuel : Nat)
    (hdim : Int.tdiv w.lightmapAtlasSize_ w.lightmapSize_ = (tpd : Int))
    (hl : w.nLightmapsPerAtlas_ = (lpa : Int)) (hpages : w.lightmapAtlases_.length = pages)
    (hlpa : 1 ≤ lpa) (hp2 : n ≤ pages * lpa) (hp3 : (pages - 1) * lpa < n) (hfuel : n ≤ fuel) :
    packLightmaps w fuel n = some ((List.range n).map (atlasTileOf lpa tpd)) := by
  have key : ∀ p, p ≤ pages →
      (List.range p).foldl
        (fun (st : Option (Nat × List AtlasTile)) (i : Nat) =>
          st.bind (fun s => packAtlasLoop w n i fuel 0 s.1 s.2))
        (some (0, [])) =
      some (min n (p * lpa), (List.range (min n (p * lpa))).map (atlasTileOf lpa tpd)) := by
    intro p
    induction p with
    | zero =>
      intro _
      simp
    | succ p ih =>
      intro hp
      rw [List.range_succ, List.foldl_append, ih (by omega)]
      have hlt : p * lpa < n := by
        have : p * lpa ≤ (pages - 1) * lpa := Nat.mul_le_mul_right lpa (by omega)
        omega
      have hmin : min n (p * lpa) = p * lpa := Nat.min_eq_right (le_of_lt hlt)
      rw [hmin]
      simp only [List.foldl_cons, List.foldl_nil, Option.some_bind]
      have h := packAtlasLoop_spec w n p tpd lpa hdim hl fuel 0 (p * lpa)
        ((List.range (p * lpa)).map (atlasTileOf lpa tpd)) (by omega) (by omega) hlt (by omega)
      simp only [Nat.cast_zero] at h
      rw [h]
      have hle : p * lpa ≤ min n ((p + 1) * lpa) := by
        rw [Nat.le_min]
        constructor
        · omega
        · exact Nat.mul_le_mul_right lpa (by omega)
      rw [← List.map_append, List.range_eq_range', List.range_eq_range']
      have := List.range'_append 0 (p * lpa) (min n ((p + 1) * lpa) - p * lpa) 1
      simp only [Nat.zero_add, Nat.one_mul] at this
      rw [this, Nat.sub_add_cancel hle]
  unfold packLightmaps
  rw [hpages, key pages (le_refl pages), Nat.min_eq_left hp2]
  rfl

/-- The column and the row of a tile tell the lightmaps of one atlas apart. -/
theorem atlasTileOf_injective (lpa tpd L L2 : Nat)
    (hpage : L2 / lpa = L / lpa)
    (hx : L2 % lpa % tpd = L % lpa % tpd) (hy : L2 % lpa / tpd = L % lpa / tpd) : L2 = L := by
  have h1 : L2 % lpa = L % lpa := by
    rw [← Nat.div_add_mod (L2 % lpa) tpd, ← Nat.div_add_mod (L % lpa) tpd, hx, hy]
  rw [← Nat.div_add_mod L2 lpa, ← Nat.div_add_mod L lpa, h1, hpage]

/-- A lightmap number below the lightmaps per atlas, `tpd * tpd`, has a column and
a row below `tpd`. -/
theorem atlasTile_inside (tpd a : Nat) (htpd : 1 ≤ tpd) (ha : a < tpd * tpd) :
    a % tpd < tpd ∧ a / tpd < tpd :=
  ⟨Nat.mod_lt _ (by omega), Nat.div_lt_of_lt_mul ha⟩

/-- The static function `AtlasTexCoord` for a lightmap number that is not
negative: the tile column and row are the remainder and the quotient by the
tiles per dimension, and a coordinate in [0, 1] x [0, 1] lands in the tile. -/
theorem AtlasTexCoord_tile (uv : vec2) (a tpd : Nat) (htpd : 1 ≤ tpd)
    (hu0 : 0 ≤ uv.u) (hu1 : uv.u ≤ 1) (hv0 : 0 ≤ uv.v) (hv1 : uv.v ≤ 1) :
    AtlasTexCoord uv (a : Int) (tpd : Int) =
      { u := ((a % tpd : Nat) : ℚ) / (tpd : ℚ) + uv.u / (tpd : ℚ)
        v := ((a / tpd : Nat) : ℚ) / (tpd : ℚ) + uv.v / (tpd : ℚ) } ∧
    ((a % tpd : Nat) : ℚ) * 128 ≤ (AtlasTexCoord uv (a : Int) (tpd : Int)).u * (128 * (tpd : ℚ)) ∧
    (AtlasTexCoord uv (a : Int) (tpd : Int)).u * (128 * (tpd : ℚ)) ≤
      (((a % tpd : Nat) : ℚ) + 1) * 128 ∧
    ((a / tpd : Nat) : ℚ) * 128 ≤ (AtlasTexCoord uv (a : Int) (tpd : Int)).v * (128 * (tpd : ℚ)) ∧
    (AtlasTexCoord uv (a : Int) (tpd : Int)).v * (128 * (tpd : ℚ)) ≤
      (((a / tpd : Nat) : ℚ) + 1) * 128 := by
  have e : AtlasTexCoord uv (a : Int) (tpd : Int) =
      { u := ((a % tpd : Nat) : ℚ) / (tpd : ℚ) + uv.u / (tpd : ℚ)
        v := ((a / tpd : Nat) : ℚ) / (tpd : ℚ) + uv.v / (tpd : ℚ) } := by
    simp only [AtlasTexCoord, ← Int.ofNat_tmod, ← Int.ofNat_tdiv, Int.cast_natCast]
  have hq : (0 : ℚ) < (tpd : ℚ) := by exact_mod_cast htpd
  have hne : (tpd : ℚ) ≠ 0 := ne_of_gt hq
  have hu : ∀ c x : ℚ, (c / (tpd : ℚ) + x / (tpd : ℚ)) * (128 * (tpd : ℚ)) = (c + x) * 128 := by
    intro c x
    field_simp
    ring
  refine ⟨e, ?_, ?_, ?_, ?_⟩ <;> rw [e] <;> simp only [hu] <;> nlinarith

/-- C32: for `n >= 1` lightmaps of 128 texels, with `tpd` the tiles per dimension
of the atlas the loader chose and `tpd * tpd` lightmaps per atlas: the loader
copies lightmap `L` into atlas `L div (tpd * tpd)` at column
`(L mod (tpd * tpd)) mod tpd` and row `(L mod (tpd * tpd)) div tpd`; that atlas
exists and is the lightmap index which `findMaterial` hands on; column and row
are below `tpd`, so the texels of the tile lie inside the atlas; two lightmaps of
one atlas with the same column and row are the same lightmap; and
`setSurfaceGeometry` moves a lightmap coordinate in [0, 1] x [0, 1] into the
rectangle of that tile. -/
theorem packLightmaps_tiles (w : World) (n fuel : Nat) (hn : 1 ≤ n)
    (hsize : w.lightmapSize_ = 128) (hfuel : n ≤ fuel) :
    ∃ (w1 : World) (tpd : Nat), loadLightmapAtlasSize w fuel n = some w1 ∧ 1 ≤ tpd ∧
      w1.nLightmapsPerAtlas_ = ((tpd * tpd : Nat) : Int) ∧
      Int.tdiv w1.lightmapAtlasSize_ w1.lightmapSize_ = (tpd : Int) ∧
      packLightmaps w1 fuel n = some ((List.range n).map (atlasTileOf (tpd * tpd) tpd)) ∧
      ∀ L, L < n →
        L / (tpd * tpd) < w1.lightmapAtlases_.length ∧
        findMaterialLightmapIndex w1 (L : Int) = ((L / (tpd * tpd) : Nat) : Int) ∧
        L % (tpd * tpd) % tpd < tpd ∧ L % (tpd * tpd) / tpd < tpd ∧
        (∀ x y : Int, 0 ≤ x → x < w1.lightmapSize_ → 0 ≤ y → y < w1.lightmapSize_ →
          0 ≤ (atlasTexel w1 (atlasTileOf (tpd * tpd) tpd L) x y).1 ∧
          (atlasTexel w1 (atlasTileOf (tpd * tpd) tpd L) x y).1 < w1.lightmapAtlasSize_ ∧
          0 ≤ (atlasTexel w1 (atlasTileOf (tpd * tpd) tpd L) x y).2 ∧
          (atlasTexel w1 (atlasTileOf (tpd * tpd) tpd L) x y).2 < w1.lightmapAtlasSize_) ∧
        (∀ v : Vertex, 0 ≤ v.texCoord2.u → v.texCoord2.u ≤ 1 → 0 ≤ v.texCoord2.v →
          v.texCoord2.v ≤ 1 →
          (((atlasTexel w1 (atlasTileOf (tpd * tpd) tpd L) 0 0).1 : Int) : ℚ) ≤
            (atlasVertex w1 (L : Int) v).texCoord2.u * (w1.lightmapAtlasSize_ : ℚ) ∧
          (atlasVertex w1 (L : Int) v).texCoord2.u * (w1.lightmapAtlasSize_ : ℚ) ≤
            (((atlasTexel w1 (atlasTileOf (tpd * tpd) tpd L) w1.lightmapSize_
              w1.lightmapSize_).1 : Int) : ℚ) ∧
          (((atlasTexel w1 (atlasTileOf (tpd * tpd) tpd L) 0 0).2 : Int) : ℚ) ≤
            (atlasVertex w1 (L : Int) v).texCoord2.v * (w1.lightmapAtlasSize_ : ℚ) ∧
          (atlasVertex w1 (L : Int) v).texCoord2.v * (w1.lightmapAtlasSize_ : ℚ) ≤
            (((atlasTexel w1 (atlasTileOf (tpd * tpd) tpd L) w1.lightmapSize_
              w1.lightmapSize_).2 : Int) : ℚ)) ∧
        ∀ L2, L2 < n → L2 / (tpd * tpd) = L / (tpd * tpd) →
          (atlasTileOf (tpd * tpd) tpd L2).lightmapX = (atlasTileOf (tpd * tpd) tpd L).lightmapX →
          (atlasTileOf (tpd * tpd) tpd L2).lightmapY = (atlasTileOf (tpd * tpd) tpd L).lightmapY →
          L2 = L := by
  obtain ⟨m, tpd, pages, htpd, _, _, hp1, hp2, hp3, hload⟩ :=
    loadLightmapAtlasSize_spec w n fuel hn hsize hfuel
  have htpd1 : 1 ≤ tpd := by
    rw [htpd, Nat.le_min]
    exact ⟨by norm_num, Nat.one_le_two_pow⟩
  have hlpa : 1 ≤ tpd * tpd := Nat.mul_le_mul htpd1 htpd1
  have hdim : Int.tdiv (128 * (tpd : Int)) w.lightmapSize_ = (tpd : Int) := by
    rw [hsize, Int.mul_tdiv_cancel_left _ (by norm_num : (128 : Int) ≠ 0)]
  refine ⟨_, tpd, hload, htpd1, rfl, hdim, ?_, ?_⟩
  · exact packLightmaps_spec _ n tpd (tpd * tpd) pages fuel hdim rfl (List.length_range pages)
      hlpa hp2 hp3 hfuel
  · intro L hL
    have hmodlt : L % (tpd * tpd) < tpd * tpd := Nat.mod_lt _ (by omega)
    obtain ⟨hx, hy⟩ := atlasTile_inside tpd (L % (tpd * tpd)) htpd1 hmodlt
    have hxi : ((L % (tpd * tpd) % tpd : Nat) : Int) + 1 ≤ (tpd : Int) := by exact_mod_cast hx
    have hyi : ((L % (tpd * tpd) / tpd : Nat) : Int) + 1 ≤ (tpd : Int) := by exact_mod_cast hy
    have hx0 : (0 : Int) ≤ ((L % (tpd * tpd) % tpd : Nat) : Int) := Int.ofNat_nonneg _
    have hy0 : (0 : Int) ≤ ((L % (tpd * tpd) / tpd : Nat) : Int) := Int.ofNat_nonneg _
    refine ⟨?_, ?_, hx, hy, ?_, ?_, ?_⟩
    · show L / (tpd * tpd) < (List.range pages).length
      rw [List.length_range, Nat.div_lt_iff_lt_mul (by omega)]
      omega
    · show (if (L : Int) > 0 then Int.tdiv (L : Int) ((tpd * tpd : Nat) : Int) else (L : Int)) = _
      by_cases h0 : (L : Int) > 0
      · rw [if_pos h0, ← Int.ofNat_tdiv]
      · rw [if_neg h0]
        have : L = 0 := by omega
        rw [this]
        simp
    · intro x y hx0' hx1 hy0' hy1
      have hx1' : x < 128 := by
        have : x < w.lightmapSize_ := hx1
        rw [hsize] at this
        exact this
      have hy1' : y < 128 := by
        have : y < w.lightmapSize_ := hy1
        rw [hsize] at this
        exact this
      show 0 ≤ ((L % (tpd * tpd) % tpd : Nat) : Int) * w.lightmapSize_ + x ∧
        ((L % (tpd * tpd) % tpd : Nat) : Int) * w.lightmapSize_ + x < 128 * (tpd : Int) ∧
        0 ≤ ((L % (tpd * tpd) / tpd : Nat) : Int) * w.lightmapSize_ + y ∧
        ((L % (tpd * tpd) / tpd : Nat) : Int) * w.lightmapSize_ + y < 128 * (tpd : Int)
      rw [hsize]
      refine ⟨by omega, by omega, by omega, by omega⟩
    · intro v hu0 hu1 hv0 hv1
      have hav : (atlasVertex
          { w with lightmapAtlasSize_ := 128 * (tpd : Int),
                   nLightmapsPerAtlas_ := ((tpd * tpd : Nat) : Int),
                   lightmapAtlases_ := List.range pages } (L : Int) v).texCoord2 =
          AtlasTexCoord v.texCoord2 ((L % (tpd * tpd) : Nat) : Int) (tpd : Int) := by
        have hc : (L : Int) ≥ 0 ∧ ¬ (List.range pages).isEmpty = true := by
          refine ⟨Int.ofNat_nonneg L, ?_⟩
          rw [List.isEmpty_iff]
          intro he
          have := congrArg List.length he
          rw [List.length_range] at this
          simp only [List.length_nil] at this
          omega
        simp only [atlasVertex, if_pos hc, hdim, ← Int.ofNat_tmod]
      obtain ⟨_, b1, b2, b3, b4⟩ := AtlasTexCoord_tile v.texCoord2 (L % (tpd * tpd)) tpd htpd1
        hu0 hu1 hv0 hv1
      rw [hav]
      show ((((L % (tpd * tpd) % tpd : Nat) : Int) * w.lightmapSize_ + 0 : Int) : ℚ) ≤
          (AtlasTexCoord v.texCoord2 ((L % (tpd * tpd) : Nat) : Int) (tpd : Int)).u *
            ((128 * (tpd : Int) : Int) : ℚ) ∧
        (AtlasTexCoord v.texCoord2 ((L % (tpd * tpd) : Nat) : Int) (tpd : Int)).u *
            ((128 * (tpd : Int) : Int) : ℚ) ≤
          ((((L % (tpd * tpd) % tpd : Nat) : Int) * w.lightmapSize_ + w.lightmapSize_ : Int) : ℚ) ∧
        ((((L % (tpd * tpd) / tpd : Nat) : Int) * w.lightmapSize_ + 0 : Int) : ℚ) ≤
          (AtlasTexCoord v.texCoord2 ((L % (tpd * tpd) : Nat) : Int) (tpd : Int)).v *
            ((128 * (tpd : Int) : Int) : ℚ) ∧
        (AtlasTexCoord v.texCoord2 ((L % (tpd * tpd) : Nat) : Int) (tpd : Int)).v *
            ((128 * (tpd : Int) : Int) : ℚ) ≤
          ((((L % (tpd * tpd) / tpd : Nat) : Int) * w.lightmapSize_ + w.lightmapSize_ : Int) : ℚ)
      rw [hsize]
      simp only [Int.cast_add, Int.cast_mul, Int.cast_natCast, Int.cast_ofNat, Int.cast_zero]
      refine ⟨by linarith, by linarith, by linarith, by linarith⟩
    · intro L2 _ hpage hX hY
      apply atlasTileOf_injective (tpd * tpd) tpd L L2 hpage
      · have : ((L2 % (tpd * tpd) % tpd : Nat) : Int) = ((L % (tpd * tpd) % tpd : Nat) : Int) := hX
        exact_mod_cast this
      · have : ((L2 % (tpd * tpd) / tpd : Nat) : Int) = ((L % (tpd * tpd) / tpd : Nat) : Int) := hY
        exact_mod_cast this

set_option maxRecDepth 100000 in
/-- C32 for 100 lightmaps, which fill two atlases of 8 x 8 tiles: lightmap 70 is
copied into atlas 1 at column 6 of row 0, `findMaterial` asks for atlas 1, and
the atlas exists. -/
theorem packLightmaps_tiles_witness :
    ((loadLightmapAtlasSize emptyWorld 100 100).bind (fun w1 => packLightmaps w1 100 100)).map
        (fun tiles => tiles.getD 70 default) =
      some { lightmapIndex := 70, atlas := 1, lightmapX := 6, lightmapY := 0 } ∧
    (loadLightmapAtlasSize emptyWorld 100 100).map (fun w1 => findMaterialLightmapIndex w1 70) =
      some 1 ∧
    ∃ (w1 : World) (tpd : Nat), loadLightmapAtlasSize emptyWorld 100 100 = some w1 ∧
      packLightmaps w1 100 100 = some ((List.range 100).map (atlasTileOf (tpd * tpd) tpd)) ∧
      70 / (tpd * tpd) < w1.lightmapAtlases_.length :=
  ⟨by with_unfolding_all decide, by with_unfolding_all decide,
    match packLightmaps_tiles emptyWorld 100 100 (by decide) rfl (le_refl 100) with
    | ⟨w1, tpd, hload, _, _, _, hpack, hL⟩ => ⟨w1, tpd, hload, hpack, (hL 70 (by decide)).1⟩⟩

/-! ## Theorems: `MaterialCache::generateHash` -/

/-- The key of a name that starts with the character `c`: empty when `c` is a
'.', otherwise the character as the hash reads it, and the key of the rest. -/
theorem hashKey_cons (PATH_SEP : Int) (c : Int) (t : List Int) :
    hashKey PATH_SEP (c :: t) =
      if tolower c = 46 then []
      else (if (if tolower c = 92 then 47 else tolower c) = PATH_SEP then 47
        else (if tolower c = 92 then 47 else tolower c)) :: hashKey PATH_SEP t := by
  by_cases hc : tolower c = 46
  · rw [if_pos hc]
    simp only [hashKey, List.map_cons]
    rw [List.takeWhile_cons_of_neg (by simpa using hc)]
    rfl
  · rw [if_neg hc]
    simp only [hashKey, List.map_cons]
    rw [List.takeWhile_cons_of_pos (by simpa using hc)]
    rfl

/-- The loop of `generateHash` reads of a name only its key. -/
theorem generateHashLoop_key (PATH_SEP : Int) :
    ∀ (a b : List Int) (i : Int) (hash : Nat), hashKey PATH_SEP a = hashKey PATH_SEP b →
      generateHashLoop PATH_SEP a i hash = generateHashLoop PATH_SEP b i hash := by
  have hnil : ∀ (b : List Int) (i : Int) (hash : Nat), hashKey PATH_SEP b = [] →
      generateHashLoop PATH_SEP b i hash = hash := by
    intro b i hash hb
    cases b with
    | nil => rfl
    | cons d s =>
      by_cases hd : tolower d = 46
      · rw [generateHashLoop, if_pos hd]
      · exfalso
        simp only [hashKey, List.map_cons] at hb
        rw [List.takeWhile_cons_of_pos (by simpa using hd)] at hb
        simp at hb
  intro a
  induction a with
  | nil =>
    intro b i hash h
    rw [hnil b i hash h.symm]
    rfl
  | cons c r ih =>
    intro b i hash h
    by_cases hc : tolower c = 46
    · have ha : hashKey PATH_SEP (c :: r) = [] := by
        simp only [hashKey, List.map_cons]
        rw [List.takeWhile_cons_of_neg (by simpa using hc)]
        rfl
      rw [hnil (c :: r) i hash ha, hnil b i hash (by rw [← h, ha])]
    · have ha : hashKey PATH_SEP (c :: r) =
          (if (if tolower c = 92 then 47 else tolower c) = PATH_SEP then 47
            else (if tolower c = 92 then 47 else tolower c)) :: hashKey PATH_SEP r := by
        simp only [hashKey, List.map_cons]
        rw [List.takeWhile_cons_of_pos (by simpa using hc)]
        rfl
      cases b with
      | nil =>
        rw [ha] at h
        cases h
      | cons d s =>
        by_cases hd : tolower d = 46
        · have hb : hashKey PATH_SEP (d :: s) = [] := by
            simp only [hashKey, List.map_cons]
            rw [List.takeWhile_cons_of_neg (by simpa using hd)]
            rfl
          rw [ha, hb] at h
          cases h
        · have hb : hashKey PATH_SEP (d :: s) =
              (if (if tolower d = 92 then 47 else tolower d) = PATH_SEP then 47
                else (if tolower d = 92 then 47 else tolower d)) :: hashKey PATH_SEP s := by
            simp only [hashKey, List.map_cons]
            rw [List.takeWhile_cons_of_pos (by simpa using hd)]
            rfl
          rw [ha, hb] at h
          injection h with h1 h2
          rw [generateHashLoop, if_neg hc, generateHashLoop, if_neg hd]
          simp only []
          rw [h1]
          exact ih s _ _ h2

/-- Names that differ only in backslash against forward slash have the same key. -/
theorem hashKey_slash (PATH_SEP : Int) (a b : List Int)
    (h : List.Forall₂ (fun x y => x = y ∨ (x = 92 ∧ y = 47) ∨ (x = 47 ∧ y = 92)) a b) :
    hashKey PATH_SEP a = hashKey PATH_SEP b := by
  induction h with
  | nil => rfl
  | @cons x y r s hxy _ ih =>
    rw [hashKey_cons PATH_SEP x r, hashKey_cons PATH_SEP y s, ih]
    rcases hxy with e | ⟨e1, e2⟩ | ⟨e1, e2⟩
    · rw [e]
    · rw [e1, e2]
      rfl
    · rw [e1, e2]
      rfl

/-- The key of a name ends before the first '.': what follows a '.' is not read. -/
theorem hashKey_extension (PATH_SEP : Int) (a r1 r2 : List Int) :
    hashKey PATH_SEP (a ++ 46 :: r1) = hashKey PATH_SEP (a ++ 46 :: r2) ∧
    ((∀ c ∈ a, tolower c ≠ 46) → hashKey PATH_SEP (a ++ 46 :: r1) = hashKey PATH_SEP a) := by
  induction a with
  | nil =>
    constructor
    · rfl
    · intro _
      rfl
  | cons c t ih =>
    constructor
    · rw [List.cons_append, List.cons_append, hashKey_cons, hashKey_cons, ih.1]
    · intro hall
      rw [List.cons_append, hashKey_cons, hashKey_cons,
        ih.2 (fun d hd => hall d (List.mem_cons_of_mem _ hd))]

/-- C40: for a table size that is a power of two (a `size_t` of 64 bits),
`generateHash` returns a value below the size; it returns the same value for two
names that are equal but for the case of letters, for two names that are equal
but for backslash against forward slash, and for two names that are equal up to
the first '.', whatever follows it; a name without '.' has the hash of the name
with an extension added. So two names that a comparison without regard to case
finds equal have the same bucket. -/
theorem generateHash_bucket (PATH_SEP : Int) (size k : Nat) (hk : size = 2 ^ k) (h64 : k < 64) :
    (∀ fname, generateHash PATH_SEP fname size < size) ∧
    (∀ a b : List Int, a.map tolower = b.map tolower →
      generateHash PATH_SEP a size = generateHash PATH_SEP b size) ∧
    (∀ a b : List Int,
      List.Forall₂ (fun x y => x = y ∨ (x = 92 ∧ y = 47) ∨ (x = 47 ∧ y = 92)) a b →
      generateHash PATH_SEP a size = generateHash PATH_SEP b size) ∧
    (∀ a r1 r2 : List Int,
      generateHash PATH_SEP (a ++ 46 :: r1) size = generateHash PATH_SEP (a ++ 46 :: r2) size ∧
      ((46 : Int) ∉ a → generateHash PATH_SEP (a ++ 46 :: r1) size = generateHash PATH_SEP a size)) := by
  have hkey : ∀ a b : List Int, hashKey PATH_SEP a = hashKey PATH_SEP b →
      generateHash PATH_SEP a size = generateHash PATH_SEP b size := by
    intro a b h
    unfold generateHash
    rw [generateHashLoop_key PATH_SEP a b 0 0 h]
  refine ⟨?_, ?_, ?_, ?_⟩
  · intro fname
    have hpos : 1 ≤ size := by
      rw [hk]
      exact Nat.one_le_two_pow
    have hlt : size < 2 ^ 64 := by
      rw [hk]
      exact Nat.pow_lt_pow_right (by norm_num) h64
    have hmask : (size + 2 ^ 64 - 1) % 2 ^ 64 = size - 1 := by
      have : size + 2 ^ 64 - 1 = (size - 1) + 2 ^ 64 := by omega
      rw [this, Nat.add_mod_right, Nat.mod_eq_of_lt (by omega)]
    unfold generateHash
    simp only []
    rw [hmask]
    have := @Nat.and_le_right
      (generateHashLoop PATH_SEP fname 0 0 ^^^ generateHashLoop PATH_SEP fname 0 0 >>> 10 ^^^
        generateHashLoop PATH_SEP fname 0 0 >>> 20) (size - 1)
    omega
  · intro a b h
    apply hkey
    unfold hashKey
    rw [h]
  · intro a b h
    exact hkey a b (hashKey_slash PATH_SEP a b h)
  · intro a r1 r2
    obtain ⟨e1, e2⟩ := hashKey_extension PATH_SEP a r1 r2
    refine ⟨hkey _ _ e1, ?_⟩
    intro hdot
    apply hkey
    apply e2
    intro c hc hl
    have : c = 46 := by
      unfold tolower at hl
      split_ifs at hl <;> omega
    rw [this] at hc
    exact hdot hc

/-- C40 for a table of 1024 buckets: "textures/base/wall", the same name in
capital letters with the extension ".TGA", and the same name with backslashes
have the same hash, which is below 1024. -/
theorem generateHash_bucket_witness :
    generateHash 47 (charCodes "textures/base/wall") 1024 < 1024 ∧
    generateHash 47 (charCodes "TEXTURES/BASE/WALL.TGA") 1024 =
      generateHash 47 (charCodes "textures/base/wall") 1024 ∧
    generateHash 47 ((charCodes "textures/base/wall").map (fun c => if c = 47 then 92 else c)) 1024 =
      generateHash 47 (charCodes "textures/base/wall") 1024 :=
  have t := generateHash_bucket 47 1024 10 (by norm_num) (by norm_num)
  ⟨t.1 _,
    by
      have e1 := (t.2.2.2 (charCodes "TEXTURES/BASE/WALL") (charCodes "TGA") []).1
      have e2 := (t.2.2.2 (charCodes "TEXTURES/BASE/WALL") [] []).1
      have e3 := (t.2.2.2 (charCodes "TEXTURES/BASE/WALL") []
        []).2 (by with_unfolding_all decide)
      have e4 := t.2.1 (charCodes "TEXTURES/BASE/WALL") (charCodes "textures/base/wall")
        (by with_unfolding_all decide)
      have e5 : charCodes "TEXTURES/BASE/WALL.TGA" =
          charCodes "TEXTURES/BASE/WALL" ++ 46 :: charCodes "TGA" := by
        with_unfolding_all decide
      rw [e5, e1, e3, e4],
    t.2.2.1 _ _ (by with_unfolding_all decide)⟩

/-! ## Theorems: `WorldModel::batchSurfaces` -/

/-- The index sum of a material, one temp surface at a time. -/
theorem tempIndexSum_cons (ts : TempSurface) (rest : List TempSurface) (material : MaterialPtr) :
    tempIndexSum (ts :: rest) material =
      (if ts.material = some material then ts.nIndices else 0) + tempIndexSum rest material := by
  unfold tempIndexSum
  by_cases hm : ts.material = some material
  · rw [List.filter_cons_of_pos (by simpa using hm), if_pos hm, List.map_cons, List.sum_cons]
  · rw [List.filter_cons_of_neg (by simpa using hm), if_neg hm, Nat.zero_add]

/-- The index sum still to batch, one temp surface at a time. -/
theorem pendingIndexSum_cons (ts : TempSurface) (rest : List TempSurface) :
    pendingIndexSum (ts :: rest) =
      (if (ts.material.isSome && !ts.batched) = true then ts.nIndices else 0) +
        pendingIndexSum rest := by
  unfold pendingIndexSum
  by_cases hm : (ts.material.isSome && !ts.batched) = true
  · rw [List.filter_cons, if_pos hm, if_pos hm, List.map_cons, List.sum_cons]
  · rw [List.filter_cons, if_neg hm, if_neg hm, Nat.zero_add]

/-- Marking does not change the material or the index count of a temp surface. -/
theorem markBatched_unbatched (material : MaterialPtr) (temps : List TempSurface) :
    (markBatched material temps).map (fun ts => { ts with batched := false }) =
      temps.map (fun ts => { ts with batched := false }) := by
  unfold markBatched
  rw [List.map_map]
  apply List.map_congr_left
  intro ts _
  simp only [Function.comp]
  split_ifs <;> rfl

/-- The index sum of a material reads the material and the index count only. -/
theorem tempIndexSum_congr (material : MaterialPtr) :
    ∀ (a b : List TempSurface),
      a.map (fun ts => { ts with batched := false }) =
        b.map (fun ts => { ts with batched := false }) →
      tempIndexSum a material = tempIndexSum b material := by
  intro a
  induction a with
  | nil =>
    intro b h
    cases b with
    | nil => rfl
    | cons _ _ => cases h
  | cons x r ih =>
    intro b h
    cases b with
    | nil => cases h
    | cons y s =>
      simp only [List.map_cons, List.cons.injEq, TempSurface.mk.injEq] at h
      obtain ⟨⟨hm, _, _, _, hn, _⟩, hrest⟩ := h
      rw [tempIndexSum_cons, tempIndexSum_cons, ih s hrest, hm, hn]

/-- The element after a list `pre`, read at position `pre.length`. -/
theorem getD_append_length {α : Type} (pre : List α) (s d : α) :
    (pre ++ [s]).getD pre.length d = s := by
  induction pre with
  | nil => rfl
  | cons a r ih => simp [ih]

/-- The element after a list `pre`, written at position `pre.length`. -/
theorem set_append_length {α : Type} (pre : List α) (s x : α) :
    (pre ++ [s]).set pre.length x = pre ++ [x] := by
  induction pre with
  | nil => rfl
  | cons a r ih => simp [ih]

/-- The loop over the temp surfaces for one material, when the surface at
position `k` is the last batched surface: its index count and `currentIndex`
grow by the index sum of the material (modulo 2^32), and the temp surfaces of the
material are marked. -/
theorem batchMaterial_spec (m : WorldModel) (material : MaterialPtr)
    (pre : List WorldModel.Surface) :
    ∀ (temps : List TempSurface) (st : BatchState) (s : WorldModel.Surface),
      st.surfaces = pre ++ [s] → s.nIndices < 2 ^ 32 → st.currentIndex < 2 ^ 32 →
      (batchMaterial m material pre.length st temps).2 = markBatched material temps ∧
      (batchMaterial m material pre.length st temps).1.surfaces =
        pre ++ [{ s with nIndices := (s.nIndices + tempIndexSum temps material) % 2 ^ 32 }] ∧
      (batchMaterial m material pre.length st temps).1.currentIndex =
        (st.currentIndex + tempIndexSum temps material) % 2 ^ 32 := by
  intro temps
  induction temps with
  | nil =>
    intro st s hst hs hc
    refine ⟨rfl, ?_, ?_⟩
    · show st.surfaces = _
      rw [hst]
      have : (s.nIndices + tempIndexSum [] material) % 2 ^ 32 = s.nIndices := by
        show (s.nIndices + 0) % 2 ^ 32 = s.nIndices
        rw [Nat.add_zero, Nat.mod_eq_of_lt hs]
      rw [this]
    · show st.currentIndex = (st.currentIndex + 0) % 2 ^ 32
      rw [Nat.add_zero, Nat.mod_eq_of_lt hc]
  | cons ts rest ih =>
    intro st s hst hs hc
    rw [batchMaterial, tempIndexSum_cons]
    simp only []
    by_cases hm : ts.material = some material
    · have hstep : ∃ st1, batchTempSurface m material pre.length st ts =
            (st1, { ts with batched := true }) ∧
          st1.surfaces = pre ++ [{ s with nIndices := (s.nIndices + ts.nIndices) % 2 ^ 32 }] ∧
          st1.currentIndex = (st.currentIndex + ts.nIndices) % 2 ^ 32 := by
        refine ⟨BatchState.mk
          (pre ++ [{ s with nIndices := (s.nIndices + ts.nIndices) % 2 ^ 32 }])
          (st.vertices ++ (m.tempVertices_.drop ts.firstVertex).take ts.nVertices)
          (st.indices ++ ((m.tempIndices_.drop ts.firstIndex).take ts.nIndices).map
            (fun (x : Nat) => (st.currentVertex + x) % 2 ^ 16))
          ((st.currentVertex + ts.nVertices) % 2 ^ 32)
          ((st.currentIndex + ts.nIndices) % 2 ^ 32), ?_, rfl, rfl⟩
        simp only [batchTempSurface, if_neg (not_not.2 hm), hst, getD_append_length,
          set_append_length]
      obtain ⟨st1, hstep, hsurf, hcur⟩ := hstep
      rw [hstep]
      have hpos : 0 < 2 ^ 32 := by norm_num
      obtain ⟨h1, h2, h3⟩ := ih st1 { s with nIndices := (s.nIndices + ts.nIndices) % 2 ^ 32 }
        hsurf (Nat.mod_lt _ hpos) (by rw [hcur]; exact Nat.mod_lt _ hpos)
      refine ⟨?_, ?_, ?_⟩
      · show _ :: _ = markBatched material (ts :: rest)
        rw [h1]
        simp only [markBatched, List.map_cons, if_pos hm]
      · rw [h2, if_pos hm]
        have e : ((s.nIndices + ts.nIndices) % 2 ^ 32 + tempIndexSum rest material) % 2 ^ 32 =
            (s.nIndices + (ts.nIndices + tempIndexSum rest material)) % 2 ^ 32 := by omega
        simp only [e]
      · rw [h3, hcur, if_pos hm]
        omega
    · have hstep : batchTempSurface m material pre.length st ts = (st, ts) := by
        unfold batchTempSurface
        rw [if_pos hm]
      rw [hstep]
      obtain ⟨h1, h2, h3⟩ := ih st s hst hs hc
      refine ⟨?_, ?_, ?_⟩
      · show _ :: _ = markBatched material (ts :: rest)
        rw [h1]
        simp only [markBatched, List.map_cons, if_neg hm]
      · rw [h2, if_neg hm, Nat.zero_add]
      · rw [h3, if_neg hm, Nat.zero_add]

/-- The number of temp surfaces still to batch, one temp surface at a time. -/
theorem pendingCount_cons (ts : TempSurface) (rest : List TempSurface) :
    pendingCount (ts :: rest) =
      (if (ts.material.isSome && !ts.batched) = true then 1 else 0) + pendingCount rest := by
  unfold pendingCount
  by_cases hm : (ts.material.isSome && !ts.batched) = true
  · rw [List.filter_cons, if_pos hm, if_pos hm, List.length_cons, Nat.add_comm]
  · rw [List.filter_cons, if_neg hm, if_neg hm, Nat.zero_add]

/-- Marking the temp surfaces of a material, none of which is batched, takes
their indices out of the indices still to batch. -/
theorem pendingIndexSum_markBatched (material : MaterialPtr) :
    ∀ temps : List TempSurface,
      (∀ ts ∈ temps, ts.material = some material → ts.batched = false) →
      pendingIndexSum (markBatched material temps) + tempIndexSum temps material =
        pendingIndexSum temps := by
  intro temps
  induction temps with
  | nil =>
    intro _
    rfl
  | cons ts rest ih =>
    intro h
    have hrest := ih (fun t ht => h t (List.mem_cons_of_mem _ ht))
    have hmark : markBatched material (ts :: rest) =
        (if ts.material = some material then { ts with batched := true } else ts) ::
          markBatched material rest := rfl
    rw [hmark, pendingIndexSum_cons, pendingIndexSum_cons, tempIndexSum_cons]
    by_cases hm : ts.material = some material
    · have hb := h ts (List.mem_cons_self _ _) hm
      simp only [if_pos hm, hb, hm, Option.isSome_some, Bool.not_true, Bool.and_false,
        Bool.not_false, Bool.and_true, if_true, Bool.false_eq_true, if_false]
      omega
    · simp only [if_neg hm]
      omega

/-- Marking the temp surfaces of a material does not raise the number of temp
surfaces still to batch, and lowers it when one of them is not batched. -/
theorem pendingCount_markBatched (material : MaterialPtr) :
    ∀ temps : List TempSurface,
      pendingCount (markBatched material temps) ≤ pendingCount temps ∧
      ((∃ ts ∈ temps, ts.material = some material ∧ ts.batched = false) →
        pendingCount (markBatched material temps) < pendingCount temps) := by
  intro temps
  induction temps with
  | nil =>
    exact ⟨le_refl _, fun ⟨ts, hts, _⟩ => absurd hts (List.not_mem_nil ts)⟩
  | cons ts rest ih =>
    have hmark : markBatched material (ts :: rest) =
        (if ts.material = some material then { ts with batched := true } else ts) ::
          markBatched material rest := rfl
    rw [hmark, pendingCount_cons, pendingCount_cons]
    obtain ⟨ih1, ih2⟩ := ih
    by_cases hm : ts.material = some material
    · have hz : (if (({ ts with batched := true } : TempSurface).material.isSome &&
          !({ ts with batched := true } : TempSurface).batched) = true then 1 else 0) = 0 := by
        simp
      rw [if_pos hm, hz]
      constructor
      · split_ifs <;> omega
      · intro ⟨t, ht, htm, htb⟩
        rcases List.mem_cons.1 ht with e | hr
        · rw [e] at htb
          have hp : (ts.material.isSome && !ts.batched) = true := by
            rw [hm, htb]
            rfl
          rw [if_pos hp]
          omega
        · have := ih2 ⟨t, hr, htm, htb⟩
          split_ifs <;> omega
    · simp only [if_neg hm]
      constructor
      · omega
      · intro ⟨t, ht, htm, htb⟩
        rcases List.mem_cons.1 ht with e | hr
        · rw [e] at htm
          exact absurd htm hm
        · have := ih2 ⟨t, hr, htm, htb⟩
          omega

/-- The search for the first temp surface that has not been batched: it finds the
material of a temp surface that is not batched, or every temp surface with a
material is batched. -/
theorem batchSelect_cases (temps : List TempSurface) :
    ((temps.find? (fun ts => ts.material.isSome && !ts.batched)).bind (fun ts => ts.material) =
        none ∧
      ∀ ts ∈ temps, ts.material ≠ none → ts.batched = true) ∨
    ∃ material, (temps.find? (fun ts => ts.material.isSome && !ts.batched)).bind
        (fun ts => ts.material) = some material ∧
      ∃ ts ∈ temps, ts.material = some material ∧ ts.batched = false := by
  cases hf : temps.find? (fun ts => ts.material.isSome && !ts.batched) with
  | none =>
    left
    refine ⟨rfl, ?_⟩
    intro ts hts hmat
    have := List.find?_eq_none.1 hf ts hts
    cases hb : ts.batched with
    | true => rfl
    | false =>
      exfalso
      apply this
      rw [hb]
      cases hm : ts.material with
      | none => exact absurd hm hmat
      | some _ => rfl
  | some ts =>
    right
    have hp := List.find?_some hf
    have hmem := List.mem_of_find?_eq_some hf
    cases hm : ts.material with
    | none =>
      rw [hm] at hp
      cases hp
    | some material =>
      refine ⟨material, ?_, ts, hmem, hm, ?_⟩
      · simp only [Option.some_bind, hm]
      · cases hb : ts.batched with
        | false => rfl
        | true =>
          rw [hm, hb] at hp
          cases hp

/-- The ranges of a list of batched surfaces with one more surface behind. -/
theorem indexRangesFrom_append (s : WorldModel.Surface) :
    ∀ (l : List WorldModel.Surface) (start : Nat), indexRangesFrom l start →
      s.firstIndex = start + (l.map (fun x => x.nIndices)).sum →
      indexRangesFrom (l ++ [s]) start := by
  intro l
  induction l with
  | nil =>
    intro start _ h
    exact ⟨by simpa using h, trivial⟩
  | cons a r ih =>
    intro start h hs
    refine ⟨h.1, ih _ h.2 ?_⟩
    rw [hs, List.map_cons, List.sum_cons]
    omega

/-- One pass of the loop of `batchSurfaces` from a state in the frame, when the
search has found the material of a temp surface that is not batched: no batched
surface has the material yet, so one is created; the state after the pass is in
the frame again, and fewer temp surfaces are left to batch. -/
theorem batchFrame_step (m : WorldModel) (temps0 : List TempSurface) (total : Nat)
    (htotal : total < 2 ^ 32) (st : BatchState) (temps : List TempSurface)
    (h : batchFrame temps0 total st temps) (material : MaterialPtr)
    (hsel : ∃ ts ∈ temps, ts.material = some material ∧ ts.batched = false) :
    st.surfaces.findIdx? (fun s => decide (s.material = material)) = none ∧
    batchFrame temps0 total
      (batchMaterial m material st.surfaces.length
        { st with surfaces := st.surfaces ++
            [{ material := material, firstIndex := st.currentIndex, nIndices := 0 }] } temps).1
      (batchMaterial m material st.surfaces.length
        { st with surfaces := st.surfaces ++
            [{ material := material, firstIndex := st.currentIndex, nIndices := 0 }] } temps).2 ∧
    pendingCount (batchMaterial m material st.surfaces.length
        { st with surfaces := st.surfaces ++
            [{ material := material, firstIndex := st.currentIndex, nIndices := 0 }] } temps).2 <
      pendingCount temps := by
  obtain ⟨ha, hb, hc, hd, he, hf, hg⟩ := h
  obtain ⟨ts0, hts0, hmat0, hbat0⟩ := hsel
  have hnot : material ∉ st.surfaces.map (fun s => s.material) := by
    intro hmem
    have := (hb ts0 hts0 material hmat0).2 hmem
    rw [hbat0] at this
    cases this
  have hall : ∀ ts ∈ temps, ts.material = some material → ts.batched = false := by
    intro ts hts hm
    cases hbt : ts.batched with
    | false => rfl
    | true => exact absurd ((hb ts hts material hm).1 hbt) hnot
  have hsum := pendingIndexSum_markBatched material temps hall
  have hcur : st.currentIndex < 2 ^ 32 := by omega
  obtain ⟨r2, rs, rc⟩ := batchMaterial_spec m material st.surfaces temps
    { st with surfaces := st.surfaces ++
        [{ material := material, firstIndex := st.currentIndex, nIndices := 0 }] }
    { material := material, firstIndex := st.currentIndex, nIndices := 0 } rfl
    (by norm_num) hcur
  have hS : (0 + tempIndexSum temps material) % 2 ^ 32 = tempIndexSum temps material := by
    rw [Nat.zero_add]
    exact Nat.mod_eq_of_lt (by omega)
  have hC : (st.currentIndex + tempIndexSum temps material) % 2 ^ 32 =
      st.currentIndex + tempIndexSum temps material := Nat.mod_eq_of_lt (by omega)
  simp only [hS] at rs
  simp only [hC] at rc
  refine ⟨?_, ?_, ?_⟩
  · rw [List.findIdx?_eq_none_iff]
    intro s hs
    simp only [decide_eq_false_iff_not]
    intro e
    exact hnot (List.mem_map.2 ⟨s, hs, e⟩)
  · rw [r2]
    refine ⟨(markBatched_unbatched material temps).trans ha, ?_, ?_, ?_, ?_, ?_, ?_⟩
    · intro ts hts mat hm
      rw [rs, List.map_append, List.mem_append]
      simp only [List.map_cons, List.map_nil, List.mem_singleton]
      obtain ⟨t, ht, e⟩ := List.mem_map.1 hts
      by_cases htm : t.material = some material
      · rw [if_pos htm] at e
        rw [← e] at hm ⊢
        have : mat = material := by
          have h1 : some mat = some material := hm.symm.trans htm
          injection h1
        exact ⟨fun _ => Or.inr this, fun _ => rfl⟩
      · rw [if_neg htm] at e
        rw [← e] at hm ⊢
        have hne : mat ≠ material := by
          intro e2
          rw [e2] at hm
          exact htm hm
        constructor
        · intro hbt
          exact Or.inl ((hb t ht mat hm).1 hbt)
        · intro hor
          rcases hor with h1 | h1
          · exact (hb t ht mat hm).2 h1
          · exact absurd h1 hne
    · rw [rs, List.map_append, List.nodup_append]
      refine ⟨hc, List.nodup_singleton _, ?_⟩
      intro a ha1 ha2
      simp only [List.map_cons, List.map_nil, List.mem_singleton] at ha2
      rw [ha2] at ha1
      exact hnot ha1
    · intro s hs
      rw [rs, List.mem_append, List.mem_singleton] at hs
      rcases hs with hs | hs
      · exact hd s hs
      · rw [hs]
        refine ⟨?_, tempIndexSum_congr material temps temps0 ha⟩
        have hmem : ({ ts0 with batched := false } : TempSurface) ∈
            temps0.map (fun ts => { ts with batched := false }) := by
          rw [← ha]
          exact List.mem_map.2 ⟨ts0, hts0, rfl⟩
        obtain ⟨t0, ht0, e⟩ := List.mem_map.1 hmem
        refine ⟨t0, ht0, ?_⟩
        have : t0.material = ts0.material := by
          have := congrArg TempSurface.material e
          exact this
        rw [this, hmat0]
    · rw [rs]
      apply indexRangesFrom_append _ _ _ he
      show st.currentIndex = 0 + _
      rw [hf, Nat.zero_add]
    · rw [rc, rs, List.map_append, List.sum_append, hf]
      simp
    · rw [rc]
      omega
  · rw [r2]
    exact (pendingCount_markBatched material temps).2 ⟨ts0, hts0, hmat0, hbat0⟩

/-- The loop of `batchSurfaces`, started in the frame with more fuel than temp
surfaces to batch, ends; it ends in the frame, with every temp surface that has
a material batched. -/
theorem batchLoop_spec (m : WorldModel) (temps0 : List TempSurface) (total : Nat)
    (htotal : total < 2 ^ 32) :
    ∀ (fuel : Nat) (st : BatchState) (temps : List TempSurface),
      batchFrame temps0 total st temps → pendingCount temps < fuel →
      ∃ r, batchLoop m fuel st temps = some r ∧ batchFrame temps0 total r.1 r.2 ∧
        ∀ ts ∈ r.2, ts.material ≠ none → ts.batched = true := by
  intro fuel
  induction fuel with
  | zero =>
    intro st temps _ h
    exact absurd h (Nat.not_lt_zero _)
  | succ fuel ih =>
    intro st temps hframe hfuel
    rcases batchSelect_cases temps with ⟨hnone, hall⟩ | ⟨material, hsome, hsel⟩
    · refine ⟨(st, temps), ?_, hframe, hall⟩
      rw [batchLoop, hnone]
    · obtain ⟨hfind, hnext, hless⟩ := batchFrame_step m temps0 total htotal st temps hframe
        material hsel
      obtain ⟨r, hr, hrest⟩ := ih _ _ hnext (by omega)
      refine ⟨r, ?_, hrest⟩
      rw [batchLoop, hsome]
      simp only []
      rw [hfind]
      exact hr

/-- When every temp surface with a material is batched, no index is left to
batch. -/
theorem pendingIndexSum_eq_zero :
    ∀ temps : List TempSurface, (∀ ts ∈ temps, ts.material ≠ none → ts.batched = true) →
      pendingIndexSum temps = 0 := by
  intro temps
  induction temps with
  | nil =>
    intro _
    rfl
  | cons ts rest ih =>
    intro h
    rw [pendingIndexSum_cons, ih (fun t ht => h t (List.mem_cons_of_mem _ ht))]
    have hp : ¬ (ts.material.isSome && !ts.batched) = true := by
      intro hp
      cases hm : ts.material with
      | none =>
        rw [hm] at hp
        cases hp
      | some x =>
        have hb := h ts (List.mem_cons_self _ _) (by rw [hm]; exact Option.some_ne_none x)
        rw [hm, hb] at hp
        cases hp
    rw [if_neg hp]

/-- In a list of batched surfaces whose ranges follow one another, every surface
starts at the sum of the index counts of the surfaces before it. -/
theorem indexRangesFrom_getD :
    ∀ (l : List WorldModel.Surface) (start : Nat), indexRangesFrom l start →
      ∀ k, k < l.length →
        (l.getD k default).firstIndex = start + ((l.take k).map (fun s => s.nIndices)).sum := by
  intro l
  induction l with
  | nil =>
    intro start _ k hk
    exact absurd hk (Nat.not_lt_zero _)
  | cons a r ih =>
    intro start h k hk
    cases k with
    | zero =>
      show a.firstIndex = start + 0
      rw [h.1, Nat.add_zero]
    | succ k =>
      show (r.getD k default).firstIndex = start + (a.nIndices + ((r.take k).map _).sum)
      rw [ih _ h.2 k (Nat.lt_of_succ_lt_succ hk)]
      omega

/-- The loop over the temp surfaces for one material marks the temp surfaces of
the material as batched, whatever the batched surfaces are. -/
theorem batchMaterial_marks (m : WorldModel) (material : MaterialPtr) (k : Nat) :
    ∀ (temps : List TempSurface) (st : BatchState),
      (batchMaterial m material k st temps).2 = markBatched material temps := by
  intro temps
  induction temps with
  | nil =>
    intro st
    rfl
  | cons ts rest ih =>
    intro st
    rw [batchMaterial]
    simp only []
    rw [ih]
    by_cases hm : ts.material = some material
    · simp only [batchTempSurface, if_neg (not_not.2 hm), markBatched, List.map_cons, if_pos hm]
    · simp only [batchTempSurface, if_pos hm, markBatched, List.map_cons, if_neg hm]

/-- The loop of `batchSurfaces` ends for every set of temp surfaces and every
list of batched surfaces, given more fuel than temp surfaces to batch. -/
theorem batchLoop_terminates (m : WorldModel) :
    ∀ (fuel : Nat) (st : BatchState) (temps : List TempSurface), pendingCount temps < fuel →
      ∃ r, batchLoop m fuel st temps = some r := by
  intro fuel
  induction fuel with
  | zero =>
    intro st temps h
    exact absurd h (Nat.not_lt_zero _)
  | succ fuel ih =>
    intro st temps hfuel
    rcases batchSelect_cases temps with ⟨hnone, _⟩ | ⟨material, hsome, hsel⟩
    · exact ⟨(st, temps), by rw [batchLoop, hnone]⟩
    · have hless := (pendingCount_markBatched material temps).2 hsel
      rw [batchLoop, hsome]
      simp only []
      cases st.surfaces.findIdx? (fun s => decide (s.material = material)) with
      | some k =>
        simp only []
        apply ih
        rw [batchMaterial_marks]
        omega
      | none =>
        simp only []
        apply ih
        rw [batchMaterial_marks]
        omega

/-- The temp surfaces still to batch are among the temp surfaces. -/
theorem pendingCount_le (temps : List TempSurface) : pendingCount temps ≤ temps.length :=
  List.length_filter_le _ _

/-- C34: `WorldModel::batchSurfaces` returns for every set of temp surfaces (given
fuel for one pass per temp surface). On a sub-model as `addSurface` leaves it (no
batched surface yet, at least one vertex and one index, the temp surfaces with a
material not batched, their index counts adding up to the fewer than 2^32 indices
of the model): the batched surfaces have pairwise different materials, which
are exactly the materials of the temp surfaces; `nIndices` of a batched surface is
the sum of `nIndices` over the temp surfaces with its material; every batched
surface starts at the sum of the index counts of the batched surfaces before it,
so the ranges `[firstIndex, firstIndex + nIndices)` follow one another from 0
without gap or overlap; and they end at the number of indices of the model. -/
theorem batchSurfaces_one_surface_per_material (m : WorldModel) (fuel : Nat)
    (hfuel : m.tempSurfaces_.length < fuel) :
    (∃ m1, m.batchSurfaces fuel = some m1) ∧
    (m.surfaces_ = [] → m.tempVertices_ ≠ [] → m.tempIndices_ ≠ [] →
      (∀ ts ∈ m.tempSurfaces_, ts.material ≠ none → ts.batched = false) →
      pendingIndexSum m.tempSurfaces_ = m.tempIndices_.length →
      m.tempIndices_.length < 2 ^ 32 →
      ∃ m1, m.batchSurfaces fuel = some m1 ∧
        (m1.surfaces_.map (fun s => s.material)).Nodup ∧
        (∀ material, material ∈ m1.surfaces_.map (fun s => s.material) ↔
          ∃ ts ∈ m.tempSurfaces_, ts.material = some material) ∧
        (∀ s ∈ m1.surfaces_, s.nIndices = tempIndexSum m.tempSurfaces_ s.material) ∧
        (∀ k, k < m1.surfaces_.length →
          (m1.surfaces_.getD k default).firstIndex =
            ((m1.surfaces_.take k).map (fun s => s.nIndices)).sum) ∧
        (m1.surfaces_.map (fun s => s.nIndices)).sum = m.tempIndices_.length) := by
  have hpend : pendingCount m.tempSurfaces_ < fuel :=
    Nat.lt_of_le_of_lt (pendingCount_le _) hfuel
  constructor
  · unfold WorldModel.batchSurfaces
    by_cases he : m.tempVertices_.isEmpty ∨ m.tempIndices_.isEmpty
    · rw [if_pos he]
      exact ⟨m, rfl⟩
    · rw [if_neg he]
      obtain ⟨r, hr⟩ := batchLoop_terminates m fuel
        { surfaces := m.surfaces_, vertices := [], indices := [], currentVertex := 0,
          currentIndex := 0 } m.tempSurfaces_ hpend
      rw [hr]
      exact ⟨_, rfl⟩
  · intro hfresh hv hi hadded hcount htotal
    have he : ¬ (m.tempVertices_.isEmpty ∨ m.tempIndices_.isEmpty) := by
      intro h
      rcases h with h | h
      · exact hv (List.isEmpty_iff.1 h)
      · exact hi (List.isEmpty_iff.1 h)
    have hstart : batchFrame m.tempSurfaces_ m.tempIndices_.length
        { surfaces := m.surfaces_, vertices := [], indices := [], currentVertex := 0,
          currentIndex := 0 } m.tempSurfaces_ := by
      refine ⟨rfl, ?_, ?_, ?_, ?_, ?_, ?_⟩
      · intro ts hts material hm
        show ts.batched = true ↔ material ∈ m.surfaces_.map (fun s => s.material)
        rw [hfresh, hadded ts hts (by rw [hm]; exact Option.some_ne_none _)]
        simp
      · show (m.surfaces_.map (fun s => s.material)).Nodup
        rw [hfresh]
        exact List.nodup_nil
      · intro s hs
        have : s ∈ m.surfaces_ := hs
        rw [hfresh] at this
        exact absurd this (List.not_mem_nil s)
      · show indexRangesFrom m.surfaces_ 0
        rw [hfresh]
        trivial
      · show 0 = (m.surfaces_.map (fun s => s.nIndices)).sum
        rw [hfresh]
        rfl
      · show 0 + pendingIndexSum m.tempSurfaces_ = m.tempIndices_.length
        rw [Nat.zero_add, hcount]
    obtain ⟨r, hr, ⟨ha, hb, hc, hd, hrange, hf, hg⟩, hall⟩ :=
      batchLoop_spec m m.tempSurfaces_ m.tempIndices_.length htotal fuel _ _ hstart hpend
    have hm1 : ∃ m1, m.batchSurfaces fuel = some m1 ∧ m1.surfaces_ = r.1.surfaces := by
      unfold WorldModel.batchSurfaces
      rw [if_neg he, hr]
      exact ⟨_, rfl, rfl⟩
    obtain ⟨m1, hm1, hs1⟩ := hm1
    refine ⟨m1, hm1, ?_⟩
    rw [hs1]
    refine ⟨hc, ?_, fun s hs => (hd s hs).2, ?_, ?_⟩
    · intro material
      constructor
      · intro hmem
        obtain ⟨s, hs, e⟩ := List.mem_map.1 hmem
        obtain ⟨ts, hts, hm⟩ := (hd s hs).1
        exact ⟨ts, hts, by rw [hm, e]⟩
      · intro ⟨ts, hts, hm⟩
        have hmem : ({ ts with batched := false } : TempSurface) ∈
            r.2.map (fun ts => { ts with batched := false }) := by
          rw [ha]
          exact List.mem_map.2 ⟨ts, hts, rfl⟩
        obtain ⟨t, ht, e⟩ := List.mem_map.1 hmem
        have htm : t.material = some material := by
          have := congrArg TempSurface.material e
          exact this.trans hm
        exact (hb t ht material htm).1
          (hall t ht (by rw [htm]; exact Option.some_ne_none _))
    · intro k hk
      have := indexRangesFrom_getD r.1.surfaces 0 hrange k hk
      rw [Nat.zero_add] at this
      exact this
    · rw [← hf]
      have := pendingIndexSum_eq_zero r.2 hall
      omega

/-- Writing a temp surface over one without a material adds its indices to the
indices still to batch. -/
theorem pendingIndexSum_set (ts : TempSurface) :
    ∀ (temps : List TempSurface) (index : Nat), index < temps.length →
      (temps.getD index default).material = none →
      pendingIndexSum (temps.set index ts) =
        pendingIndexSum temps +
          (if (ts.material.isSome && !ts.batched) = true then ts.nIndices else 0) := by
  intro temps
  induction temps with
  | nil =>
    intro index h _
    exact absurd h (Nat.not_lt_zero _)
  | cons a r ih =>
    intro index h hfree
    cases index with
    | zero =>
      have ha : a.material = none := hfree
      show pendingIndexSum (ts :: r) = _
      rw [pendingIndexSum_cons, pendingIndexSum_cons, ha]
      simp only [Option.isSome_none, Bool.false_and, Bool.false_eq_true, if_false]
      omega
    | succ k =>
      show pendingIndexSum (a :: r.set k ts) = _
      rw [pendingIndexSum_cons, pendingIndexSum_cons, ih k (Nat.lt_of_succ_lt_succ h) hfree]
      omega

/-- A newly constructed sub-model has no temp surface with a material, no batched
surface and no index. -/
theorem WorldModel_create_frame (nSurfaces : Nat) :
    (WorldModel.create nSurfaces).surfaces_ = [] ∧
    (∀ ts ∈ (WorldModel.create nSurfaces).tempSurfaces_, ts.material = none) ∧
    pendingIndexSum (WorldModel.create nSurfaces).tempSurfaces_ =
      (WorldModel.create nSurfaces).tempIndices_.length := by
  have hnone : ∀ ts ∈ (WorldModel.create nSurfaces).tempSurfaces_, ts.material = none := by
    intro ts hts
    have := List.eq_of_mem_replicate hts
    rw [this]
  refine ⟨rfl, hnone, ?_⟩
  rw [pendingIndexSum_eq_zero _ (fun ts hts hm => absurd (hnone ts hts) hm)]
  rfl

/-- A call of `addSurface` for a surface that has not been added before keeps what
`batchSurfaces` relies on: the temp surfaces with a material are not batched, and
their index counts add up to the number of indices of the model. -/
theorem addSurface_frame (m : WorldModel) (index : Nat) (material : MaterialPtr)
    (vertices : List Vertex) (indices : List Nat) (lightmapIndex nLightmapTilesPerDimension : Int)
    (hindex : index < m.tempSurfaces_.length)
    (hfree : (m.tempSurfaces_.getD index default).material = none)
    (hn : indices.length < 2 ^ 32)
    (hadded : ∀ ts ∈ m.tempSurfaces_, ts.material ≠ none → ts.batched = false)
    (hcount : pendingIndexSum m.tempSurfaces_ = m.tempIndices_.length) :
    (m.addSurface index material vertices indices lightmapIndex
      nLightmapTilesPerDimension).surfaces_ = m.surfaces_ ∧
    (∀ ts ∈ (m.addSurface index material vertices indices lightmapIndex
        nLightmapTilesPerDimension).tempSurfaces_, ts.material ≠ none → ts.batched = false) ∧
    pendingIndexSum (m.addSurface index material vertices indices lightmapIndex
        nLightmapTilesPerDimension).tempSurfaces_ =
      (m.addSurface index material vertices indices lightmapIndex
        nLightmapTilesPerDimension).tempIndices_.length := by
  refine ⟨rfl, ?_, ?_⟩
  · intro ts hts hm
    have hts1 : ts ∈ m.tempSurfaces_.set index
        { material := some material, firstVertex := m.tempVertices_.length % 2 ^ 32,
          nVertices := vertices.length % 2 ^ 32, firstIndex := m.tempIndices_.length % 2 ^ 32,
          nIndices := indices.length % 2 ^ 32, batched := false } := hts
    rcases List.mem_or_eq_of_mem_set hts1 with h | h
    · exact hadded ts h hm
    · rw [h]
  · show pendingIndexSum (m.tempSurfaces_.set index
        { material := some material, firstVertex := m.tempVertices_.length % 2 ^ 32,
          nVertices := vertices.length % 2 ^ 32, firstIndex := m.tempIndices_.length % 2 ^ 32,
          nIndices := indices.length % 2 ^ 32, batched := false }) =
      (m.tempIndices_ ++ indices).length
    rw [pendingIndexSum_set _ _ _ hindex hfree, hcount, List.length_append]
    simp only [Option.isSome_some, Bool.not_false, Bool.and_self, if_true]
    rw [Nat.mod_eq_of_lt hn]

set_option maxRecDepth 100000 in
/-- C34 on the sub-model of four surfaces, three of them added: the temp surfaces
of material 7 (3 and 6 indices) are batched into one surface with the range
[0, 9) and the temp surface of material 9 into one with the range [9, 12), and
12 is the number of indices of the model. -/
theorem batchSurfaces_one_surface_per_material_witness :
    (WorldModel.batchSurfaces 5 exampleModel).map (fun m1 => m1.surfaces_) =
      some [{ material := 7, firstIndex := 0, nIndices := 9 },
        { material := 9, firstIndex := 9, nIndices := 3 }] ∧
    exampleModel.tempIndices_.length = 12 ∧
    ∃ m1, WorldModel.batchSurfaces 5 exampleModel = some m1 ∧
      (m1.surfaces_.map (fun s => s.material)).Nodup ∧
      (m1.surfaces_.map (fun s => s.nIndices)).sum = exampleModel.tempIndices_.length :=
  ⟨by with_unfolding_all decide, by with_unfolding_all decide,
    match (batchSurfaces_one_surface_per_material exampleModel 5 (by decide)).2
        (by with_unfolding_all decide) (by with_unfolding_all decide)
        (by with_unfolding_all decide) (by with_unfolding_all decide)
        (by with_unfolding_all decide) (by with_unfolding_all decide) with
    | ⟨m1, h, hnodup, _, _, _, hsum⟩ => ⟨m1, h, hnodup, hsum⟩⟩

/-! ## Theorems: polygons that cross a plane at most twice -/

/-- Leaving out the second entry of a list does not add a change. -/
theorem changes_cons_le (a x : Bool) (m : List Bool) :
    changes (a :: m) ≤ (if a = x then 0 else 1) + changes (x :: m) := by
  cases m with
  | nil => simp [changes]
  | cons y r =>
    simp only [changes]
    cases a <;> cases x <;> cases y <;> simp <;> omega

/-- Replacing the last entry of a list adds at most one change. -/
theorem changes_append_last (a x : Bool) (m : List Bool) :
    changes (m ++ [x]) ≤ changes (m ++ [a]) + (if a = x then 0 else 1) := by
  induction m with
  | nil => simp [changes]
  | cons y r ih =>
    cases r with
    | nil =>
      simp only [List.nil_append, List.cons_append, changes]
      cases a <;> cases x <;> cases y <;> simp
    | cons z r2 =>
      simp only [List.cons_append] at ih ⊢
      rw [changes, changes]
      omega

/-- Between the same two ends, a sublist has at most as many changes. -/
theorem changes_sublist {l1 l2 : List Bool} (h : l1.Sublist l2) (a z : Bool) :
    changes (a :: l1 ++ [z]) ≤ changes (a :: l2 ++ [z]) := by
  induction h generalizing a with
  | slnil => exact le_refl _
  | @cons l1 l2 x _ ih =>
    calc changes (a :: l1 ++ [z]) ≤ changes (a :: l2 ++ [z]) := ih a
      _ ≤ (if a = x then 0 else 1) + changes (x :: (l2 ++ [z])) := changes_cons_le a x _
      _ = changes (a :: (x :: l2) ++ [z]) := by simp [changes]
  | @cons₂ l1 l2 x _ ih =>
    simp only [List.cons_append, changes]
    exact Nat.add_le_add_left (ih x) _

/-- Going once round a sublist meets at most as many changes as going once round
the list, from any start. -/
theorem changes_cycle_sublist (h1 : Bool) (t1 : List Bool) (l2 : List Bool)
    (h : (h1 :: t1).Sublist l2) (a : Bool) :
    changes (h1 :: t1 ++ [h1]) ≤ changes (a :: l2 ++ [a]) := by
  induction l2 generalizing a with
  | nil => cases h
  | cons x l2 ih =>
    cases h with
    | cons _ h =>
      calc changes (h1 :: t1 ++ [h1]) ≤ changes (a :: l2 ++ [a]) := ih h a
        _ ≤ (if a = x then 0 else 1) + changes (x :: (l2 ++ [a])) := changes_cons_le a x _
        _ = changes (a :: (x :: l2) ++ [a]) := by simp [changes]
    | cons₂ _ h =>
      calc changes (h1 :: t1 ++ [h1]) ≤ changes (h1 :: l2 ++ [h1]) := changes_sublist h h1 h1
        _ ≤ changes (h1 :: l2 ++ [a]) + (if a = h1 then 0 else 1) :=
            changes_append_last a h1 (h1 :: l2)
        _ = changes (a :: (h1 :: l2) ++ [a]) := by
            simp only [List.cons_append]
            rw [changes]
            omega

/-- The changes along the edges of a closed list are the changes of the list
followed by the closing entry. -/
theorem countP_edgesFrom (f x : Bool) (rest : List Bool) :
    (edgesFrom f (x :: rest)).countP (fun e => e.1 != e.2) = changes (x :: rest ++ [f]) := by
  induction rest generalizing x with
  | nil =>
    simp only [edgesFrom, List.cons_append, List.nil_append, changes]
    cases x <;> cases f <;> rfl
  | cons y r ih =>
    rw [edgesFrom, List.countP_cons, ih]
    simp only [List.cons_append]
    rw [changes]
    cases x <;> cases y <;> simp <;> omega

/-- The changes once round a list, as changes of the list followed by its first
entry. -/
theorem cyclicChanges_cons (x : Bool) (rest : List Bool) :
    cyclicChanges (x :: rest) = changes (x :: rest ++ [x]) := by
  unfold cyclicChanges cyclicEdges
  exact countP_edgesFrom x x rest

/-- Going once round a sublist meets at most as many changes. -/
theorem cyclicChanges_sublist {l1 l2 : List Bool} (h : l1.Sublist l2) :
    cyclicChanges l1 ≤ cyclicChanges l2 := by
  cases l1 with
  | nil => exact Nat.zero_le _
  | cons h1 t1 =>
    cases l2 with
    | nil => cases h
    | cons h2 t2 =>
      rw [cyclicChanges_cons, cyclicChanges_cons]
      have := changes_cycle_sublist h1 t1 (h2 :: t2) h h2
      simpa [changes] using this

/-- The edges of a closed list with a first entry start at that entry. -/
theorem edgesFrom_cons_head {α : Type} (f y : α) (r : List α) :
    ∃ e2 tl, edgesFrom f (y :: r) = (y, e2) :: tl := by
  cases r with
  | nil => exact ⟨f, [], rfl⟩
  | cons z r2 => exact ⟨z, edgesFrom f (z :: r2), rfl⟩

/-- Putting on every edge an entry that agrees with one of its two ends adds no
change along a closed list. -/
theorem changes_refine {α : Type} (g : α → Bool) (c : α × α → Bool)
    (hc : ∀ e, c e = g e.1 ∨ c e = g e.2) (f x : α) (rest : List α) :
    changes ((edgesFrom f (x :: rest)).flatMap (fun e => [g e.1, c e]) ++ [g f]) ≤
      changes ((x :: rest).map g ++ [g f]) := by
  induction rest generalizing x with
  | nil =>
    have h := hc (x, f)
    simp only [edgesFrom, List.flatMap_cons, List.flatMap_nil, List.append_nil, List.map_cons,
      List.map_nil, List.cons_append, List.nil_append, changes]
    generalize c (x, f) = cv at h
    generalize g x = gx at h
    generalize g f = gf at h
    revert h
    cases cv <;> cases gx <;> cases gf <;> simp
  | cons y r ih =>
    have h := hc (x, y)
    have ih1 := ih y
    obtain ⟨e2, tl, he⟩ := edgesFrom_cons_head f y r
    rw [edgesFrom, List.flatMap_cons]
    rw [he, List.flatMap_cons] at ih1 ⊢
    simp only [List.map_cons, List.cons_append, List.nil_append] at ih1 ⊢
    conv_lhs => rw [changes, changes]
    conv_rhs => rw [changes]
    generalize c (x, y) = cv at h
    generalize g x = gx at h ⊢
    generalize g y = gy at h ih1 ⊢
    have k : (if gx = cv then 0 else 1) + (if cv = gy then 0 else 1) = (if gx = gy then 0 else 1) := by
      revert h
      cases cv <;> cases gx <;> cases gy <;> simp
    omega

/-- Putting on every edge of a polygon an entry that agrees with one of its two
ends adds no change going once round. -/
theorem cyclicChanges_refine {α : Type} (g : α → Bool) (c : α × α → Bool)
    (hc : ∀ e, c e = g e.1 ∨ c e = g e.2) (l : List α) :
    cyclicChanges ((cyclicEdges l).flatMap (fun e => [g e.1, c e])) ≤ cyclicChanges (l.map g) := by
  cases l with
  | nil => exact le_refl _
  | cons x rest =>
    have h := changes_refine g c hc x x rest
    obtain ⟨e2, tl, he⟩ := edgesFrom_cons_head x x rest
    rw [List.map_cons, cyclicChanges_cons,
      show cyclicEdges (x :: rest) = edgesFrom x (x :: rest) from rfl]
    rw [he, List.flatMap_cons] at h ⊢
    simp only [List.cons_append, List.nil_append] at h ⊢
    rw [cyclicChanges_cons]
    simpa using h

/-- The edges of the image of a list are the images of its edges. -/
theorem edgesFrom_map {α β : Type} (g : α → β) (f : α) (l : List α) :
    edgesFrom (g f) (l.map g) = (edgesFrom f l).map (Prod.map g g) := by
  induction l with
  | nil => rfl
  | cons x rest ih =>
    cases rest with
    | nil => rfl
    | cons y r =>
      simp only [List.map_cons] at ih ⊢
      rw [edgesFrom, edgesFrom, List.map_cons, ih]
      rfl

/-- The edges of the image of a polygon are the images of its edges. -/
theorem cyclicEdges_map {α β : Type} (g : α → β) (l : List α) :
    cyclicEdges (l.map g) = (cyclicEdges l).map (Prod.map g g) := by
  cases l with
  | nil => rfl
  | cons x rest => exact edgesFrom_map g x (x :: rest)

/-- The edges of a closed list, read position by position. -/
theorem edgesFrom_eq_range {α : Type} (d f : α) (l : List α) :
    edgesFrom f l = (List.range l.length).map
      (fun i => (l.getD i d, if i + 1 < l.length then l.getD (i + 1) d else f)) := by
  induction l with
  | nil => rfl
  | cons x rest ih =>
    cases rest with
    | nil => rfl
    | cons y r =>
      rw [edgesFrom, ih, List.length_cons (a := x), List.range_succ_eq_map, List.map_cons,
        List.map_map]
      congr 1
      · simp
      · apply List.map_congr_left
        intro i _
        simp only [Function.comp, List.getD_cons_succ, List.length_cons, Nat.add_lt_add_iff_right,
          Nat.succ_eq_add_one]

/-- The edges of a polygon, read position by position as the second loop of
`R_ChopPolyBehindPlane` does: point `i` with point `(i + 1) % numInPoints`. -/
theorem cyclicEdges_eq_range {α : Type} (d : α) (l : List α) :
    (List.range l.length).map (fun i => (l.getD i d, l.getD ((i + 1) % l.length) d)) =
      cyclicEdges l := by
  cases l with
  | nil => rfl
  | cons x rest =>
    rw [show cyclicEdges (x :: rest) = edgesFrom x (x :: rest) from rfl,
      edgesFrom_eq_range d x (x :: rest)]
    apply List.map_congr_left
    intro i hi
    have hi1 : i < (x :: rest).length := List.mem_range.1 hi
    by_cases h : i + 1 < (x :: rest).length
    · rw [if_pos h, Nat.mod_eq_of_lt h]
    · have e : i + 1 = (x :: rest).length := by omega
      rw [if_neg h, e, Nat.mod_self]
      rfl

/-- A concatenation of pieces is a sublist of the concatenation of larger pieces,
for pieces of any kind. -/
theorem flatMap_sublist_pieces {α β : Type} (f g : α → List β) (L : List α)
    (h : ∀ e ∈ L, (f e).Sublist (g e)) : (L.flatMap f).Sublist (L.flatMap g) := by
  induction L with
  | nil => exact List.Sublist.refl _
  | cons a rest ih =>
    rw [List.flatMap_cons, List.flatMap_cons]
    exact List.Sublist.append (h a (List.mem_cons_self _ _))
      (ih (fun i hi => h i (List.mem_cons_of_mem _ hi)))

/-- Concatenating the pieces of the images is concatenating the pieces that the
composed function gives. -/
theorem flatMap_map_pieces {α β γ : Type} (f : α → β) (g : β → List γ) (L : List α) :
    (L.map f).flatMap g = L.flatMap (fun i => g (f i)) := by
  induction L with
  | nil => rfl
  | cons a rest ih => rw [List.map_cons, List.flatMap_cons, List.flatMap_cons, ih]

/-- The image of a concatenation of pieces is the concatenation of the images. -/
theorem map_flatMap_pieces {α β γ : Type} (f : α → List β) (g : β → γ) (L : List α) :
    (L.flatMap f).map g = L.flatMap (fun e => (f e).map g) := by
  induction L with
  | nil => rfl
  | cons a rest ih => rw [List.flatMap_cons, List.flatMap_cons, List.map_append, ih]

/-- Seen from any plane, a split point is on the side of one of the two ends of
its edge. -/
theorem chopSplit_between (n : vec3) (t : ℚ) (p1 p2 : vec3) (r : ℚ) (h0 : 0 ≤ r) (h1 : r ≤ 1) :
    decide (vec3.dotProduct (chopSplit p1 p2 r) n > t) = decide (vec3.dotProduct p1 n > t) ∨
    decide (vec3.dotProduct (chopSplit p1 p2 r) n > t) = decide (vec3.dotProduct p2 n > t) := by
  have e : vec3.dotProduct (chopSplit p1 p2 r) n =
      (1 - r) * vec3.dotProduct p1 n + r * vec3.dotProduct p2 n := by
    simp only [chopSplit, vec3.dotProduct]
    ring
  have k1 := sub_nonneg.2 h1
  by_cases c : vec3.dotProduct (chopSplit p1 p2 r) n > t
  · by_cases a : vec3.dotProduct p1 n > t
    · exact Or.inl (by rw [decide_eq_true c, decide_eq_true a])
    · by_cases b : vec3.dotProduct p2 n > t
      · exact Or.inr (by rw [decide_eq_true c, decide_eq_true b])
      · exfalso
        have a1 := mul_le_mul_of_nonneg_left (not_lt.1 a) k1
        have b1 := mul_le_mul_of_nonneg_left (not_lt.1 b) h0
        rw [e] at c
        linarith
  · by_cases a : vec3.dotProduct p1 n > t
    · by_cases b : vec3.dotProduct p2 n > t
      · exfalso
        apply c
        rw [e]
        rcases le_total (vec3.dotProduct p1 n) (vec3.dotProduct p2 n) with hab | hab
        · have := mul_le_mul_of_nonneg_left hab h0
          linarith
        · have := mul_le_mul_of_nonneg_left hab k1
          linarith
      · exact Or.inr (by rw [decide_eq_false c, decide_eq_false b])
    · exact Or.inl (by rw [decide_eq_false c, decide_eq_false a])

/-- The description of the clipping for the edge that starts at position `i` is
the description for the pair of its two ends. -/
theorem chopEdgeSpec_eq_chopEdgePoints (inPoints : List vec3) (normal : vec3) (dist epsilon : ℚ)
    (i : Nat) :
    chopEdgeSpec inPoints normal dist epsilon i =
      chopEdgePoints normal dist epsilon
        (inPoints.getD i default, inPoints.getD ((i + 1) % inPoints.length) default) := by
  unfold chopEdgeSpec chopEdgePoints
  simp only []
  by_cases h : chopCrossing inPoints normal dist epsilon i
  · rw [if_pos h, if_pos (show chopEdgeCrosses normal dist epsilon
      (inPoints.getD i default, inPoints.getD ((i + 1) % inPoints.length) default) from h)]
  · rw [if_neg h, if_neg (show ¬ chopEdgeCrosses normal dist epsilon
      (inPoints.getD i default, inPoints.getD ((i + 1) % inPoints.length) default) from h)]

/-- With `epsilon` not negative, for a polygon of fewer than 62 points with at
least one point in front of the plane, `R_ChopPolyBehindPlane` writes, edge by
edge of the polygon, what the description gives. -/
theorem R_ChopPolyBehindPlane_eq_edges (inPoints : List vec3) (normal : vec3) (dist epsilon : ℚ)
    (hlen : inPoints.length < 62) (he : 0 ≤ epsilon)
    (hfront : ∃ p ∈ inPoints, vec3.dotProduct p normal - dist > epsilon) :
    R_ChopPolyBehindPlane inPoints normal dist epsilon =
      (cyclicEdges inPoints).flatMap (chopEdgePoints normal dist epsilon) := by
  rw [R_ChopPolyBehindPlane_eq_spec inPoints normal dist epsilon hlen he hfront,
    ← cyclicEdges_eq_range default inPoints, flatMap_map_pieces]
  exact flatMap_congr_mem _ _ _
    (fun i _ => chopEdgeSpec_eq_chopEdgePoints inPoints normal dist epsilon i)

/-- When no point is in front of the plane, or the polygon has 62 points or
more, `R_ChopPolyBehindPlane` writes nothing. -/
theorem R_ChopPolyBehindPlane_eq_nil (inPoints : List vec3) (normal : vec3) (dist epsilon : ℚ)
    (h : ¬ (inPoints.length < 62 ∧ ∃ p ∈ inPoints, vec3.dotProduct p normal - dist > epsilon)) :
    R_ChopPolyBehindPlane inPoints normal dist epsilon = [] := by
  unfold R_ChopPolyBehindPlane MAX_VERTS_ON_POLY
  by_cases hlen : inPoints.length < 62
  · have h0 : chopCount inPoints normal dist epsilon SIDE_FRONT = 0 := by
      rw [chopCount_front_eq_zero]
      intro p hp hc
      exact h ⟨hlen, p, hp, hc⟩
    rw [if_neg (by omega), if_pos h0]
  · rw [if_pos (by omega)]

/-- The number of edges that cross the plane, counted over the edges of the
polygon. -/
theorem chopCrossings_eq_countP (inPoints : List vec3) (normal : vec3) (dist epsilon : ℚ) :
    chopCrossings inPoints normal dist epsilon =
      (cyclicEdges inPoints).countP (fun e => decide (chopEdgeCrosses normal dist epsilon e)) := by
  unfold chopCrossings
  rw [← List.countP_eq_length_filter, ← cyclicEdges_eq_range default inPoints, List.countP_map]
  apply List.countP_congr
  intro i _
  simp only [Function.comp, decide_eq_true_eq]
  exact Iff.rfl

/-- With `epsilon` not negative, the edges that cross the plane are among the
places where the polygon passes between the two sides of the plane that lies
`epsilon` in front of it. -/
theorem chopCrossings_le_cyclicChanges (inPoints : List vec3) (normal : vec3) (dist epsilon : ℚ)
    (he : 0 ≤ epsilon) :
    chopCrossings inPoints normal dist epsilon ≤
      cyclicChanges (inPoints.map (fun p => decide (vec3.dotProduct p normal > epsilon + dist))) := by
  rw [chopCrossings_eq_countP]
  unfold cyclicChanges
  rw [cyclicEdges_map, List.countP_map]
  apply List.countP_mono_left
  intro e _ hc
  have hc1 : chopEdgeCrosses normal dist epsilon e := of_decide_eq_true hc
  simp only [Function.comp, Prod.map, bne_iff_ne, ne_eq]
  rcases hc1 with ⟨h1, h2⟩ | ⟨h1, h2⟩
  · rw [decide_eq_true (by linarith : vec3.dotProduct e.1 normal > epsilon + dist),
      decide_eq_false (by linarith : ¬ vec3.dotProduct e.2 normal > epsilon + dist)]
    decide
  · rw [decide_eq_false (by linarith : ¬ vec3.dotProduct e.1 normal > epsilon + dist),
      decide_eq_true (by linarith : vec3.dotProduct e.2 normal > epsilon + dist)]
    decide

/-- Three entries change at most twice going once round. -/
theorem cyclicChanges_three (a b c : Bool) : cyclicChanges [a, b, c] ≤ 2 := by
  cases a <;> cases b <;> cases c <;> decide

/-- A triangle passes between the two sides of any plane at most twice. -/
theorem crossesAtMostTwice_triangle (a b c : vec3) : crossesAtMostTwice [a, b, c] := by
  intro n t
  exact cyclicChanges_three _ _ _

/-- The polygon without points passes between the two sides of no plane. -/
theorem crossesAtMostTwice_nil : crossesAtMostTwice [] := by
  intro n t
  exact Nat.zero_le _

/-- With `epsilon` not negative, `R_ChopPolyBehindPlane` keeps the property that
the polygon passes between the two sides of any plane at most twice: every point
written is a point of the polygon or lies on one of its edges, in the order of
the polygon. -/
theorem R_ChopPolyBehindPlane_crossesAtMostTwice (inPoints : List vec3) (normal : vec3)
    (dist epsilon : ℚ) (he : 0 ≤ epsilon) (h : crossesAtMostTwice inPoints) :
    crossesAtMostTwice (R_ChopPolyBehindPlane inPoints normal dist epsilon) := by
  by_cases hc : inPoints.length < 62 ∧ ∃ p ∈ inPoints, vec3.dotProduct p normal - dist > epsilon
  · rw [R_ChopPolyBehindPlane_eq_edges inPoints normal dist epsilon hc.1 he hc.2]
    intro n t
    let g : vec3 → Bool := fun p => decide (vec3.dotProduct p n > t)
    let c : vec3 × vec3 → Bool := fun e =>
      if chopEdgeCrosses normal dist epsilon e then
        g (chopSplit e.1 e.2 ((vec3.dotProduct e.1 normal - dist) /
          ((vec3.dotProduct e.1 normal - dist) - (vec3.dotProduct e.2 normal - dist))))
      else g e.1
    have hcg : ∀ e, c e = g e.1 ∨ c e = g e.2 := by
      intro e
      by_cases hx : chopEdgeCrosses normal dist epsilon e
      · have hb := chop_ratio_bounds (vec3.dotProduct e.1 normal - dist)
          (vec3.dotProduct e.2 normal - dist) epsilon he hx
        have hne : (vec3.dotProduct e.1 normal - dist) - (vec3.dotProduct e.2 normal - dist) ≠ 0 := by
          rcases hx with ⟨h1, h2⟩ | ⟨h1, h2⟩
          · intro hz
            linarith
          · intro hz
            linarith
        rw [if_neg hne] at hb
        show (if chopEdgeCrosses normal dist epsilon e then _ else _) = _ ∨
          (if chopEdgeCrosses normal dist epsilon e then _ else _) = _
        rw [if_pos hx]
        exact chopSplit_between n t e.1 e.2 _ hb.1 hb.2
      · show (if chopEdgeCrosses normal dist epsilon e then _ else _) = _ ∨
          (if chopEdgeCrosses normal dist epsilon e then _ else _) = _
        rw [if_neg hx]
        exact Or.inl rfl
    have hsub : (((cyclicEdges inPoints).flatMap (chopEdgePoints normal dist epsilon)).map g).Sublist
        ((cyclicEdges inPoints).flatMap (fun e => [g e.1, c e])) := by
      rw [map_flatMap_pieces]
      apply flatMap_sublist_pieces
      intro e _
      show ((chopEdgePoints normal dist epsilon e).map g).Sublist
        [g e.1, if chopEdgeCrosses normal dist epsilon e then _ else g e.1]
      unfold chopEdgePoints
      simp only []
      by_cases hx : chopEdgeCrosses normal dist epsilon e
      · rw [if_pos hx, if_pos hx]
        by_cases hb : vec3.dotProduct e.1 normal - dist < -epsilon
        · rw [if_pos hb]
          exact List.Sublist.cons _ (List.Sublist.refl _)
        · rw [if_neg hb]
          exact List.Sublist.refl _
      · rw [if_neg hx, if_neg hx]
        by_cases hb : vec3.dotProduct e.1 normal - dist < -epsilon
        · rw [if_pos hb]
          exact List.nil_sublist _
        · rw [if_neg hb]
          exact List.Sublist.cons₂ _ (List.nil_sublist _)
    exact le_trans (cyclicChanges_sublist hsub)
      (le_trans (cyclicChanges_refine g c hcg inPoints) (h n t))
  · rw [R_ChopPolyBehindPlane_eq_nil inPoints normal dist epsilon hc]
    exact crossesAtMostTwice_nil

/-- With `epsilon` not negative, for a polygon that passes between the two sides
of any plane at most twice, `R_ChopPolyBehindPlane` keeps the bound of its
comment "Out must have space for two more vertexes than in": it writes at most
`numInPoints + 2` points, and fewer than `MAX_VERTS_ON_POLY`. -/
theorem R_ChopPolyBehindPlane_within_bound (inPoints : List vec3) (normal : vec3)
    (dist epsilon : ℚ) (he : 0 ≤ epsilon) (h : crossesAtMostTwice inPoints) :
    (R_ChopPolyBehindPlane inPoints normal dist epsilon).length ≤ inPoints.length + 2 ∧
    (R_ChopPolyBehindPlane inPoints normal dist epsilon).length < MAX_VERTS_ON_POLY := by
  by_cases hlen : inPoints.length < 62
  · have hb := (R_ChopPolyBehindPlane_length_bound inPoints normal dist epsilon hlen he).2.1
      (le_trans (chopCrossings_le_cyclicChanges inPoints normal dist epsilon he)
        (h normal (epsilon + dist)))
    refine ⟨hb, ?_⟩
    unfold MAX_VERTS_ON_POLY
    omega
  · rw [R_ChopPolyBehindPlane_eq_nil inPoints normal dist epsilon (fun hc => hlen hc.1)]
    exact ⟨Nat.zero_le _, by decide⟩

/-- The loop of `addMarkFragments` over the bounding planes keeps the property
that the polygon passes between the two sides of any plane at most twice. -/
theorem chopByPlanes_crossesAtMostTwice (planes : List Plane) (clipPoints : List vec3)
    (h : crossesAtMostTwice clipPoints) : crossesAtMostTwice (chopByPlanes planes clipPoints) := by
  induction planes generalizing clipPoints with
  | nil => exact h
  | cons plane rest ih =>
    simp only [chopByPlanes]
    by_cases h0 : (R_ChopPolyBehindPlane clipPoints plane.normal plane.distance (1 / 2)).length = 0
    · rw [if_pos h0]
      exact crossesAtMostTwice_nil
    · rw [if_neg h0]
      exact ih _ (R_ChopPolyBehindPlane_crossesAtMostTwice clipPoints plane.normal plane.distance
        (1 / 2) (by norm_num) h)

/-- Every polygon that `markFragments` hands to `addMarkFragments` is a
triangle. -/
theorem markTriangleList_length (env : Externals) (w : World) (found : List Surface × List Nat)
    (projection : vec3) (tri : List vec3) (ht : tri ∈ markTriangleList env w found projection) :
    tri.length = 3 := by
  unfold markTriangleList at ht
  obtain ⟨si, _, hs⟩ := List.mem_flatMap.1 ht
  unfold surfaceTriangles at hs
  split_ifs at hs with h1 h2 h3 h4
  · cases hp : (found.1.getD si default).patch with
    | none =>
      rw [hp] at hs
      cases hs
    | some patch =>
      rw [hp] at hs
      unfold patchTriangles at hs
      obtain ⟨m, _, hm⟩ := List.mem_flatMap.1 hs
      obtain ⟨n, _, hn⟩ := List.mem_flatMap.1 hm
      simp only [] at hn
      rcases List.mem_append.1 hn with hx | hx
      · split_ifs at hx
        · rw [List.mem_singleton.1 hx]
          rfl
        · cases hx
      · split_ifs at hx
        · rw [List.mem_singleton.1 hx]
          rfl
        · cases hx
  · cases hs
  · obtain ⟨t, _, e⟩ := List.mem_map.1 hs
    rw [← e]
    unfold indexedTriangle
    rw [List.length_map, List.length_range]
  · obtain ⟨t, _, e⟩ := List.mem_map.1 hs
    rw [← e]
    unfold indexedTriangle
    rw [List.length_map, List.length_range]
  · cases hs

/-- In `markFragments` every call of `R_ChopPolyBehindPlane` keeps the bound of
its comment: for a triangle `tri` handed to `addMarkFragments`, after the planes
`planes` have been applied, chopping by the next plane writes at most two points
more than the polygon has, and fewer than the `MAX_VERTS_ON_POLY` points that a
row of `clipPoints` holds. -/
theorem markFragments_chop_within_bound (env : Externals) (w : World)
    (found : List Surface × List Nat) (projection : vec3) (tri : List vec3)
    (ht : tri ∈ markTriangleList env w found projection) (planes : List Plane) (plane : Plane) :
    (R_ChopPolyBehindPlane (chopByPlanes planes tri) plane.normal plane.distance (1 / 2)).length ≤
      (chopByPlanes planes tri).length + 2 ∧
    (R_ChopPolyBehindPlane (chopByPlanes planes tri) plane.normal plane.distance (1 / 2)).length <
      MAX_VERTS_ON_POLY := by
  have h3 := markTriangleList_length env w found projection tri ht
  have hc : crossesAtMostTwice tri := by
    match tri, h3 with
    | [a, b, c], _ => exact crossesAtMostTwice_triangle a b c
  exact R_ChopPolyBehindPlane_within_bound _ _ _ _ (by norm_num)
    (chopByPlanes_crossesAtMostTwice planes tri hc)

set_option maxRecDepth 100000 in
/-- The zigzag polygon of 60 points passes between the two sides of the plane
z = 0 sixty times: all its sixty edges cross the plane. -/
theorem zigzag_crossings :
    chopCrossings (zigzag 60) { x := 0, y := 0, z := 1 } 0 (1 / 2) = 60 := by
  with_unfolding_all decide

end renderer
